import Mathlib

/-!
# Parquet schema resolution (`be/src/vec/exec/format/parquet/schema_desc.cpp`)

A shallow embedding of `FieldDescriptor::parse_from_thrift` and the functions it
calls, followed by theorems about the resolved field tree.

Conventions of the embedding:

* An optional thrift field that the source only reads behind its `__isset` flag is an
  `Option`.  `repetition_type` and `num_children` are also read without looking at the
  flag; an unset thrift field holds its default (the enumerator `0`, the integer `0`),
  which is what `repetition_type_raw` and `num_children_raw` return.
* The member functions of `FieldDescriptor` mutate `this` and the node they are handed
  by pointer; here both are passed in and returned, together with the outcome, on
  every path (also the failing ones).
* `_physical_fields` holds pointers to leaves of the tree; here it holds the leaf as
  it stands when `parse_physical_field` is done with it.
* The recursion `parse_node_field → parse_group_field → … → parse_node_field` is
  tied through a parameter `rec` of the inner functions and a fuel argument of
  `parse_node_field`; `parse_from_thrift` supplies `t_schemas.size()` as fuel, which
  is never exhausted (`parse_node_field_fuel_enough`, `parse_from_thrift_fuel_enough`).
-/

namespace Parquet

/-! ## Thrift input (`tparquet`) -/

/-- The enum `tparquet::Type`; `UNRECOGNIZED` stands for any other integer value. -/
inductive ParquetType
  | BOOLEAN | INT32 | INT64 | INT96 | FLOAT | DOUBLE | BYTE_ARRAY | FIXED_LEN_BYTE_ARRAY
  | UNRECOGNIZED
  deriving DecidableEq, Inhabited

/-- The enum `tparquet::FieldRepetitionType`. -/
inductive FieldRepetitionType
  | REQUIRED | OPTIONAL | REPEATED
  deriving DecidableEq, Inhabited

/-- The enum `tparquet::ConvertedType`. -/
inductive ConvertedType
  | UTF8 | MAP | MAP_KEY_VALUE | LIST | ENUM | DECIMAL | DATE | TIME_MILLIS | TIME_MICROS
  | TIMESTAMP_MILLIS | TIMESTAMP_MICROS | UINT_8 | UINT_16 | UINT_32 | UINT_64
  | INT_8 | INT_16 | INT_32 | INT_64 | JSON | BSON | INTERVAL
  deriving DecidableEq, Inhabited

/-- The struct `tparquet::DecimalType`. -/
structure DecimalType where
  scale : Int
  precision : Int
  deriving DecidableEq, Inhabited

/-- The struct `tparquet::IntType`. -/
structure IntType where
  bitWidth : Int
  isSigned : Bool
  deriving DecidableEq, Inhabited

/-- The union `tparquet::TimeUnit`: one `__isset` flag per member. -/
structure TimeUnit where
  MILLIS : Bool
  MICROS : Bool
  NANOS : Bool
  deriving DecidableEq, Inhabited

/-- The struct `tparquet::TimestampType`. -/
structure TimestampType where
  isAdjustedToUTC : Bool
  unit : TimeUnit
  deriving DecidableEq, Inhabited

/-- The struct `tparquet::TimeType`. -/
structure TimeType where
  isAdjustedToUTC : Bool
  unit : TimeUnit
  deriving DecidableEq, Inhabited

/-- The union `tparquet::LogicalType`.  A member without payload is its `__isset`
flag; a member with payload is `some` exactly when its flag is set. -/
structure LogicalType where
  STRING : Bool
  MAP : Bool
  LIST : Bool
  ENUM : Bool
  DECIMAL : Option DecimalType
  DATE : Bool
  TIME : Option TimeType
  TIMESTAMP : Option TimestampType
  INTEGER : Option IntType
  UNKNOWN : Bool
  JSON : Bool
  BSON : Bool
  UUID : Bool
  deriving DecidableEq, Inhabited

/-- A logical type with no member set. -/
def LogicalType.unset : LogicalType :=
  { STRING := false, MAP := false, LIST := false, ENUM := false, DECIMAL := none,
    DATE := false, TIME := none, TIMESTAMP := none, INTEGER := none, UNKNOWN := false,
    JSON := false, BSON := false, UUID := false }

/-- The struct `tparquet::SchemaElement`, restricted to the fields `schema_desc.cpp`
reads.  `type`, `scale` and `precision` are only ever read without their flag, so they
hold the raw value. -/
structure SchemaElement where
  type : ParquetType
  repetition_type : Option FieldRepetitionType
  name : String
  num_children : Option Int
  converted_type : Option ConvertedType
  scale : Int
  precision : Int
  field_id : Option Int
  logicalType : Option LogicalType
  deriving DecidableEq, Inhabited

/-- A default-constructed `tparquet::SchemaElement`. -/
def SchemaElement.default : SchemaElement :=
  { type := ParquetType.BOOLEAN, repetition_type := none, name := "", num_children := none,
    converted_type := none, scale := 0, precision := 0, field_id := none,
    logicalType := none }

/-- Reading `schema.repetition_type` without its flag. -/
def SchemaElement.repetition_type_raw (schema : SchemaElement) : FieldRepetitionType :=
  schema.repetition_type.getD FieldRepetitionType.REQUIRED

/-- Reading `schema.num_children` without its flag. -/
def SchemaElement.num_children_raw (schema : SchemaElement) : Int :=
  schema.num_children.getD 0

/-! ## Node classifier -/

/-- Source function `is_group_node`. -/
def is_group_node (schema : SchemaElement) : Bool :=
  decide (schema.num_children_raw > 0)

/-- Source function `is_list_node`. -/
def is_list_node (schema : SchemaElement) : Bool :=
  schema.converted_type == some ConvertedType.LIST

/-- Source function `is_map_node`. -/
def is_map_node (schema : SchemaElement) : Bool :=
  schema.converted_type == some ConvertedType.MAP ||
    schema.converted_type == some ConvertedType.MAP_KEY_VALUE

/-- Source function `is_repeated_node`. -/
def is_repeated_node (schema : SchemaElement) : Bool :=
  schema.repetition_type == some FieldRepetitionType.REPEATED

/-- Source function `is_required_node`. -/
def is_required_node (schema : SchemaElement) : Bool :=
  schema.repetition_type == some FieldRepetitionType.REQUIRED

/-- Source function `is_optional_node`. -/
def is_optional_node (schema : SchemaElement) : Bool :=
  schema.repetition_type == some FieldRepetitionType.OPTIONAL

/-- Source function `num_children_node`. -/
def num_children_node (schema : SchemaElement) : Int :=
  match schema.num_children with
  | some n => n
  | none => 0

/-- Source function `is_struct_list_node`: the name is `array` or ends with `_tuple`. -/
def is_struct_list_node (schema : SchemaElement) : Bool :=
  schema.name == "array" || "_tuple".data.isSuffixOf schema.name.data

/-! ## Engine types -/

/-- The values of `PrimitiveType` that occur in `schema_desc.cpp`. -/
inductive PrimitiveType
  | INVALID_TYPE | TYPE_BOOLEAN | TYPE_TINYINT | TYPE_SMALLINT | TYPE_INT | TYPE_BIGINT
  | TYPE_LARGEINT | TYPE_FLOAT | TYPE_DOUBLE | TYPE_STRING | TYPE_DATEV2
  | TYPE_DATETIMEV2 | TYPE_TIMEV2 | TYPE_DECIMAL128I | TYPE_ARRAY | TYPE_MAP | TYPE_STRUCT
  deriving DecidableEq, Inhabited

/-- Modelled from the spec: the engine's semantic types (`vec/data_types`, not among the
sources).  `Nothing` is `DataTypeNothing`, `Scalar t p s` a non-nullable scalar type
made by `DataTypeFactory` with precision `p` and scale `s`, `Nullable` is
`DataTypeNullable`, and `Array`, `Map`, `Struct` are `DataTypeArray`, `DataTypeMap`,
`DataTypeStruct` (element types and element names). -/
inductive DataType
  | Nothing
  | Scalar (t : PrimitiveType) (precision : Int) (scale : Int)
  | Nullable (nested : DataType)
  | Array (nested : DataType)
  | Map (key : DataType) (value : DataType)
  | Struct (elems : List DataType) (names : List String)
  deriving Inhabited

/-- Modelled from the spec: `make_nullable` wraps a type that is not yet nullable. -/
def make_nullable : DataType → DataType
  | DataType.Nullable nested => DataType.Nullable nested
  | t => DataType.Nullable t

/-- Modelled from the spec: `remove_nullable` strips a nullable wrapper. -/
def remove_nullable : DataType → DataType
  | DataType.Nullable nested => nested
  | t => t

/-- Modelled from the spec: `IDataType::get_primitive_type`; a nullable type reports
its nested type. -/
def DataType.get_primitive_type : DataType → PrimitiveType
  | DataType.Nothing => PrimitiveType.INVALID_TYPE
  | DataType.Scalar t _ _ => t
  | DataType.Nullable nested => nested.get_primitive_type
  | DataType.Array _ => PrimitiveType.TYPE_ARRAY
  | DataType.Map _ _ => PrimitiveType.TYPE_MAP
  | DataType.Struct _ _ => PrimitiveType.TYPE_STRUCT

/-- Modelled from the spec: `DataTypeStruct::get_element` after `assert_cast`; `none`
when the type is not a struct or has no such element. -/
def DataType.get_element : DataType → Nat → Option DataType
  | DataType.Struct elems _, i => elems[i]?
  | _, _ => none

/-- Modelled from the spec: `DataTypeFactory::create_data_type(type, nullable,
precision, scale)`, which carries precision and scale verbatim (both default to `0`
in the source when the caller leaves them out). -/
def create_data_type (t : PrimitiveType) (nullable : Bool) (precision : Int)
    (scale : Int) : DataType :=
  if nullable then make_nullable (DataType.Scalar t precision scale)
  else DataType.Scalar t precision scale

/-! ## Type mapper -/

/-- Source function `FieldDescriptor::convert_to_doris_type(tparquet::LogicalType, bool)`; `error` is
the exception it throws. -/
def convert_to_doris_type_logical (logicalType : LogicalType) (nullable : Bool) :
    Except String (DataType × Bool) :=
  if logicalType.STRING then
    .ok (create_data_type PrimitiveType.TYPE_STRING nullable 0 0, false)
  else match logicalType.DECIMAL with
  | some d =>
    .ok (create_data_type PrimitiveType.TYPE_DECIMAL128I nullable d.precision d.scale, false)
  | none =>
  if logicalType.DATE then
    .ok (create_data_type PrimitiveType.TYPE_DATEV2 nullable 0 0, false)
  else match logicalType.INTEGER with
  | some i =>
    if i.isSigned then
      if i.bitWidth ≤ 8 then .ok (create_data_type PrimitiveType.TYPE_TINYINT nullable 0 0, false)
      else if i.bitWidth ≤ 16 then
        .ok (create_data_type PrimitiveType.TYPE_SMALLINT nullable 0 0, false)
      else if i.bitWidth ≤ 32 then .ok (create_data_type PrimitiveType.TYPE_INT nullable 0 0, false)
      else .ok (create_data_type PrimitiveType.TYPE_BIGINT nullable 0 0, false)
    else
      if i.bitWidth ≤ 8 then .ok (create_data_type PrimitiveType.TYPE_SMALLINT nullable 0 0, true)
      else if i.bitWidth ≤ 16 then .ok (create_data_type PrimitiveType.TYPE_INT nullable 0 0, true)
      else if i.bitWidth ≤ 32 then
        .ok (create_data_type PrimitiveType.TYPE_BIGINT nullable 0 0, true)
      else .ok (create_data_type PrimitiveType.TYPE_LARGEINT nullable 0 0, true)
  | none =>
  match logicalType.TIME with
  | some _ => .ok (create_data_type PrimitiveType.TYPE_TIMEV2 nullable 0 0, false)
  | none =>
  match logicalType.TIMESTAMP with
  | some ts =>
    .ok (create_data_type PrimitiveType.TYPE_DATETIMEV2 nullable 0
      (if ts.unit.MILLIS then 3 else 6), false)
  | none => .error "Not supported parquet logicalType"

/-- Source function `FieldDescriptor::convert_to_doris_type(const tparquet::SchemaElement&, bool)`, the
switch over `physical_schema.converted_type`; `error` is the exception it throws. -/
def convert_to_doris_type_converted (converted_type : ConvertedType)
    (physical_schema : SchemaElement) (nullable : Bool) : Except String (DataType × Bool) :=
  match converted_type with
  | ConvertedType.UTF8 => .ok (create_data_type PrimitiveType.TYPE_STRING nullable 0 0, false)
  | ConvertedType.DECIMAL =>
    .ok (create_data_type PrimitiveType.TYPE_DECIMAL128I nullable physical_schema.precision
      physical_schema.scale, false)
  | ConvertedType.DATE => .ok (create_data_type PrimitiveType.TYPE_DATEV2 nullable 0 0, false)
  | ConvertedType.TIME_MILLIS => .ok (create_data_type PrimitiveType.TYPE_TIMEV2 nullable 0 0, false)
  | ConvertedType.TIME_MICROS => .ok (create_data_type PrimitiveType.TYPE_TIMEV2 nullable 0 0, false)
  | ConvertedType.TIMESTAMP_MILLIS =>
    .ok (create_data_type PrimitiveType.TYPE_DATETIMEV2 nullable 0 3, false)
  | ConvertedType.TIMESTAMP_MICROS =>
    .ok (create_data_type PrimitiveType.TYPE_DATETIMEV2 nullable 0 6, false)
  | ConvertedType.INT_8 => .ok (create_data_type PrimitiveType.TYPE_TINYINT nullable 0 0, false)
  | ConvertedType.UINT_8 => .ok (create_data_type PrimitiveType.TYPE_SMALLINT nullable 0 0, true)
  | ConvertedType.INT_16 => .ok (create_data_type PrimitiveType.TYPE_SMALLINT nullable 0 0, false)
  | ConvertedType.UINT_16 => .ok (create_data_type PrimitiveType.TYPE_INT nullable 0 0, true)
  | ConvertedType.INT_32 => .ok (create_data_type PrimitiveType.TYPE_INT nullable 0 0, false)
  | ConvertedType.UINT_32 => .ok (create_data_type PrimitiveType.TYPE_BIGINT nullable 0 0, true)
  | ConvertedType.INT_64 => .ok (create_data_type PrimitiveType.TYPE_BIGINT nullable 0 0, false)
  | ConvertedType.UINT_64 => .ok (create_data_type PrimitiveType.TYPE_LARGEINT nullable 0 0, true)
  | _ => .error "Not supported parquet ConvertedType"

/-- The physical-type switch at the end of `FieldDescriptor::get_doris_type`. -/
def physical_doris_type (type : ParquetType) (nullable : Bool) : Except String DataType :=
  match type with
  | ParquetType.BOOLEAN => .ok (create_data_type PrimitiveType.TYPE_BOOLEAN nullable 0 0)
  | ParquetType.INT32 => .ok (create_data_type PrimitiveType.TYPE_INT nullable 0 0)
  | ParquetType.INT64 => .ok (create_data_type PrimitiveType.TYPE_BIGINT nullable 0 0)
  | ParquetType.INT96 => .ok (create_data_type PrimitiveType.TYPE_DATETIMEV2 nullable 0 6)
  | ParquetType.FLOAT => .ok (create_data_type PrimitiveType.TYPE_FLOAT nullable 0 0)
  | ParquetType.DOUBLE => .ok (create_data_type PrimitiveType.TYPE_DOUBLE nullable 0 0)
  | ParquetType.BYTE_ARRAY => .ok (create_data_type PrimitiveType.TYPE_STRING nullable 0 0)
  | ParquetType.FIXED_LEN_BYTE_ARRAY => .ok (create_data_type PrimitiveType.TYPE_STRING nullable 0 0)
  | ParquetType.UNRECOGNIZED => .error "Not supported parquet logicalType"

/-- Source function `FieldDescriptor::get_doris_type`.  An exception of the two converters is caught
and leaves `ans` at `(DataTypeNothing, false)`; `error` is the exception of the final
switch, which nothing catches. -/
def get_doris_type (physical_schema : SchemaElement) (nullable : Bool) :
    Except String (DataType × Bool) :=
  let ans : DataType × Bool :=
    match physical_schema.logicalType with
    | some logicalType =>
      match convert_to_doris_type_logical logicalType nullable with
      | .ok r => r
      | .error _ => (DataType.Nothing, false)
    | none =>
      match physical_schema.converted_type with
      | some converted_type =>
        match convert_to_doris_type_converted converted_type physical_schema nullable with
        | .ok r => r
        | .error _ => (DataType.Nothing, false)
      | none => (DataType.Nothing, false)
  if ans.1.get_primitive_type = PrimitiveType.INVALID_TYPE then
    match physical_doris_type physical_schema.type nullable with
    | .ok t => .ok (t, ans.2)
    | .error what => .error what
  else .ok ans

/-! ## Field schema tree and descriptor -/

/-- Conversion of an integer to `int16_t`: its value modulo `2^16`, in two-complement
form.  It is what `level++` leaves in an `int16_t` level: one more, and `-32768` after
`32767`. -/
def to_int16 (x : Int) : Int :=
  (x + 32768) % 65536 - 32768

/-- Modelled from the spec: the record `FieldSchema` (declared in `schema_desc.h`, not
among the sources), with the fields that `schema_desc.cpp` reads and writes.  The three
levels are `int16_t` in the source (`set_child_node_level` takes an `int16_t`): they
hold the value of the counter, and every increment goes through `to_int16`.
`physical_type` is `none` until `parse_physical_field` sets it. -/
structure FieldSchema where
  name : String
  parquet_schema : SchemaElement
  data_type : DataType
  physical_type : Option ParquetType
  physical_column_index : Int
  definition_level : Int
  repetition_level : Int
  repeated_parent_def_level : Int
  children : List FieldSchema
  is_type_compatibility : Bool
  field_id : Int

/-- A default-constructed `FieldSchema`: levels `0`, no children, type
`DataTypeNothing`, `physical_column_index` and `field_id` at `-1`. -/
def FieldSchema.default : FieldSchema :=
  { name := "", parquet_schema := SchemaElement.default, data_type := DataType.Nothing,
    physical_type := none, physical_column_index := -1, definition_level := 0,
    repetition_level := 0, repeated_parent_def_level := 0, children := [],
    is_type_compatibility := false, field_id := -1 }

instance : Inhabited FieldSchema := ⟨FieldSchema.default⟩

/-- Modelled from the spec: the members of `FieldDescriptor` (declared in
`schema_desc.h`).  `_name_to_field` maps a name to the position in `_fields` of the
field it points to. -/
structure FieldDescriptor where
  _fields : List FieldSchema
  _name_to_field : List (String × Nat)
  _physical_fields : List FieldSchema
  _next_schema_pos : Nat

/-- A descriptor on which nothing has been parsed yet. -/
def FieldDescriptor.empty : FieldDescriptor :=
  { _fields := [], _name_to_field := [], _physical_fields := [], _next_schema_pos := 0 }

/-- How a call ends: `OK` and `InvalidArgument` are the `Status` values the source
returns; `Exception` is a C++ exception leaving the function; `OutOfBounds` is a read
of `t_schemas` past its end; `OutOfFuel` is the embedding running out of fuel. -/
inductive Outcome
  | OK
  | InvalidArgument (msg : String)
  | Exception (what : String)
  | OutOfBounds
  | OutOfFuel
  deriving DecidableEq, Inhabited

/-- What a parsing function leaves behind: outcome, the node it was handed, `this`. -/
abbrev ParseResult := Outcome × FieldSchema × FieldDescriptor

/-- The type of `parse_node_field` once `t_schemas` is fixed: `curr_pos`, `node_field`
and `this`. -/
abbrev NodeParser := Nat → FieldSchema → FieldDescriptor → ParseResult

/-- Library function `std::vector<FieldSchema>::resize` to a non-negative size, for a
request that the allocator grants.  A request for more storage than there is ends in
`std::bad_alloc` instead; what is proved of a call that resizes is proved of the runs in
which the storage was granted. -/
def resize (children : List FieldSchema) (n : Nat) : List FieldSchema :=
  children.take n ++ List.replicate (n - children.length) FieldSchema.default

/-- Source function `set_child_node_level`. -/
def set_child_node_level (parent : FieldSchema) (repeated_parent_def_level : Int) :
    FieldSchema :=
  { parent with children := parent.children.map fun child =>
      { child with repetition_level := parent.repetition_level,
                   definition_level := parent.definition_level,
                   repeated_parent_def_level := repeated_parent_def_level } }

/-- The statements with which a repeated level is opened, shared by `parse_list_field`
and `parse_map_field` (where `is_optional` tells whether the outer node is OPTIONAL)
and by the two REPEATED branches of `parse_node_field` and `parse_group_field` (where
it is `false`):
`if (is_optional) definition_level++; repetition_level++; definition_level++;
children.resize(1); set_child_node_level(field, field->definition_level)`. -/
def open_repeated_level (is_optional : Bool) (field : FieldSchema) : FieldSchema :=
  let f1 : FieldSchema :=
    if is_optional then
      { field with definition_level := to_int16 (field.definition_level + 1) }
    else field
  let f2 : FieldSchema :=
    { f1 with
      repetition_level := to_int16 (f1.repetition_level + 1)
      definition_level := to_int16 (f1.definition_level + 1) }
  let f3 : FieldSchema := { f2 with children := resize f2.children 1 }
  set_child_node_level f3 f3.definition_level

/-! ## Structural parser -/

/-- Source function `FieldDescriptor::parse_physical_field`.  The source pushes the
pointer first and fills the leaf afterwards; `get_doris_type` can throw, in which case
the leaf stays as filled so far.  The entry of `_physical_fields` is the leaf as it is
when the call returns: it is what the pointer of the source points at for as long as
nothing writes to the leaf again, which is the case until the end of a resolve on a
descriptor that had no fields (a leaf is given its levels before it is parsed), and
changes only through the renaming of `iceberg_sanitize`.  A resolve on a descriptor that
has fields already writes to the leaves the old entries point at; their entries are not
followed here. -/
def parse_physical_field (physical_schema : SchemaElement) (is_nullable : Bool)
    (physical_field : FieldSchema) (self : FieldDescriptor) : ParseResult :=
  let f1 : FieldSchema :=
    { physical_field with
      name := physical_schema.name
      parquet_schema := physical_schema
      physical_type := some physical_schema.type
      physical_column_index := ((self._physical_fields.length + 1 : Nat) : Int) - 1 }
  match get_doris_type physical_schema is_nullable with
  | .error what =>
    (Outcome.Exception what, f1, { self with _physical_fields := self._physical_fields ++ [f1] })
  | .ok type =>
    let f2 : FieldSchema :=
      { f1 with
        data_type := type.1
        is_type_compatibility := type.2
        field_id := physical_schema.field_id.getD (-1) }
    (Outcome.OK, f2, { self with _physical_fields := self._physical_fields ++ [f2] })

/-- The first loop of `FieldDescriptor::parse_struct_field`:
`for (i...) RETURN_IF_ERROR(parse_node_field(t_schemas, _next_schema_pos, &children[i]))`,
with `remaining` iterations to go from index `i`. -/
def parse_struct_children (rec : NodeParser) :
    (remaining : Nat) → (i : Nat) → List FieldSchema → FieldDescriptor →
      Outcome × List FieldSchema × FieldDescriptor
  | 0, _, children, self => (Outcome.OK, children, self)
  | remaining + 1, i, children, self =>
    match rec self._next_schema_pos (children.getD i FieldSchema.default) self with
    | (Outcome.OK, child, self1) =>
      parse_struct_children rec remaining (i + 1) (children.set i child) self1
    | (o, child, self1) => (o, children.set i child, self1)

/-- Source function `FieldDescriptor::parse_struct_field`.  `children.resize(num_children)` with a
negative `num_children` asks for more than `max_size()` elements and throws. -/
def parse_struct_field (rec : NodeParser) (t_schemas : List SchemaElement) (curr_pos : Nat)
    (struct_field : FieldSchema) (self : FieldDescriptor) : ParseResult :=
  match t_schemas[curr_pos]? with
  | none => (Outcome.OutOfBounds, struct_field, self)
  | some struct_schema =>
    let is_optional := is_optional_node struct_schema
    let f1 : FieldSchema :=
      if is_optional then
        { struct_field with
          definition_level := to_int16 (struct_field.definition_level + 1) }
      else struct_field
    let num_children := struct_schema.num_children_raw
    if num_children < 0 then (Outcome.Exception "vector::resize", f1, self)
    else
      let f2 : FieldSchema := { f1 with children := resize f1.children num_children.toNat }
      let f3 := set_child_node_level f2 f2.repeated_parent_def_level
      let self1 : FieldDescriptor := { self with _next_schema_pos := curr_pos + 1 }
      match parse_struct_children rec num_children.toNat 0 f3.children self1 with
      | (Outcome.OK, children, self2) =>
        let struct_type :=
          DataType.Struct (children.map fun c => make_nullable c.data_type)
            (children.map fun c => c.name)
        (Outcome.OK,
          { f3 with
            children := children
            name := struct_schema.name
            field_id := struct_schema.field_id.getD (-1)
            data_type := if is_optional then make_nullable struct_type else struct_type },
          self2)
      | (o, children, self2) => (o, { f3 with children := children }, self2)

/-- The tail of `FieldDescriptor::parse_list_field` after the element has been parsed:
name, array type (nullable when the list is optional) and field id. -/
def finish_list_field (first_level : SchemaElement) (is_optional : Bool)
    (list_field : FieldSchema) : FieldSchema :=
  let array_type :=
    DataType.Array (make_nullable (list_field.children.getD 0 FieldSchema.default).data_type)
  { list_field with
    name := first_level.name
    data_type := if is_optional then make_nullable array_type else array_type
    field_id := first_level.field_id.getD (-1) }

/-- Source function `FieldDescriptor::parse_list_field`.  `num_children` is an `int` converted to
`size_t`, which turns a negative count into a large positive one: `num_children > 0`
holds exactly when the count is not `0`, and `num_children == 1` when it is `1`. -/
def parse_list_field (rec : NodeParser) (t_schemas : List SchemaElement) (curr_pos : Nat)
    (list_field : FieldSchema) (self : FieldDescriptor) : ParseResult :=
  match t_schemas[curr_pos]? with
  | none => (Outcome.OutOfBounds, list_field, self)
  | some first_level =>
    if first_level.num_children_raw ≠ 1 then
      (Outcome.InvalidArgument "List element should have only one child", list_field, self)
    else if curr_pos + 1 ≥ t_schemas.length then
      (Outcome.InvalidArgument "List element should have the second level schema",
        list_field, self)
    else if first_level.repetition_type_raw = FieldRepetitionType.REPEATED then
      (Outcome.InvalidArgument "List element can\x27t be a repeated schema", list_field, self)
    else
      match t_schemas[curr_pos + 1]? with
      | none => (Outcome.OutOfBounds, list_field, self)
      | some second_level =>
        if second_level.repetition_type_raw ≠ FieldRepetitionType.REPEATED then
          (Outcome.InvalidArgument "The second level of list element should be repeated",
            list_field, self)
        else
          let is_optional := is_optional_node first_level
          let f4 := open_repeated_level is_optional list_field
          let list_child := f4.children.getD 0 FieldSchema.default
          let num_children := num_children_node second_level
          if num_children ≠ 0 then
            match
              (if num_children = 1 ∧ is_struct_list_node second_level = false then
                rec (curr_pos + 2) list_child self
              else parse_struct_field rec t_schemas (curr_pos + 1) list_child self) with
            | (Outcome.OK, child, self1) =>
              (Outcome.OK,
                finish_list_field first_level is_optional
                  { f4 with children := f4.children.set 0 child },
                self1)
            | (o, child, self1) => (o, { f4 with children := f4.children.set 0 child }, self1)
          else
            match parse_physical_field second_level false list_child self with
            | (Outcome.OK, child, self1) =>
              (Outcome.OK,
                finish_list_field first_level is_optional
                  { f4 with children := f4.children.set 0 child },
                { self1 with _next_schema_pos := curr_pos + 2 })
            | (o, child, self1) => (o, { f4 with children := f4.children.set 0 child }, self1)

/-- Source function `FieldDescriptor::parse_map_field`.  The `LOG(WARNING)` about a key that is not
required has no effect on the result and is left out. -/
def parse_map_field (rec : NodeParser) (t_schemas : List SchemaElement) (curr_pos : Nat)
    (map_field : FieldSchema) (self : FieldDescriptor) : ParseResult :=
  if curr_pos + 2 ≥ t_schemas.length then
    (Outcome.InvalidArgument "Map element should have at least three levels", map_field, self)
  else
    match t_schemas[curr_pos]?, t_schemas[curr_pos + 1]? with
    | some map_schema, some map_key_value =>
      if map_schema.num_children_raw ≠ 1 then
        (Outcome.InvalidArgument
          "Map element should have only one child(name=\x27map\x27, type=\x27MAP_KEY_VALUE\x27)",
          map_field, self)
      else if is_repeated_node map_schema then
        (Outcome.InvalidArgument "Map element can\x27t be a repeated schema", map_field, self)
      else if !is_group_node map_key_value || !is_repeated_node map_key_value then
        (Outcome.InvalidArgument
          "the second level in map must be a repeated group(key and value)", map_field, self)
      else if map_key_value.num_children_raw = 1 then
        parse_list_field rec t_schemas curr_pos map_field self
      else if map_key_value.num_children_raw ≠ 2 then
        (Outcome.InvalidArgument
          "the second level in map(MAP_KEY_VALUE) should have two children", map_field, self)
      else
        let is_optional := is_optional_node map_schema
        let f4 := open_repeated_level is_optional map_field
        let map_kv_field := f4.children.getD 0 FieldSchema.default
        match parse_struct_field rec t_schemas (curr_pos + 1) map_kv_field self with
        | (Outcome.OK, kv, self1) =>
          let f5 : FieldSchema := { f4 with children := f4.children.set 0 kv }
          match (remove_nullable kv.data_type).get_element 0,
              (remove_nullable kv.data_type).get_element 1 with
          | some key_type, some value_type =>
            let map_type := DataType.Map (make_nullable key_type) (make_nullable value_type)
            (Outcome.OK,
              { f5 with
                name := map_schema.name
                data_type := if is_optional then make_nullable map_type else map_type
                field_id := map_schema.field_id.getD (-1) },
              self1)
          | _, _ => (Outcome.Exception "assert_cast", { f5 with name := map_schema.name }, self1)
        | (o, kv, self1) => (o, { f4 with children := f4.children.set 0 kv }, self1)
    | _, _ => (Outcome.OutOfBounds, map_field, self)

/-- Source function `FieldDescriptor::parse_group_field`. -/
def parse_group_field (rec : NodeParser) (t_schemas : List SchemaElement) (curr_pos : Nat)
    (group_field : FieldSchema) (self : FieldDescriptor) : ParseResult :=
  match t_schemas[curr_pos]? with
  | none => (Outcome.OutOfBounds, group_field, self)
  | some group_schema =>
    if is_map_node group_schema then parse_map_field rec t_schemas curr_pos group_field self
    else if is_list_node group_schema then
      parse_list_field rec t_schemas curr_pos group_field self
    else if is_repeated_node group_schema then
      let f3 := open_repeated_level false group_field
      let struct_field := f3.children.getD 0 FieldSchema.default
      match parse_struct_field rec t_schemas curr_pos struct_field self with
      | (Outcome.OK, child, self1) =>
        (Outcome.OK,
          { f3 with
            children := f3.children.set 0 child
            name := group_schema.name
            data_type := DataType.Array (make_nullable child.data_type)
            field_id := group_schema.field_id.getD (-1) },
          self1)
      | (o, child, self1) => (o, { f3 with children := f3.children.set 0 child }, self1)
    else parse_struct_field rec t_schemas curr_pos group_field self

/-- Source function `FieldDescriptor::parse_node_field`; every level of recursion uses one unit of
fuel. -/
def parse_node_field : (fuel : Nat) → List SchemaElement → NodeParser
  | 0, _, _, node_field, self => (Outcome.OutOfFuel, node_field, self)
  | fuel + 1, t_schemas, curr_pos, node_field, self =>
    match t_schemas[curr_pos]? with
    | none =>
      (Outcome.InvalidArgument "Out-of-bounds index of schema elements", node_field, self)
    | some t_schema =>
      if is_group_node t_schema then
        parse_group_field (parse_node_field fuel t_schemas) t_schemas curr_pos node_field self
      else if is_repeated_node t_schema then
        let f3 := open_repeated_level false node_field
        match parse_physical_field t_schema false (f3.children.getD 0 FieldSchema.default)
            self with
        | (Outcome.OK, child, self1) =>
          (Outcome.OK,
            { f3 with
              children := f3.children.set 0 child
              name := t_schema.name
              data_type := DataType.Array (make_nullable child.data_type)
              field_id := t_schema.field_id.getD (-1) },
            { self1 with _next_schema_pos := curr_pos + 1 })
        | (o, child, self1) => (o, { f3 with children := f3.children.set 0 child }, self1)
      else
        let is_optional := is_optional_node t_schema
        let f1 : FieldSchema :=
          if is_optional then
            { node_field with
              definition_level := to_int16 (node_field.definition_level + 1) }
          else node_field
        match parse_physical_field t_schema is_optional f1 self with
        | (Outcome.OK, f2, self1) =>
          (Outcome.OK, f2, { self1 with _next_schema_pos := curr_pos + 1 })
        | r => r

/-! ## Field descriptor -/

/-- Lookup in `_name_to_field` (`find`). -/
def name_to_field_find (m : List (String × Nat)) (name : String) : Option Nat :=
  m.lookup name

/-- The loop of `FieldDescriptor::parse_from_thrift` over the root's children, with
`remaining` iterations to go from index `i`. -/
def parse_from_thrift_fields (t_schemas : List SchemaElement) :
    (remaining : Nat) → (i : Nat) → FieldDescriptor → Outcome × FieldDescriptor
  | 0, _, self => (Outcome.OK, self)
  | remaining + 1, i, self =>
    match parse_node_field t_schemas.length t_schemas self._next_schema_pos
        (self._fields.getD i FieldSchema.default) self with
    | (Outcome.OK, field, self1) =>
      let self2 : FieldDescriptor := { self1 with _fields := self1._fields.set i field }
      if (name_to_field_find self2._name_to_field field.name).isSome then
        (Outcome.InvalidArgument ("Duplicated field name: " ++ field.name), self2)
      else
        parse_from_thrift_fields t_schemas remaining (i + 1)
          { self2 with _name_to_field := self2._name_to_field ++ [(field.name, i)] }
    | (o, field, self1) => (o, { self1 with _fields := self1._fields.set i field })

/-- Source function `FieldDescriptor::parse_from_thrift`. -/
def parse_from_thrift (t_schemas : List SchemaElement) (self : FieldDescriptor) :
    Outcome × FieldDescriptor :=
  match t_schemas[0]? with
  | none => (Outcome.InvalidArgument "Wrong parquet root schema element", self)
  | some root_schema =>
    if !is_group_node root_schema then
      (Outcome.InvalidArgument "Wrong parquet root schema element", self)
    else
      let self1 : FieldDescriptor :=
        { self with
          _fields := resize self._fields root_schema.num_children_raw.toNat
          _next_schema_pos := 1 }
      match parse_from_thrift_fields t_schemas root_schema.num_children_raw.toNat 0 self1 with
      | (Outcome.OK, self2) =>
        if self2._next_schema_pos ≠ t_schemas.length then
          (Outcome.InvalidArgument
            ("Remaining " ++ toString (t_schemas.length - self2._next_schema_pos) ++
              " unparsed schema elements"), self2)
        else (Outcome.OK, self2)
      | r => r

/-! ## Reading the flat sequence and the resolved tree

The definitions below are not part of the source: they say, on the flat pre-order
sequence alone, where a subtree ends, which elements lie on the path to an element, and
what the leaves of a resolved tree are. -/

/-- The number of elements occupied by the first `pending` subtrees of a pre-order
sequence, each element announcing its number of children (a count that is not positive
announces none). -/
def subtrees_size : (pending : Nat) → List SchemaElement → Nat
  | 0, _ => 0
  | _ + 1, [] => 0
  | pending + 1, e :: rest => 1 + subtrees_size (pending + e.num_children_raw.toNat) rest

/-- The size of the subtree rooted at position `p`: the element and all its
descendants, as given by the `num_children` counts. -/
def subtree_size (t_schemas : List SchemaElement) (p : Nat) : Nat :=
  subtrees_size 1 (t_schemas.drop p)

/-- The positions `a ≤ j < b` whose element has no children. -/
def leaf_positions (t_schemas : List SchemaElement) (a b : Nat) : List Nat :=
  (List.range' a (b - a)).filter fun j =>
    !is_group_node (t_schemas.getD j SchemaElement.default)

/-- The positions `a ≤ i ≤ j` whose subtree contains position `j`, in increasing
order: with `a = 1`, the path from the top-level element down to `j` itself. -/
def path (t_schemas : List SchemaElement) (a j : Nat) : List Nat :=
  (List.range' a (j + 1 - a)).filter fun i => decide (j < i + subtree_size t_schemas i)

/-- The schema elements on the path from the top-level element (the root at position
`0` left out) down to the element at position `j`, inclusive. -/
def path_elements (t_schemas : List SchemaElement) (j : Nat) : List SchemaElement :=
  (path t_schemas 1 j).map fun i => t_schemas.getD i SchemaElement.default

/-- A path cut after its last REPEATED element; empty when it has none. -/
def upto_nearest_repeated (elements : List SchemaElement) : List SchemaElement :=
  (elements.reverse.dropWhile fun e => !is_repeated_node e).reverse

mutual
/-- The leaves (nodes without children) of a field tree, in pre-order. -/
def FieldSchema.leaves : FieldSchema → List FieldSchema
  | FieldSchema.mk n ps dt pt pci dl rl rpdl [] tc fid =>
    [FieldSchema.mk n ps dt pt pci dl rl rpdl [] tc fid]
  | FieldSchema.mk _ _ _ _ _ _ _ _ (c :: cs) _ _ => forest_leaves (c :: cs)
/-- The leaves of a forest, in pre-order. -/
def forest_leaves : List FieldSchema → List FieldSchema
  | [] => []
  | c :: cs => c.leaves ++ forest_leaves cs
end

/-- The three levels of a node. -/
structure Levels where
  repetition_level : Int
  definition_level : Int
  repeated_parent_def_level : Int
  deriving DecidableEq

/-- The levels stored in a node. -/
def FieldSchema.levels (f : FieldSchema) : Levels :=
  { repetition_level := f.repetition_level, definition_level := f.definition_level,
    repeated_parent_def_level := f.repeated_parent_def_level }

/-- An `int16_t` level after `if (b) level++;`. -/
def incremented_if (b : Bool) (x : Int) : Int :=
  if b then to_int16 (x + 1) else x

/-- Going one element down a path: a REPEATED element raises both levels and becomes
the nearest repeated ancestor, an OPTIONAL one raises the definition level; the levels
are `int16_t` counters. -/
def Levels.step (l : Levels) (e : SchemaElement) : Levels :=
  let d := if is_repeated_node e || is_optional_node e then to_int16 (l.definition_level + 1)
    else l.definition_level
  { repetition_level := if is_repeated_node e then to_int16 (l.repetition_level + 1)
      else l.repetition_level
    definition_level := d
    repeated_parent_def_level := if is_repeated_node e then d
      else l.repeated_parent_def_level }

/-- What the flat sequence says about a leaf: its element and its levels. -/
structure LeafView where
  name : String
  parquet_schema : SchemaElement
  physical_type : Option ParquetType
  levels : Levels

/-- What a resolved leaf says about itself. -/
def FieldSchema.view (f : FieldSchema) : LeafView :=
  { name := f.name, parquet_schema := f.parquet_schema, physical_type := f.physical_type,
    levels := f.levels }

/-- The view of the element at position `j`, with the levels obtained by walking from
`base` down the part of its path that starts at position `a`. -/
def expected_view (t_schemas : List SchemaElement) (base : Levels) (a j : Nat) : LeafView :=
  let e := t_schemas.getD j SchemaElement.default
  { name := e.name, parquet_schema := e, physical_type := some e.type,
    levels := ((path t_schemas a j).map fun i =>
      t_schemas.getD i SchemaElement.default).foldl Levels.step base }

/-! ## What a successful call establishes -/

/-- The facts a successful `parse_node_field` at position `p` establishes, relating the
node and descriptor before (`node`, `fd`) and after (`node'`, `fd'`).  The facts on
leaves need the node to come in without children, as every node the parser creates
does. -/
structure NodeOK (t_schemas : List SchemaElement) (p : Nat) (node : FieldSchema)
    (fd : FieldDescriptor) (node' : FieldSchema) (fd' : FieldDescriptor) : Prop where
  next_eq : fd'._next_schema_pos = p + subtree_size t_schemas p
  next_le : fd'._next_schema_pos ≤ t_schemas.length
  next_gt : p < fd'._next_schema_pos
  fields_eq : fd'._fields = fd._fields
  names_eq : fd'._name_to_field = fd._name_to_field
  nest : ∀ i, p ≤ i → i < fd'._next_schema_pos →
    i + subtree_size t_schemas i ≤ fd'._next_schema_pos
  phys : node.children = [] →
    fd'._physical_fields = fd._physical_fields ++ node'.leaves
  pci : node.children = [] →
    node'.leaves.map (fun f => f.physical_column_index)
      = (List.range' fd._physical_fields.length node'.leaves.length).map Int.ofNat
  views : node.children = [] →
    node'.leaves.map FieldSchema.view
      = (leaf_positions t_schemas p fd'._next_schema_pos).map
          (expected_view t_schemas node.levels p)

/-- A node parser all of whose successful calls establish `NodeOK`. -/
def Good (t_schemas : List SchemaElement) (rec : NodeParser) : Prop :=
  ∀ p node self node' self', rec p node self = (Outcome.OK, node', self') →
    NodeOK t_schemas p node self node' self'

/-- The children loop of `parse_struct_field` written over the list of children still
to be parsed. -/
def parse_seq (rec : NodeParser) :
    List FieldSchema → FieldDescriptor → Outcome × List FieldSchema × FieldDescriptor
  | [], self => (Outcome.OK, [], self)
  | c :: rest, self =>
    match rec self._next_schema_pos c self with
    | (Outcome.OK, c', self1) =>
      match parse_seq rec rest self1 with
      | (o, rest', self2) => (o, c' :: rest', self2)
    | (o, c', self1) => (o, c' :: rest, self1)

/-- The facts a successful run of the children loop establishes, for children `cs`
parsed from position `a` on, yielding `cs'`. -/
structure SeqOK (t_schemas : List SchemaElement) (a : Nat) (cs : List FieldSchema)
    (fd : FieldDescriptor) (cs' : List FieldSchema) (fd' : FieldDescriptor) : Prop where
  next_eq : fd'._next_schema_pos = a + subtrees_size cs.length (t_schemas.drop a)
  next_le : fd'._next_schema_pos ≤ max a t_schemas.length
  next_ge : a ≤ fd'._next_schema_pos
  fields_eq : fd'._fields = fd._fields
  names_eq : fd'._name_to_field = fd._name_to_field
  nest : ∀ i, a ≤ i → i < fd'._next_schema_pos →
    i + subtree_size t_schemas i ≤ fd'._next_schema_pos
  length_eq : cs'.length = cs.length
  phys : (∀ c ∈ cs, c.children = []) →
    fd'._physical_fields = fd._physical_fields ++ forest_leaves cs'
  pci : (∀ c ∈ cs, c.children = []) →
    (forest_leaves cs').map (fun f => f.physical_column_index)
      = (List.range' fd._physical_fields.length (forest_leaves cs').length).map Int.ofNat
  views : ∀ base, (∀ c ∈ cs, c.children = [] ∧ c.levels = base) →
    (forest_leaves cs').map FieldSchema.view
      = (leaf_positions t_schemas a fd'._next_schema_pos).map
          (expected_view t_schemas base a)

/-- The facts a successful parse of the subtree at position `p` establishes when the
leaves it creates start at position `a` and take their levels from `cb`. -/
structure SubtreeOK (t_schemas : List SchemaElement) (p a : Nat) (cb : Levels)
    (node : FieldSchema) (fd : FieldDescriptor) (node' : FieldSchema)
    (fd' : FieldDescriptor) : Prop where
  next_eq : fd'._next_schema_pos = p + subtree_size t_schemas p
  next_le : fd'._next_schema_pos ≤ t_schemas.length
  next_ge : a ≤ fd'._next_schema_pos
  fields_eq : fd'._fields = fd._fields
  names_eq : fd'._name_to_field = fd._name_to_field
  nest : ∀ i, p ≤ i → i < fd'._next_schema_pos →
    i + subtree_size t_schemas i ≤ fd'._next_schema_pos
  phys : node.children = [] →
    fd'._physical_fields = fd._physical_fields ++ node'.leaves
  pci : node.children = [] →
    node'.leaves.map (fun f => f.physical_column_index)
      = (List.range' fd._physical_fields.length node'.leaves.length).map Int.ofNat
  views : node.children = [] →
    node'.leaves.map FieldSchema.view
      = (leaf_positions t_schemas a fd'._next_schema_pos).map
          (expected_view t_schemas cb a)

/-- The levels the children of a struct parsed at element `e` start from. -/
def struct_child_levels (e : SchemaElement) (node : FieldSchema) : Levels :=
  { repetition_level := node.repetition_level
    definition_level :=
      if is_optional_node e then to_int16 (node.definition_level + 1)
      else node.definition_level
    repeated_parent_def_level := node.repeated_parent_def_level }

/-- The facts a successful run of the loop of `parse_from_thrift` establishes, for `k`
top-level fields parsed from index `i` on. -/
structure FieldsOK (t_schemas : List SchemaElement) (k i : Nat) (fd fd' : FieldDescriptor) :
    Prop where
  next_eq : fd'._next_schema_pos
    = fd._next_schema_pos + subtrees_size k (t_schemas.drop fd._next_schema_pos)
  next_ge : fd._next_schema_pos ≤ fd'._next_schema_pos
  nest : ∀ x, fd._next_schema_pos ≤ x → x < fd'._next_schema_pos →
    x + subtree_size t_schemas x ≤ fd'._next_schema_pos
  length_eq : fd'._fields.length = fd._fields.length
  take_eq : fd'._fields.take i = fd._fields.take i
  drop_eq : fd'._fields.drop (i + k) = fd._fields.drop (i + k)
  phys : (∀ c ∈ (fd._fields.drop i).take k, c.children = []) →
    fd'._physical_fields
      = fd._physical_fields ++ forest_leaves ((fd'._fields.drop i).take k)
  pci : (∀ c ∈ (fd._fields.drop i).take k, c.children = []) →
    (forest_leaves ((fd'._fields.drop i).take k)).map (fun f => f.physical_column_index)
      = (List.range' fd._physical_fields.length
          (forest_leaves ((fd'._fields.drop i).take k)).length).map Int.ofNat
  views : ∀ base, (∀ c ∈ (fd._fields.drop i).take k, c.children = [] ∧ c.levels = base) →
    (forest_leaves ((fd'._fields.drop i).take k)).map FieldSchema.view
      = (leaf_positions t_schemas fd._next_schema_pos fd'._next_schema_pos).map
          (expected_view t_schemas base fd._next_schema_pos)

/-! ## A sample schema -/

/-- A group element of the sample schema. -/
def sample_group (name : String) (repetition : FieldRepetitionType) (num_children : Int)
    (converted_type : Option ConvertedType) : SchemaElement :=
  { SchemaElement.default with
    name := name
    repetition_type := some repetition
    num_children := some num_children
    converted_type := converted_type }

/-- A primitive element of the sample schema. -/
def sample_primitive (name : String) (repetition : FieldRepetitionType) (type : ParquetType)
    (converted_type : Option ConvertedType) : SchemaElement :=
  { SchemaElement.default with
    name := name
    repetition_type := some repetition
    type := type
    converted_type := converted_type }

/-- The flattened schema
```
message root {
  optional group x (LIST) { repeated group list { optional int32 element; } }
  optional group m (MAP) {
    repeated group map (MAP_KEY_VALUE) { required binary key (UTF8); optional int32 value; }
  }
  repeated int32 r;
}
``` -/
def sample_schema : List SchemaElement :=
  [ { SchemaElement.default with name := "root", num_children := some 3 },
    sample_group "x" FieldRepetitionType.OPTIONAL 1 (some ConvertedType.LIST),
    sample_group "list" FieldRepetitionType.REPEATED 1 none,
    sample_primitive "element" FieldRepetitionType.OPTIONAL ParquetType.INT32 none,
    sample_group "m" FieldRepetitionType.OPTIONAL 1 (some ConvertedType.MAP),
    sample_group "map" FieldRepetitionType.REPEATED 2 (some ConvertedType.MAP_KEY_VALUE),
    sample_primitive "key" FieldRepetitionType.REQUIRED ParquetType.BYTE_ARRAY
      (some ConvertedType.UTF8),
    sample_primitive "value" FieldRepetitionType.OPTIONAL ParquetType.INT32 none,
    sample_primitive "r" FieldRepetitionType.REPEATED ParquetType.INT32 none ]

/-- The descriptor resolved from the sample schema. -/
def sample_descriptor : FieldDescriptor :=
  (parse_from_thrift sample_schema FieldDescriptor.empty).2

/-- The element `optional group x (LIST)` with one child. -/
def list_x : SchemaElement :=
  sample_group "x" FieldRepetitionType.OPTIONAL 1 (some ConvertedType.LIST)

/-- The element `repeated group list` with one child. -/
def list_list : SchemaElement :=
  sample_group "list" FieldRepetitionType.REPEATED 1 none

/-- The element `optional int32 element`. -/
def list_element : SchemaElement :=
  sample_primitive "element" FieldRepetitionType.OPTIONAL ParquetType.INT32 none

/-- The flattened schema
`message root { optional group x (LIST) { repeated group list { optional int32 element; } } }`. -/
def sample_list_schema : List SchemaElement :=
  [ { SchemaElement.default with name := "root", num_children := some 1 },
    list_x, list_list, list_element ]

/-- The descriptor resolved from `sample_list_schema`. -/
def sample_list_descriptor : FieldDescriptor :=
  (parse_from_thrift sample_list_schema FieldDescriptor.empty).2

/-- The element `optional group m (MAP)` with one child. -/
def map_m : SchemaElement :=
  sample_group "m" FieldRepetitionType.OPTIONAL 1 (some ConvertedType.MAP)

/-- The element `repeated group map (MAP_KEY_VALUE)` with two children. -/
def map_map : SchemaElement :=
  sample_group "map" FieldRepetitionType.REPEATED 2 (some ConvertedType.MAP_KEY_VALUE)

/-- The element `required binary key (UTF8)`. -/
def map_key : SchemaElement :=
  sample_primitive "key" FieldRepetitionType.REQUIRED ParquetType.BYTE_ARRAY
    (some ConvertedType.UTF8)

/-- The element `optional int32 value`. -/
def map_value : SchemaElement :=
  sample_primitive "value" FieldRepetitionType.OPTIONAL ParquetType.INT32 none

/-- The flattened schema `message root { optional group m (MAP) { repeated group map
(MAP_KEY_VALUE) { required binary key (UTF8); optional int32 value; } } }`. -/
def sample_map_schema : List SchemaElement :=
  [ { SchemaElement.default with name := "root", num_children := some 1 },
    map_m, map_map, map_key, map_value ]

/-- The element `repeated int32 x`. -/
def repeated_x : SchemaElement :=
  sample_primitive "x" FieldRepetitionType.REPEATED ParquetType.INT32 none

/-- The flattened schema `message root { repeated int32 x; }`. -/
def sample_repeated_schema : List SchemaElement :=
  [ { SchemaElement.default with name := "root", num_children := some 1 }, repeated_x ]

/-- The flattened schema `message root { repeated group s (MAP) { repeated group map
(MAP_KEY_VALUE) { required binary key (UTF8); } } }`: a MAP-annotated group that is
itself REPEATED, over a key-value group with a single child. -/
def sample_repeated_set_schema : List SchemaElement :=
  [ { SchemaElement.default with name := "root", num_children := some 1 },
    sample_group "s" FieldRepetitionType.REPEATED 1 (some ConvertedType.MAP),
    sample_group "map" FieldRepetitionType.REPEATED 1 (some ConvertedType.MAP_KEY_VALUE),
    map_key ]

/-- The engine type `int32`, not nullable. -/
def int32_type : DataType := DataType.Scalar PrimitiveType.TYPE_INT 0 0

/-- The engine type `string`, not nullable. -/
def string_type : DataType := DataType.Scalar PrimitiveType.TYPE_STRING 0 0

/-- A node parser that does not run out of fuel at any position from `a` on. -/
def NoFuelOut (rec : NodeParser) (a : Nat) : Prop :=
  ∀ q node self, a ≤ q → (rec q node self).1 ≠ Outcome.OutOfFuel

/-- The element `optional group s (MAP)` with one child. -/
def set_s : SchemaElement :=
  sample_group "s" FieldRepetitionType.OPTIONAL 1 (some ConvertedType.MAP)

/-- The element `repeated group map (MAP_KEY_VALUE)` with one child. -/
def set_map : SchemaElement :=
  sample_group "map" FieldRepetitionType.REPEATED 1 (some ConvertedType.MAP_KEY_VALUE)

/-- The flattened schema `message root { optional group s (MAP) { repeated group map
(MAP_KEY_VALUE) { required binary key (UTF8); } } }`: a map without values. -/
def sample_set_schema : List SchemaElement :=
  [ { SchemaElement.default with name := "root", num_children := some 1 },
    set_s, set_map, map_key ]

/-- The element `required fixed_len_byte_array id (UUID)`: the only annotation is the
logical type `UUID`, for which `convert_to_doris_type` has no case. -/
def uuid_leaf : SchemaElement :=
  { SchemaElement.default with
    name := "id"
    repetition_type := some FieldRepetitionType.REQUIRED
    type := ParquetType.FIXED_LEN_BYTE_ARRAY
    logicalType := some { LogicalType.unset with UUID := true } }

/-- The element `required binary e (ENUM)`: the only annotation is the converted type
`ENUM`, for which `convert_to_doris_type` has no case. -/
def enum_leaf : SchemaElement :=
  sample_primitive "e" FieldRepetitionType.REQUIRED ParquetType.BYTE_ARRAY
    (some ConvertedType.ENUM)

/-- The element `required int64 t (TIMESTAMP(MILLIS), INT_64)`: a logical type and a
converted type that map to different engine types. -/
def timestamp_leaf : SchemaElement :=
  { SchemaElement.default with
    name := "t"
    repetition_type := some FieldRepetitionType.REQUIRED
    type := ParquetType.INT64
    converted_type := some ConvertedType.INT_64
    logicalType := some { LogicalType.unset with
      TIMESTAMP := some { isAdjustedToUTC := true,
                          unit := { MILLIS := true, MICROS := false, NANOS := false } } } }

/-- The messages of the `InvalidArgument` statuses that `parse_list_field` returns for
a list of the wrong shape. -/
def list_shape_messages : List String :=
  [ "List element should have only one child",
    "List element should have the second level schema",
    "List element can\x27t be a repeated schema",
    "The second level of list element should be repeated" ]

/-- The messages of the `InvalidArgument` statuses that `parse_map_field` returns for a
map of the wrong shape. -/
def map_shape_messages : List String :=
  [ "Map element should have at least three levels",
    "Map element should have only one child(name=\x27map\x27, type=\x27MAP_KEY_VALUE\x27)",
    "Map element can\x27t be a repeated schema",
    "the second level in map must be a repeated group(key and value)",
    "the second level in map(MAP_KEY_VALUE) should have two children" ]

/-- The element `repeated int32 element`. -/
def repeated_element : SchemaElement :=
  sample_primitive "element" FieldRepetitionType.REPEATED ParquetType.INT32 none

/-- The flattened schema
`message root { optional group x (LIST) { repeated int32 element; } }`: a two-level
list under an OPTIONAL group. -/
def sample_two_level_schema : List SchemaElement :=
  [ { SchemaElement.default with name := "root", num_children := some 1 },
    list_x, repeated_element ]

/-- The flattened schema
`message root { required group x (LIST) { repeated int32 element; } }`: a two-level
list under a REQUIRED group. -/
def sample_required_two_level_schema : List SchemaElement :=
  [ { SchemaElement.default with name := "root", num_children := some 1 },
    sample_group "x" FieldRepetitionType.REQUIRED 1 (some ConvertedType.LIST),
    repeated_element ]

/-- A two-level list whose repeated primitive has a physical type outside the enum and
no annotation. -/
def sample_unrecognized_two_level_schema : List SchemaElement :=
  [ { SchemaElement.default with name := "root", num_children := some 1 },
    sample_group "x" FieldRepetitionType.REQUIRED 1 (some ConvertedType.LIST),
    sample_primitive "element" FieldRepetitionType.REPEATED ParquetType.UNRECOGNIZED none ]

/-- The messages of the `InvalidArgument` statuses returned by `parse_node_field` and
the functions it calls. -/
def node_messages : List String :=
  "Out-of-bounds index of schema elements" :: (list_shape_messages ++ map_shape_messages)

/-- An outcome `parse_node_field` can end with: any outcome except an `InvalidArgument`
whose message is not one of `node_messages`. -/
def is_node_outcome : Outcome → Bool
  | Outcome.InvalidArgument msg => decide (msg ∈ node_messages)
  | _ => true

/-- The positions of `k` consecutive sibling subtrees, the first one at position `a`:
each subtree starts where the previous one ends. -/
def child_positions (t_schemas : List SchemaElement) : (k : Nat) → (a : Nat) → List Nat
  | 0, _ => []
  | k + 1, a => a :: child_positions t_schemas k (a + subtree_size t_schemas a)

/-- The state in which `parse_from_thrift` enters its loop: `_fields` resized to the
child count of the root, cursor at position 1. -/
def loop_start (root_schema : SchemaElement) (self : FieldDescriptor) : FieldDescriptor :=
  { self with
    _fields := resize self._fields root_schema.num_children_raw.toNat
    _next_schema_pos := 1 }

/-- The element `repeated group map (MAP_KEY_VALUE)` with three children. -/
def map_three : SchemaElement :=
  sample_group "map" FieldRepetitionType.REPEATED 3 (some ConvertedType.MAP_KEY_VALUE)

/-- The flattened schema `message root { optional group m (MAP) { repeated group map
(MAP_KEY_VALUE) { required binary key (UTF8); optional int32 value; optional int32
extra; } } }`: a map whose key-value group has three children. -/
def sample_bad_map_schema : List SchemaElement :=
  [ { SchemaElement.default with name := "root", num_children := some 1 },
    map_m, map_three, map_key, map_value,
    sample_primitive "extra" FieldRepetitionType.OPTIONAL ParquetType.INT32 none ]

/-- The same malformed map as second top-level field, after a LIST group that
announces two children. -/
def sample_unreached_bad_map_schema : List SchemaElement :=
  [ { SchemaElement.default with name := "root", num_children := some 2 },
    sample_group "x" FieldRepetitionType.OPTIONAL 2 (some ConvertedType.LIST),
    map_m, map_three, map_key, map_value,
    sample_primitive "extra" FieldRepetitionType.OPTIONAL ParquetType.INT32 none ]

/-- The element `required int32 a`. -/
def leaf_a : SchemaElement :=
  sample_primitive "a" FieldRepetitionType.REQUIRED ParquetType.INT32 none

/-- The flattened schema `message root { required int32 a; required int32 a; }`. -/
def sample_duplicate_schema : List SchemaElement :=
  [ { SchemaElement.default with name := "root", num_children := some 2 }, leaf_a, leaf_a ]

/-- A root with one child, a LIST group that announces one child, and nothing after
it: the sequence ends inside the list. -/
def sample_cut_list_schema : List SchemaElement :=
  [ { SchemaElement.default with name := "root", num_children := some 1 }, list_x ]

/-- The root element `message root` announcing `n` children. -/
def sample_root (n : Int) : SchemaElement :=
  { SchemaElement.default with name := "root", num_children := some n }

/-- The logical type `INTEGER(bitWidth, isSigned)`, no other member set. -/
def integer_logical_type (bitWidth : Int) (isSigned : Bool) : LogicalType :=
  { LogicalType.unset with INTEGER := some { bitWidth := bitWidth, isSigned := isSigned } }

/-- The loop of `FieldDescriptor::get_column_index` over the fields from index `i` on. -/
def get_column_index_from (column : String) : List FieldSchema → Nat → Int
  | [], _ => -1
  | f :: rest, i =>
    if f.name = column then (i : Int) else get_column_index_from column rest (i + 1)

/-- Source function `FieldDescriptor::get_column_index`.  The counter is an `int32_t`;
the size of `_fields` comes from an `i32` child count, so the counter does not wrap. -/
def get_column_index (self : FieldDescriptor) (column : String) : Int :=
  get_column_index_from column self._fields 0

/-- Source function `FieldDescriptor::get_column`: the field the name map points at;
`error` is the exception it throws when the name is not a key. -/
def get_column (self : FieldDescriptor) (name : String) : Except String FieldSchema :=
  match name_to_field_find self._name_to_field name with
  | some i => .ok (self._fields.getD i FieldSchema.default)
  | none => .error ("Name " ++ name ++ " not found in FieldDescriptor!")

/-! ## Names as C++ strings

A name is a `String`; the `std::string` of the source holds its UTF-8 encoding, one
`char` per byte.  `char` is taken to be signed, as on x86-64: a byte from 128 on is a
negative `char`.  Names whose bytes are not valid UTF-8 are outside the embedding. -/

/-- The `char` with the given byte value. -/
def char_of_byte (b : Nat) : Int :=
  if b < 128 then (b : Int) else (b : Int) - 256

/-- The UTF-8 bytes of a character, as `char` values. -/
def char_values (c : Char) : List Int :=
  let v := c.toNat
  if v < 128 then [char_of_byte v]
  else if v < 2048 then [char_of_byte (192 + v / 64), char_of_byte (128 + v % 64)]
  else if v < 65536 then
    [char_of_byte (224 + v / 4096), char_of_byte (128 + v / 64 % 64),
      char_of_byte (128 + v % 64)]
  else
    [char_of_byte (240 + v / 262144), char_of_byte (128 + v / 4096 % 64),
      char_of_byte (128 + v / 64 % 64), char_of_byte (128 + v % 64)]

/-- The contents of the `std::string` holding a name. -/
def std_string (name : String) : List Int :=
  name.data.flatMap char_values

/-- The name held by a `std::string` of ASCII characters. -/
def of_std_string (chars : List Int) : String :=
  String.mk (chars.map fun c => Char.ofNat c.toNat)

/-- Library function `isalpha` in the C locale; a negative `char` is not a letter. -/
def isalpha (c : Int) : Bool :=
  (decide (65 ≤ c) && decide (c ≤ 90)) || (decide (97 ≤ c) && decide (c ≤ 122))

/-- Library function `isdigit`. -/
def isdigit (c : Int) : Bool :=
  decide (48 ≤ c) && decide (c ≤ 57)

/-- The character of a hexadecimal digit below 16, lower case. -/
def hex_digit (d : Nat) : Int :=
  if d < 10 then 48 + (d : Int) else 87 + (d : Int)

/-- The hexadecimal digits of `n`, most significant first, in at most `fuel` digits,
in front of `acc`. -/
def hex_digits : (fuel : Nat) → Nat → List Int → List Int
  | 0, _, acc => acc
  | fuel + 1, n, acc =>
    if n / 16 = 0 then hex_digit (n % 16) :: acc
    else hex_digits fuel (n / 16) (hex_digit (n % 16) :: acc)

/-- Library function `ss << std::hex << (int)character` followed by `ss.str()`: the
value as an unsigned 32-bit number, in lower-case hexadecimal digits without leading
zeros. -/
def std_hex (v : Int) : List Int :=
  hex_digits 8 (v % 4294967296).toNat []

/-- Modelled from the spec: `doris::to_lower` (a utility that is not among the
sources), lower-casing the ASCII capital letters. -/
def to_lower (s : List Int) : List Int :=
  s.map fun c => if 65 ≤ c ∧ c ≤ 90 then c + 32 else c

/-- Source function `sanitize_avro_name(std::ostringstream&, char)`: what it appends to
the buffer. -/
def sanitize_avro_name_char (character : Int) : List Int :=
  if isdigit character then [95, character]
  else [95, 120] ++ to_lower (std_hex character)

/-- The body of `is_valid_avro_name` on the characters of the name; `name[0]` of an
empty `std::string` is the terminating `0`. -/
def is_valid_avro_chars (name : List Int) : Bool :=
  let first := name.headD 0
  if !isalpha first && first != 95 then false
  else name.tail.all fun character =>
    !(!isalpha character && !isdigit character && character != 95)

/-- Source function `is_valid_avro_name`. -/
def is_valid_avro_name (name : String) : Bool :=
  is_valid_avro_chars (std_string name)

/-- The body of `sanitize_avro_name(const std::string&)` on the characters of the
name: the contents of the buffer at the end. -/
def sanitize_avro_chars (name : List Int) : List Int :=
  let first := name.headD 0
  (if !isalpha first && first != 95 then sanitize_avro_name_char first else [first]) ++
    name.tail.flatMap fun character =>
      if !isalpha character && !isdigit character && character != 95 then
        sanitize_avro_name_char character
      else [character]

/-- Source function `sanitize_avro_name(const std::string&)`. -/
def sanitize_avro_name (name : String) : String :=
  of_std_string (sanitize_avro_chars (std_string name))

/-- Library function `emplace` on `_name_to_field`: nothing is inserted when the key is
present. -/
def name_to_field_emplace (m : List (String × Nat)) (name : String) (i : Nat) :
    List (String × Nat) :=
  if (name_to_field_find m name).isSome then m else m ++ [(name, i)]

/-- Library function `erase` on `_name_to_field`. -/
def name_to_field_erase (m : List (String × Nat)) (name : String) : List (String × Nat) :=
  m.filter fun p => p.1 != name

/-- One round of the loop of `FieldDescriptor::iceberg_sanitize`.  The name map points
at `_fields[i]`, so `schema->name = col` renames that field; `_physical_fields` points
at the same object when the field is a leaf, so its entry is renamed with it. -/
def iceberg_sanitize_column (col : String) (self : FieldDescriptor) : FieldDescriptor :=
  if !is_valid_avro_name col then
    let sanitize_name := sanitize_avro_name col
    match name_to_field_find self._name_to_field sanitize_name with
    | some i =>
      let schema := self._fields.getD i FieldSchema.default
      { self with
        _fields := self._fields.set i { schema with name := col }
        _physical_fields :=
          if schema.children.isEmpty then
            self._physical_fields.map fun pf =>
              if pf.physical_column_index = schema.physical_column_index then
                { pf with name := col }
              else pf
          else self._physical_fields
        _name_to_field :=
          name_to_field_erase (name_to_field_emplace self._name_to_field col i)
            sanitize_name }
    | none => self
  else self

/-- Source function `FieldDescriptor::iceberg_sanitize`. -/
def iceberg_sanitize (read_columns : List String) (self : FieldDescriptor) :
    FieldDescriptor :=
  read_columns.foldl (fun s col => iceberg_sanitize_column col s) self

/-- The flattened schema
`message root { required int32 a-b; required int32 a_x2db; }`. -/
def sample_sanitize_schema : List SchemaElement :=
  [ sample_root 2,
    sample_primitive "a-b" FieldRepetitionType.REQUIRED ParquetType.INT32 none,
    sample_primitive "a_x2db" FieldRepetitionType.REQUIRED ParquetType.INT32 none ]

/-- The flattened schema `message root { required int32 _x2da_x2d; }`. -/
def sample_sanitized_schema : List SchemaElement :=
  [ sample_root 1,
    sample_primitive "_x2da_x2d" FieldRepetitionType.REQUIRED ParquetType.INT32 none ]

mutual
/-- The parent-child pairs of a field tree: every node below the root of the tree,
paired with its parent. -/
def FieldSchema.pairs : FieldSchema → List (FieldSchema × FieldSchema)
  | FieldSchema.mk n ps dt pt pci dl rl rpdl cs tc fid =>
    children_pairs (FieldSchema.mk n ps dt pt pci dl rl rpdl cs tc fid) cs
/-- The parent-child pairs contributed by the children `cs` of `parent`. -/
def children_pairs (parent : FieldSchema) : List FieldSchema → List (FieldSchema × FieldSchema)
  | [] => []
  | c :: cs => (parent, c) :: (c.pairs ++ children_pairs parent cs)
end

/-- The three levels do not decrease from the first node of the pair to the second. -/
def levels_le (pc : FieldSchema × FieldSchema) : Prop :=
  pc.1.repetition_level ≤ pc.2.repetition_level ∧
    pc.1.definition_level ≤ pc.2.definition_level ∧
    pc.1.repeated_parent_def_level ≤ pc.2.repeated_parent_def_level

instance (pc : FieldSchema × FieldSchema) : Decidable (levels_le pc) := by
  unfold levels_le
  exact inferInstance

/-- The levels do not decrease along any parent-child pair of the tree. -/
def FieldSchema.levels_monotone (f : FieldSchema) : Prop :=
  ∀ pc ∈ f.pairs, levels_le pc

/-- No node of the tree has a negative repetition or definition level: no `int16_t`
level has gone from `32767` to `-32768` on the way down. -/
def FieldSchema.levels_nonneg (f : FieldSchema) : Prop :=
  (0 ≤ f.repetition_level ∧ 0 ≤ f.definition_level) ∧
    ∀ pc ∈ f.pairs, 0 ≤ pc.2.repetition_level ∧ 0 ≤ pc.2.definition_level

instance (f : FieldSchema) : Decidable f.levels_nonneg := by
  unfold FieldSchema.levels_nonneg
  exact inferInstance

/-- What a successful parse does to the levels of the node it fills: the nearest
repeated ancestor stays, and when no level of the filled tree is negative and the node
came with its nearest repeated ancestor not above its definition level, the two levels
do not decrease and the tree below is monotone. -/
structure LevelsOK (node node' : FieldSchema) : Prop where
  rpdl_eq : node'.repeated_parent_def_level = node.repeated_parent_def_level
  mono : node'.levels_nonneg →
    node.repeated_parent_def_level ≤ node.definition_level →
    node.repetition_level ≤ node'.repetition_level ∧
      node.definition_level ≤ node'.definition_level ∧ node'.levels_monotone

/-- A node parser all of whose successful calls on a fresh node, whose levels are
`int16_t` values, establish `LevelsOK`. -/
def LevelsGood (rec : NodeParser) : Prop :=
  ∀ p node self node' self', rec p node self = (Outcome.OK, node', self') →
    node.children = [] → to_int16 node.repetition_level = node.repetition_level →
    to_int16 node.definition_level = node.definition_level →
    LevelsOK node node'

/-- The element `optional group x` with one child, no converted type, and the logical
type LIST. -/
def logical_list_x : SchemaElement :=
  { sample_group "x" FieldRepetitionType.OPTIONAL 1 none with
    logicalType := some { LogicalType.unset with LIST := true } }

/-- The flattened schema of `sample_list_schema` with the list annotated by its logical
type only. -/
def sample_logical_list_schema : List SchemaElement :=
  [ { SchemaElement.default with name := "root", num_children := some 1 },
    logical_list_x, list_list, list_element ]

/-- The element `required int32 element`. -/
def required_element : SchemaElement :=
  sample_primitive "element" FieldRepetitionType.REQUIRED ParquetType.INT32 none

/-- The flattened schema
`message root { optional group x (LIST) { repeated group list { required int32 element; } } }`. -/
def sample_required_element_schema : List SchemaElement :=
  [ { SchemaElement.default with name := "root", num_children := some 1 },
    list_x, list_list, required_element ]

/-- The element `repeated group array` with one child. -/
def list_array : SchemaElement :=
  sample_group "array" FieldRepetitionType.REPEATED 1 none

/-- The flattened schema
`message root { optional group x (LIST) { repeated group array { optional int32 element; } } }`. -/
def sample_array_list_schema : List SchemaElement :=
  [ { SchemaElement.default with name := "root", num_children := some 1 },
    list_x, list_array, list_element ]

/-- Whether resolving the element opens a repeated level on its node: the element is
REPEATED itself, or it is a group annotated as a list or a map, whose REPEATED second
level `parse_list_field` and `parse_map_field` fold into the node of the group. -/
def opens_repeated_level (e : SchemaElement) : Bool :=
  is_repeated_node e || (is_group_node e && (is_map_node e || is_list_node e))

/-- How the parser makes a child `c'` of a node `parent`: out of a fresh node `c` that
`set_child_node_level` has handed the levels of `parent`, by `parse_node_field` (a child
of a struct, the unwrapped element of a list), by `parse_struct_field` on a REPEATED
group (the struct under an array, a list or a map), or by `parse_physical_field` on a
REPEATED primitive (the leaf under an array). -/
inductive ChildOf (t_schemas : List SchemaElement) (parent c' : FieldSchema) : Prop
  | node (fuel q : Nat) (c : FieldSchema) (s s' : FieldDescriptor)
      (hr : c.repetition_level = parent.repetition_level)
      (hd : c.definition_level = parent.definition_level)
      (hc : c.children = [])
      (h : parse_node_field fuel t_schemas q c s = (Outcome.OK, c', s')) :
      ChildOf t_schemas parent c'
  | struct (fuel q : Nat) (e : SchemaElement) (c : FieldSchema) (s s' : FieldDescriptor)
      (he : t_schemas[q]? = some e) (hrep : is_repeated_node e = true)
      (hr : c.repetition_level = parent.repetition_level)
      (hd : c.definition_level = parent.definition_level)
      (hc : c.children = [])
      (h : parse_struct_field (parse_node_field fuel t_schemas) t_schemas q c s
        = (Outcome.OK, c', s')) :
      ChildOf t_schemas parent c'
  | leaf (e : SchemaElement) (c : FieldSchema) (s s' : FieldDescriptor)
      (hrep : is_repeated_node e = true)
      (hr : c.repetition_level = parent.repetition_level)
      (hd : c.definition_level = parent.definition_level)
      (hc : c.children = [])
      (h : parse_physical_field e false c s = (Outcome.OK, c', s')) :
      ChildOf t_schemas parent c'

/-- The name map is consistent with the top-level fields: the names of the fields are
pairwise distinct, the keys of the map are the names of the fields, each of them once,
and looking up the name of a field gives the index of that field. -/
structure NamesConsistent (fd : FieldDescriptor) : Prop where
  names_nodup : (fd._fields.map fun f => f.name).Nodup
  keys_perm : (fd._name_to_field.map Prod.fst).Perm (fd._fields.map fun f => f.name)
  find_eq : ∀ i f, fd._fields[i]? = some f →
    name_to_field_find fd._name_to_field f.name = some i

/-- Whether some round of `iceberg_sanitize` over the requested names renames a field
to a name that is a key of the name map already: the requested name is not valid, its
sanitized form is a key, and the requested name itself is a key, at the time the name
is processed. -/
def sanitize_collides : List String → FieldDescriptor → Bool
  | [], _ => false
  | col :: rest, fd =>
    (!is_valid_avro_name col &&
        (name_to_field_find fd._name_to_field (sanitize_avro_name col)).isSome &&
        (name_to_field_find fd._name_to_field col).isSome) ||
      sanitize_collides rest (iceberg_sanitize_column col fd)

/-! ## The function `element_at` (`function_array_element.h`)

A `ColumnArray` is its `Offsets64` (the end of every row in the nested column, each a
`size_t`) and its nested column; a `ColumnMap` shares one such offsets column between
its keys and its values.  A null map is `none` where the source holds `nullptr`. -/

/-- Conversion of an integer to `size_t`: its value modulo `2^64`. -/
def to_size_t (x : Int) : Nat :=
  (x % 18446744073709551616).toNat

/-- Conversion of an integer to `Int64`: its value modulo `2^64`, in two-complement
form. -/
def to_int64 (x : Int) : Int :=
  (x + 9223372036854775808) % 18446744073709551616 - 9223372036854775808

/-- Modelled from the spec: `cast_set<Int16, size_t, false>` (declared in
`common/cast_set.h`, not among the sources), whose third argument switches the range
check off: the conversion `static_cast<int16_t>`, the value modulo `2^16` as a signed
number. -/
def cast_set_int16 (x : Nat) : Int :=
  ((x : Int) + 32768) % 65536 - 32768

/-- Reading `offsets[row - 1]`: a `PaddedPODArray` is padded on the left with a zero
element, which is what the read returns for row `0`. -/
def offset_before (offsets : List Nat) (row : Nat) : Nat :=
  if row = 0 then 0 else offsets.getD (row - 1) 0

/-- The test `null_map && null_map[i]` of a null map that may be `nullptr`. -/
def null_at (null_map : Option (List Bool)) (i : Nat) : Bool :=
  match null_map with
  | some entries => entries.getD i false
  | none => false

/-- What a row of the result holds: a null (`dst_null_map[row] = true`, with a default
value in the data column), a value copied from the nested column, or nothing sensible
because the nested column or its null map was read outside its bounds. -/
inductive Cell (α : Type) where
  | null : Cell α
  | value (v : α) : Cell α
  | out_of_bounds : Cell α
  deriving DecidableEq

/-- The statements `calc index in nested column` of the loop that `_execute_number`,
`_execute_string` and `_execute_common` share: `none` when they set `null_flag`, and
otherwise the value of `index` afterwards.  `off` and `len` are `size_t` and `index` is
an `Int64`: the comparisons `index <= len` and `-index <= len` convert their left side
to `size_t`, `-index` wraps at the least `Int64`, and `index += ...` is computed in
`size_t` and converted back. -/
def nested_index (off len : Nat) (index : Int) (null_flag : Bool) : Option Int :=
  if !null_flag && decide (index > 0) && decide (to_size_t index ≤ len) then
    some (to_int64 (to_size_t ((to_size_t index : Int) + to_size_t ((off : Int) - 1))))
  else if !null_flag && decide (index < 0) && decide (to_size_t (to_int64 (-index)) ≤ len) then
    some (to_int64 (to_size_t ((to_size_t index : Int) + to_size_t ((off : Int) + len))))
  else none

/-- The rest of one round of that loop: the check of the null map of the nested column
and the copy of the element at `index`. -/
def element_cell {α : Type} (nested_data : List α) (nested_null_map : Option (List Bool))
    (off len : Nat) (index : Int) (null_flag : Bool) : Cell α :=
  match nested_index off len index null_flag with
  | none => Cell.null
  | some idx =>
    if idx < 0 then Cell.out_of_bounds
    else
      let copy : Cell α :=
        match nested_data[idx.toNat]? with
        | some v => Cell.value v
        | none => Cell.out_of_bounds
      match nested_null_map with
      | none => copy
      | some null_map =>
        match null_map[idx.toNat]? with
        | none => Cell.out_of_bounds
        | some true => Cell.null
        | some false => copy

/-- Source function `FunctionArrayElement::_execute_common`, and with it
`_execute_number` and `_execute_string`, which run the same loop over a typed nested
column: one cell per row of `offsets`.  `indices` holds what `indices.get_int(row)`
returns. -/
def _execute_common {α : Type} (offsets : List Nat) (nested_data : List α)
    (arr_null_map : Option (List Bool)) (indices : List Int)
    (nested_null_map : Option (List Bool)) : List (Cell α) :=
  (List.range offsets.length).map fun row =>
    let off := offset_before offsets row
    let len := to_size_t ((offsets.getD row 0 : Int) - off)
    let index := indices.getD row 0
    let null_flag := null_at arr_null_map row
    element_cell nested_data nested_null_map off len index null_flag

/-- The inner loop of `_get_mapped_idx` over the keys of one row, with `remaining`
rounds to go from position `j`: the first position whose key compares equal to the
probe key (`compare_at(...) == 0`, taken to be equality of the two entries), as
`j - begin + 1`. -/
def mapped_idx_loop {κ : Type} [DecidableEq κ] (keys : List κ) (probe : κ) (begin : Nat) :
    (remaining : Nat) → (j : Nat) → Option Nat
  | 0, _ => none
  | remaining + 1, j =>
    if keys[j]? = some probe then some (to_size_t ((j : Int) - begin + 1))
    else mapped_idx_loop keys probe begin remaining (j + 1)

/-- One round of the outer loop of `_get_mapped_idx`: the value inserted into
`matched_indices` for a row that spans `begin` to `end` of the keys. -/
def mapped_idx_row {κ : Type} [DecidableEq κ] (keys : List κ) (probe : κ)
    (begin finish : Nat) : Int :=
  match mapped_idx_loop keys probe begin (finish - begin) begin with
  | some matched => cast_set_int16 matched
  | none => cast_set_int16 (to_size_t ((finish : Int) - begin + 1))

/-- Source function `FunctionArrayElement::_get_mapped_idx`: the column of matched
indices, of type `Int16`. -/
def _get_mapped_idx {κ : Type} [DecidableEq κ] [Inhabited κ] (offsets : List Nat)
    (keys : List κ) (probes : List κ) : List Int :=
  (List.range offsets.length).map fun i =>
    mapped_idx_row keys (probes.getD i default) (offset_before offsets i)
      (offsets.getD i 0)

/-- Source function `FunctionArrayElement::_execute_map` followed by the
`_execute_nullable` it ends in: `none` is the `nullptr` returned for a column without
rows; otherwise the values are read as an array column at the matched indices. -/
def _execute_map {κ α : Type} [DecidableEq κ] [Inhabited κ] (offsets : List Nat)
    (keys : List κ) (values : List α) (values_null_map : Option (List Bool))
    (probes : List κ) (src_null_map : Option (List Bool)) : Option (List (Cell α)) :=
  if offsets.length = 0 then none
  else
    some (_execute_common offsets values src_null_map (_get_mapped_idx offsets keys probes)
      values_null_map)

/-- The element `repeated group g` with one child and no annotation. -/
def deep_group : SchemaElement :=
  sample_group "g" FieldRepetitionType.REPEATED 1 none

/-- The element `required int32 v`. -/
def deep_leaf : SchemaElement :=
  sample_primitive "v" FieldRepetitionType.REQUIRED ParquetType.INT32 none

/-- The flattened schema of `required int32 v` inside `n` nested groups
`repeated group g`, under the root. -/
def deep_schema (n : Nat) : List SchemaElement :=
  sample_root 1 :: (List.replicate n deep_group ++ [deep_leaf])

/-- A default-constructed node whose three levels have been set, as
`set_child_node_level` leaves a node that `resize` has made. -/
def fresh_node (r d q : Int) : FieldSchema :=
  { FieldSchema.default with
    repetition_level := r, definition_level := d, repeated_parent_def_level := q }

/-- The statuses with which resolve can stop at the end of a sequence that holds only
the first `n` elements of `t_schemas`: the out-of-bounds status of `parse_node_field`;
the status of `parse_list_field` for a list without second level, when the last element
held is a group annotated as a list; the status of `parse_map_field` for a map of less
than three levels, when one of the last two elements held is a group annotated as a
map. -/
def cut_status (t_schemas : List SchemaElement) (n : Nat) (msg : String) : Prop :=
  msg = "Out-of-bounds index of schema elements" ∨
    (msg = "List element should have the second level schema" ∧
      ∃ e, 1 ≤ n ∧ t_schemas[n - 1]? = some e ∧ is_group_node e = true ∧
        is_list_node e = true) ∨
    (msg = "Map element should have at least three levels" ∧
      ∃ p e, p < n ∧ n ≤ p + 2 ∧ t_schemas[p]? = some e ∧ is_group_node e = true ∧
        is_map_node e = true)

/-- An outcome that is one of the statuses of `cut_status`. -/
def cut_failure (t_schemas : List SchemaElement) (n : Nat) (o : Outcome) : Prop :=
  ∃ msg, o = Outcome.InvalidArgument msg ∧ cut_status t_schemas n msg

/-- The node parser `recc` runs on the first `n` elements as `recf` runs on the whole
sequence, from position `a` on: a call of `recc` returns what the call of `recf`
returns, which if it is a success has not moved the cursor past `n`, or it stops with a
status of `cut_status`. -/
def CutSim (t_schemas : List SchemaElement) (n : Nat) (recf recc : NodeParser) (a : Nat) :
    Prop :=
  ∀ q node self, a ≤ q →
    (recc q node self = recf q node self ∧
      ((recf q node self).1 = Outcome.OK → (recf q node self).2.2._next_schema_pos ≤ n)) ∨
    cut_failure t_schemas n (recc q node self).1

/-! # Theorems -/

/-! ## Subtree sizes -/

theorem subtrees_size_add (j k : Nat) (l : List SchemaElement) :
    subtrees_size (j + k) l
      = subtrees_size j l + subtrees_size k (l.drop (subtrees_size j l)) := by
  induction l generalizing j with
  | nil =>
    cases j with
    | zero => simp [subtrees_size]
    | succ j =>
      cases k <;> simp [subtrees_size, Nat.add_right_comm]
  | cons e rest ih =>
    cases j with
    | zero => simp [subtrees_size]
    | succ j =>
      have h : j + 1 + k = (j + k) + 1 := by omega
      rw [h]
      simp only [subtrees_size]
      have h2 : j + k + e.num_children_raw.toNat = (j + e.num_children_raw.toNat) + k := by omega
      rw [h2, ih]
      rw [Nat.add_comm 1 (subtrees_size _ _), List.drop_succ_cons]
      omega

theorem subtrees_size_le (k : Nat) (l : List SchemaElement) : subtrees_size k l ≤ l.length := by
  induction l generalizing k with
  | nil => cases k <;> simp [subtrees_size]
  | cons e rest ih =>
    cases k with
    | zero => simp [subtrees_size]
    | succ k => simp only [subtrees_size, List.length_cons]; have := ih (k + e.num_children_raw.toNat); omega

theorem subtree_size_eq (ts : List SchemaElement) (p : Nat) (e : SchemaElement)
    (h : ts[p]? = some e) :
    subtree_size ts p = 1 + subtrees_size e.num_children_raw.toNat (ts.drop (p + 1)) := by
  have hp : p < ts.length := by
    rcases Nat.lt_or_ge p ts.length with h1 | h1
    · exact h1
    · rw [List.getElem?_eq_none h1] at h; cases h
  have hd : ts.drop p = e :: ts.drop (p + 1) := by
    rw [List.drop_eq_getElem_cons hp]
    rw [List.getElem?_eq_getElem hp] at h
    injection h with h
    rw [h]
  simp [subtree_size, hd, subtrees_size]

theorem subtree_size_pos (ts : List SchemaElement) (p : Nat) (h : p < ts.length) :
    0 < subtree_size ts p := by
  rw [subtree_size_eq ts p ts[p] (List.getElem?_eq_getElem h)]; omega

theorem subtree_size_le (ts : List SchemaElement) (p : Nat) :
    p + subtree_size ts p ≤ max p ts.length := by
  have := subtrees_size_le 1 (ts.drop p)
  simp only [List.length_drop] at this
  unfold subtree_size
  omega

theorem subtrees_size_succ (ts : List SchemaElement) (a k : Nat) :
    subtrees_size (k + 1) (ts.drop a)
      = subtree_size ts a + subtrees_size k (ts.drop (a + subtree_size ts a)) := by
  rw [Nat.add_comm k 1, subtrees_size_add, List.drop_drop]
  rfl

/-! ## Paths and leaf positions -/

theorem path_cons (ts : List SchemaElement) (a j : Nat) (h1 : a ≤ j)
    (h2 : j < a + subtree_size ts a) : path ts a j = a :: path ts (a + 1) j := by
  unfold path
  have h : j + 1 - a = (j + 1 - (a + 1)) + 1 := by omega
  rw [h, List.range'_succ, List.filter_cons]
  simp [h2]

theorem path_skip (ts : List SchemaElement) (a j : Nat) (h1 : a ≤ j)
    (h2 : a + subtree_size ts a ≤ j) : path ts a j = path ts (a + 1) j := by
  unfold path
  have h : j + 1 - a = (j + 1 - (a + 1)) + 1 := by omega
  rw [h, List.range'_succ, List.filter_cons]
  have : ¬ j < a + subtree_size ts a := by omega
  simp [this]

theorem path_nil (ts : List SchemaElement) (a j : Nat) (h : j < a) : path ts a j = [] := by
  unfold path
  have : j + 1 - a = 0 := by omega
  simp [this]

theorem path_self (ts : List SchemaElement) (j : Nat) (h : j < ts.length) :
    path ts j j = [j] := by
  rw [path_cons ts j j (Nat.le_refl j) (by have := subtree_size_pos ts j h; omega),
    path_nil ts (j + 1) j (by omega)]

theorem path_skip_range (ts : List SchemaElement) (a b j : Nat) (hab : a ≤ b) (hbj : b ≤ j)
    (h : ∀ i, a ≤ i → i < b → i + subtree_size ts i ≤ j) : path ts a j = path ts b j := by
  obtain ⟨d, rfl⟩ : ∃ d, b = a + d := ⟨b - a, by omega⟩
  clear hab
  induction d with
  | zero => rfl
  | succ d ih =>
    rw [ih (by omega) (fun i h1 h2 => h i h1 (by omega))]
    have := path_skip ts (a + d) j (by omega) (h (a + d) (by omega) (by omega))
    rw [this]; rfl

theorem leaf_positions_append (ts : List SchemaElement) (a b c : Nat) (hab : a ≤ b)
    (hbc : b ≤ c) : leaf_positions ts a c = leaf_positions ts a b ++ leaf_positions ts b c := by
  unfold leaf_positions
  have h : c - a = (c - b) + (b - a) := by omega
  rw [h, ← List.range'_append_1, List.filter_append]
  have : a + (b - a) = b := by omega
  rw [this]

theorem leaf_positions_empty (ts : List SchemaElement) (a : Nat) : leaf_positions ts a a = [] := by
  simp [leaf_positions]

theorem leaf_positions_one (ts : List SchemaElement) (a : Nat) :
    leaf_positions ts a (a + 1)
      = if is_group_node (ts.getD a SchemaElement.default) then [] else [a] := by
  simp [leaf_positions, List.filter_cons]
  split <;> simp_all

theorem mem_leaf_positions (ts : List SchemaElement) (a b j : Nat)
    (h : j ∈ leaf_positions ts a b) : a ≤ j ∧ j < b := by
  unfold leaf_positions at h
  rw [List.mem_filter, List.mem_range'_1] at h
  omega

/-! ## Leaves, resizing and the children loop -/

theorem leaves_of_nil (f : FieldSchema) (h : f.children = []) : f.leaves = [f] := by
  cases f with
  | mk n ps dt pt pci dl rl rpdl cs tc fid =>
    simp only at h
    subst h
    simp [FieldSchema.leaves]

theorem leaves_of_cons (f : FieldSchema) (c : FieldSchema) (cs : List FieldSchema)
    (h : f.children = c :: cs) : f.leaves = forest_leaves (c :: cs) := by
  cases f with
  | mk n ps dt pt pci dl rl rpdl cs' tc fid =>
    simp only at h
    subst h
    simp [FieldSchema.leaves]

theorem forest_leaves_append (l₁ l₂ : List FieldSchema) :
    forest_leaves (l₁ ++ l₂) = forest_leaves l₁ ++ forest_leaves l₂ := by
  induction l₁ with
  | nil => simp [forest_leaves]
  | cons c cs ih => simp [forest_leaves, ih]

theorem forest_leaves_single (c : FieldSchema) : forest_leaves [c] = c.leaves := by
  simp [forest_leaves]

theorem resize_nil (n : Nat) : resize [] n = List.replicate n FieldSchema.default := by
  simp [resize]

theorem resize_length (l : List FieldSchema) (n : Nat) : (resize l n).length = n := by
  simp [resize]; omega

theorem parse_physical_field_ok (e : SchemaElement) (b : Bool) (f f' : FieldSchema)
    (self self' : FieldDescriptor)
    (h : parse_physical_field e b f self = (Outcome.OK, f', self')) :
    f'.children = f.children ∧ f'.view = ⟨e.name, e, some e.type, f.levels⟩ ∧
      f'.physical_column_index = (self._physical_fields.length : Int) ∧
      self' = { self with _physical_fields := self._physical_fields ++ [f'] } := by
  unfold parse_physical_field at h
  cases hg : get_doris_type e b with
  | error w => rw [hg] at h; simp at h
  | ok t =>
    rw [hg] at h
    simp only [Prod.mk.injEq, true_and] at h
    obtain ⟨h1, h2⟩ := h
    subst h1
    subst h2
    simp [FieldSchema.view, FieldSchema.levels]

theorem parse_struct_children_eq (rec : NodeParser) (k i : Nat) (cs : List FieldSchema)
    (self : FieldDescriptor) (h : i + k ≤ cs.length) :
    parse_struct_children rec k i cs self
      = ((parse_seq rec ((cs.drop i).take k) self).1,
          cs.take i ++ (parse_seq rec ((cs.drop i).take k) self).2.1 ++ cs.drop (i + k),
          (parse_seq rec ((cs.drop i).take k) self).2.2) := by
  induction k generalizing i cs self with
  | zero => simp [parse_struct_children, parse_seq]
  | succ k ih =>
    have hi : i < cs.length := by omega
    have hd : (cs.drop i).take (k + 1) = cs[i] :: (cs.drop (i + 1)).take k := by
      rw [List.drop_eq_getElem_cons hi, List.take_succ_cons]
    have hg : cs.getD i FieldSchema.default = cs[i] := by
      simp [List.getD_eq_getElem?_getD, List.getElem?_eq_getElem hi]
    rw [hd]
    unfold parse_struct_children
    rw [hg]
    simp only [parse_seq]
    have hset : ∀ c', cs.set i c' = cs.take i ++ c' :: cs.drop (i + 1) := by
      intro c'
      rw [List.set_eq_take_append_cons_drop, if_pos hi]
    have hdd : cs.drop (i + 1) = (cs.drop (i + 1)).take k ++ cs.drop (i + (k + 1)) := by
      have := List.take_append_drop k (cs.drop (i + 1))
      rw [List.drop_drop] at this
      have h3 : i + 1 + k = i + (k + 1) := by omega
      rw [h3] at this
      exact this.symm
    have hlen : (cs.take i).length = i := by
      rw [List.length_take]; omega
    rcases hr : rec self._next_schema_pos cs[i] self with ⟨o, c', self1⟩
    cases o with
    | OK =>
      simp only
      rw [ih (i + 1) (cs.set i c') self1 (by simp; omega)]
      have e1 : (cs.set i c').drop (i + 1) = cs.drop (i + 1) := by
        rw [hset, List.drop_append_eq_append_drop]
        simp [hlen]
      have e2 : (cs.set i c').take (i + 1) = cs.take i ++ [c'] := by
        rw [hset, List.take_append_eq_append_take]
        simp [hlen]
      have e3 : (cs.set i c').drop (i + 1 + k) = cs.drop (i + (k + 1)) := by
        have h3 : i + 1 + k = (i + 1) + k := rfl
        rw [h3, ← List.drop_drop, e1, List.drop_drop]
        congr 1
        omega
      rw [e1, e2, e3]
      simp
    | InvalidArgument m =>
      simp only [List.append_assoc, List.cons_append]
      rw [hset, ← hdd]
    | Exception w =>
      simp only [List.append_assoc, List.cons_append]
      rw [hset, ← hdd]
    | OutOfBounds =>
      simp only [List.append_assoc, List.cons_append]
      rw [hset, ← hdd]
    | OutOfFuel =>
      simp only [List.append_assoc, List.cons_append]
      rw [hset, ← hdd]

/-! ## The children loop -/

theorem expected_view_congr (ts : List SchemaElement) (base : Levels) (a b j : Nat)
    (h : path ts a j = path ts b j) : expected_view ts base a j = expected_view ts base b j := by
  simp [expected_view, h]

theorem parse_seq_ok (ts : List SchemaElement) (rec : NodeParser) (hrec : Good ts rec)
    (cs : List FieldSchema) (self : FieldDescriptor) (cs' : List FieldSchema)
    (self' : FieldDescriptor) (h : parse_seq rec cs self = (Outcome.OK, cs', self')) :
    SeqOK ts self._next_schema_pos cs self cs' self' := by
  induction cs generalizing self cs' self' with
  | nil =>
    simp only [parse_seq, Prod.mk.injEq, true_and] at h
    obtain ⟨h1, h2⟩ := h
    subst h1; subst h2
    refine ⟨by simp [subtrees_size], by omega, by omega, rfl, rfl, ?_, rfl, ?_, ?_, ?_⟩
    · intro i h1 h2; omega
    · intro _; simp [forest_leaves]
    · intro _; simp [forest_leaves]
    · intro base _; simp [forest_leaves, leaf_positions_empty]
  | cons c rest ih =>
    simp only [parse_seq] at h
    rcases hr : rec self._next_schema_pos c self with ⟨o, c', s1⟩
    rw [hr] at h
    cases o with
    | OK =>
      simp only at h
      rcases hr2 : parse_seq rec rest s1 with ⟨o2, rest', s2⟩
      rw [hr2] at h
      simp only [Prod.mk.injEq] at h
      obtain ⟨ho, hcs, hs⟩ := h
      subst ho; subst hcs; subst hs
      have N := hrec _ _ _ _ _ hr
      have S := ih s1 rest' s2 hr2
      have hb : s1._next_schema_pos = self._next_schema_pos + subtree_size ts self._next_schema_pos :=
        N.next_eq
      have hnext : s2._next_schema_pos = self._next_schema_pos +
          subtrees_size (c :: rest).length (ts.drop self._next_schema_pos) := by
        rw [S.next_eq, hb, List.length_cons, subtrees_size_succ]; omega
      have hnest : ∀ i, self._next_schema_pos ≤ i → i < s2._next_schema_pos →
          i + subtree_size ts i ≤ s2._next_schema_pos := by
        intro i h1 h2
        rcases Nat.lt_or_ge i s1._next_schema_pos with h3 | h3
        · have := N.nest i h1 h3
          have := S.next_ge
          omega
        · exact S.nest i h3 h2
      refine ⟨hnext, ?_, ?_, ?_, ?_, hnest, ?_, ?_, ?_, ?_⟩
      · have := S.next_le; have := N.next_le; omega
      · have := S.next_ge; have := N.next_gt; omega
      · rw [S.fields_eq, N.fields_eq]
      · rw [S.names_eq, N.names_eq]
      · simp [S.length_eq]
      · intro hf
        have h1 := N.phys (hf c (List.mem_cons_self _ _))
        have h2 := S.phys (fun x hx => hf x (List.mem_cons_of_mem _ hx))
        rw [h2, h1]; simp [forest_leaves]
      · intro hf
        have h0 := N.phys (hf c (List.mem_cons_self _ _))
        have h1 := N.pci (hf c (List.mem_cons_self _ _))
        have h2 := S.pci (fun x hx => hf x (List.mem_cons_of_mem _ hx))
        simp only [forest_leaves, List.map_append, List.length_append]
        rw [h1, h2, h0, List.length_append, Nat.add_comm c'.leaves.length,
          ← List.range'_append_1, List.map_append]
      · intro base hf
        have h1 := N.views (hf c (List.mem_cons_self _ _)).1
        have h2 := S.views base (fun x hx => hf x (List.mem_cons_of_mem _ hx))
        rw [(hf c (List.mem_cons_self _ _)).2] at h1
        simp only [forest_leaves, List.map_append]
        rw [h1, h2, leaf_positions_append ts _ s1._next_schema_pos s2._next_schema_pos
          (Nat.le_of_lt N.next_gt) S.next_ge, List.map_append]
        congr 1
        apply List.map_congr_left
        intro j hj
        have hj2 := mem_leaf_positions ts _ _ j hj
        apply expected_view_congr
        apply (path_skip_range ts _ _ j (Nat.le_of_lt N.next_gt) hj2.1 _).symm
        intro i h3 h4
        have := N.nest i h3 h4
        omega
    | InvalidArgument m => simp at h
    | Exception w => simp at h
    | OutOfBounds => simp at h
    | OutOfFuel => simp at h

/-! ## Structs -/

theorem getD_of_getElem? (ts : List SchemaElement) (p : Nat) (e : SchemaElement)
    (h : ts[p]? = some e) : ts.getD p SchemaElement.default = e := by
  simp [List.getD_eq_getElem?_getD, h]

theorem lt_of_getElem? (ts : List SchemaElement) (p : Nat) (e : SchemaElement)
    (h : ts[p]? = some e) : p < ts.length := by
  rcases Nat.lt_or_ge p ts.length with h1 | h1
  · exact h1
  · rw [List.getElem?_eq_none h1] at h; cases h

theorem views_lift (ts : List SchemaElement) (q next : Nat) (base : Levels)
    (e : SchemaElement) (he : ts[q]? = some e) (hg : is_group_node e = true)
    (hnext : next = q + subtree_size ts q) :
    (leaf_positions ts (q + 1) next).map (expected_view ts (base.step e) (q + 1))
      = (leaf_positions ts q next).map (expected_view ts base q) := by
  have hq := lt_of_getElem? ts q e he
  have hpos := subtree_size_pos ts q hq
  rw [leaf_positions_append ts q (q + 1) next (by omega) (by omega), leaf_positions_one,
    getD_of_getElem? ts q e he, hg]
  simp only [if_true, List.nil_append]
  apply List.map_congr_left
  intro j hj
  have hj2 := mem_leaf_positions ts _ _ j hj
  simp only [expected_view]
  rw [path_cons ts q j (by omega) (by omega)]
  simp [List.getD_eq_getElem?_getD, he]

theorem struct_children_fresh (f : FieldSchema) (n : Nat) (rp : Int) (h : f.children = []) :
    ∀ c ∈ (set_child_node_level { f with children := resize f.children n } rp).children,
      c.children = [] ∧
        c.levels = ⟨f.repetition_level, f.definition_level, rp⟩ := by
  intro c hc
  simp only [set_child_node_level, h, resize_nil, List.map_replicate] at hc
  rw [List.mem_replicate] at hc
  rw [hc.2]
  simp [FieldSchema.default, FieldSchema.levels]

theorem struct_children_length (f : FieldSchema) (n : Nat) (rp : Int) :
    (set_child_node_level { f with children := resize f.children n } rp).children.length
      = n := by
  simp [set_child_node_level, resize_length]

theorem parse_struct_field_ok (ts : List SchemaElement) (rec : NodeParser)
    (hrec : Good ts rec) (p : Nat) (e : SchemaElement) (he : ts[p]? = some e)
    (hn : 0 < e.num_children_raw) (node : FieldSchema) (self : FieldDescriptor)
    (node' : FieldSchema) (self' : FieldDescriptor)
    (h : parse_struct_field rec ts p node self = (Outcome.OK, node', self')) :
    SubtreeOK ts p (p + 1) (struct_child_levels e node) node self node' self' := by
  unfold parse_struct_field at h
  rw [he] at h
  simp only at h
  rw [if_neg (by omega)] at h
  rw [parse_struct_children_eq _ _ _ _ _ (by rw [struct_children_length]; omega)] at h
  simp only [List.drop_zero, List.take_zero, List.nil_append, Nat.zero_add] at h
  generalize hf1 : (if is_optional_node e = true then
      ({ node with definition_level := to_int16 (node.definition_level + 1) } : FieldSchema)
    else node) = f1 at h
  have hf1c : f1.children = node.children := by
    subst hf1; split <;> rfl
  have hf1l : (⟨f1.repetition_level, f1.definition_level, f1.repeated_parent_def_level⟩ : Levels)
      = struct_child_levels e node := by
    subst hf1; unfold struct_child_levels; split <;> simp
  generalize hcs : (set_child_node_level
      { f1 with children := resize f1.children e.num_children_raw.toNat }
      f1.repeated_parent_def_level) = f3 at h
  have hlen : f3.children.length = e.num_children_raw.toNat := by
    subst hcs; exact struct_children_length _ _ _
  rw [List.take_of_length_le (by omega), List.drop_of_length_le (by omega)] at h
  rcases hr : parse_seq rec f3.children { self with _next_schema_pos := p + 1 }
    with ⟨o, cs', s2⟩
  rw [hr] at h
  cases o with
  | OK =>
    simp only [List.append_nil, Prod.mk.injEq, true_and] at h
    obtain ⟨h1, h2⟩ := h
    subst h2
    have S := parse_seq_ok ts rec hrec _ _ _ _ hr
    simp only at S
    have hp := lt_of_getElem? ts p e he
    have hsize := subtree_size_eq ts p e he
    have hnext : s2._next_schema_pos = p + subtree_size ts p := by
      rw [S.next_eq, hsize, hlen]; omega
    have hcs' : ∃ c rest, cs' = c :: rest := by
      cases hc : cs' with
      | nil =>
        have := S.length_eq
        rw [hc, hlen] at this
        simp at this
        omega
      | cons c rest => exact ⟨c, rest, rfl⟩
    obtain ⟨c, rest, hcr⟩ := hcs'
    have hleaves : node'.leaves = forest_leaves cs' := by
      rw [hcr]
      apply leaves_of_cons
      rw [← h1, ← hcr]
    have hfresh : node.children = [] → ∀ c ∈ f3.children, c.children = [] ∧
        c.levels = struct_child_levels e node := by
      intro hnc c hc
      rw [← hcs] at hc
      have := struct_children_fresh f1 _ _ (hf1c.trans hnc) c hc
      rw [hf1l] at this
      exact this
    refine ⟨hnext, ?_, ?_, ?_, ?_, ?_, ?_, ?_, ?_⟩
    · have := S.next_le; omega
    · exact S.next_ge
    · exact S.fields_eq
    · exact S.names_eq
    · intro i h3 h4
      rcases Nat.eq_or_lt_of_le h3 with h5 | h5
      · subst h5; omega
      · exact S.nest i h5 h4
    · intro hnc
      rw [hleaves]
      exact S.phys (fun c hc => (hfresh hnc c hc).1)
    · intro hnc
      rw [hleaves]
      exact S.pci (fun c hc => (hfresh hnc c hc).1)
    · intro hnc
      rw [hleaves]
      exact S.views _ (hfresh hnc)
  | InvalidArgument m => simp at h
  | Exception w => simp at h
  | OutOfBounds => simp at h
  | OutOfFuel => simp at h

/-! ## Opening a repeated level -/

theorem singleton_of_length_one (l : List FieldSchema) (h : l.length = 1) :
    l = [l.getD 0 FieldSchema.default] := by
  cases l with
  | nil => simp at h
  | cons a rest =>
    cases rest with
    | nil => simp
    | cons b rest => simp at h

theorem open_repeated_level_length (b : Bool) (f : FieldSchema) :
    (open_repeated_level b f).children.length = 1 := by
  simp [open_repeated_level, set_child_node_level, resize_length]

theorem open_repeated_level_children (b : Bool) (f : FieldSchema) :
    ∃ lc, (open_repeated_level b f).children = [lc] ∧
      (f.children = [] → lc.children = [] ∧
        lc.levels = ⟨to_int16 (f.repetition_level + 1),
          to_int16 ((if b then to_int16 (f.definition_level + 1) else f.definition_level) + 1),
          to_int16 ((if b then to_int16 (f.definition_level + 1) else f.definition_level) + 1)⟩) := by
  refine ⟨(open_repeated_level b f).children.getD 0 FieldSchema.default,
    singleton_of_length_one _ (open_repeated_level_length b f), fun hc => ?_⟩
  cases b <;>
    simp [open_repeated_level, set_child_node_level, hc, resize, FieldSchema.default,
      FieldSchema.levels]

theorem is_repeated_node_iff (e : SchemaElement) :
    is_repeated_node e = true ↔ e.repetition_type_raw = FieldRepetitionType.REPEATED := by
  unfold is_repeated_node SchemaElement.repetition_type_raw
  cases h : e.repetition_type with
  | none => simp
  | some r => cases r <;> simp

theorem not_optional_of_repeated (e : SchemaElement) (h : is_repeated_node e = true) :
    is_optional_node e = false := by
  unfold is_repeated_node at h
  unfold is_optional_node
  cases h2 : e.repetition_type with
  | none => simp
  | some r => cases r <;> simp_all

theorem step_not_repeated (base : Levels) (e : SchemaElement) (h : is_repeated_node e = false) :
    base.step e = ⟨base.repetition_level,
      if is_optional_node e then to_int16 (base.definition_level + 1) else base.definition_level,
      base.repeated_parent_def_level⟩ := by
  simp [Levels.step, h]

theorem step_repeated (base : Levels) (e : SchemaElement) (h : is_repeated_node e = true) :
    base.step e = ⟨to_int16 (base.repetition_level + 1), to_int16 (base.definition_level + 1),
      to_int16 (base.definition_level + 1)⟩ := by
  simp [Levels.step, h]

theorem struct_child_levels_repeated (e : SchemaElement) (f : FieldSchema)
    (h : is_repeated_node e = true) : struct_child_levels e f = f.levels := by
  simp [struct_child_levels, not_optional_of_repeated e h, FieldSchema.levels]

theorem struct_child_levels_not_repeated (e : SchemaElement) (f : FieldSchema)
    (h : is_repeated_node e = false) : struct_child_levels e f = f.levels.step e := by
  rw [step_not_repeated _ _ h]
  simp [struct_child_levels, FieldSchema.levels]

theorem parse_struct_field_nonneg (ts : List SchemaElement) (rec : NodeParser) (p : Nat)
    (e : SchemaElement) (he : ts[p]? = some e) (node : FieldSchema) (self : FieldDescriptor)
    (node' : FieldSchema) (self' : FieldDescriptor)
    (h : parse_struct_field rec ts p node self = (Outcome.OK, node', self')) :
    0 ≤ e.num_children_raw := by
  unfold parse_struct_field at h
  rw [he] at h
  simp only at h
  by_contra hneg
  rw [if_pos (by omega)] at h
  simp at h

/-! ## Lists -/

theorem expected_view_self (ts : List SchemaElement) (base : Levels) (j : Nat)
    (e : SchemaElement) (he : ts[j]? = some e) :
    expected_view ts base j j = ⟨e.name, e, some e.type, base.step e⟩ := by
  simp [expected_view, path_self ts j (lt_of_getElem? ts j e he), List.getD_eq_getElem?_getD, he]

theorem finish_list_field_children (first : SchemaElement) (b : Bool) (f : FieldSchema) :
    (finish_list_field first b f).children = f.children := by
  simp [finish_list_field]

theorem subtree_size_one_child (ts : List SchemaElement) (p : Nat) (e : SchemaElement)
    (he : ts[p]? = some e) (h : e.num_children_raw = 1) :
    subtree_size ts p = 1 + subtree_size ts (p + 1) := by
  rw [subtree_size_eq ts p e he, h]
  rfl

theorem subtree_size_no_child (ts : List SchemaElement) (p : Nat) (e : SchemaElement)
    (he : ts[p]? = some e) (h : e.num_children_raw ≤ 0) : subtree_size ts p = 1 := by
  rw [subtree_size_eq ts p e he]
  have : e.num_children_raw.toNat = 0 := by omega
  rw [this]
  simp [subtrees_size]

theorem list_child_levels (node : FieldSchema) (first second : SchemaElement)
    (h1 : ¬ first.repetition_type_raw = FieldRepetitionType.REPEATED)
    (h2 : second.repetition_type_raw = FieldRepetitionType.REPEATED) :
    (⟨to_int16 (node.repetition_level + 1),
      to_int16 ((if is_optional_node first = true then to_int16 (node.definition_level + 1)
        else node.definition_level) + 1),
      to_int16 ((if is_optional_node first = true then to_int16 (node.definition_level + 1)
        else node.definition_level) + 1)⟩ : Levels)
      = (node.levels.step first).step second := by
  have r1 : is_repeated_node first = false := by
    rw [← Bool.not_eq_true, is_repeated_node_iff]; exact h1
  have r2 : is_repeated_node second = true := (is_repeated_node_iff second).2 h2
  rw [step_repeated _ _ r2, step_not_repeated _ _ r1]
  simp [FieldSchema.levels]

theorem num_children_node_eq (e : SchemaElement) : num_children_node e = e.num_children_raw := by
  unfold num_children_node SchemaElement.num_children_raw
  cases e.num_children <;> rfl

theorem subtree_to_node_ok (ts : List SchemaElement) (p : Nat) (e : SchemaElement)
    (he : ts[p]? = some e) (hg : is_group_node e = true) (node lc child node' : FieldSchema)
    (self s1 : FieldDescriptor)
    (S : SubtreeOK ts p (p + 1) (node.levels.step e) lc self child s1)
    (hfresh : node.children = [] → lc.children = [])
    (hleaves : node'.leaves = child.leaves) : NodeOK ts p node self node' s1 := by
  have hp := lt_of_getElem? ts p e he
  refine ⟨S.next_eq, S.next_le, ?_, S.fields_eq, S.names_eq, S.nest, ?_, ?_, ?_⟩
  · have := S.next_ge; omega
  · intro hnc; rw [hleaves]; exact S.phys (hfresh hnc)
  · intro hnc; rw [hleaves]; exact S.pci (hfresh hnc)
  · intro hnc
    rw [hleaves, S.views (hfresh hnc), views_lift ts p _ _ e he hg S.next_eq]

theorem wrapped_to_node_ok (ts : List SchemaElement) (p : Nat) (first second : SchemaElement)
    (he : ts[p]? = some first) (he2 : ts[p + 1]? = some second)
    (hn1 : first.num_children_raw = 1) (hg2 : is_group_node second = true)
    (node lc child node' : FieldSchema) (self s1 : FieldDescriptor)
    (S : SubtreeOK ts (p + 1) (p + 2) lc.levels lc self child s1)
    (hfresh : node.children = [] →
      lc.children = [] ∧ lc.levels = (node.levels.step first).step second)
    (hleaves : node'.leaves = child.leaves) : NodeOK ts p node self node' s1 := by
  have hs1 := subtree_size_one_child ts p first he hn1
  have hg1 : is_group_node first = true := by simp [is_group_node, hn1]
  have hnext : s1._next_schema_pos = p + subtree_size ts p := by
    rw [S.next_eq, hs1]; omega
  refine ⟨hnext, S.next_le, ?_, S.fields_eq, S.names_eq, ?_, ?_, ?_, ?_⟩
  · have := S.next_ge; omega
  · intro i h3 h4
    rcases Nat.eq_or_lt_of_le h3 with h5 | h5
    · subst h5; omega
    · exact S.nest i h5 h4
  · intro hnc; rw [hleaves]; exact S.phys (hfresh hnc).1
  · intro hnc; rw [hleaves]; exact S.pci (hfresh hnc).1
  · intro hnc
    rw [hleaves, S.views (hfresh hnc).1, (hfresh hnc).2,
      views_lift ts (p + 1) _ _ second he2 hg2 S.next_eq,
      views_lift ts p _ _ first he hg1 hnext]

theorem parse_list_field_ok (ts : List SchemaElement) (rec : NodeParser)
    (hrec : Good ts rec) (p : Nat) (node : FieldSchema) (self : FieldDescriptor)
    (node' : FieldSchema) (self' : FieldDescriptor)
    (h : parse_list_field rec ts p node self = (Outcome.OK, node', self')) :
    NodeOK ts p node self node' self' := by
  unfold parse_list_field at h
  split at h
  · simp at h
  · rename_i first he
    split at h
    · simp at h
    · rename_i hn1
      split at h
      · simp at h
      · rename_i hlen
        split at h
        · simp at h
        · rename_i hrep1
          split at h
          · simp at h
          · rename_i second he2
            split at h
            · simp at h
            · rename_i hrep2
              simp only at h
              obtain ⟨lc, hlc, hfresh⟩ :=
                open_repeated_level_children (is_optional_node first) node
              rw [hlc] at h
              simp only [List.getD_cons_zero, List.set_cons_zero] at h
              have hn1' : first.num_children_raw = 1 := by
                by_contra hc; exact hn1 hc
              have hrep2' : second.repetition_type_raw = FieldRepetitionType.REPEATED := by
                by_contra hc; exact hrep2 hc
              have hs1 := subtree_size_one_child ts p first he hn1'
              have hg1 : is_group_node first = true := by
                simp [is_group_node, hn1']
              have hlv := list_child_levels node first second hrep1 hrep2'
              have hr2 : is_repeated_node second = true := (is_repeated_node_iff second).2 hrep2'
              rw [num_children_node_eq] at h
              split at h
              · -- three levels
                rename_i hnz
                split at h
                · rename_i child self1 hres
                  simp only [Prod.mk.injEq, true_and] at h
                  obtain ⟨hnode, hself⟩ := h
                  subst hself
                  have hleaves : node'.leaves = child.leaves := by
                    rw [leaves_of_cons node' child [] (by rw [← hnode, finish_list_field_children]),
                      forest_leaves_single]
                  -- facts common to both ways of parsing the element
                  have key : SubtreeOK ts (p + 1) (p + 2) lc.levels lc self child self1 ∧
                      is_group_node second = true := by
                    split at hres
                    · rename_i hone
                      have N := hrec _ _ _ _ _ hres
                      have hs2 : subtree_size ts (p + 1) = 1 + subtree_size ts (p + 2) :=
                        subtree_size_one_child ts (p + 1) second he2 hone.1
                      refine ⟨⟨?_, N.next_le, Nat.le_of_lt N.next_gt, N.fields_eq, N.names_eq,
                        ?_, N.phys, N.pci, N.views⟩, by simp [is_group_node, hone.1]⟩
                      · rw [N.next_eq, hs2]; omega
                      · intro i h3 h4
                        rcases Nat.eq_or_lt_of_le h3 with h5 | h5
                        · subst h5; rw [N.next_eq, hs2]; omega
                        · exact N.nest i h5 h4
                    · have hnn := parse_struct_field_nonneg ts rec (p + 1) second he2 _ _ _ _ hres
                      have hpos : 0 < second.num_children_raw := by omega
                      have S := parse_struct_field_ok ts rec hrec (p + 1) second he2 hpos _ _ _ _ hres
                      rw [struct_child_levels_repeated second lc hr2] at S
                      exact ⟨S, by simp [is_group_node, hpos]⟩
                  obtain ⟨S, hg2⟩ := key
                  exact wrapped_to_node_ok ts p first second he he2 hn1' hg2 node lc child node'
                    self self1 S (fun hnc => ⟨(hfresh hnc).1, (hfresh hnc).2.trans hlv⟩) hleaves
                · rename_i hne _
                  simp only [Prod.mk.injEq] at h
                  exact (hne h.1).elim
              · -- two levels
                rename_i hz
                have hz' : second.num_children_raw = 0 := by
                  by_contra hc; exact hz hc
                split at h
                · rename_i child self1 hres
                  simp only [Prod.mk.injEq, true_and] at h
                  obtain ⟨hnode, hself⟩ := h
                  subst hself
                  obtain ⟨hc1, hv, hpci, hs⟩ := parse_physical_field_ok _ _ _ _ _ _ hres
                  have hs2 := subtree_size_no_child ts (p + 1) second he2 (by omega)
                  have hg2 : is_group_node second = false := by
                    simp [is_group_node, hz']
                  have hnext : p + 2 = p + subtree_size ts p := by omega
                  refine ⟨hnext, by simp only; omega, by simp only; omega, by simp [hs],
                    by simp [hs], ?_, ?_, ?_, ?_⟩
                  · intro i h3 h4
                    simp only at h4 ⊢
                    rcases Nat.eq_or_lt_of_le h3 with h5 | h5
                    · subst h5; omega
                    · have : i = p + 1 := by omega
                      subst this; omega
                  · intro hnc
                    have hleaves : node'.leaves = [child] := by
                      rw [leaves_of_cons node' child []
                        (by rw [← hnode, finish_list_field_children]), forest_leaves_single,
                        leaves_of_nil child (hc1.trans (hfresh hnc).1)]
                    rw [hleaves, hs]
                  · intro hnc
                    have hleaves : node'.leaves = [child] := by
                      rw [leaves_of_cons node' child []
                        (by rw [← hnode, finish_list_field_children]), forest_leaves_single,
                        leaves_of_nil child (hc1.trans (hfresh hnc).1)]
                    rw [hleaves]
                    simp [hpci]
                  · intro hnc
                    have hleaves : node'.leaves = [child] := by
                      rw [leaves_of_cons node' child []
                        (by rw [← hnode, finish_list_field_children]), forest_leaves_single,
                        leaves_of_nil child (hc1.trans (hfresh hnc).1)]
                    rw [hleaves]
                    simp only
                    rw [← views_lift ts p _ _ first he hg1 hnext, leaf_positions_one,
                      getD_of_getElem? ts (p + 1) second he2, hg2]
                    simp only [Bool.false_eq_true, if_false, List.map_cons, List.map_nil]
                    rw [expected_view_self ts _ (p + 1) second he2, hv, (hfresh hnc).2, hlv]
                · rename_i hne _
                  simp only [Prod.mk.injEq] at h
                  exact (hne h.1).elim

/-! ## Maps and groups -/

theorem parse_map_field_ok (ts : List SchemaElement) (rec : NodeParser)
    (hrec : Good ts rec) (p : Nat) (node : FieldSchema) (self : FieldDescriptor)
    (node' : FieldSchema) (self' : FieldDescriptor)
    (h : parse_map_field rec ts p node self = (Outcome.OK, node', self')) :
    NodeOK ts p node self node' self' := by
  unfold parse_map_field at h
  split at h
  · simp at h
  · split at h
    · rename_i map_schema kvs he he2
      split at h
      · simp at h
      · rename_i hn1
        split at h
        · simp at h
        · rename_i hrep1
          split at h
          · simp at h
          · rename_i hkv
            split at h
            · exact parse_list_field_ok ts rec hrec p node self node' self' h
            · split at h
              · simp at h
              · rename_i hne1 hn2
                simp only at h
                obtain ⟨lc, hlc, hfresh⟩ :=
                  open_repeated_level_children (is_optional_node map_schema) node
                rw [hlc] at h
                simp only [List.getD_cons_zero, List.set_cons_zero] at h
                have hn1' : map_schema.num_children_raw = 1 := by
                  by_contra hc; exact hn1 hc
                have hn2' : kvs.num_children_raw = 2 := by
                  by_contra hc; exact hn2 hc
                have hg2 : is_group_node kvs = true := by simp [is_group_node, hn2']
                have hr2 : is_repeated_node kvs = true := by
                  cases hx : is_repeated_node kvs
                  · simp [hx] at hkv
                  · rfl
                have hr1 : ¬ map_schema.repetition_type_raw = FieldRepetitionType.REPEATED := by
                  rw [← is_repeated_node_iff]; exact hrep1
                have hlv := list_child_levels node map_schema kvs hr1
                  ((is_repeated_node_iff kvs).1 hr2)
                split at h
                · rename_i kv self1 hres
                  have S := parse_struct_field_ok ts rec hrec (p + 1) kvs he2 (by omega)
                    _ _ _ _ hres
                  rw [struct_child_levels_repeated kvs lc hr2] at S
                  split at h
                  · simp only [Prod.mk.injEq, true_and] at h
                    obtain ⟨hnode, hself⟩ := h
                    subst hself
                    have hleaves : node'.leaves = kv.leaves := by
                      rw [leaves_of_cons node' kv [] (by rw [← hnode]), forest_leaves_single]
                    exact wrapped_to_node_ok ts p map_schema kvs he he2 hn1' hg2 node lc kv
                      node' self self1 S
                      (fun hnc => ⟨(hfresh hnc).1, (hfresh hnc).2.trans hlv⟩) hleaves
                  · simp at h
                · rename_i hne _
                  simp only [Prod.mk.injEq] at h
                  exact (hne h.1).elim
    · simp at h

theorem parse_group_field_ok (ts : List SchemaElement) (rec : NodeParser)
    (hrec : Good ts rec) (p : Nat) (e : SchemaElement) (he : ts[p]? = some e)
    (hg : is_group_node e = true) (node : FieldSchema) (self : FieldDescriptor)
    (node' : FieldSchema) (self' : FieldDescriptor)
    (h : parse_group_field rec ts p node self = (Outcome.OK, node', self')) :
    NodeOK ts p node self node' self' := by
  unfold parse_group_field at h
  rw [he] at h
  simp only at h
  have hpos : 0 < e.num_children_raw := by simpa [is_group_node] using hg
  split at h
  · exact parse_map_field_ok ts rec hrec p node self node' self' h
  · split at h
    · exact parse_list_field_ok ts rec hrec p node self node' self' h
    · split at h
      · rename_i hr
        obtain ⟨lc, hlc, hfresh⟩ := open_repeated_level_children false node
        rw [hlc] at h
        simp only [List.getD_cons_zero, List.set_cons_zero] at h
        split at h
        · rename_i child self1 hres
          simp only [Prod.mk.injEq, true_and] at h
          obtain ⟨hnode, hself⟩ := h
          subst hself
          have S := parse_struct_field_ok ts rec hrec p e he hpos _ _ _ _ hres
          rw [struct_child_levels_repeated e lc hr] at S
          have hleaves : node'.leaves = child.leaves := by
            rw [leaves_of_cons node' child [] (by rw [← hnode]), forest_leaves_single]
          by_cases hnc : node.children = []
          · have hl := (hfresh hnc).2
            simp only [Bool.false_eq_true, if_false] at hl
            have hst : node.levels.step e = ⟨to_int16 (node.repetition_level + 1), to_int16 (node.definition_level + 1),
                to_int16 (node.definition_level + 1)⟩ := step_repeated node.levels e hr
            rw [hl, ← hst] at S
            exact subtree_to_node_ok ts p e he hg node lc child node' self self1 S
              (fun _ => (hfresh hnc).1) hleaves
          · have hp := lt_of_getElem? ts p e he
            refine ⟨S.next_eq, S.next_le, ?_, S.fields_eq, S.names_eq, S.nest, ?_, ?_, ?_⟩
            · have := S.next_ge; omega
            · intro h1; exact (hnc h1).elim
            · intro h1; exact (hnc h1).elim
            · intro h1; exact (hnc h1).elim
        · rename_i hne _
          simp only [Prod.mk.injEq] at h
          exact (hne h.1).elim
      · rename_i hr
        have S := parse_struct_field_ok ts rec hrec p e he hpos _ _ _ _ h
        rw [struct_child_levels_not_repeated e node (by simpa using hr)] at S
        exact subtree_to_node_ok ts p e he hg node node node' node' self self' S
          (fun hnc => hnc) rfl

/-! ## Nodes -/

theorem leaf_node_ok (ts : List SchemaElement) (p : Nat) (e : SchemaElement)
    (he : ts[p]? = some e) (hg : is_group_node e = false) (b : Bool)
    (node lc child node' : FieldSchema) (self self1 : FieldDescriptor)
    (hres : parse_physical_field e b lc self = (Outcome.OK, child, self1))
    (hfresh : node.children = [] → lc.children = [] ∧ lc.levels = node.levels.step e)
    (hleaves : child.children = [] → node'.leaves = [child]) :
    NodeOK ts p node self node' { self1 with _next_schema_pos := p + 1 } := by
  obtain ⟨hc1, hv, hpci, hs⟩ := parse_physical_field_ok _ _ _ _ _ _ hres
  have hp := lt_of_getElem? ts p e he
  have hsz : subtree_size ts p = 1 :=
    subtree_size_no_child ts p e he (by simpa [is_group_node] using hg)
  refine ⟨by simp only; omega, by simp only; omega, by simp only; omega, by simp [hs],
    by simp [hs], ?_, ?_, ?_, ?_⟩
  · intro i h3 h4
    simp only at h4 ⊢
    have : i = p := by omega
    subst this; omega
  · intro hnc
    rw [hleaves (hc1.trans (hfresh hnc).1), hs]
  · intro hnc
    rw [hleaves (hc1.trans (hfresh hnc).1)]
    simp [hpci]
  · intro hnc
    rw [hleaves (hc1.trans (hfresh hnc).1)]
    simp only
    rw [leaf_positions_one, getD_of_getElem? ts p e he, hg]
    simp only [Bool.false_eq_true, if_false, List.map_cons, List.map_nil]
    rw [expected_view_self ts _ p e he, hv, (hfresh hnc).2]

theorem parse_node_field_good (ts : List SchemaElement) (fuel : Nat) :
    Good ts (parse_node_field fuel ts) := by
  induction fuel with
  | zero =>
    intro p node self node' self' h
    simp [parse_node_field] at h
  | succ fuel ih =>
    intro p node self node' self' h
    unfold parse_node_field at h
    split at h
    · simp at h
    · rename_i e he
      split at h
      · rename_i hg
        exact parse_group_field_ok ts _ ih p e he hg node self node' self' h
      · rename_i hg
        have hg' : is_group_node e = false := by simpa using hg
        split at h
        · rename_i hr
          simp only at h
          obtain ⟨lc, hlc, hfresh⟩ := open_repeated_level_children false node
          rw [hlc] at h
          simp only [List.getD_cons_zero, List.set_cons_zero] at h
          split at h
          · rename_i child self1 hres
            simp only [Prod.mk.injEq, true_and] at h
            obtain ⟨hnode, hself⟩ := h
            subst hself
            apply leaf_node_ok ts p e he hg' false node lc child node' self self1 hres
            · intro hnc
              refine ⟨(hfresh hnc).1, ?_⟩
              rw [(hfresh hnc).2, step_repeated _ _ hr]
              simp [FieldSchema.levels]
            · intro hcc
              rw [leaves_of_cons node' child [] (by rw [← hnode]), forest_leaves_single,
                leaves_of_nil child hcc]
          · rename_i hne _
            simp only [Prod.mk.injEq] at h
            exact (hne h.1).elim
        · rename_i hr
          simp only at h
          split at h
          · rename_i f2 self1 hres
            simp only [Prod.mk.injEq, true_and] at h
            obtain ⟨hnode, hself⟩ := h
            subst hself
            subst hnode
            apply leaf_node_ok ts p e he hg' _ node _ f2 f2 self self1 hres
            · intro hnc
              rw [step_not_repeated _ _ (by simpa using hr)]
              split <;> simp [hnc, FieldSchema.levels, *]
            · intro hcc
              exact leaves_of_nil f2 hcc
          · rename_i hne
            rcases hx : parse_physical_field e (is_optional_node e)
              (if is_optional_node e = true then
                { node with definition_level := to_int16 (node.definition_level + 1) } else node) self
              with ⟨o, c, s⟩
            rw [hx] at h
            simp only [Prod.mk.injEq] at h
            obtain ⟨h1, h2, h3⟩ := h
            subst h1
            exact (hne c s hx).elim

theorem parse_node_field_ok (ts : List SchemaElement) (fuel p : Nat) (node : FieldSchema)
    (self : FieldDescriptor) (node' : FieldSchema) (self' : FieldDescriptor)
    (h : parse_node_field fuel ts p node self = (Outcome.OK, node', self')) :
    NodeOK ts p node self node' self' :=
  parse_node_field_good ts fuel p node self node' self' h

/-! ## Top-level fields -/

theorem take_drop_succ (l : List FieldSchema) (i k : Nat) (hi : i < l.length) :
    (l.drop i).take (k + 1) = l[i] :: (l.drop (i + 1)).take k := by
  rw [List.drop_eq_getElem_cons hi, List.take_succ_cons]

theorem set_eq (l : List FieldSchema) (i : Nat) (x : FieldSchema) (hi : i < l.length) :
    l.set i x = l.take i ++ x :: l.drop (i + 1) := by
  rw [List.set_eq_take_append_cons_drop, if_pos hi]

theorem parse_from_thrift_fields_ok (ts : List SchemaElement) (k i : Nat)
    (fd fd' : FieldDescriptor) (hik : i + k ≤ fd._fields.length)
    (h : parse_from_thrift_fields ts k i fd = (Outcome.OK, fd')) :
    FieldsOK ts k i fd fd' := by
  induction k generalizing i fd with
  | zero =>
    simp only [parse_from_thrift_fields, Prod.mk.injEq, true_and] at h
    subst h
    refine ⟨by simp [subtrees_size], Nat.le_refl _, ?_, rfl, rfl, rfl, ?_, ?_, ?_⟩
    · intro x h1 h2; omega
    · intro _; simp [forest_leaves]
    · intro _; simp [forest_leaves]
    · intro base _; simp [forest_leaves, leaf_positions_empty]
  | succ k ih =>
    have hi : i < fd._fields.length := by omega
    unfold parse_from_thrift_fields at h
    have hg : fd._fields.getD i FieldSchema.default = fd._fields[i] := by
      simp [List.getD_eq_getElem?_getD, List.getElem?_eq_getElem hi]
    rw [hg] at h
    split at h
    · rename_i field s1 hres
      have N := parse_node_field_ok ts _ _ _ _ _ _ hres
      simp only at h
      split at h
      · simp at h
      · have hlen : (fd._fields.take i).length = i := by
          rw [List.length_take]; omega
        have hset : s1._fields.set i field
            = fd._fields.take i ++ field :: fd._fields.drop (i + 1) := by
          rw [N.fields_eq, set_eq _ _ _ hi]
        have hl3 : (s1._fields.set i field).length = fd._fields.length := by
          rw [hset]; simp [hlen]; omega
        have F := ih (i + 1) _ (by simp only; rw [hl3]; omega) h
        have Fnext : fd'._next_schema_pos
            = s1._next_schema_pos + subtrees_size k (ts.drop s1._next_schema_pos) := F.next_eq
        have Fge : s1._next_schema_pos ≤ fd'._next_schema_pos := F.next_ge
        have Fnest : ∀ x, s1._next_schema_pos ≤ x → x < fd'._next_schema_pos →
            x + subtree_size ts x ≤ fd'._next_schema_pos := F.nest
        have Flen : fd'._fields.length = (s1._fields.set i field).length := F.length_eq
        have Ftake : fd'._fields.take (i + 1) = (s1._fields.set i field).take (i + 1) :=
          F.take_eq
        have Fdrop : fd'._fields.drop (i + 1 + k) = (s1._fields.set i field).drop (i + 1 + k) :=
          F.drop_eq
        have Fphys : (∀ c ∈ ((s1._fields.set i field).drop (i + 1)).take k, c.children = []) →
            fd'._physical_fields
              = s1._physical_fields ++ forest_leaves ((fd'._fields.drop (i + 1)).take k) :=
          F.phys
        have Fpci : (∀ c ∈ ((s1._fields.set i field).drop (i + 1)).take k, c.children = []) →
            (forest_leaves ((fd'._fields.drop (i + 1)).take k)).map
                (fun f => f.physical_column_index)
              = (List.range' s1._physical_fields.length
                  (forest_leaves ((fd'._fields.drop (i + 1)).take k)).length).map Int.ofNat :=
          F.pci
        have Fviews : ∀ base, (∀ c ∈ ((s1._fields.set i field).drop (i + 1)).take k,
              c.children = [] ∧ c.levels = base) →
            (forest_leaves ((fd'._fields.drop (i + 1)).take k)).map FieldSchema.view
              = (leaf_positions ts s1._next_schema_pos fd'._next_schema_pos).map
                  (expected_view ts base s1._next_schema_pos) := F.views
        clear F
        have hd3 : (s1._fields.set i field).drop (i + 1) = fd._fields.drop (i + 1) := by
          rw [hset, List.drop_append_eq_append_drop]; simp [hlen]
        have ht3 : (s1._fields.set i field).take (i + 1) = fd._fields.take i ++ [field] := by
          rw [hset, List.take_append_eq_append_take]; simp [hlen]
        have hi' : i < fd'._fields.length := by rw [Flen, hl3]; exact hi
        have hfi : fd'._fields[i] = field := by
          have h1 : (fd'._fields.take (i + 1))[i]? = some field := by
            rw [Ftake, ht3]; simp [hlen]
          rw [List.getElem?_take_of_lt (by omega), List.getElem?_eq_getElem hi'] at h1
          exact Option.some.inj h1
        have hsplit : (fd'._fields.drop i).take (k + 1)
            = field :: (fd'._fields.drop (i + 1)).take k := by
          rw [take_drop_succ _ _ _ hi', hfi]
        have hsplit0 : (fd._fields.drop i).take (k + 1)
            = fd._fields[i] :: (fd._fields.drop (i + 1)).take k :=
          take_drop_succ _ _ _ hi
        have hnext : fd'._next_schema_pos = fd._next_schema_pos +
            subtrees_size (k + 1) (ts.drop fd._next_schema_pos) := by
          rw [Fnext, N.next_eq, subtrees_size_succ]; omega
        refine ⟨hnext, ?_, ?_, ?_, ?_, ?_, ?_, ?_, ?_⟩
        · have := Fge; have := N.next_gt; omega
        · intro x h1 h2
          rcases Nat.lt_or_ge x s1._next_schema_pos with h3 | h3
          · have := N.nest x h1 h3
            have := Fge
            omega
          · exact Fnest x (by omega) h2
        · rw [Flen, hl3]
        · have h1 := congrArg (List.take i) Ftake
          rw [List.take_take, List.take_take, Nat.min_eq_left (Nat.le_succ i), hset,
            List.take_append_eq_append_take] at h1
          simpa [hlen, List.take_take] using h1
        · have h1 : i + (k + 1) = i + 1 + k := by omega
          rw [h1, Fdrop, ← List.drop_drop, hd3, List.drop_drop]
        · intro hf
          rw [hsplit0] at hf
          have h1 := N.phys (hf _ (List.mem_cons_self _ _))
          have h2 := Fphys (by
            rw [hd3]; exact fun x hx => hf x (List.mem_cons_of_mem _ hx))
          rw [h2, h1, hsplit]; simp [forest_leaves]
        · intro hf
          rw [hsplit0] at hf
          have h0 := N.phys (hf _ (List.mem_cons_self _ _))
          have h1 := N.pci (hf _ (List.mem_cons_self _ _))
          have h2 := Fpci (by
            rw [hd3]; exact fun x hx => hf x (List.mem_cons_of_mem _ hx))
          rw [hsplit]
          simp only [forest_leaves, List.map_append, List.length_append]
          rw [h1, h2, h0, List.length_append, Nat.add_comm field.leaves.length,
            ← List.range'_append_1, List.map_append]
        · intro base hf
          rw [hsplit0] at hf
          have h1 := N.views (hf _ (List.mem_cons_self _ _)).1
          have h2 := Fviews base (by
            rw [hd3]; exact fun x hx => hf x (List.mem_cons_of_mem _ hx))
          rw [(hf _ (List.mem_cons_self _ _)).2] at h1
          rw [hsplit]
          simp only [forest_leaves, List.map_append]
          rw [h1, h2, leaf_positions_append ts _ s1._next_schema_pos fd'._next_schema_pos
            (Nat.le_of_lt N.next_gt) (by have := Fge; omega), List.map_append]
          congr 1
          apply List.map_congr_left
          intro j hj
          have hj2 := mem_leaf_positions ts _ _ j hj
          apply expected_view_congr
          apply (path_skip_range ts _ _ j (Nat.le_of_lt N.next_gt) hj2.1 _).symm
          intro x h3 h4
          have := N.nest x h3 h4
          omega
    · rename_i hne _
      simp only [Prod.mk.injEq] at h
      exact (hne h.1).elim

/-! ## The whole descriptor -/

theorem map_getD_range (ts : List SchemaElement) :
    (List.range' 0 ts.length).map (fun j => ts.getD j SchemaElement.default) = ts := by
  apply List.ext_getElem
  · simp
  · intro i h1 h2
    simp [List.getD_eq_getElem?_getD, List.getElem?_eq_getElem h2]

theorem leaf_positions_elements (ts : List SchemaElement) :
    (leaf_positions ts 0 ts.length).map (fun j => ts.getD j SchemaElement.default)
      = ts.filter (fun e => !is_group_node e) := by
  unfold leaf_positions
  conv_rhs => rw [← map_getD_range ts]
  rw [List.filter_map]
  rfl

theorem leaf_positions_skip_root (ts : List SchemaElement) (root : SchemaElement)
    (h0 : ts[0]? = some root) (hg : is_group_node root = true) :
    leaf_positions ts 0 ts.length = leaf_positions ts 1 ts.length := by
  have hp := lt_of_getElem? ts 0 root h0
  rw [leaf_positions_append ts 0 1 ts.length (by omega) (by omega), leaf_positions_one,
    getD_of_getElem? ts 0 root h0, hg]
  simp

theorem parse_from_thrift_ok (ts : List SchemaElement) (fd : FieldDescriptor)
    (h : parse_from_thrift ts FieldDescriptor.empty = (Outcome.OK, fd)) :
    ∃ root, ts[0]? = some root ∧ is_group_node root = true ∧
      fd._fields.length = root.num_children_raw.toNat ∧
      fd._next_schema_pos = ts.length ∧
      fd._physical_fields = forest_leaves fd._fields ∧
      (forest_leaves fd._fields).map (fun f => f.physical_column_index)
        = (List.range' 0 (forest_leaves fd._fields).length).map Int.ofNat ∧
      (forest_leaves fd._fields).map FieldSchema.view
        = (leaf_positions ts 1 ts.length).map (expected_view ts ⟨0, 0, 0⟩ 1) := by
  unfold parse_from_thrift at h
  split at h
  · simp at h
  · rename_i root h0
    split at h
    · simp at h
    · rename_i hg
      have hg' : is_group_node root = true := by simpa using hg
      simp only at h
      split at h
      · rename_i self2 hres
        split at h
        · simp at h
        · rename_i hnext
          simp only [Prod.mk.injEq, true_and] at h
          subst h
          have hnext' : self2._next_schema_pos = ts.length := by
            by_contra hc; exact hnext hc
          have hlen0 : (resize FieldDescriptor.empty._fields root.num_children_raw.toNat).length
              = root.num_children_raw.toNat := resize_length _ _
          have F := parse_from_thrift_fields_ok ts _ 0 _ self2 (by simp only; rw [hlen0]; omega)
            hres
          have Flen : self2._fields.length = root.num_children_raw.toNat :=
            F.length_eq.trans hlen0
          have hall : (self2._fields.drop 0).take root.num_children_raw.toNat = self2._fields := by
            rw [List.drop_zero, List.take_of_length_le (by omega)]
          have hfresh : ∀ c ∈ ((resize FieldDescriptor.empty._fields
              root.num_children_raw.toNat).drop 0).take root.num_children_raw.toNat,
              c.children = [] ∧ c.levels = ⟨0, 0, 0⟩ := by
            intro c hc
            have hc' := List.mem_of_mem_take hc
            simp only [List.drop_zero, FieldDescriptor.empty, resize_nil] at hc'
            rw [List.mem_replicate] at hc'
            rw [hc'.2]
            simp [FieldSchema.default, FieldSchema.levels]
          have Fphys := F.phys (fun c hc => (hfresh c hc).1)
          have Fpci := F.pci (fun c hc => (hfresh c hc).1)
          have Fviews := F.views ⟨0, 0, 0⟩ hfresh
          rw [hall] at Fphys Fpci Fviews
          simp only [FieldDescriptor.empty, List.nil_append, List.length_nil] at Fphys Fpci Fviews
          rw [hnext'] at Fviews
          exact ⟨root, h0, hg', Flen, hnext', Fphys, Fpci, Fviews⟩
      · rename_i hne
        rcases hx : parse_from_thrift_fields ts root.num_children_raw.toNat 0
          { FieldDescriptor.empty with
            _fields := resize FieldDescriptor.empty._fields root.num_children_raw.toNat
            _next_schema_pos := 1 } with ⟨o, s⟩
        rw [hx] at h
        simp only [Prod.mk.injEq] at h
        obtain ⟨h1, h2⟩ := h
        subst h1
        exact (hne s hx).elim

/-! ## Levels along a path -/

theorem to_int16_add (x n : Int) : to_int16 (to_int16 x + n) = to_int16 (x + n) := by
  unfold to_int16; omega

theorem to_int16_idem (x : Int) : to_int16 (to_int16 x) = to_int16 x := by
  unfold to_int16; omega

theorem to_int16_of_range (x : Int) (h1 : -32768 ≤ x) (h2 : x ≤ 32767) : to_int16 x = x := by
  unfold to_int16; omega

theorem to_int16_range (x : Int) : -32768 ≤ to_int16 x ∧ to_int16 x ≤ 32767 := by
  unfold to_int16; omega

theorem foldl_step_repetition_level (els : List SchemaElement) (base : Levels)
    (hb : to_int16 base.repetition_level = base.repetition_level) :
    (els.foldl Levels.step base).repetition_level
      = to_int16 (base.repetition_level + els.countP is_repeated_node) := by
  induction els generalizing base with
  | nil => simpa using hb.symm
  | cons e rest ih =>
    rw [List.foldl_cons, List.countP_cons]
    cases h : is_repeated_node e
    · rw [ih _ (by simpa [Levels.step, h] using hb)]
      simp [Levels.step, h]
    · rw [ih _ (by simp [Levels.step, h, to_int16_idem])]
      simp only [Levels.step, h, if_true, to_int16_add]
      congr 1
      push_cast
      omega

theorem foldl_step_definition_level (els : List SchemaElement) (base : Levels)
    (hb : to_int16 base.definition_level = base.definition_level) :
    (els.foldl Levels.step base).definition_level
      = to_int16 (base.definition_level
        + els.countP (fun e => is_optional_node e || is_repeated_node e)) := by
  induction els generalizing base with
  | nil => simpa using hb.symm
  | cons e rest ih =>
    rw [List.foldl_cons, List.countP_cons]
    cases h : (is_repeated_node e || is_optional_node e)
    · rw [ih _ (by simpa [Levels.step, h] using hb)]
      have h2 := h
      rw [Bool.or_eq_false_iff] at h2
      simp [Levels.step, h2.1, h2.2]
    · rw [ih _ (by simp [Levels.step, h, to_int16_idem])]
      simp only [Levels.step, h, if_true, to_int16_add]
      rw [Bool.or_comm] at h
      congr 1
      simp only [h, if_true]
      push_cast
      omega

theorem upto_nearest_repeated_snoc (els : List SchemaElement) (e : SchemaElement) :
    upto_nearest_repeated (els ++ [e])
      = if is_repeated_node e then els ++ [e] else upto_nearest_repeated els := by
  unfold upto_nearest_repeated
  rw [List.reverse_append, List.reverse_singleton, List.singleton_append, List.dropWhile_cons]
  cases h : is_repeated_node e <;> simp

theorem foldl_step_repeated_parent (els : List SchemaElement) (base : Levels)
    (hb : to_int16 base.definition_level = base.definition_level) :
    (els.foldl Levels.step base).repeated_parent_def_level
      = if els.any is_repeated_node then
          to_int16 (base.definition_level + (upto_nearest_repeated els).countP
            (fun e => is_optional_node e || is_repeated_node e))
        else base.repeated_parent_def_level := by
  induction els using List.reverseRecOn with
  | nil => simp
  | append_singleton l e ih =>
    rw [List.foldl_append, List.foldl_cons, List.foldl_nil, upto_nearest_repeated_snoc]
    cases h : is_repeated_node e
    · simp only [Levels.step, h, Bool.false_eq_true, if_false, ih, List.any_append,
        List.any_cons, List.any_nil, Bool.or_false]
    · simp only [Levels.step, h, if_true, Bool.true_or, List.any_append, List.any_cons,
        Bool.or_true]
      rw [foldl_step_definition_level _ _ hb, List.countP_append, to_int16_add]
      simp [h, add_assoc]

theorem upto_nearest_repeated_none (els : List SchemaElement)
    (h : els.any is_repeated_node = false) : upto_nearest_repeated els = [] := by
  induction els using List.reverseRecOn with
  | nil => rfl
  | append_singleton l e ih =>
    simp only [List.any_append, List.any_cons, List.any_nil, Bool.or_false,
      Bool.or_eq_false_iff] at h
    rw [upto_nearest_repeated_snoc, h.2]
    simpa using ih h.1

theorem leaf_correspondence (ts : List SchemaElement) (fd : FieldDescriptor)
    (h : parse_from_thrift ts FieldDescriptor.empty = (Outcome.OK, fd)) (k : Nat)
    (leaf : FieldSchema) (hk : (forest_leaves fd._fields)[k]? = some leaf) :
    ∃ j, (leaf_positions ts 1 ts.length)[k]? = some j ∧
      ts[j]? = some leaf.parquet_schema ∧
      leaf.levels = (path_elements ts j).foldl Levels.step ⟨0, 0, 0⟩ := by
  obtain ⟨root, h0, hg, hlen, hnext, hphys, hpci, hviews⟩ := parse_from_thrift_ok ts fd h
  have h1 : ((forest_leaves fd._fields).map FieldSchema.view)[k]? = some leaf.view := by
    rw [List.getElem?_map, hk]; rfl
  rw [hviews, List.getElem?_map] at h1
  cases hj : (leaf_positions ts 1 ts.length)[k]? with
  | none => rw [hj] at h1; simp at h1
  | some j =>
    rw [hj] at h1
    simp only [Option.map_some', Option.some.injEq] at h1
    have hmem := mem_leaf_positions ts 1 ts.length j (List.getElem?_mem hj)
    refine ⟨j, rfl, ?_, ?_⟩
    · have := congrArg LeafView.parquet_schema h1
      simp only [expected_view, FieldSchema.view] at this
      rw [← this, List.getD_eq_getElem?_getD, List.getElem?_eq_getElem hmem.2]
      rfl
    · have := congrArg LeafView.levels h1
      simp only [expected_view, FieldSchema.view] at this
      rw [← this]
      rfl

/-! ## Evaluating the parser on given elements -/

theorem get_doris_type_int32 (e : SchemaElement) (b : Bool) (h1 : e.logicalType = none)
    (h2 : e.converted_type = none) (h3 : e.type = ParquetType.INT32) :
    get_doris_type e b = .ok (create_data_type PrimitiveType.TYPE_INT b 0 0, false) := by
  simp [get_doris_type, h1, h2, h3, physical_doris_type, DataType.get_primitive_type]

theorem parse_physical_field_eval (e : SchemaElement) (b : Bool) (f : FieldSchema)
    (self : FieldDescriptor) (t : DataType) (c : Bool)
    (h : get_doris_type e b = .ok (t, c)) :
    ∃ f' self', parse_physical_field e b f self = (Outcome.OK, f', self') ∧
      f'.name = e.name ∧ f'.data_type = t ∧ f'.children = f.children ∧
      f'.repetition_level = f.repetition_level ∧
      f'.definition_level = f.definition_level := by
  simp [parse_physical_field, h]

theorem parse_node_field_leaf_eval (ts : List SchemaElement) (p fuel : Nat)
    (node : FieldSchema) (self : FieldDescriptor) (e : SchemaElement) (t : DataType)
    (c : Bool) (he : ts[p]? = some e) (hg : is_group_node e = false)
    (hr : is_repeated_node e = false)
    (h : get_doris_type e (is_optional_node e) = .ok (t, c)) :
    ∃ node' self', parse_node_field (fuel + 1) ts p node self = (Outcome.OK, node', self') ∧
      node'.name = e.name ∧ node'.data_type = t ∧ self'._next_schema_pos = p + 1 := by
  obtain ⟨f', self', h1, h2, h3, -⟩ := parse_physical_field_eval e (is_optional_node e)
    (if is_optional_node e = true then
      { node with definition_level := to_int16 (node.definition_level + 1) } else node) self t c h
  refine ⟨f', { self' with _next_schema_pos := p + 1 }, ?_, h2, h3, rfl⟩
  simp only [parse_node_field, he, hg, hr, Bool.false_eq_true, if_false, h1]

theorem parse_list_field_unwrapped_eval (rec : NodeParser) (ts : List SchemaElement)
    (p : Nat) (node : FieldSchema) (self : FieldDescriptor) (first second : SchemaElement)
    (child : FieldSchema) (self' : FieldDescriptor)
    (h0 : ts[p]? = some first) (h1 : ts[p + 1]? = some second)
    (hn : first.num_children_raw = 1)
    (hr1 : first.repetition_type_raw ≠ FieldRepetitionType.REPEATED)
    (hr2 : second.repetition_type_raw = FieldRepetitionType.REPEATED)
    (hn2 : num_children_node second = 1) (hs : is_struct_list_node second = false)
    (hres : rec (p + 2)
      ((open_repeated_level (is_optional_node first) node).children.getD 0
        FieldSchema.default) self = (Outcome.OK, child, self')) :
    parse_list_field rec ts p node self
      = (Outcome.OK,
          finish_list_field first (is_optional_node first)
            { open_repeated_level (is_optional_node first) node with children := [child] },
          self') := by
  have hlen : ¬ (p + 1 ≥ ts.length) := by
    have := lt_of_getElem? ts _ _ h1; omega
  obtain ⟨lc, hlc, -⟩ := open_repeated_level_children (is_optional_node first) node
  rw [hlc] at hres
  simp only [List.getD_cons_zero] at hres
  simp only [parse_list_field, h0, hn, ne_eq, not_true_eq_false, if_false, hlen, hr1, h1,
    hr2, hn2, hs, and_self, if_true, hlc, List.getD_cons_zero, hres, List.set_cons_zero,
    one_ne_zero, not_false_eq_true]

theorem parse_node_field_list_eq (ts : List SchemaElement) (p fuel : Nat)
    (node : FieldSchema) (self : FieldDescriptor) (e : SchemaElement) (he : ts[p]? = some e)
    (hg : is_group_node e = true) (hm : is_map_node e = false) (hl : is_list_node e = true) :
    parse_node_field (fuel + 1) ts p node self
      = parse_list_field (parse_node_field fuel ts) ts p node self := by
  simp only [parse_node_field, he, hg, if_true, parse_group_field, hm, hl,
    Bool.false_eq_true, if_false]

theorem parse_node_field_map_eq (ts : List SchemaElement) (p fuel : Nat)
    (node : FieldSchema) (self : FieldDescriptor) (e : SchemaElement) (he : ts[p]? = some e)
    (hg : is_group_node e = true) (hm : is_map_node e = true) :
    parse_node_field (fuel + 1) ts p node self
      = parse_map_field (parse_node_field fuel ts) ts p node self := by
  simp only [parse_node_field, he, hg, if_true, parse_group_field, hm]

theorem get_doris_type_utf8 (e : SchemaElement) (b : Bool) (h1 : e.logicalType = none)
    (h2 : e.converted_type = some ConvertedType.UTF8) :
    get_doris_type e b = .ok (create_data_type PrimitiveType.TYPE_STRING b 0 0, false) := by
  cases b <;>
    simp [get_doris_type, h1, h2, convert_to_doris_type_converted, create_data_type,
      make_nullable, DataType.get_primitive_type]

theorem pair_of_length_two (l : List FieldSchema) (h : l.length = 2) :
    ∃ a b, l = [a, b] := by
  match l, h with
  | [a, b], _ => exact ⟨a, b, rfl⟩

theorem parse_struct_children_two (rec : NodeParser) (a b c0 c1 : FieldSchema)
    (self s0 s1 : FieldDescriptor)
    (hr0 : rec self._next_schema_pos a self = (Outcome.OK, c0, s0))
    (hr1 : rec s0._next_schema_pos b s0 = (Outcome.OK, c1, s1)) :
    parse_struct_children rec 2 0 [a, b] self = (Outcome.OK, [c0, c1], s1) := by
  simp [parse_struct_children, hr0, hr1]

theorem key_value_struct_resolves (ts : List SchemaElement) (p fuel : Nat)
    (lc : FieldSchema) (self : FieldDescriptor)
    (h1 : ts[p + 1]? = some map_map) (h2 : ts[p + 2]? = some map_key)
    (h3 : ts[p + 3]? = some map_value) :
    ∃ kv self', parse_struct_field (parse_node_field (fuel + 1) ts) ts (p + 1) lc self
        = (Outcome.OK, kv, self') ∧
      kv.data_type = DataType.Struct [DataType.Nullable string_type,
        DataType.Nullable int32_type] ["key", "value"] ∧
      self'._next_schema_pos = p + 4 := by
  have hk := get_doris_type_utf8 map_key false rfl rfl
  have hv := get_doris_type_int32 map_value true rfl rfl rfl
  have hkv3 : map_map.num_children_raw = 2 := by decide
  have hkv4 : is_optional_node map_map = false := by decide
  obtain ⟨a, b, hab⟩ := pair_of_length_two
    (set_child_node_level { lc with children := resize lc.children 2 }
      lc.repeated_parent_def_level).children (struct_children_length lc 2 _)
  obtain ⟨c0, s0, hr0, hn0, hd0, hx0⟩ := parse_node_field_leaf_eval ts (p + 2) fuel a
    { self with _next_schema_pos := p + 1 + 1 } map_key _ _ h2 (by decide) (by decide) hk
  obtain ⟨c1, s1, hr1, hn1, hd1, hx1⟩ := parse_node_field_leaf_eval ts (p + 3) fuel b
    s0 map_value _ _ h3 (by decide) (by decide) hv
  have hloop := parse_struct_children_two (parse_node_field (fuel + 1) ts) a b c0 c1
    { self with _next_schema_pos := p + 1 + 1 } s0 s1 hr0 (by rw [hx0]; exact hr1)
  simp only [parse_struct_field, h1, hkv4, Bool.false_eq_true, if_false, hkv3]
  rw [if_neg (by decide)]
  simp only [show (2 : Int).toNat = 2 from rfl, hab, hloop]
  refine ⟨_, s1, rfl, ?_, hx1⟩
  simp only [List.map_cons, List.map_nil, hd0, hd1, hn0, hn1]
  rfl

theorem standard_map_resolves (ts : List SchemaElement) (p fuel : Nat)
    (node : FieldSchema) (self : FieldDescriptor) (h0 : ts[p]? = some map_m)
    (h1 : ts[p + 1]? = some map_map) (h2 : ts[p + 2]? = some map_key)
    (h3 : ts[p + 3]? = some map_value) :
    ∃ node' self', parse_node_field (fuel + 2) ts p node self = (Outcome.OK, node', self') ∧
      node'.name = "m" ∧
      node'.data_type = DataType.Nullable
        (DataType.Map (DataType.Nullable string_type) (DataType.Nullable int32_type)) ∧
      self'._next_schema_pos = p + 4 := by
  have hlen : ¬ (p + 2 ≥ ts.length) := by
    have := lt_of_getElem? ts _ _ h2; omega
  rw [parse_node_field_map_eq ts p (fuel + 1) node self map_m h0 (by decide) (by decide)]
  obtain ⟨lc, hlc, -⟩ := open_repeated_level_children (is_optional_node map_m) node
  obtain ⟨kv, self', hres, hdt, hnext⟩ := key_value_struct_resolves ts p fuel lc self h1 h2 h3
  have hm1 : map_m.num_children_raw = 1 := by decide
  have hm2 : is_repeated_node map_m = false := by decide
  have hm3 : is_optional_node map_m = true := by decide
  have hkv1 : is_group_node map_map = true := by decide
  have hkv2 : is_repeated_node map_map = true := by decide
  have hkv3 : map_map.num_children_raw = 2 := by decide
  simp only [parse_map_field, hlen, if_false, h0, h1, hm1, ne_eq, not_true_eq_false, hm2,
    Bool.false_eq_true, hkv1, hkv2, Bool.not_true, Bool.or_self, hkv3, hlc,
    List.getD_cons_zero, hres, hdt, remove_nullable, DataType.get_element,
    List.getElem?_cons_zero, List.getElem?_cons_succ, List.set_cons_zero]
  rw [if_neg (by decide)]
  refine ⟨_, self', rfl, rfl, ?_, hnext⟩
  simp [hm3, make_nullable]

theorem parse_map_field_set_fallback (rec : NodeParser) (ts : List SchemaElement) (p : Nat)
    (node : FieldSchema) (self : FieldDescriptor) (ms kv : SchemaElement)
    (h0 : ts[p]? = some ms) (h1 : ts[p + 1]? = some kv) (h2 : p + 2 < ts.length)
    (hn : ms.num_children_raw = 1) (hnr : is_repeated_node ms = false)
    (hkr : is_repeated_node kv = true) (hkn : kv.num_children_raw = 1) :
    parse_map_field rec ts p node self = parse_list_field rec ts p node self := by
  have hlen : ¬ (p + 2 ≥ ts.length) := by omega
  have hkg : is_group_node kv = true := by simp [is_group_node, hkn]
  simp only [parse_map_field, hlen, if_false, h0, h1, hn, ne_eq, not_true_eq_false, hnr,
    Bool.false_eq_true, hkg, hkr, Bool.not_true, Bool.or_self, hkn, if_true]

theorem parse_list_field_inv (rec : NodeParser) (ts : List SchemaElement) (p : Nat)
    (node : FieldSchema) (self : FieldDescriptor) (node' : FieldSchema)
    (self' : FieldDescriptor) (first second : SchemaElement)
    (h0 : ts[p]? = some first) (h1 : ts[p + 1]? = some second)
    (h : parse_list_field rec ts p node self = (Outcome.OK, node', self')) :
    ∃ child, node'.children = [child] ∧ node'.name = first.name ∧
      node'.data_type =
        (if is_optional_node first then
          DataType.Nullable (DataType.Array (make_nullable child.data_type))
        else DataType.Array (make_nullable child.data_type)) ∧
      (second.num_children_raw = 1 → is_struct_list_node second = false →
        ∃ lc, rec (p + 2) lc self = (Outcome.OK, child, self')) := by
  unfold parse_list_field at h
  rw [h0] at h
  simp only at h
  split at h
  · simp at h
  · split at h
    · simp at h
    · split at h
      · simp at h
      · rw [h1] at h
        simp only at h
        split at h
        · simp at h
        · obtain ⟨lc, hlc, -⟩ := open_repeated_level_children (is_optional_node first) node
          rw [hlc, num_children_node_eq] at h
          simp only [List.getD_cons_zero, List.set_cons_zero] at h
          split at h
          · split at h
            · rename_i child s1 hres
              simp only [Prod.mk.injEq, true_and] at h
              obtain ⟨hnode, hself⟩ := h
              subst hself
              subst hnode
              refine ⟨child, rfl, rfl, ?_, ?_⟩
              · simp only [finish_list_field, List.getD_cons_zero]
                split <;> rfl
              · intro hone hs
                rw [if_pos ⟨hone, hs⟩] at hres
                exact ⟨lc, hres⟩
            · rename_i hne _
              simp only [Prod.mk.injEq] at h
              exact (hne h.1).elim
          · rename_i hz
            split at h
            · rename_i child s1 hres
              simp only [Prod.mk.injEq, true_and] at h
              obtain ⟨hnode, hself⟩ := h
              subst hself
              subst hnode
              refine ⟨child, rfl, rfl, ?_, ?_⟩
              · simp only [finish_list_field, List.getD_cons_zero]
                split <;> rfl
              · intro hone _
                exact (hz (by rw [hone]; decide)).elim
            · rename_i hne _
              simp only [Prod.mk.injEq] at h
              exact (hne h.1).elim

theorem set_fallback_resolves_as_list (ts : List SchemaElement) (fuel p : Nat)
    (node : FieldSchema) (self : FieldDescriptor) (ms kv : SchemaElement)
    (h0 : ts[p]? = some ms) (h1 : ts[p + 1]? = some kv) (h2 : p + 2 < ts.length)
    (hmap : is_map_node ms = true) (hn : ms.num_children_raw = 1)
    (hnr : is_repeated_node ms = false) (hkr : is_repeated_node kv = true)
    (hkn : kv.num_children_raw = 1) :
    parse_node_field (fuel + 1) ts p node self
        = parse_list_field (parse_node_field fuel ts) ts p node self ∧
      ∀ node' self', parse_node_field (fuel + 1) ts p node self = (Outcome.OK, node', self') →
        ∃ child, node'.children = [child] ∧
          node'.data_type =
            (if is_optional_node ms then
              DataType.Nullable (DataType.Array (make_nullable child.data_type))
            else DataType.Array (make_nullable child.data_type)) ∧
          (∀ key value, node'.data_type ≠ DataType.Map key value ∧
            node'.data_type ≠ DataType.Nullable (DataType.Map key value)) ∧
          (is_struct_list_node kv = false →
            ∃ lc, parse_node_field fuel ts (p + 2) lc self = (Outcome.OK, child, self')) := by
  have hg : is_group_node ms = true := by simp [is_group_node, hn]
  have heq : parse_node_field (fuel + 1) ts p node self
      = parse_list_field (parse_node_field fuel ts) ts p node self := by
    rw [parse_node_field_map_eq ts p fuel node self ms h0 hg hmap]
    exact parse_map_field_set_fallback _ ts p node self ms kv h0 h1 h2 hn hnr hkr hkn
  refine ⟨heq, ?_⟩
  intro node' self' h
  rw [heq] at h
  obtain ⟨child, hc, -, hd, hk⟩ := parse_list_field_inv _ ts p node self node' self' ms kv h0 h1 h
  refine ⟨child, hc, hd, ?_, hk hkn⟩
  intro key value
  rw [hd]
  split <;> simp

theorem repeated_primitive_resolves (ts : List SchemaElement) (p fuel : Nat)
    (node : FieldSchema) (self : FieldDescriptor) (h0 : ts[p]? = some repeated_x) :
    ∃ node' self' child,
      parse_node_field (fuel + 1) ts p node self = (Outcome.OK, node', self') ∧
      node'.name = "x" ∧
      node'.data_type = DataType.Array (DataType.Nullable int32_type) ∧
      node'.children = [child] ∧ child.data_type = int32_type ∧
      self'._next_schema_pos = p + 1 ∧
      node'.repetition_level = to_int16 (node.repetition_level + 1) ∧
      node'.definition_level = to_int16 (node.definition_level + 1) := by
  have hty := get_doris_type_int32 repeated_x false rfl rfl rfl
  obtain ⟨lc, hlc, -⟩ := open_repeated_level_children false node
  obtain ⟨child, s1, hres, hn, hd, -⟩ := parse_physical_field_eval repeated_x false lc self
    _ _ hty
  have h1 : is_group_node repeated_x = false := by decide
  have h2 : is_repeated_node repeated_x = true := by decide
  simp only [parse_node_field, h0, h1, h2, Bool.false_eq_true, if_false, if_true, hlc,
    List.getD_cons_zero, hres, List.set_cons_zero]
  refine ⟨_, _, child, rfl, rfl, ?_, rfl, ?_, rfl, ?_, ?_⟩
  · simp only [hd]; rfl
  · rw [hd]; rfl
  · simp [open_repeated_level, set_child_node_level]
  · simp [open_repeated_level, set_child_node_level]

/-! ## Enough fuel -/

theorem NoFuelOut.mono {rec : NodeParser} {a b : Nat} (h : NoFuelOut rec a) (hab : a ≤ b) :
    NoFuelOut rec b :=
  fun q node self hq => h q node self (Nat.le_trans hab hq)

/-- C1: after a successful `parse_from_thrift` on an empty descriptor, the leaves of the
resulting field forest, listed in pre-order, carry the `physical_column_index` values
`0, 1, ..., N-1` in exactly that order, and the flat physical-field list is that list of
leaves, so its `i`-th entry is the leaf whose `physical_column_index` is `i`. -/
theorem C1_physical_column_index_is_preorder_rank (ts : List SchemaElement)
    (fd : FieldDescriptor)
    (h : parse_from_thrift ts FieldDescriptor.empty = (Outcome.OK, fd)) :
    (forest_leaves fd._fields).map (fun f => f.physical_column_index)
        = (List.range (forest_leaves fd._fields).length).map Int.ofNat ∧
      fd._physical_fields = forest_leaves fd._fields ∧
      ∀ (i : Nat) (hi : i < fd._physical_fields.length),
        (fd._physical_fields[i]).physical_column_index = (i : Int) := by
  obtain ⟨root, h0, hg, hlen, hnext, hphys, hpci, hviews⟩ := parse_from_thrift_ok ts fd h
  rw [← List.range_eq_range'] at hpci
  refine ⟨hpci, hphys, ?_⟩
  intro i hi
  have h1 : ((forest_leaves fd._fields).map (fun f => f.physical_column_index))[i]?
      = some (fd._physical_fields[i]).physical_column_index := by
    rw [← hphys, List.getElem?_map, List.getElem?_eq_getElem hi]
    rfl
  rw [hpci, List.getElem?_map, List.getElem?_range (by rw [← hphys]; exact hi)] at h1
  simpa using h1.symm

/-- C1 on the sample schema. -/
theorem C1_witness :
    (forest_leaves sample_descriptor._fields).map (fun f => f.physical_column_index)
        = (List.range (forest_leaves sample_descriptor._fields).length).map Int.ofNat ∧
      sample_descriptor._physical_fields = forest_leaves sample_descriptor._fields ∧
      ∀ (i : Nat) (hi : i < sample_descriptor._physical_fields.length),
        (sample_descriptor._physical_fields[i]).physical_column_index = (i : Int) :=
  C1_physical_column_index_is_preorder_rank sample_schema sample_descriptor rfl

/-- C2: after a successful `parse_from_thrift` on an empty descriptor, the flat
physical-field list corresponds one-to-one and in order to the elements of the input
that have no children: the `i`-th physical field was made from the `i`-th childless
element, and carries its name and physical type. -/
theorem C2_physical_fields_are_the_childless_elements (ts : List SchemaElement)
    (fd : FieldDescriptor)
    (h : parse_from_thrift ts FieldDescriptor.empty = (Outcome.OK, fd)) :
    fd._physical_fields.map (fun f => f.parquet_schema)
        = ts.filter (fun e => !is_group_node e) ∧
      fd._physical_fields.map (fun f => (f.name, f.physical_type))
        = (ts.filter (fun e => !is_group_node e)).map (fun e => (e.name, some e.type)) := by
  obtain ⟨root, h0, hg, hlen, hnext, hphys, hpci, hviews⟩ := parse_from_thrift_ok ts fd h
  rw [hphys, ← leaf_positions_elements ts, leaf_positions_skip_root ts root h0 hg]
  constructor
  · have := congrArg (List.map LeafView.parquet_schema) hviews
    simpa [List.map_map, Function.comp_def, FieldSchema.view, expected_view] using this
  · have := congrArg (List.map (fun v : LeafView => (v.name, v.physical_type))) hviews
    simpa [List.map_map, Function.comp_def, FieldSchema.view, expected_view] using this

/-- C2 on the sample schema. -/
theorem C2_witness :
    sample_descriptor._physical_fields.map (fun f => f.parquet_schema)
        = sample_schema.filter (fun e => !is_group_node e) ∧
      sample_descriptor._physical_fields.map (fun f => (f.name, f.physical_type))
        = (sample_schema.filter (fun e => !is_group_node e)).map
            (fun e => (e.name, some e.type)) :=
  C2_physical_fields_are_the_childless_elements sample_schema sample_descriptor rfl

/-- C3 (amended): after a successful resolve, the `k`-th leaf of the result (in pre-order) is made
from the `k`-th childless element, at position `j`, and its `definition_level` is, as an
`int16_t` value, the number of OPTIONAL or REPEATED elements on the path from the
top-level element down to position `j`, inclusive (the root is not on the path): the
number itself when it is at most `32767`. -/
theorem C3_definition_level_counts_optional_or_repeated (ts : List SchemaElement)
    (fd : FieldDescriptor)
    (h : parse_from_thrift ts FieldDescriptor.empty = (Outcome.OK, fd)) (k : Nat)
    (leaf : FieldSchema) (hk : (forest_leaves fd._fields)[k]? = some leaf) :
    ∃ j, (leaf_positions ts 1 ts.length)[k]? = some j ∧
      ts[j]? = some leaf.parquet_schema ∧
      leaf.definition_level
        = to_int16 ((path_elements ts j).countP
            (fun e => is_optional_node e || is_repeated_node e)) ∧
      ((path_elements ts j).countP (fun e => is_optional_node e || is_repeated_node e)
          ≤ 32767 →
        leaf.definition_level
          = (path_elements ts j).countP
              (fun e => is_optional_node e || is_repeated_node e)) := by
  obtain ⟨j, h1, h2, h3⟩ := leaf_correspondence ts fd h k leaf hk
  refine ⟨j, h1, h2, ?_⟩
  have := congrArg Levels.definition_level h3
  rw [foldl_step_definition_level _ _ (to_int16_of_range 0 (by omega) (by omega))] at this
  simp only [FieldSchema.levels, Int.zero_add] at this
  exact ⟨this, fun hle => by rw [this]; exact to_int16_of_range _ (by omega) (by omega)⟩

/-- C3 on the leaf `x.list.element` of the three-level list, whose definition level is
the count over `x`, `list` and `element`. -/
theorem C3_witness :
    ∃ j, (leaf_positions sample_list_schema 1 sample_list_schema.length)[0]? = some j ∧
      sample_list_schema[j]?
        = some ((forest_leaves sample_list_descriptor._fields).headD
            FieldSchema.default).parquet_schema ∧
      ((forest_leaves sample_list_descriptor._fields).headD
          FieldSchema.default).definition_level
        = to_int16 ((path_elements sample_list_schema j).countP
            (fun e => is_optional_node e || is_repeated_node e)) ∧
      ((path_elements sample_list_schema j).countP
          (fun e => is_optional_node e || is_repeated_node e) ≤ 32767 →
        ((forest_leaves sample_list_descriptor._fields).headD
            FieldSchema.default).definition_level
          = (path_elements sample_list_schema j).countP
              (fun e => is_optional_node e || is_repeated_node e)) :=
  C3_definition_level_counts_optional_or_repeated sample_list_schema sample_list_descriptor
    (by rfl) 0 ((forest_leaves sample_list_descriptor._fields).headD FieldSchema.default)
    (by rfl)

/-- C4 (amended): after a successful resolve, the `k`-th leaf of the result (in pre-order) is made
from the `k`-th childless element, at position `j`, and its `repetition_level` is, as an
`int16_t` value, the number of REPEATED elements on the path from the top-level element
down to position `j`, inclusive (the root is not on the path): the number itself when it
is at most `32767`. -/
theorem C4_repetition_level_counts_repeated (ts : List SchemaElement)
    (fd : FieldDescriptor)
    (h : parse_from_thrift ts FieldDescriptor.empty = (Outcome.OK, fd)) (k : Nat)
    (leaf : FieldSchema) (hk : (forest_leaves fd._fields)[k]? = some leaf) :
    ∃ j, (leaf_positions ts 1 ts.length)[k]? = some j ∧
      ts[j]? = some leaf.parquet_schema ∧
      leaf.repetition_level = to_int16 ((path_elements ts j).countP is_repeated_node) ∧
      ((path_elements ts j).countP is_repeated_node ≤ 32767 →
        leaf.repetition_level = (path_elements ts j).countP is_repeated_node) := by
  obtain ⟨j, h1, h2, h3⟩ := leaf_correspondence ts fd h k leaf hk
  refine ⟨j, h1, h2, ?_⟩
  have := congrArg Levels.repetition_level h3
  rw [foldl_step_repetition_level _ _ (to_int16_of_range 0 (by omega) (by omega))] at this
  simp only [FieldSchema.levels, Int.zero_add] at this
  exact ⟨this, fun hle => by rw [this]; exact to_int16_of_range _ (by omega) (by omega)⟩

/-- C4 on the leaf `x.list.element` of the three-level list, whose repetition level is
the count over `x`, `list` and `element`. -/
theorem C4_witness :
    ∃ j, (leaf_positions sample_list_schema 1 sample_list_schema.length)[0]? = some j ∧
      sample_list_schema[j]?
        = some ((forest_leaves sample_list_descriptor._fields).headD
            FieldSchema.default).parquet_schema ∧
      ((forest_leaves sample_list_descriptor._fields).headD
          FieldSchema.default).repetition_level
        = to_int16 ((path_elements sample_list_schema j).countP is_repeated_node) ∧
      ((path_elements sample_list_schema j).countP is_repeated_node ≤ 32767 →
        ((forest_leaves sample_list_descriptor._fields).headD
            FieldSchema.default).repetition_level
          = (path_elements sample_list_schema j).countP is_repeated_node) :=
  C4_repetition_level_counts_repeated sample_list_schema sample_list_descriptor (by rfl) 0
    ((forest_leaves sample_list_descriptor._fields).headD FieldSchema.default) (by rfl)

/-- C5 (amended): after a successful resolve, the `k`-th leaf of the result is made from the
`k`-th childless element, at position `j`; its `repeated_parent_def_level` is `0` when
no element of the path is REPEATED, and otherwise it is, as an `int16_t` value, the
number of OPTIONAL or REPEATED elements on its path from the top-level element down to
the last REPEATED element of the path, inclusive (the definition level of the nearest
REPEATED element): the number itself when it is at most `32767`. -/
theorem C5_repeated_parent_def_level_is_nearest_repeated (ts : List SchemaElement)
    (fd : FieldDescriptor)
    (h : parse_from_thrift ts FieldDescriptor.empty = (Outcome.OK, fd)) (k : Nat)
    (leaf : FieldSchema) (hk : (forest_leaves fd._fields)[k]? = some leaf) :
    ∃ j, (leaf_positions ts 1 ts.length)[k]? = some j ∧
      ts[j]? = some leaf.parquet_schema ∧
      leaf.repeated_parent_def_level
        = to_int16 ((upto_nearest_repeated (path_elements ts j)).countP
            (fun e => is_optional_node e || is_repeated_node e)) ∧
      ((upto_nearest_repeated (path_elements ts j)).countP
          (fun e => is_optional_node e || is_repeated_node e) ≤ 32767 →
        leaf.repeated_parent_def_level
          = (upto_nearest_repeated (path_elements ts j)).countP
              (fun e => is_optional_node e || is_repeated_node e)) ∧
      ((path_elements ts j).any is_repeated_node = false →
        leaf.repeated_parent_def_level = 0) := by
  obtain ⟨j, h1, h2, h3⟩ := leaf_correspondence ts fd h k leaf hk
  refine ⟨j, h1, h2, ?_⟩
  have := congrArg Levels.repeated_parent_def_level h3
  rw [foldl_step_repeated_parent _ _ (to_int16_of_range 0 (by omega) (by omega))] at this
  simp only [FieldSchema.levels, Int.zero_add] at this
  have h0 : to_int16 0 = 0 := to_int16_of_range 0 (by omega) (by omega)
  cases hany : (path_elements ts j).any is_repeated_node
  · rw [hany] at this
    simp only [Bool.false_eq_true, if_false] at this
    rw [upto_nearest_repeated_none _ hany]
    exact ⟨by simpa [h0] using this, fun _ => by simpa using this, fun _ => this⟩
  · rw [hany] at this
    simp only [if_true] at this
    exact ⟨this, fun hle => by rw [this]; exact to_int16_of_range _ (by omega) (by omega),
      fun hf => by cases hf⟩

/-- C5 on the leaf `x.list.element` of the three-level list, whose nearest REPEATED
element is `list`. -/
theorem C5_witness :
    ∃ j, (leaf_positions sample_list_schema 1 sample_list_schema.length)[0]? = some j ∧
      sample_list_schema[j]?
        = some ((forest_leaves sample_list_descriptor._fields).headD
            FieldSchema.default).parquet_schema ∧
      ((forest_leaves sample_list_descriptor._fields).headD
          FieldSchema.default).repeated_parent_def_level
        = to_int16 ((upto_nearest_repeated (path_elements sample_list_schema j)).countP
            (fun e => is_optional_node e || is_repeated_node e)) ∧
      ((upto_nearest_repeated (path_elements sample_list_schema j)).countP
          (fun e => is_optional_node e || is_repeated_node e) ≤ 32767 →
        ((forest_leaves sample_list_descriptor._fields).headD
            FieldSchema.default).repeated_parent_def_level
          = (upto_nearest_repeated (path_elements sample_list_schema j)).countP
              (fun e => is_optional_node e || is_repeated_node e)) ∧
      ((path_elements sample_list_schema j).any is_repeated_node = false →
        ((forest_leaves sample_list_descriptor._fields).headD
          FieldSchema.default).repeated_parent_def_level = 0) :=
  C5_repeated_parent_def_level_is_nearest_repeated sample_list_schema sample_list_descriptor
    (by rfl) 0 ((forest_leaves sample_list_descriptor._fields).headD FieldSchema.default)
    (by rfl)

/-- C6: whenever `parse_node_field` succeeds at position `p` (for any sequence, node and
descriptor), the cursor `_next_schema_pos` afterwards is `p` plus the size of the subtree
rooted at `p` as given by the `num_children` counts: the first unconsumed sibling. -/
theorem C6_cursor_after_subtree (ts : List SchemaElement) (fuel p : Nat)
    (node : FieldSchema) (self : FieldDescriptor) (node' : FieldSchema)
    (self' : FieldDescriptor)
    (h : parse_node_field fuel ts p node self = (Outcome.OK, node', self')) :
    self'._next_schema_pos = p + subtree_size ts p :=
  (parse_node_field_ok ts fuel p node self node' self' h).next_eq

/-- C6 on the map `m` of the sample schema: parsed at position 4, it leaves the cursor
at `4 + subtree_size sample_schema 4`. -/
theorem C6_witness :
    (parse_node_field 9 sample_schema 4 FieldSchema.default
        FieldDescriptor.empty).2.2._next_schema_pos
      = 4 + subtree_size sample_schema 4 :=
  C6_cursor_after_subtree sample_schema 9 4 FieldSchema.default FieldDescriptor.empty
    (parse_node_field 9 sample_schema 4 FieldSchema.default FieldDescriptor.empty).2.1
    (parse_node_field 9 sample_schema 4 FieldSchema.default FieldDescriptor.empty).2.2 rfl

/-! ## Claims C7 to C10 -/

/-- C7: the three-level list
`optional group x (LIST) { repeated group list { optional int32 element } }`, found at
any position `p` of any sequence, resolves successfully (with any fuel of at least 2) to
a node named `x` of type nullable `array<nullable int32>`, and the cursor ends at
`p + 3`. -/
theorem C7_three_level_list (ts : List SchemaElement) (p fuel : Nat)
    (node : FieldSchema) (self : FieldDescriptor) (h0 : ts[p]? = some list_x)
    (h1 : ts[p + 1]? = some list_list) (h2 : ts[p + 2]? = some list_element) :
    ∃ node' self', parse_node_field (fuel + 2) ts p node self = (Outcome.OK, node', self') ∧
      node'.name = "x" ∧
      node'.data_type = DataType.Nullable (DataType.Array (DataType.Nullable int32_type)) ∧
      self'._next_schema_pos = p + 3 := by
  have hty := get_doris_type_int32 list_element true rfl rfl rfl
  obtain ⟨child, self', hres, hn, hd, hnext⟩ := parse_node_field_leaf_eval ts (p + 2) fuel
    ((open_repeated_level (is_optional_node list_x) node).children.getD 0 FieldSchema.default)
    self list_element _ _ h2 (by decide) (by decide) hty
  have hlist := parse_list_field_unwrapped_eval (parse_node_field (fuel + 1) ts) ts p node
    self list_x list_list child self' h0 h1 (by decide) (by decide) (by decide) (by decide)
    (by decide) hres
  rw [parse_node_field_list_eq ts p (fuel + 1) node self list_x h0 (by decide) (by decide)
    (by decide), hlist]
  refine ⟨_, _, rfl, rfl, ?_, hnext⟩
  simp only [finish_list_field, List.getD_cons_zero, hd]
  rfl

/-- C7 on `sample_list_schema`, where the list starts at position 1. -/
theorem C7_witness :
    ∃ node' self',
      parse_node_field (0 + 2) sample_list_schema 1 FieldSchema.default FieldDescriptor.empty
        = (Outcome.OK, node', self') ∧
      node'.name = "x" ∧
      node'.data_type = DataType.Nullable (DataType.Array (DataType.Nullable int32_type)) ∧
      self'._next_schema_pos = 1 + 3 :=
  C7_three_level_list sample_list_schema 1 0 FieldSchema.default FieldDescriptor.empty
    rfl rfl rfl

/-- C8 as stated fails: on `sample_map_schema` the standard map does not resolve to a
node of type nullable `map<string, nullable int32>` with a non-nullable key type. -/
theorem C8_counterexample :
    ¬ ∃ node' self',
      parse_node_field 2 sample_map_schema 1 FieldSchema.default FieldDescriptor.empty
        = (Outcome.OK, node', self') ∧
      node'.data_type = DataType.Nullable
        (DataType.Map string_type (DataType.Nullable int32_type)) := by
  rintro ⟨node', self', h, hd⟩
  obtain ⟨n, s, h', -, hd', -⟩ := standard_map_resolves sample_map_schema 1 0
    FieldSchema.default FieldDescriptor.empty rfl rfl rfl rfl
  rw [h] at h'
  simp only [Prod.mk.injEq, true_and] at h'
  rw [← h'.1, hd] at hd'
  simp [string_type] at hd'

/-- C8 (amended): the standard map `optional group m (MAP) { repeated group map
(MAP_KEY_VALUE) { required binary key (UTF8); optional int32 value } }`, found at any
position `p`, resolves successfully to a node named `m` of type nullable
`map<nullable string, nullable int32>`: the map is nullable and both its key type and
its value type are nullable-wrapped; the cursor ends at `p + 4`. -/
theorem C8_standard_map (ts : List SchemaElement) (p fuel : Nat)
    (node : FieldSchema) (self : FieldDescriptor) (h0 : ts[p]? = some map_m)
    (h1 : ts[p + 1]? = some map_map) (h2 : ts[p + 2]? = some map_key)
    (h3 : ts[p + 3]? = some map_value) :
    ∃ node' self', parse_node_field (fuel + 2) ts p node self = (Outcome.OK, node', self') ∧
      node'.name = "m" ∧
      node'.data_type = DataType.Nullable
        (DataType.Map (DataType.Nullable string_type) (DataType.Nullable int32_type)) ∧
      self'._next_schema_pos = p + 4 :=
  standard_map_resolves ts p fuel node self h0 h1 h2 h3

/-- C8 (amended) on `sample_map_schema`, where the map starts at position 1. -/
theorem C8_witness :
    ∃ node' self',
      parse_node_field (0 + 2) sample_map_schema 1 FieldSchema.default FieldDescriptor.empty
        = (Outcome.OK, node', self') ∧
      node'.name = "m" ∧
      node'.data_type = DataType.Nullable
        (DataType.Map (DataType.Nullable string_type) (DataType.Nullable int32_type)) ∧
      self'._next_schema_pos = 1 + 4 :=
  C8_standard_map sample_map_schema 1 0 FieldSchema.default FieldDescriptor.empty
    rfl rfl rfl rfl

/-- C9 as stated fails: in `sample_repeated_set_schema` the group at position 1 is
MAP-annotated and its single child is a REPEATED key-value group with exactly one child,
yet resolving it does not give what list parsing of the same elements gives: the group
is itself REPEATED, the map guard answers `Map element can't be a repeated schema` and
list parsing answers `List element can't be a repeated schema`. -/
theorem C9_counterexample :
    is_map_node (sample_repeated_set_schema.getD 1 SchemaElement.default) = true ∧
      (sample_repeated_set_schema.getD 1 SchemaElement.default).num_children_raw = 1 ∧
      is_group_node (sample_repeated_set_schema.getD 2 SchemaElement.default) = true ∧
      is_repeated_node (sample_repeated_set_schema.getD 2 SchemaElement.default) = true ∧
      (sample_repeated_set_schema.getD 2 SchemaElement.default).num_children_raw = 1 ∧
      (parse_node_field 3 sample_repeated_set_schema 1 FieldSchema.default
          FieldDescriptor.empty).1
        = Outcome.InvalidArgument "Map element can\x27t be a repeated schema" ∧
      (parse_list_field (parse_node_field 2 sample_repeated_set_schema)
          sample_repeated_set_schema 1 FieldSchema.default FieldDescriptor.empty).1
        = Outcome.InvalidArgument "List element can\x27t be a repeated schema" ∧
      (parse_node_field 3 sample_repeated_set_schema 1 FieldSchema.default
          FieldDescriptor.empty).1
        ≠ (parse_list_field (parse_node_field 2 sample_repeated_set_schema)
            sample_repeated_set_schema 1 FieldSchema.default FieldDescriptor.empty).1 := by
  decide

/-- C9 (amended): for every group annotated with a MAP-family converted type that is
not itself REPEATED, whose single child is a REPEATED key-value group with exactly one
child, the three elements lying within the sequence, resolution returns exactly what
list parsing of the same elements returns (outcome, node and descriptor).  When it
succeeds the node has exactly one child, its type is an array type (nullable-wrapped
when the group is OPTIONAL) of the nullable-wrapped type of that child, never a map
type, and the child is the parse of the single key field unless the key-value group is
named `array` or has a name ending in `_tuple`. -/
theorem C9_set_fallback_is_list_parsing (ts : List SchemaElement) (fuel p : Nat)
    (node : FieldSchema) (self : FieldDescriptor) (ms kv : SchemaElement)
    (h0 : ts[p]? = some ms) (h1 : ts[p + 1]? = some kv) (h2 : p + 2 < ts.length)
    (hmap : is_map_node ms = true) (hn : ms.num_children_raw = 1)
    (hnr : is_repeated_node ms = false) (hkr : is_repeated_node kv = true)
    (hkn : kv.num_children_raw = 1) :
    parse_node_field (fuel + 1) ts p node self
        = parse_list_field (parse_node_field fuel ts) ts p node self ∧
      ∀ node' self', parse_node_field (fuel + 1) ts p node self = (Outcome.OK, node', self') →
        ∃ child, node'.children = [child] ∧
          node'.data_type =
            (if is_optional_node ms then
              DataType.Nullable (DataType.Array (make_nullable child.data_type))
            else DataType.Array (make_nullable child.data_type)) ∧
          (∀ key value, node'.data_type ≠ DataType.Map key value ∧
            node'.data_type ≠ DataType.Nullable (DataType.Map key value)) ∧
          (is_struct_list_node kv = false →
            ∃ lc, parse_node_field fuel ts (p + 2) lc self = (Outcome.OK, child, self')) :=
  set_fallback_resolves_as_list ts fuel p node self ms kv h0 h1 h2 hmap hn hnr hkr hkn

/-- C9 (amended) on `sample_set_schema`, whose map without values starts at
position 1. -/
theorem C9_witness :
    parse_node_field (1 + 1) sample_set_schema 1 FieldSchema.default FieldDescriptor.empty
        = parse_list_field (parse_node_field 1 sample_set_schema) sample_set_schema 1
            FieldSchema.default FieldDescriptor.empty ∧
      ∀ node' self',
        parse_node_field (1 + 1) sample_set_schema 1 FieldSchema.default FieldDescriptor.empty
          = (Outcome.OK, node', self') →
        ∃ child, node'.children = [child] ∧
          node'.data_type =
            (if is_optional_node set_s then
              DataType.Nullable (DataType.Array (make_nullable child.data_type))
            else DataType.Array (make_nullable child.data_type)) ∧
          (∀ key value, node'.data_type ≠ DataType.Map key value ∧
            node'.data_type ≠ DataType.Nullable (DataType.Map key value)) ∧
          (is_struct_list_node set_map = false →
            ∃ lc, parse_node_field 1 sample_set_schema (1 + 2) lc FieldDescriptor.empty
              = (Outcome.OK, child, self')) :=
  C9_set_fallback_is_list_parsing sample_set_schema 1 1 FieldSchema.default
    FieldDescriptor.empty set_s set_map rfl rfl (by decide) (by decide) (by decide)
    (by decide) (by decide) (by decide)

/-- C10 as stated fails: on `sample_repeated_schema` the two-level list
`repeated int32 x` at position 1 does not resolve to `array<non-null int32>` with the
cursor two elements further; and resolved into a node that was handed the levels
`32767`, it succeeds and leaves both levels at `-32768`, not one greater. -/
theorem C10_counterexample :
    (¬ ∃ node' self',
      parse_node_field 1 sample_repeated_schema 1 FieldSchema.default FieldDescriptor.empty
        = (Outcome.OK, node', self') ∧
      node'.data_type = DataType.Array int32_type ∧
      self'._next_schema_pos = 1 + 2 ∧
      node'.repetition_level = FieldSchema.default.repetition_level + 1 ∧
      node'.definition_level = FieldSchema.default.definition_level + 1) ∧
    (parse_node_field 1 sample_repeated_schema 1 (fresh_node 32767 32767 0)
        FieldDescriptor.empty).1 = Outcome.OK ∧
    (parse_node_field 1 sample_repeated_schema 1 (fresh_node 32767 32767 0)
        FieldDescriptor.empty).2.1.repetition_level = -32768 ∧
    (parse_node_field 1 sample_repeated_schema 1 (fresh_node 32767 32767 0)
        FieldDescriptor.empty).2.1.definition_level = -32768 := by
  refine ⟨?_, by rfl, by rfl, by rfl⟩
  rintro ⟨node', self', h, -, hnext, -⟩
  obtain ⟨n, s, c, h', -, -, -, -, hnext', -⟩ := repeated_primitive_resolves
    sample_repeated_schema 1 0 FieldSchema.default FieldDescriptor.empty rfl
  rw [h] at h'
  simp only [Prod.mk.injEq, true_and] at h'
  rw [← h'.2, hnext] at hnext'
  omega

/-- C10 (amended): a two-level list `repeated int32 x` (a REPEATED primitive without a
group), found at any position `p`, resolves successfully to a node named `x` of type
`array<nullable int32>` over a single child leaf of type non-null `int32`; it consumes
one sequence element (the cursor ends at `p + 1`), and the node's `repetition_level` and
`definition_level` are each the value it came in with, which is its parent's, raised by
one as an `int16_t` value: one greater, and `-32768` after `32767`. -/
theorem C10_repeated_primitive (ts : List SchemaElement) (p fuel : Nat)
    (node : FieldSchema) (self : FieldDescriptor) (h0 : ts[p]? = some repeated_x) :
    ∃ node' self' child,
      parse_node_field (fuel + 1) ts p node self = (Outcome.OK, node', self') ∧
      node'.name = "x" ∧
      node'.data_type = DataType.Array (DataType.Nullable int32_type) ∧
      node'.children = [child] ∧ child.data_type = int32_type ∧
      self'._next_schema_pos = p + 1 ∧
      node'.repetition_level = to_int16 (node.repetition_level + 1) ∧
      node'.definition_level = to_int16 (node.definition_level + 1) :=
  repeated_primitive_resolves ts p fuel node self h0

/-- C10 (amended) on `sample_repeated_schema`, where `x` is at position 1. -/
theorem C10_witness :
    ∃ node' self' child,
      parse_node_field (0 + 1) sample_repeated_schema 1 FieldSchema.default
          FieldDescriptor.empty = (Outcome.OK, node', self') ∧
      node'.name = "x" ∧
      node'.data_type = DataType.Array (DataType.Nullable int32_type) ∧
      node'.children = [child] ∧ child.data_type = int32_type ∧
      self'._next_schema_pos = 1 + 1 ∧
      node'.repetition_level = to_int16 (FieldSchema.default.repetition_level + 1) ∧
      node'.definition_level = to_int16 (FieldSchema.default.definition_level + 1) :=
  C10_repeated_primitive sample_repeated_schema 1 0 FieldSchema.default
    FieldDescriptor.empty rfl

/-! ## The type mapper -/

theorem create_data_type_primitive (t : PrimitiveType) (nullable : Bool) (p s : Int) :
    (create_data_type t nullable p s).get_primitive_type = t := by
  unfold create_data_type
  cases nullable <;> simp [make_nullable, DataType.get_primitive_type]

/-- A type made by the logical-type converter is never the invalid type. -/
theorem convert_logical_valid (l : LogicalType) (nullable : Bool) (r : DataType × Bool)
    (h : convert_to_doris_type_logical l nullable = .ok r) :
    r.1.get_primitive_type ≠ PrimitiveType.INVALID_TYPE := by
  unfold convert_to_doris_type_logical at h
  repeat' split at h
  all_goals first
    | (injection h with h; subst h; simp only [create_data_type_primitive]; decide)
    | (exact absurd h (by simp))

/-- A type made by the converted-type converter is never the invalid type. -/
theorem convert_converted_valid (c : ConvertedType) (e : SchemaElement) (nullable : Bool)
    (r : DataType × Bool) (h : convert_to_doris_type_converted c e nullable = .ok r) :
    r.1.get_primitive_type ≠ PrimitiveType.INVALID_TYPE := by
  unfold convert_to_doris_type_converted at h
  split at h
  all_goals first
    | (injection h with h; subst h; simp only [create_data_type_primitive]; decide)
    | (exact absurd h (by simp))

/-- With a logical type that has a mapping, `get_doris_type` returns that mapping. -/
theorem get_doris_type_of_logical (e : SchemaElement) (nullable : Bool) (l : LogicalType)
    (r : DataType × Bool) (hl : e.logicalType = some l)
    (h : convert_to_doris_type_logical l nullable = .ok r) :
    get_doris_type e nullable = .ok r := by
  have hv := convert_logical_valid l nullable r h
  simp only [get_doris_type, hl, h, if_neg hv]

/-- Without a logical type and with a converted type that has a mapping,
`get_doris_type` returns that mapping. -/
theorem get_doris_type_of_converted (e : SchemaElement) (nullable : Bool)
    (c : ConvertedType) (r : DataType × Bool) (hl : e.logicalType = none)
    (hc : e.converted_type = some c)
    (h : convert_to_doris_type_converted c e nullable = .ok r) :
    get_doris_type e nullable = .ok r := by
  have hv := convert_converted_valid c e nullable r h
  simp only [get_doris_type, hl, hc, h, if_neg hv]

/-- With a logical type that has no mapping, `get_doris_type` is the physical
mapping, whatever the converted type. -/
theorem get_doris_type_logical_unmapped (e : SchemaElement) (nullable : Bool)
    (l : LogicalType) (hl : e.logicalType = some l)
    (h : ∀ r, convert_to_doris_type_logical l nullable ≠ .ok r) :
    get_doris_type e nullable = Except.map (fun t => (t, false)) (physical_doris_type e.type nullable) := by
  cases hr : convert_to_doris_type_logical l nullable with
  | ok r => exact absurd hr (h r)
  | error what =>
    simp only [get_doris_type, hl, hr, DataType.get_primitive_type, if_true]
    cases physical_doris_type e.type nullable <;> rfl

/-- Without a logical type and with a converted type that has no mapping,
`get_doris_type` is the physical mapping. -/
theorem get_doris_type_converted_unmapped (e : SchemaElement) (nullable : Bool)
    (c : ConvertedType) (hl : e.logicalType = none) (hc : e.converted_type = some c)
    (h : ∀ r, convert_to_doris_type_converted c e nullable ≠ .ok r) :
    get_doris_type e nullable = Except.map (fun t => (t, false)) (physical_doris_type e.type nullable) := by
  cases hr : convert_to_doris_type_converted c e nullable with
  | ok r => exact absurd hr (h r)
  | error what =>
    simp only [get_doris_type, hl, hc, hr, DataType.get_primitive_type, if_true]
    cases physical_doris_type e.type nullable <;> rfl

/-- Without any annotation, `get_doris_type` is the physical mapping. -/
theorem get_doris_type_unannotated (e : SchemaElement) (nullable : Bool)
    (hl : e.logicalType = none) (hc : e.converted_type = none) :
    get_doris_type e nullable = Except.map (fun t => (t, false)) (physical_doris_type e.type nullable) := by
  simp only [get_doris_type, hl, hc, DataType.get_primitive_type, if_true]
  cases physical_doris_type e.type nullable <;> rfl

/-- The physical mapping fails exactly for an unrecognised physical type. -/
theorem physical_doris_type_error_iff (type : ParquetType) (nullable : Bool) :
    (∃ what, Except.map (fun t => (t, false)) (physical_doris_type type nullable) =
      (.error what : Except String (DataType × Bool))) ↔ type = ParquetType.UNRECOGNIZED := by
  unfold physical_doris_type
  cases type <;> simp [Except.map]

/-! ## Shapes of lists and maps -/

theorem create_data_type_not_nullable (t : PrimitiveType) (p s : Int) :
    create_data_type t false p s = DataType.Scalar t p s := by
  simp [create_data_type]

/-- Asked for a type that is not nullable, `get_doris_type` returns a plain scalar. -/
theorem get_doris_type_scalar (e : SchemaElement) (t : DataType) (c : Bool)
    (h : get_doris_type e false = .ok (t, c)) :
    ∃ pt precision scale, t = DataType.Scalar pt precision scale := by
  have hl : ∀ l r, convert_to_doris_type_logical l false = .ok r →
      ∃ pt precision scale, r.1 = DataType.Scalar pt precision scale := by
    intro l r h
    unfold convert_to_doris_type_logical at h
    repeat' split at h
    all_goals first
      | (injection h with h; subst h; exact ⟨_, _, _, create_data_type_not_nullable _ _ _⟩)
      | (exact absurd h (by simp))
  have hc : ∀ k r, convert_to_doris_type_converted k e false = .ok r →
      ∃ pt precision scale, r.1 = DataType.Scalar pt precision scale := by
    intro k r h
    unfold convert_to_doris_type_converted at h
    split at h
    all_goals first
      | (injection h with h; subst h; exact ⟨_, _, _, create_data_type_not_nullable _ _ _⟩)
      | (exact absurd h (by simp))
  have hp : ∀ r, Except.map (fun t => (t, false)) (physical_doris_type e.type false) = .ok r →
      ∃ pt precision scale, r.1 = DataType.Scalar pt precision scale := by
    intro r h
    unfold physical_doris_type at h
    split at h
    all_goals first
      | (simp only [Except.map] at h; injection h with h; subst h;
         exact ⟨_, _, _, create_data_type_not_nullable _ _ _⟩)
      | (exact absurd h (by simp [Except.map]))
  cases hlt : e.logicalType with
  | some l =>
    cases hr : convert_to_doris_type_logical l false with
    | ok r =>
      rw [get_doris_type_of_logical e false l r hlt hr] at h
      injection h with h
      subst h
      exact hl l _ hr
    | error what =>
      rw [get_doris_type_logical_unmapped e false l hlt (by rw [hr]; simp)] at h
      exact hp _ h
  | none =>
    cases hct : e.converted_type with
    | some k =>
      cases hr : convert_to_doris_type_converted k e false with
      | ok r =>
        rw [get_doris_type_of_converted e false k r hlt hct hr] at h
        injection h with h
        subst h
        exact hc k _ hr
      | error what =>
        rw [get_doris_type_converted_unmapped e false k hlt hct (by rw [hr]; simp)] at h
        exact hp _ h
    | none =>
      rw [get_doris_type_unannotated e false hlt hct] at h
      exact hp _ h

/-- The two-level list: the second level is a repeated element without children. -/
theorem parse_list_field_two_level_eval (rec : NodeParser) (ts : List SchemaElement)
    (p : Nat) (node : FieldSchema) (self : FieldDescriptor) (first second : SchemaElement)
    (t : DataType) (c : Bool)
    (h0 : ts[p]? = some first) (h1 : ts[p + 1]? = some second)
    (hn : first.num_children_raw = 1)
    (hr1 : first.repetition_type_raw ≠ FieldRepetitionType.REPEATED)
    (hr2 : second.repetition_type_raw = FieldRepetitionType.REPEATED)
    (hn2 : num_children_node second = 0)
    (hty : get_doris_type second false = .ok (t, c)) :
    ∃ node' self' child, parse_list_field rec ts p node self = (Outcome.OK, node', self') ∧
      node'.children = [child] ∧ node'.name = first.name ∧ child.data_type = t ∧
      child.name = second.name ∧
      node'.data_type =
        (if is_optional_node first then DataType.Nullable (DataType.Array (make_nullable t))
        else DataType.Array (make_nullable t)) ∧
      self'._next_schema_pos = p + 2 := by
  have hlen : ¬ (p + 1 ≥ ts.length) := by
    have := lt_of_getElem? ts _ _ h1; omega
  obtain ⟨lc, hlc, -⟩ := open_repeated_level_children (is_optional_node first) node
  obtain ⟨f', self', hp, hname, hdt, -⟩ := parse_physical_field_eval second false lc self t c hty
  have heq : parse_list_field rec ts p node self
      = (Outcome.OK,
          finish_list_field first (is_optional_node first)
            { open_repeated_level (is_optional_node first) node with children := [f'] },
          { self' with _next_schema_pos := p + 2 }) := by
    simp only [parse_list_field, h0, hn, ne_eq, not_true_eq_false, if_false, hlen, hr1, h1,
      hr2, hn2, hlc, List.getD_cons_zero, hp, List.set_cons_zero]
  rw [heq]
  refine ⟨_, _, f', rfl, ?_, ?_, hdt, hname, ?_, rfl⟩
  · simp [finish_list_field]
  · simp [finish_list_field]
  · simp only [finish_list_field, List.getD_cons_zero, hdt]
    cases is_optional_node first <;> simp [make_nullable]

/-- A list of the wrong shape: `parse_list_field` returns one of its `InvalidArgument`
statuses and touches neither the node nor the descriptor. -/
theorem parse_list_field_invalid (rec : NodeParser) (ts : List SchemaElement) (p : Nat)
    (node : FieldSchema) (self : FieldDescriptor) (first : SchemaElement)
    (h0 : ts[p]? = some first)
    (hbad : is_repeated_node first = true ∨ first.num_children_raw ≠ 1 ∨
      ∀ second, ts[p + 1]? = some second → is_repeated_node second = false) :
    ∃ msg, msg ∈ list_shape_messages ∧
      parse_list_field rec ts p node self = (Outcome.InvalidArgument msg, node, self) := by
  by_cases hn : first.num_children_raw = 1
  swap
  · exact ⟨"List element should have only one child", by simp [list_shape_messages],
      by simp [parse_list_field, h0, hn]⟩
  by_cases hlen : p + 1 ≥ ts.length
  · exact ⟨"List element should have the second level schema",
      by simp [list_shape_messages], by simp [parse_list_field, h0, hn, hlen]⟩
  by_cases hr : first.repetition_type_raw = FieldRepetitionType.REPEATED
  · exact ⟨"List element can\x27t be a repeated schema", by simp [list_shape_messages],
      by simp [parse_list_field, h0, hn, hlen, hr]⟩
  have hlt : p + 1 < ts.length := by omega
  have h1 : ts[p + 1]? = some ts[p + 1] := List.getElem?_eq_getElem hlt
  have h2 : is_repeated_node ts[p + 1] = false := by
    rcases hbad with h | h | h
    · exact absurd ((is_repeated_node_iff first).1 h) hr
    · exact absurd hn h
    · exact h _ h1
  have h3 : ts[p + 1].repetition_type_raw ≠ FieldRepetitionType.REPEATED := by
    intro h
    rw [(is_repeated_node_iff _).2 h] at h2
    exact absurd h2 (by simp)
  refine ⟨"The second level of list element should be repeated",
    by simp [list_shape_messages], ?_⟩
  simp only [parse_list_field, h0, hn, ne_eq, not_true_eq_false, if_false, hlen, hr, h1, h3,
    not_false_eq_true, if_true]

/-- A map of the wrong shape: `parse_map_field` returns one of its `InvalidArgument`
statuses and touches neither the node nor the descriptor. -/
theorem parse_map_field_invalid (rec : NodeParser) (ts : List SchemaElement) (p : Nat)
    (node : FieldSchema) (self : FieldDescriptor) (ms : SchemaElement)
    (h0 : ts[p]? = some ms)
    (hbad : ms.num_children_raw ≠ 1 ∨
      (∀ kv, ts[p + 1]? = some kv → ¬ (is_group_node kv = true ∧ is_repeated_node kv = true)) ∨
      ∃ kv, ts[p + 1]? = some kv ∧ kv.num_children_raw ≠ 1 ∧ kv.num_children_raw ≠ 2) :
    ∃ msg, msg ∈ map_shape_messages ∧
      parse_map_field rec ts p node self = (Outcome.InvalidArgument msg, node, self) := by
  by_cases hlen : p + 2 ≥ ts.length
  · exact ⟨"Map element should have at least three levels", by simp [map_shape_messages],
      by simp [parse_map_field, hlen]⟩
  have hlt : p + 1 < ts.length := by omega
  have h1 : ts[p + 1]? = some ts[p + 1] := List.getElem?_eq_getElem hlt
  by_cases hn : ms.num_children_raw = 1
  swap
  · exact ⟨
      "Map element should have only one child(name=\x27map\x27, type=\x27MAP_KEY_VALUE\x27)",
      by simp [map_shape_messages], by simp [parse_map_field, hlen, h0, h1, hn]⟩
  by_cases hr : is_repeated_node ms = true
  · exact ⟨"Map element can\x27t be a repeated schema", by simp [map_shape_messages],
      by simp [parse_map_field, hlen, h0, h1, hn, hr]⟩
  by_cases hg : is_group_node ts[p + 1] = true ∧ is_repeated_node ts[p + 1] = true
  swap
  · refine ⟨"the second level in map must be a repeated group(key and value)",
      by simp [map_shape_messages], ?_⟩
    have hg2 : (!is_group_node ts[p + 1] || !is_repeated_node ts[p + 1]) = true := by
      cases h3 : is_group_node ts[p + 1] <;> cases h4 : is_repeated_node ts[p + 1] <;>
        simp_all
    simp only [parse_map_field, hlen, if_false, h0, h1, hn, ne_eq, not_true_eq_false, hr,
      hg2, if_true, Bool.false_eq_true]
  have hc : ts[p + 1].num_children_raw ≠ 1 ∧ ts[p + 1].num_children_raw ≠ 2 := by
    rcases hbad with h | h | ⟨kv, hkv, h⟩
    · exact absurd hn h
    · exact absurd hg (h _ h1)
    · rw [h1] at hkv
      rw [Option.some.inj hkv]
      exact h
  refine ⟨"the second level in map(MAP_KEY_VALUE) should have two children",
    by simp [map_shape_messages], ?_⟩
  have hg2 : (!is_group_node ts[p + 1] || !is_repeated_node ts[p + 1]) = false := by
    simp [hg.1, hg.2]
  simp only [parse_map_field, hlen, if_false, h0, h1, hn, ne_eq, not_true_eq_false, hr,
    hg2, hc.1, hc.2, not_false_eq_true, if_true, Bool.false_eq_true]

/-- A successful `parse_map_field`: the key-value group is a repeated group with one or
two children, and the resulting type is a map exactly when it has two. -/
theorem parse_map_field_ok_type (rec : NodeParser) (ts : List SchemaElement) (p : Nat)
    (node : FieldSchema) (self : FieldDescriptor) (node' : FieldSchema)
    (self' : FieldDescriptor) (ms : SchemaElement) (h0 : ts[p]? = some ms)
    (h : parse_map_field rec ts p node self = (Outcome.OK, node', self')) :
    ∃ kv, ts[p + 1]? = some kv ∧ ms.num_children_raw = 1 ∧ is_group_node kv = true ∧
      is_repeated_node kv = true ∧
      (node'.data_type.get_primitive_type = PrimitiveType.TYPE_MAP ↔
        kv.num_children_raw = 2) := by
  by_cases hlen : p + 2 ≥ ts.length
  · simp [parse_map_field, hlen] at h
  have hlt : p + 1 < ts.length := by omega
  have h1 : ts[p + 1]? = some ts[p + 1] := List.getElem?_eq_getElem hlt
  refine ⟨ts[p + 1], h1, ?_⟩
  simp only [parse_map_field, hlen, if_false, h0, h1] at h
  split at h
  · simp at h
  rename_i hn
  split at h
  · simp at h
  split at h
  · simp at h
  rename_i hg
  have hg1 : is_group_node ts[p + 1] = true ∧ is_repeated_node ts[p + 1] = true := by
    cases h3 : is_group_node ts[p + 1] <;> cases h4 : is_repeated_node ts[p + 1] <;>
      simp_all
  refine ⟨by simpa using hn, hg1.1, hg1.2, ?_⟩
  split at h
  · rename_i hk1
    obtain ⟨child, -, -, hdt, -⟩ := parse_list_field_inv rec ts p node self node' self' ms
      ts[p + 1] h0 h1 h
    rw [hdt, hk1]
    cases is_optional_node ms <;> simp [DataType.get_primitive_type]
  split at h
  · simp at h
  rename_i hk2
  have hk2' : ts[p + 1].num_children_raw = 2 := by simpa using hk2
  simp only [hk2', iff_true]
  split at h
  · split at h
    · simp only [Prod.mk.injEq, true_and] at h
      rw [← h.1]
      cases is_optional_node ms <;> simp [DataType.get_primitive_type, make_nullable]
    · simp at h
  · rename_i hne _
    simp only [Prod.mk.injEq] at h
    exact (hne h.1).elim

/-! ## The outcomes of a node -/

theorem parse_physical_field_outcome (e : SchemaElement) (b : Bool) (f : FieldSchema)
    (self : FieldDescriptor) : is_node_outcome (parse_physical_field e b f self).1 = true := by
  unfold parse_physical_field
  split <;> rfl

theorem parse_struct_children_outcome (rec : NodeParser)
    (hrec : ∀ q n s, is_node_outcome (rec q n s).1 = true) (k i : Nat)
    (children : List FieldSchema) (self : FieldDescriptor) :
    is_node_outcome (parse_struct_children rec k i children self).1 = true := by
  induction k generalizing i children self with
  | zero => rfl
  | succ k ih =>
    unfold parse_struct_children
    split
    · exact ih _ _ _
    · rename_i heq
      have h2 := congrArg Prod.fst heq
      simp only at h2
      simp only
      rw [← h2]
      exact hrec _ _ _

theorem parse_struct_field_outcome (rec : NodeParser)
    (hrec : ∀ q n s, is_node_outcome (rec q n s).1 = true) (ts : List SchemaElement)
    (p : Nat) (node : FieldSchema) (self : FieldDescriptor) :
    is_node_outcome (parse_struct_field rec ts p node self).1 = true := by
  unfold parse_struct_field
  split
  · rfl
  · simp only
    split
    · rfl
    · split
      · rfl
      · rename_i heq
        have h2 := congrArg Prod.fst heq
        simp only at h2
        simp only
        rw [← h2]
        exact parse_struct_children_outcome rec hrec _ _ _ _

theorem parse_list_field_outcome (rec : NodeParser)
    (hrec : ∀ q n s, is_node_outcome (rec q n s).1 = true) (ts : List SchemaElement)
    (p : Nat) (node : FieldSchema) (self : FieldDescriptor) :
    is_node_outcome (parse_list_field rec ts p node self).1 = true := by
  unfold parse_list_field
  split
  · rfl
  · split
    · simp [is_node_outcome, node_messages, list_shape_messages, map_shape_messages]
    · split
      · simp [is_node_outcome, node_messages, list_shape_messages, map_shape_messages]
      · split
        · simp [is_node_outcome, node_messages, list_shape_messages, map_shape_messages]
        · split
          · rfl
          · split
            · simp [is_node_outcome, node_messages, list_shape_messages, map_shape_messages]
            · simp only
              split
              · split
                · rfl
                · rename_i heq
                  have h2 := congrArg Prod.fst heq
                  simp only at h2
                  simp only
                  rw [← h2]
                  split
                  · exact hrec _ _ _
                  · exact parse_struct_field_outcome rec hrec ts _ _ _
              · split
                · rfl
                · rename_i heq
                  have h2 := congrArg Prod.fst heq
                  simp only at h2
                  simp only
                  rw [← h2]
                  exact parse_physical_field_outcome _ _ _ _

theorem parse_map_field_outcome (rec : NodeParser)
    (hrec : ∀ q n s, is_node_outcome (rec q n s).1 = true) (ts : List SchemaElement)
    (p : Nat) (node : FieldSchema) (self : FieldDescriptor) :
    is_node_outcome (parse_map_field rec ts p node self).1 = true := by
  unfold parse_map_field
  split
  · simp [is_node_outcome, node_messages, list_shape_messages, map_shape_messages]
  · split
    · split
      · simp [is_node_outcome, node_messages, list_shape_messages, map_shape_messages]
      · split
        · simp [is_node_outcome, node_messages, list_shape_messages, map_shape_messages]
        · split
          · simp [is_node_outcome, node_messages, list_shape_messages, map_shape_messages]
          · split
            · exact parse_list_field_outcome rec hrec ts p node self
            · split
              · simp [is_node_outcome, node_messages, list_shape_messages, map_shape_messages]
              · simp only
                have h1 := fun lc => parse_struct_field_outcome rec hrec ts (p + 1) lc self
                split
                · split <;> rfl
                · rename_i heq
                  have h2 := congrArg Prod.fst heq
                  simp only at h2
                  simp only
                  rw [← h2]
                  exact h1 _
    · rfl

theorem parse_group_field_outcome (rec : NodeParser)
    (hrec : ∀ q n s, is_node_outcome (rec q n s).1 = true) (ts : List SchemaElement)
    (p : Nat) (node : FieldSchema) (self : FieldDescriptor) :
    is_node_outcome (parse_group_field rec ts p node self).1 = true := by
  unfold parse_group_field
  split
  · rfl
  · split
    · exact parse_map_field_outcome rec hrec ts p node self
    · split
      · exact parse_list_field_outcome rec hrec ts p node self
      · split
        · simp only
          have h1 := fun lc => parse_struct_field_outcome rec hrec ts p lc self
          split
          · rfl
          · rename_i heq
            have h2 := congrArg Prod.fst heq
            simp only at h2
            simp only
            rw [← h2]
            exact h1 _
        · exact parse_struct_field_outcome rec hrec ts p node self

/-- Whatever `parse_node_field` returns is a node outcome: its `InvalidArgument`
messages are among `node_messages`. -/
theorem parse_node_field_outcome (ts : List SchemaElement) (fuel p : Nat)
    (node : FieldSchema) (self : FieldDescriptor) :
    is_node_outcome (parse_node_field fuel ts p node self).1 = true := by
  induction fuel generalizing p node self with
  | zero => rfl
  | succ fuel ih =>
    unfold parse_node_field
    split
    · simp [is_node_outcome, node_messages, list_shape_messages, map_shape_messages]
    · split
      · exact parse_group_field_outcome _ (fun q n s => ih q n s) ts p node self
      · split
        · simp only
          split
          · rfl
          · rename_i heq
            have h2 := congrArg Prod.fst heq
            simp only at h2
            simp only
            rw [← h2]
            exact parse_physical_field_outcome _ _ _ _
        · simp only
          split
          · rfl
          · exact parse_physical_field_outcome _ _ _ _

/-! ## The name of a resolved node -/

theorem parse_physical_field_name (e : SchemaElement) (b : Bool) (f f' : FieldSchema)
    (self self' : FieldDescriptor)
    (h : parse_physical_field e b f self = (Outcome.OK, f', self')) : f'.name = e.name := by
  unfold parse_physical_field at h
  split at h
  · simp at h
  · simp only [Prod.mk.injEq, true_and] at h
    rw [← h.1]

theorem parse_struct_field_name (rec : NodeParser) (ts : List SchemaElement) (p : Nat)
    (node : FieldSchema) (self : FieldDescriptor) (node' : FieldSchema)
    (self' : FieldDescriptor) (e : SchemaElement) (h0 : ts[p]? = some e)
    (h : parse_struct_field rec ts p node self = (Outcome.OK, node', self')) :
    node'.name = e.name := by
  simp only [parse_struct_field, h0] at h
  split at h
  · simp at h
  · split at h
    · simp only [Prod.mk.injEq, true_and] at h
      rw [← h.1]
    · rename_i hne _
      simp only [Prod.mk.injEq] at h
      exact (hne h.1).elim

theorem parse_list_field_name (rec : NodeParser) (ts : List SchemaElement) (p : Nat)
    (node : FieldSchema) (self : FieldDescriptor) (node' : FieldSchema)
    (self' : FieldDescriptor) (e : SchemaElement) (h0 : ts[p]? = some e)
    (h : parse_list_field rec ts p node self = (Outcome.OK, node', self')) :
    node'.name = e.name := by
  by_cases hlen : p + 1 ≥ ts.length
  · simp only [parse_list_field, h0] at h
    split at h
    · simp at h
    · simp [hlen] at h
  have h1 : ts[p + 1]? = some ts[p + 1] := List.getElem?_eq_getElem (by omega)
  obtain ⟨_, -, hn, -⟩ := parse_list_field_inv rec ts p node self node' self' e _ h0 h1 h
  exact hn

theorem parse_map_field_name (rec : NodeParser) (ts : List SchemaElement) (p : Nat)
    (node : FieldSchema) (self : FieldDescriptor) (node' : FieldSchema)
    (self' : FieldDescriptor) (e : SchemaElement) (h0 : ts[p]? = some e)
    (h : parse_map_field rec ts p node self = (Outcome.OK, node', self')) :
    node'.name = e.name := by
  by_cases hlen : p + 2 ≥ ts.length
  · simp [parse_map_field, hlen] at h
  have h1 : ts[p + 1]? = some ts[p + 1] := List.getElem?_eq_getElem (by omega)
  simp only [parse_map_field, hlen, if_false, h0, h1] at h
  split at h
  · simp at h
  split at h
  · simp at h
  split at h
  · simp at h
  split at h
  · exact parse_list_field_name rec ts p node self node' self' e h0 h
  split at h
  · simp at h
  split at h
  · split at h
    · simp only [Prod.mk.injEq, true_and] at h
      rw [← h.1]
    · simp at h
  · rename_i hne _
    simp only [Prod.mk.injEq] at h
    exact (hne h.1).elim

theorem parse_group_field_name (rec : NodeParser) (ts : List SchemaElement) (p : Nat)
    (node : FieldSchema) (self : FieldDescriptor) (node' : FieldSchema)
    (self' : FieldDescriptor) (e : SchemaElement) (h0 : ts[p]? = some e)
    (h : parse_group_field rec ts p node self = (Outcome.OK, node', self')) :
    node'.name = e.name := by
  simp only [parse_group_field, h0] at h
  split at h
  · exact parse_map_field_name rec ts p node self node' self' e h0 h
  split at h
  · exact parse_list_field_name rec ts p node self node' self' e h0 h
  split at h
  · split at h
    · simp only [Prod.mk.injEq, true_and] at h
      rw [← h.1]
    · rename_i hne _
      simp only [Prod.mk.injEq] at h
      exact (hne h.1).elim
  · exact parse_struct_field_name rec ts p node self node' self' e h0 h

/-- A node that resolves takes the name of the element at its position. -/
theorem parse_node_field_name (ts : List SchemaElement) (fuel p : Nat) (node : FieldSchema)
    (self : FieldDescriptor) (node' : FieldSchema) (self' : FieldDescriptor)
    (h : parse_node_field fuel ts p node self = (Outcome.OK, node', self')) :
    ∃ e, ts[p]? = some e ∧ node'.name = e.name := by
  cases fuel with
  | zero => simp [parse_node_field] at h
  | succ fuel =>
    unfold parse_node_field at h
    split at h
    · simp at h
    · rename_i e h0
      refine ⟨e, h0, ?_⟩
      split at h
      · exact parse_group_field_name _ ts p node self node' self' e h0 h
      split at h
      · simp only at h
        split at h
        · simp only [Prod.mk.injEq, true_and] at h
          rw [← h.1]
        · rename_i hne _
          simp only [Prod.mk.injEq] at h
          exact (hne h.1).elim
      · simp only at h
        split at h
        · rename_i hres
          simp only [Prod.mk.injEq, true_and] at h
          rw [← h.1]
          exact parse_physical_field_name _ _ _ _ _ _ hres
        · rename_i hne
          exact (hne _ _ h).elim

/-! ## The loop over the top-level fields -/

theorem set_getD_self (l : List FieldSchema) (i : Nat) :
    l.set i (l.getD i FieldSchema.default) = l := by
  by_cases hi : i < l.length
  · have : l.getD i FieldSchema.default = l[i] := by
      simp [List.getD_eq_getElem?_getD, List.getElem?_eq_getElem hi]
    rw [this]
    apply List.ext_getElem?
    intro n
    by_cases hn : i = n
    · subst hn
      simp [List.getElem?_set, hi, List.getElem?_eq_getElem hi]
    · simp [List.getElem?_set, hn]
  · exact List.set_eq_of_length_le (by omega)

theorem name_to_field_find_isSome (m : List (String × Nat)) (name : String) :
    (name_to_field_find m name).isSome = true ↔ name ∈ m.map Prod.fst := by
  unfold name_to_field_find
  induction m with
  | nil => simp
  | cons x rest ih =>
    obtain ⟨k, v⟩ := x
    by_cases hk : name = k
    · subst hk
      simp [List.lookup]
    · have hk2 : (name == k) = false := by simpa using hk
      simp only [List.lookup, hk2, List.map_cons, List.mem_cons, hk, false_or]
      exact ih

theorem parse_from_thrift_eq (ts : List SchemaElement) (self : FieldDescriptor)
    (root : SchemaElement) (h0 : ts[0]? = some root) (hg : is_group_node root = true) :
    parse_from_thrift ts self =
      match parse_from_thrift_fields ts root.num_children_raw.toNat 0 (loop_start root self) with
      | (Outcome.OK, self2) =>
        if self2._next_schema_pos ≠ ts.length then
          (Outcome.InvalidArgument
            ("Remaining " ++ toString (ts.length - self2._next_schema_pos) ++
              " unparsed schema elements"), self2)
        else (Outcome.OK, self2)
      | r => r := by
  simp only [parse_from_thrift, h0, hg, loop_start]
  rfl

/-- When the loop fails, `parse_from_thrift` returns what the loop returns. -/
theorem parse_from_thrift_of_loop_error (ts : List SchemaElement) (self : FieldDescriptor)
    (root : SchemaElement) (h0 : ts[0]? = some root) (hg : is_group_node root = true)
    (o : Outcome) (fd : FieldDescriptor) (ho : o ≠ Outcome.OK)
    (h : parse_from_thrift_fields ts root.num_children_raw.toNat 0 (loop_start root self)
      = (o, fd)) :
    parse_from_thrift ts self = (o, fd) := by
  rw [parse_from_thrift_eq ts self root h0 hg, h]
  cases o <;> first | exact absurd rfl ho | rfl

/-- When the loop succeeds, `parse_from_thrift` compares the cursor with the size. -/
theorem parse_from_thrift_of_loop_ok (ts : List SchemaElement) (self : FieldDescriptor)
    (root : SchemaElement) (h0 : ts[0]? = some root) (hg : is_group_node root = true)
    (fd : FieldDescriptor)
    (h : parse_from_thrift_fields ts root.num_children_raw.toNat 0 (loop_start root self)
      = (Outcome.OK, fd)) :
    parse_from_thrift ts self =
      if fd._next_schema_pos ≠ ts.length then
        (Outcome.InvalidArgument
          ("Remaining " ++ toString (ts.length - fd._next_schema_pos) ++
            " unparsed schema elements"), fd)
      else (Outcome.OK, fd) := by
  rw [parse_from_thrift_eq ts self root h0 hg, h]

/-- A successful run over `j` fields followed by `k` more is a run over `j + k`. -/
theorem parse_from_thrift_fields_split (ts : List SchemaElement) (j k i : Nat)
    (fd fd1 : FieldDescriptor)
    (h : parse_from_thrift_fields ts j i fd = (Outcome.OK, fd1)) :
    parse_from_thrift_fields ts (j + k) i fd = parse_from_thrift_fields ts k (i + j) fd1 := by
  induction j generalizing i fd with
  | zero =>
    simp only [parse_from_thrift_fields, Prod.mk.injEq, true_and] at h
    subst h
    simp
  | succ j ih =>
    have e1 : j + 1 + k = (j + k) + 1 := by omega
    rw [e1]
    unfold parse_from_thrift_fields at h
    conv_lhs => unfold parse_from_thrift_fields
    split at h
    · rename_i field s1 hres
      simp only at h ⊢
      split at h
      · simp at h
      · rename_i hdup
        rw [if_neg hdup]
        have e2 : i + (j + 1) = (i + 1) + j := by omega
        rw [e2]
        exact ih (i + 1) _ h
    · rename_i hne _
      simp only [Prod.mk.injEq] at h
      exact (hne h.1).elim

/-- A field that fails to resolve ends the loop with the outcome of the field. -/
theorem parse_from_thrift_fields_step_error (ts : List SchemaElement) (k i : Nat)
    (fd : FieldDescriptor) (o : Outcome) (node' : FieldSchema) (fd1 : FieldDescriptor)
    (hres : parse_node_field ts.length ts fd._next_schema_pos
      (fd._fields.getD i FieldSchema.default) fd = (o, node', fd1))
    (ho : o ≠ Outcome.OK) :
    parse_from_thrift_fields ts (k + 1) i fd
      = (o, { fd1 with _fields := fd1._fields.set i node' }) := by
  unfold parse_from_thrift_fields
  rw [hres]
  cases o <;> first | exact absurd rfl ho | rfl

/-- A field that resolves to a name already in the name map ends the loop with the
duplicate-name status. -/
theorem parse_from_thrift_fields_step_dup (ts : List SchemaElement) (k i : Nat)
    (fd : FieldDescriptor) (field : FieldSchema) (fd1 : FieldDescriptor)
    (hres : parse_node_field ts.length ts fd._next_schema_pos
      (fd._fields.getD i FieldSchema.default) fd = (Outcome.OK, field, fd1))
    (hdup : field.name ∈ fd1._name_to_field.map Prod.fst) :
    parse_from_thrift_fields ts (k + 1) i fd
      = (Outcome.InvalidArgument ("Duplicated field name: " ++ field.name),
          { fd1 with _fields := fd1._fields.set i field }) := by
  unfold parse_from_thrift_fields
  rw [hres]
  simp only
  rw [if_pos ((name_to_field_find_isSome _ _).2 hdup)]

/-- After a successful run of the loop over `k` fields from index `i`: the name map has
gained the names of these fields with their indices, these names are new and pairwise
distinct, and they are the names of the elements at the `k` sibling positions. -/
theorem parse_from_thrift_fields_names (ts : List SchemaElement) (k i : Nat)
    (fd fd' : FieldDescriptor) (hik : i + k ≤ fd._fields.length)
    (h : parse_from_thrift_fields ts k i fd = (Outcome.OK, fd')) :
    fd'._name_to_field = fd._name_to_field ++
        (List.range' i k).map
          (fun j => ((fd'._fields.getD j FieldSchema.default).name, j)) ∧
      (∀ j, i ≤ j → j < i + k →
        (fd'._fields.getD j FieldSchema.default).name ∉ fd._name_to_field.map Prod.fst) ∧
      ((List.range' i k).map
        (fun j => (fd'._fields.getD j FieldSchema.default).name)).Nodup ∧
      (List.range' i k).map (fun j => (fd'._fields.getD j FieldSchema.default).name)
        = (child_positions ts k fd._next_schema_pos).map
            (fun p => (ts.getD p SchemaElement.default).name) := by
  induction k generalizing i fd with
  | zero =>
    simp only [parse_from_thrift_fields, Prod.mk.injEq, true_and] at h
    subst h
    refine ⟨by simp, ?_, by simp, by simp [child_positions]⟩
    intro j h1 h2
    omega
  | succ k ih =>
    have hi : i < fd._fields.length := by omega
    unfold parse_from_thrift_fields at h
    split at h
    swap
    · rename_i hne _
      simp only [Prod.mk.injEq] at h
      exact (hne h.1).elim
    rename_i field s1 hres
    have N := parse_node_field_ok ts _ _ _ _ _ _ hres
    obtain ⟨e, he, hname⟩ := parse_node_field_name ts _ _ _ _ _ _ hres
    simp only at h
    split at h
    · simp at h
    rename_i hdup
    have hnew : field.name ∉ fd._name_to_field.map Prod.fst := by
      intro hmem
      apply hdup
      rw [N.names_eq]
      exact (name_to_field_find_isSome _ _).2 hmem
    have hl3 : (s1._fields.set i field).length = fd._fields.length := by
      rw [List.length_set, N.fields_eq]
    have F := parse_from_thrift_fields_ok ts k (i + 1) _ fd'
      (by simp only; rw [hl3]; omega) h
    have Ftake : fd'._fields.take (i + 1) = (s1._fields.set i field).take (i + 1) :=
      F.take_eq
    have hfi : fd'._fields.getD i FieldSchema.default = field := by
      have h1 : (fd'._fields.take (i + 1))[i]? = some field := by
        rw [Ftake, List.getElem?_take_of_lt (by omega)]
        simp [List.getElem?_set, N.fields_eq, hi]
      rw [List.getElem?_take_of_lt (by omega)] at h1
      simp [List.getD_eq_getElem?_getD, h1]
    have I := ih (i + 1) _ (by simp only; rw [hl3]; omega) h
    obtain ⟨I1, I2, I3, I4⟩ := I
    simp only at I1 I2 I3 I4
    have hrange : List.range' i (k + 1) = i :: List.range' (i + 1) k := by
      simp [List.range']
    have hne : ∀ j, i + 1 ≤ j → j < i + 1 + k →
        (fd'._fields.getD j FieldSchema.default).name ≠ field.name ∧
        (fd'._fields.getD j FieldSchema.default).name ∉ fd._name_to_field.map Prod.fst := by
      intro j h1 h2
      have h3 := I2 j h1 h2
      rw [N.names_eq] at h3
      simp only [List.map_append, List.map_cons, List.map_nil, List.mem_append,
        List.mem_singleton, not_or] at h3
      exact ⟨h3.2, h3.1⟩
    refine ⟨?_, ?_, ?_, ?_⟩
    · have hfi2 : fd'._fields[i]?.getD FieldSchema.default = field := by
        rw [← List.getD_eq_getElem?_getD]; exact hfi
      rw [I1, hrange, N.names_eq]
      simp [hfi2]
    · intro j h1 h2
      by_cases hj : j = i
      · subst hj
        rw [hfi]
        exact hnew
      · exact (hne j (by omega) (by omega)).2
    · rw [hrange, List.map_cons, List.nodup_cons]
      refine ⟨?_, I3⟩
      rw [hfi]
      intro hmem
      obtain ⟨j, hj, hjn⟩ := List.mem_map.1 hmem
      have hj2 := List.mem_range'_1.1 hj
      exact (hne j hj2.1 (by omega)).1 hjn
    · rw [hrange, List.map_cons, hfi, I4, N.next_eq]
      simp only [child_positions, List.map_cons]
      rw [getD_of_getElem? ts _ e he, hname]

/-! ## How `parse_from_thrift` ends -/

theorem map_name_range (l : List FieldSchema) :
    (List.range' 0 l.length).map (fun j => (l.getD j FieldSchema.default).name)
      = l.map (fun f => f.name) := by
  apply List.ext_getElem
  · simp
  · intro i h1 h2
    have h3 : i < l.length := by simpa using h2
    simp [List.getD_eq_getElem?_getD, List.getElem?_eq_getElem h3]

/-- When the first `j` fields resolve and field `j` fails without touching its node or
the descriptor, `parse_from_thrift` returns that failure and the descriptor as the
first `j` fields left it. -/
theorem parse_from_thrift_stops (ts : List SchemaElement) (self : FieldDescriptor)
    (root : SchemaElement) (j : Nat) (fd : FieldDescriptor) (o : Outcome)
    (h0 : ts[0]? = some root) (hg : is_group_node root = true)
    (hj : j < root.num_children_raw.toNat)
    (hrun : parse_from_thrift_fields ts j 0 (loop_start root self) = (Outcome.OK, fd))
    (hres : parse_node_field ts.length ts fd._next_schema_pos
      (fd._fields.getD j FieldSchema.default) fd
        = (o, fd._fields.getD j FieldSchema.default, fd))
    (ho : o ≠ Outcome.OK) :
    parse_from_thrift ts self = (o, fd) := by
  obtain ⟨k, hk⟩ : ∃ k, root.num_children_raw.toNat = j + (k + 1) :=
    ⟨root.num_children_raw.toNat - j - 1, by omega⟩
  apply parse_from_thrift_of_loop_error ts self root h0 hg o fd ho
  rw [hk, parse_from_thrift_fields_split ts j (k + 1) 0 _ fd hrun, Nat.zero_add,
    parse_from_thrift_fields_step_error ts k j fd o _ fd hres ho, set_getD_self]

/-- When the first `j` fields resolve and field `j` resolves to the name of one of
them, `parse_from_thrift` returns the duplicate-name status. -/
theorem parse_from_thrift_duplicate (ts : List SchemaElement) (self : FieldDescriptor)
    (root : SchemaElement) (i j : Nat) (fd fd1 : FieldDescriptor) (field : FieldSchema)
    (h0 : ts[0]? = some root) (hg : is_group_node root = true)
    (hj : j < root.num_children_raw.toNat) (hi : i < j)
    (hrun : parse_from_thrift_fields ts j 0 (loop_start root self) = (Outcome.OK, fd))
    (hres : parse_node_field ts.length ts fd._next_schema_pos
      (fd._fields.getD j FieldSchema.default) fd = (Outcome.OK, field, fd1))
    (hsame : (fd._fields.getD i FieldSchema.default).name = field.name) :
    parse_from_thrift ts self
      = (Outcome.InvalidArgument ("Duplicated field name: " ++ field.name),
          { fd1 with _fields := fd1._fields.set j field }) := by
  obtain ⟨k, hk⟩ : ∃ k, root.num_children_raw.toNat = j + (k + 1) :=
    ⟨root.num_children_raw.toNat - j - 1, by omega⟩
  have hlen : 0 + j ≤ (loop_start root self)._fields.length := by
    simp only [loop_start, resize_length]; omega
  obtain ⟨hnames, -⟩ := parse_from_thrift_fields_names ts j 0 _ fd hlen hrun
  have N := parse_node_field_ok ts _ _ _ _ _ _ hres
  have hdup : field.name ∈ fd1._name_to_field.map Prod.fst := by
    rw [N.names_eq, hnames, List.map_append, List.mem_append]
    right
    rw [List.map_map]
    exact List.mem_map.2 ⟨i, List.mem_range'_1.2 ⟨by omega, by omega⟩, hsame⟩
  apply parse_from_thrift_of_loop_error ts self root h0 hg _ _ (by simp)
  rw [hk, parse_from_thrift_fields_split ts j (k + 1) 0 _ fd hrun, Nat.zero_add,
    parse_from_thrift_fields_step_dup ts k j fd field fd1 hres hdup]

/-- A successful `parse_from_thrift` is a successful run of the loop over all the
children the root announces, ending with the cursor at the end of the sequence. -/
theorem parse_from_thrift_ok_inv (ts : List SchemaElement) (self fd : FieldDescriptor)
    (h : parse_from_thrift ts self = (Outcome.OK, fd)) :
    ∃ root, ts[0]? = some root ∧ is_group_node root = true ∧
      parse_from_thrift_fields ts root.num_children_raw.toNat 0 (loop_start root self)
        = (Outcome.OK, fd) ∧
      fd._next_schema_pos = ts.length := by
  cases h0 : ts[0]? with
  | none => simp [parse_from_thrift, h0] at h
  | some root =>
    by_cases hg : is_group_node root = true
    swap
    · simp [parse_from_thrift, h0, hg] at h
    refine ⟨root, rfl, hg, ?_⟩
    rw [parse_from_thrift_eq ts self root h0 hg] at h
    split at h
    · rename_i self2 hloop
      split at h
      · simp at h
      · rename_i hpos
        simp only [Prod.mk.injEq, true_and] at h
        subst h
        exact ⟨hloop, by simpa using hpos⟩
    · rename_i hne
      rw [h] at hne
      exact (hne fd rfl).elim

/-- The loop ends with a node outcome or with the duplicate-name status. -/
theorem parse_from_thrift_fields_outcome (ts : List SchemaElement) (k i : Nat)
    (fd : FieldDescriptor) :
    is_node_outcome (parse_from_thrift_fields ts k i fd).1 = true ∨
      ∃ name, (parse_from_thrift_fields ts k i fd).1
        = Outcome.InvalidArgument ("Duplicated field name: " ++ name) := by
  induction k generalizing i fd with
  | zero => exact Or.inl rfl
  | succ k ih =>
    unfold parse_from_thrift_fields
    split
    · simp only
      split
      · exact Or.inr ⟨_, rfl⟩
      · exact ih _ _
    · rename_i heq
      have h2 := congrArg Prod.fst heq
      simp only at h2
      simp only
      rw [← h2]
      exact Or.inl (parse_node_field_outcome _ _ _ _ _)

theorem duplicated_ne_root (name : String) :
    "Duplicated field name: " ++ name ≠ "Wrong parquet root schema element" := by
  intro h
  have h1 := congrArg String.data h
  rw [String.data_append] at h1
  exact absurd h1 (by simp)

theorem remaining_ne_root (n : Nat) :
    "Remaining " ++ toString n ++ " unparsed schema elements"
      ≠ "Wrong parquet root schema element" := by
  intro h
  have h1 := congrArg String.data h
  rw [String.data_append, String.data_append] at h1
  exact absurd h1 (by simp)

/-- The malformed-root status comes out of `parse_from_thrift` only from its first
check. -/
theorem parse_from_thrift_root_error_iff (ts : List SchemaElement) (self : FieldDescriptor) :
    (parse_from_thrift ts self).1
        = Outcome.InvalidArgument "Wrong parquet root schema element" ↔
      (ts = [] ∨ ∃ root, ts[0]? = some root ∧ is_group_node root = false) := by
  cases h0 : ts[0]? with
  | none =>
    have hnil : ts = [] := by
      cases ts with
      | nil => rfl
      | cons a l => simp at h0
    simp [parse_from_thrift, h0, hnil]
  | some root =>
    have hne : ts ≠ [] := by
      intro h; rw [h] at h0; simp at h0
    by_cases hg : is_group_node root = true
    swap
    · have hg2 : is_group_node root = false := by simpa using hg
      simp [parse_from_thrift, h0, hg2]
    simp only [hne, false_or, Option.some.injEq, exists_eq_left', hg, Bool.true_eq_false,
      iff_false]
    rw [parse_from_thrift_eq ts self root h0 hg]
    have hout := parse_from_thrift_fields_outcome ts root.num_children_raw.toNat 0
      (loop_start root self)
    split
    · split
      · simp only [Outcome.InvalidArgument.injEq]
        exact remaining_ne_root _
      · simp
    · rename_i r hr
      rcases hout with h | ⟨name, h⟩
      · intro h2
        rw [h2] at h
        simp [is_node_outcome, node_messages, list_shape_messages, map_shape_messages] at h
      · rw [h]
        simp only [Outcome.InvalidArgument.injEq]
        exact duplicated_ne_root _

/-! ## The end of the sequence -/

/-- Past the end of the sequence `parse_node_field` returns its out-of-bounds status and
touches nothing. -/
theorem parse_node_field_past_end (ts : List SchemaElement) (fuel p : Nat)
    (node : FieldSchema) (self : FieldDescriptor) (hp : ts.length ≤ p) :
    parse_node_field (fuel + 1) ts p node self
      = (Outcome.InvalidArgument "Out-of-bounds index of schema elements", node, self) := by
  simp [parse_node_field, List.getElem?_eq_none hp]

/-- A map group with fewer than two elements after it is rejected. -/
theorem parse_map_field_short (rec : NodeParser) (ts : List SchemaElement) (p : Nat)
    (node : FieldSchema) (self : FieldDescriptor) (hp : p + 2 ≥ ts.length) :
    parse_map_field rec ts p node self
      = (Outcome.InvalidArgument "Map element should have at least three levels", node,
          self) := by
  simp [parse_map_field, hp]

/-- After a successful run of the loop the cursor is inside the sequence or at its
end. -/
theorem parse_from_thrift_fields_next_le (ts : List SchemaElement) (k i : Nat)
    (fd fd' : FieldDescriptor) (hik : i + k ≤ fd._fields.length)
    (hpos : fd._next_schema_pos ≤ ts.length)
    (h : parse_from_thrift_fields ts k i fd = (Outcome.OK, fd')) :
    fd'._next_schema_pos ≤ ts.length := by
  have F := parse_from_thrift_fields_ok ts k i fd fd' hik h
  have h1 := subtrees_size_le k (ts.drop fd._next_schema_pos)
  rw [List.length_drop] at h1
  rw [F.next_eq]
  omega

/-- The three top-level fields of the sample schema start at positions 1, 4 and 8. -/
theorem child_positions_sample : child_positions sample_schema 3 1 = [1, 4, 8] := by
  decide

/-- The names at the child positions of the sample schema. -/
theorem child_names_sample :
    (child_positions sample_schema 3 1).map
        (fun p => (sample_schema.getD p SchemaElement.default).name) = ["x", "m", "r"] := by
  decide

/-! ## Claims C11 to C13 -/

/-- C11, counterexample: the two-level list `group x (LIST) { repeated int32 element }`
resolves to nullable `array<nullable int32>` when the group is OPTIONAL and to
`array<nullable int32>` when it is REQUIRED, never to a required `array<int32>`; and
with a physical type outside the enum it does not resolve at all. -/
theorem C11_counterexample :
    ((parse_from_thrift sample_two_level_schema FieldDescriptor.empty).2._fields.map
        fun f => f.data_type)
      = [DataType.Nullable (DataType.Array (DataType.Nullable int32_type))] ∧
    (parse_from_thrift sample_two_level_schema FieldDescriptor.empty).1 = Outcome.OK ∧
    ((parse_from_thrift sample_required_two_level_schema FieldDescriptor.empty).2._fields.map
        fun f => f.data_type)
      = [DataType.Array (DataType.Nullable int32_type)] ∧
    (parse_from_thrift sample_required_two_level_schema FieldDescriptor.empty).1
      = Outcome.OK ∧
    (∃ what, (parse_from_thrift sample_unrecognized_two_level_schema FieldDescriptor.empty).1
      = Outcome.Exception what) :=
  ⟨rfl, rfl, rfl, rfl, _, rfl⟩

/-- C11, amended: for every LIST-annotated group that is not REPEATED and whose single
child is a REPEATED element without children, whose type resolves (non-nullable) to
`t`, list parsing succeeds; the element field has the plain scalar type `t`, the node
is `array<nullable t>`, nullable exactly when the group is OPTIONAL, and the cursor
ends 2 elements after the group. -/
theorem C11_two_level_list (ts : List SchemaElement) (p fuel : Nat) (node : FieldSchema)
    (self : FieldDescriptor) (first second : SchemaElement) (t : DataType) (c : Bool)
    (h0 : ts[p]? = some first) (h1 : ts[p + 1]? = some second)
    (hl : is_list_node first = true) (hn : first.num_children_raw = 1)
    (hr1 : is_repeated_node first = false) (hr2 : is_repeated_node second = true)
    (hn2 : num_children_node second = 0)
    (hty : get_doris_type second false = .ok (t, c)) :
    ∃ node' self' child,
      parse_node_field (fuel + 1) ts p node self = (Outcome.OK, node', self') ∧
      node'.children = [child] ∧ child.data_type = t ∧
      (∃ pt precision scale, t = DataType.Scalar pt precision scale) ∧
      node'.data_type =
        (if is_optional_node first then DataType.Nullable (DataType.Array (DataType.Nullable t))
        else DataType.Array (DataType.Nullable t)) ∧
      self'._next_schema_pos = p + 2 := by
  have hg : is_group_node first = true := by simp [is_group_node, hn]
  have hm : is_map_node first = false := by
    unfold is_list_node at hl
    unfold is_map_node
    cases hc : first.converted_type with
    | none => rfl
    | some k => rw [hc] at hl; cases k <;> simp_all
  have hr1' : first.repetition_type_raw ≠ FieldRepetitionType.REPEATED := by
    intro h
    rw [(is_repeated_node_iff first).2 h] at hr1
    exact absurd hr1 (by simp)
  obtain ⟨pt, precision, scale, hs⟩ := get_doris_type_scalar second t c hty
  obtain ⟨node', self', child, hres, hch, -, hdt, -, hty', hnext⟩ :=
    parse_list_field_two_level_eval (parse_node_field fuel ts) ts p node self first second
      t c h0 h1 hn hr1' ((is_repeated_node_iff second).1 hr2) hn2 hty
  rw [parse_node_field_list_eq ts p fuel node self first h0 hg hm hl]
  refine ⟨node', self', child, hres, hch, hdt, ⟨pt, precision, scale, hs⟩, ?_, hnext⟩
  rw [hty', hs]
  rfl

/-- C11, witness: `required group x (LIST) { repeated int32 element }` at position 1. -/
theorem C11_witness :
    ∃ node' self' child,
      parse_node_field 1 sample_required_two_level_schema 1 FieldSchema.default
        FieldDescriptor.empty = (Outcome.OK, node', self') ∧
      node'.children = [child] ∧ child.data_type = int32_type ∧
      (∃ pt precision scale, int32_type = DataType.Scalar pt precision scale) ∧
      node'.data_type =
        (if is_optional_node
            (sample_group "x" FieldRepetitionType.REQUIRED 1 (some ConvertedType.LIST))
          then DataType.Nullable (DataType.Array (DataType.Nullable int32_type))
        else DataType.Array (DataType.Nullable int32_type)) ∧
      self'._next_schema_pos = 1 + 2 :=
  C11_two_level_list sample_required_two_level_schema 1 0 FieldSchema.default
    FieldDescriptor.empty
    (sample_group "x" FieldRepetitionType.REQUIRED 1 (some ConvertedType.LIST))
    repeated_element int32_type false rfl rfl (by decide) (by decide) (by decide)
    (by decide) (by decide) rfl

/-- C12: for every LIST-annotated group that is itself REPEATED, or whose child count
is not exactly one, or whose second-level element (the next element of the sequence) is
not REPEATED or is missing, list parsing returns one of the `InvalidArgument` statuses
of `parse_list_field`, and neither the node nor the descriptor is touched. -/
theorem C12_invalid_list_shape (ts : List SchemaElement) (p fuel : Nat) (node : FieldSchema)
    (self : FieldDescriptor) (first : SchemaElement) (h0 : ts[p]? = some first)
    (hg : is_group_node first = true) (hl : is_list_node first = true)
    (hbad : is_repeated_node first = true ∨ first.num_children_raw ≠ 1 ∨
      ∀ second, ts[p + 1]? = some second → is_repeated_node second = false) :
    ∃ msg, msg ∈ list_shape_messages ∧
      parse_list_field (parse_node_field fuel ts) ts p node self
        = (Outcome.InvalidArgument msg, node, self) ∧
      parse_node_field (fuel + 1) ts p node self
        = (Outcome.InvalidArgument msg, node, self) := by
  have hm : is_map_node first = false := by
    unfold is_list_node at hl
    unfold is_map_node
    cases hc : first.converted_type with
    | none => rfl
    | some k => rw [hc] at hl; cases k <;> simp_all
  obtain ⟨msg, hmem, hres⟩ :=
    parse_list_field_invalid (parse_node_field fuel ts) ts p node self first h0 hbad
  refine ⟨msg, hmem, hres, ?_⟩
  rw [parse_node_field_list_eq ts p fuel node self first h0 hg hm hl]
  exact hres

/-- C12, witness: in `message root { optional group x (LIST) { optional int32 element } }`
the second level is not REPEATED. -/
theorem C12_witness :
    ∃ msg, msg ∈ list_shape_messages ∧
      parse_list_field (parse_node_field 0 [sample_group "root" FieldRepetitionType.REQUIRED 1 none,
          list_x, list_element]) [sample_group "root" FieldRepetitionType.REQUIRED 1 none,
          list_x, list_element] 1 FieldSchema.default FieldDescriptor.empty
        = (Outcome.InvalidArgument msg, FieldSchema.default, FieldDescriptor.empty) ∧
      parse_node_field (0 + 1) [sample_group "root" FieldRepetitionType.REQUIRED 1 none,
          list_x, list_element] 1 FieldSchema.default FieldDescriptor.empty
        = (Outcome.InvalidArgument msg, FieldSchema.default, FieldDescriptor.empty) :=
  C12_invalid_list_shape [sample_group "root" FieldRepetitionType.REQUIRED 1 none,
      list_x, list_element] 1 0 FieldSchema.default FieldDescriptor.empty list_x rfl
    (by decide) (by decide)
    (Or.inr (Or.inr (fun second h => by
      have h2 : second = list_element := (Option.some.inj h).symm
      rw [h2]; decide)))

/-- C13: for every MAP-family group, (1) if its child count is not exactly one, or its
child (the next element) is not a REPEATED group, or that key-value group has a child
count other than 1 and 2, map parsing returns one of the `InvalidArgument` statuses of
`parse_map_field` and touches neither the node nor the descriptor; (2) whenever map
parsing succeeds, the key-value group is a REPEATED group and the resulting type is a
map exactly when its child count is 2. -/
theorem C13_invalid_map_shape (ts : List SchemaElement) (p fuel : Nat) (node : FieldSchema)
    (self : FieldDescriptor) (ms : SchemaElement) (h0 : ts[p]? = some ms)
    (hg : is_group_node ms = true) (hm : is_map_node ms = true) :
    ((ms.num_children_raw ≠ 1 ∨
        (∀ kv, ts[p + 1]? = some kv →
          ¬ (is_group_node kv = true ∧ is_repeated_node kv = true)) ∨
        ∃ kv, ts[p + 1]? = some kv ∧ kv.num_children_raw ≠ 1 ∧ kv.num_children_raw ≠ 2) →
      ∃ msg, msg ∈ map_shape_messages ∧
        parse_node_field (fuel + 1) ts p node self
          = (Outcome.InvalidArgument msg, node, self)) ∧
    (∀ node' self', parse_node_field (fuel + 1) ts p node self = (Outcome.OK, node', self') →
      ∃ kv, ts[p + 1]? = some kv ∧ is_group_node kv = true ∧ is_repeated_node kv = true ∧
        (node'.data_type.get_primitive_type = PrimitiveType.TYPE_MAP ↔
          kv.num_children_raw = 2)) := by
  rw [parse_node_field_map_eq ts p fuel node self ms h0 hg hm]
  refine ⟨fun hbad => parse_map_field_invalid _ ts p node self ms h0 hbad, ?_⟩
  intro node' self' h
  obtain ⟨kv, h1, -, h2, h3, h4⟩ := parse_map_field_ok_type _ ts p node self node' self' ms h0 h
  exact ⟨kv, h1, h2, h3, h4⟩

/-- C13, witness: a MAP group with two children is rejected. -/
theorem C13_witness :
    ∃ msg, msg ∈ map_shape_messages ∧
      parse_node_field (0 + 1)
          [sample_group "root" FieldRepetitionType.REQUIRED 1 none,
            sample_group "m" FieldRepetitionType.OPTIONAL 2 (some ConvertedType.MAP),
            map_key, map_value] 1 FieldSchema.default FieldDescriptor.empty
        = (Outcome.InvalidArgument msg, FieldSchema.default, FieldDescriptor.empty) :=
  (C13_invalid_map_shape
    [sample_group "root" FieldRepetitionType.REQUIRED 1 none,
      sample_group "m" FieldRepetitionType.OPTIONAL 2 (some ConvertedType.MAP),
      map_key, map_value] 1 0 FieldSchema.default FieldDescriptor.empty
    (sample_group "m" FieldRepetitionType.OPTIONAL 2 (some ConvertedType.MAP)) rfl
    (by decide) (by decide)).1 (Or.inl (by decide))

/-! ## A sequence cut short -/

theorem parse_seq_cut (ts : List SchemaElement) (n : Nat) (recf recc : NodeParser) (a : Nat)
    (hsim : CutSim ts n recf recc a) (cs : List FieldSchema) (self : FieldDescriptor)
    (ha : a ≤ self._next_schema_pos) (hgood : Good ts recf)
    (hstart : self._next_schema_pos ≤ n) :
    (parse_seq recc cs self = parse_seq recf cs self ∧
      ((parse_seq recf cs self).1 = Outcome.OK →
        (parse_seq recf cs self).2.2._next_schema_pos ≤ n)) ∨
    cut_failure ts n (parse_seq recc cs self).1 := by
  induction cs generalizing self with
  | nil => exact Or.inl ⟨rfl, fun _ => hstart⟩
  | cons c rest ih =>
    rcases hsim self._next_schema_pos c self ha with ⟨heq, hpos⟩ | hfail
    · rcases hf : recf self._next_schema_pos c self with ⟨o, c', s1⟩
      rw [hf] at heq hpos
      cases o with
      | OK =>
        have N := hgood _ _ _ _ _ hf
        have h1 : s1._next_schema_pos ≤ n := hpos rfl
        rcases ih s1 (by have := N.next_gt; omega) h1 with ⟨heq2, hpos2⟩ | hfail2
        · left
          simp only [parse_seq, heq, hf, heq2]
          exact ⟨trivial, hpos2⟩
        · right
          simp only [parse_seq, heq]
          exact hfail2
      | InvalidArgument m => left; simp [parse_seq, heq, hf]
      | Exception w => left; simp [parse_seq, heq, hf]
      | OutOfBounds => left; simp [parse_seq, heq, hf]
      | OutOfFuel => left; simp [parse_seq, heq, hf]
    · right
      obtain ⟨msg, hm, hst⟩ := hfail
      rcases hc : recc self._next_schema_pos c self with ⟨o, c', s1⟩
      rw [hc] at hm
      simp only at hm
      subst hm
      exact ⟨msg, by simp [parse_seq, hc], hst⟩

theorem cut_failure_invalid (ts : List SchemaElement) (n : Nat) (msg : String)
    (h : cut_status ts n msg) : cut_failure ts n (Outcome.InvalidArgument msg) :=
  ⟨msg, rfl, h⟩

theorem parse_struct_field_cut (ts : List SchemaElement) (n : Nat) (recf recc : NodeParser)
    (p : Nat) (hsim : CutSim ts n recf recc (p + 1)) (hgood : Good ts recf) (hp : p < n)
    (node : FieldSchema) (self : FieldDescriptor) :
    (parse_struct_field recc (ts.take n) p node self = parse_struct_field recf ts p node self ∧
      ((parse_struct_field recf ts p node self).1 = Outcome.OK →
        (parse_struct_field recf ts p node self).2.2._next_schema_pos ≤ n)) ∨
    cut_failure ts n (parse_struct_field recc (ts.take n) p node self).1 := by
  have hcut : (ts.take n)[p]? = ts[p]? := List.getElem?_take_of_lt hp
  unfold parse_struct_field
  rw [hcut]
  cases he : ts[p]? with
  | none => left; exact ⟨rfl, by simp⟩
  | some e =>
    simp only
    by_cases hneg : e.num_children_raw < 0
    · left
      simp [hneg]
    · rw [if_neg hneg, if_neg hneg]
      rw [parse_struct_children_eq _ _ _ _ _ (by rw [struct_children_length]; omega),
        parse_struct_children_eq _ _ _ _ _ (by rw [struct_children_length]; omega)]
      simp only [List.drop_zero, List.take_zero, List.nil_append, Nat.zero_add]
      generalize (set_child_node_level _ _) = f3
      generalize (List.take e.num_children_raw.toNat f3.children) = L
      rcases parse_seq_cut ts n recf recc (p + 1) hsim L
          { self with _next_schema_pos := p + 1 } (Nat.le_refl _) hgood hp with
        ⟨heq, hpos⟩ | hfail
      · left
        rw [heq]
        refine ⟨rfl, ?_⟩
        rcases hr : parse_seq recf L { self with _next_schema_pos := p + 1 } with ⟨o, cs', s2⟩
        rw [hr] at hpos
        cases o <;> simp_all
      · right
        obtain ⟨msg, hm, hst⟩ := hfail
        rcases hr : parse_seq recc L { self with _next_schema_pos := p + 1 } with ⟨o, cs', s2⟩
        rw [hr] at hm
        simp only at hm
        subst hm
        exact ⟨msg, rfl, hst⟩

theorem cut_sim_mono {ts : List SchemaElement} {n : Nat} {recf recc : NodeParser}
    {a b : Nat} (h : CutSim ts n recf recc a) (hab : a ≤ b) : CutSim ts n recf recc b :=
  fun q node self hq => h q node self (Nat.le_trans hab hq)

theorem length_take_of_le (ts : List SchemaElement) (n : Nat) (hn : n ≤ ts.length) :
    (ts.take n).length = n := by
  rw [List.length_take]
  omega

theorem parse_list_field_cut (ts : List SchemaElement) (n : Nat) (recf recc : NodeParser)
    (p : Nat) (hsim : CutSim ts n recf recc (p + 1)) (hgood : Good ts recf)
    (hn : n ≤ ts.length) (hp : p < n)
    (hctx : n ≤ p + 1 →
      ∃ e, ts[p]? = some e ∧ is_group_node e = true ∧ is_list_node e = true)
    (node : FieldSchema) (self : FieldDescriptor) :
    (parse_list_field recc (ts.take n) p node self = parse_list_field recf ts p node self ∧
      ((parse_list_field recf ts p node self).1 = Outcome.OK →
        (parse_list_field recf ts p node self).2.2._next_schema_pos ≤ n)) ∨
    cut_failure ts n (parse_list_field recc (ts.take n) p node self).1 := by
  have hcut : (ts.take n)[p]? = ts[p]? := List.getElem?_take_of_lt hp
  have hlen := length_take_of_le ts n hn
  unfold parse_list_field
  rw [hcut, hlen]
  cases he : ts[p]? with
  | none => left; exact ⟨rfl, by simp⟩
  | some first =>
    simp only
    by_cases h1 : first.num_children_raw ≠ 1
    · left
      simp [h1]
    rw [if_neg h1, if_neg h1]
    by_cases h2 : p + 1 ≥ n
    · right
      rw [if_pos h2]
      obtain ⟨e, he2, hg, hl⟩ := hctx h2
      have hpn : p = n - 1 := by omega
      refine cut_failure_invalid ts n _ (Or.inr (Or.inl ⟨rfl, e, by omega, ?_, hg, hl⟩))
      rw [← hpn]
      exact he2
    rw [if_neg h2, if_neg (show ¬ p + 1 ≥ ts.length by omega)]
    by_cases h3 : first.repetition_type_raw = FieldRepetitionType.REPEATED
    · left
      simp [h3]
    rw [if_neg h3, if_neg h3]
    have hcut1 : (ts.take n)[p + 1]? = ts[p + 1]? := List.getElem?_take_of_lt (by omega)
    rw [hcut1]
    cases he1 : ts[p + 1]? with
    | none => left; exact ⟨rfl, by simp⟩
    | some second =>
      simp only
      by_cases h4 : second.repetition_type_raw ≠ FieldRepetitionType.REPEATED
      · left
        simp [h4]
      rw [if_neg h4, if_neg h4]
      generalize (open_repeated_level (is_optional_node first) node) = f4
      by_cases h5 : num_children_node second ≠ 0
      · rw [if_pos h5, if_pos h5]
        have hsub :
            ((if num_children_node second = 1 ∧ is_struct_list_node second = false then
                recc (p + 2) (f4.children.getD 0 FieldSchema.default) self
              else parse_struct_field recc (ts.take n) (p + 1)
                (f4.children.getD 0 FieldSchema.default) self)
              = (if num_children_node second = 1 ∧ is_struct_list_node second = false then
                recf (p + 2) (f4.children.getD 0 FieldSchema.default) self
              else parse_struct_field recf ts (p + 1)
                (f4.children.getD 0 FieldSchema.default) self) ∧
              ((if num_children_node second = 1 ∧ is_struct_list_node second = false then
                recf (p + 2) (f4.children.getD 0 FieldSchema.default) self
              else parse_struct_field recf ts (p + 1)
                (f4.children.getD 0 FieldSchema.default) self).1 = Outcome.OK →
                (if num_children_node second = 1 ∧ is_struct_list_node second = false then
                recf (p + 2) (f4.children.getD 0 FieldSchema.default) self
              else parse_struct_field recf ts (p + 1)
                (f4.children.getD 0 FieldSchema.default) self).2.2._next_schema_pos ≤ n)) ∨
            cut_failure ts n
              (if num_children_node second = 1 ∧ is_struct_list_node second = false then
                recc (p + 2) (f4.children.getD 0 FieldSchema.default) self
              else parse_struct_field recc (ts.take n) (p + 1)
                (f4.children.getD 0 FieldSchema.default) self).1 := by
          by_cases h6 : num_children_node second = 1 ∧ is_struct_list_node second = false
          · simp only [if_pos h6]
            exact hsim (p + 2) _ self (by omega)
          · simp only [if_neg h6]
            exact parse_struct_field_cut ts n recf recc (p + 1)
              (cut_sim_mono hsim (by omega)) hgood (by omega) _ self
        generalize (if num_children_node second = 1 ∧ is_struct_list_node second = false then
                recc (p + 2) (f4.children.getD 0 FieldSchema.default) self
              else parse_struct_field recc (ts.take n) (p + 1)
                (f4.children.getD 0 FieldSchema.default) self) = rc at hsub ⊢
        generalize (if num_children_node second = 1 ∧ is_struct_list_node second = false then
                recf (p + 2) (f4.children.getD 0 FieldSchema.default) self
              else parse_struct_field recf ts (p + 1)
                (f4.children.getD 0 FieldSchema.default) self) = rf at hsub ⊢
        rcases hsub with ⟨heq, hpos⟩ | hfail
        · left
          subst heq
          refine ⟨rfl, ?_⟩
          obtain ⟨o, c, s1⟩ := rc
          cases o <;> simp_all
        · right
          obtain ⟨msg, hm, hst⟩ := hfail
          obtain ⟨o, c, s1⟩ := rc
          simp only at hm
          subst hm
          exact ⟨msg, rfl, hst⟩
      · rw [if_neg h5, if_neg h5]
        left
        refine ⟨rfl, ?_⟩
        rcases parse_physical_field second false (f4.children.getD 0 FieldSchema.default) self
          with ⟨o, c, s1⟩
        cases o <;> simp
        omega

theorem parse_map_field_cut (ts : List SchemaElement) (n : Nat) (recf recc : NodeParser)
    (p : Nat) (hsim : CutSim ts n recf recc (p + 1)) (hgood : Good ts recf)
    (hn : n ≤ ts.length) (hp : p < n)
    (hctx : ∃ e, ts[p]? = some e ∧ is_group_node e = true ∧ is_map_node e = true)
    (node : FieldSchema) (self : FieldDescriptor) :
    (parse_map_field recc (ts.take n) p node self = parse_map_field recf ts p node self ∧
      ((parse_map_field recf ts p node self).1 = Outcome.OK →
        (parse_map_field recf ts p node self).2.2._next_schema_pos ≤ n)) ∨
    cut_failure ts n (parse_map_field recc (ts.take n) p node self).1 := by
  have hlen := length_take_of_le ts n hn
  by_cases h0 : p + 2 ≥ n
  · right
    obtain ⟨e, he, hg, hm⟩ := hctx
    have : parse_map_field recc (ts.take n) p node self
        = (Outcome.InvalidArgument "Map element should have at least three levels",
            node, self) := by
      unfold parse_map_field
      rw [hlen, if_pos h0]
    rw [this]
    exact cut_failure_invalid ts n _ (Or.inr (Or.inr ⟨rfl, p, e, hp, by omega, he, hg, hm⟩))
  have hcut : (ts.take n)[p]? = ts[p]? := List.getElem?_take_of_lt hp
  have hcut1 : (ts.take n)[p + 1]? = ts[p + 1]? := List.getElem?_take_of_lt (by omega)
  unfold parse_map_field
  rw [hlen, hcut, hcut1, if_neg h0, if_neg (show ¬ p + 2 ≥ ts.length by omega)]
  cases he : ts[p]? with
  | none => left; exact ⟨rfl, by simp⟩
  | some ms =>
    cases he1 : ts[p + 1]? with
    | none => left; exact ⟨rfl, by simp⟩
    | some kv =>
      simp only
      by_cases h1 : ms.num_children_raw ≠ 1
      · left
        simp [h1]
      rw [if_neg h1, if_neg h1]
      by_cases h2 : is_repeated_node ms = true
      · left
        simp [h2]
      rw [if_neg h2, if_neg h2]
      by_cases h3 : (!is_group_node kv || !is_repeated_node kv) = true
      · left
        simp only [if_pos h3]
        exact ⟨trivial, by simp⟩
      rw [if_neg h3, if_neg h3]
      by_cases h4 : kv.num_children_raw = 1
      · rw [if_pos h4, if_pos h4]
        exact parse_list_field_cut ts n recf recc p hsim hgood hn hp
          (fun hle => absurd hle (by omega)) node self
      rw [if_neg h4, if_neg h4]
      by_cases h5 : kv.num_children_raw ≠ 2
      · left
        simp [h5]
      rw [if_neg h5, if_neg h5]
      generalize (open_repeated_level (is_optional_node ms) node) = f4
      have hsub := parse_struct_field_cut ts n recf recc (p + 1)
        (cut_sim_mono hsim (by omega)) hgood (by omega)
        (f4.children.getD 0 FieldSchema.default) self
      generalize parse_struct_field recc (ts.take n) (p + 1)
        (f4.children.getD 0 FieldSchema.default) self = rc at hsub ⊢
      generalize parse_struct_field recf ts (p + 1)
        (f4.children.getD 0 FieldSchema.default) self = rf at hsub ⊢
      rcases hsub with ⟨heq, hpos⟩ | hfail
      · left
        subst heq
        refine ⟨rfl, ?_⟩
        obtain ⟨o, c, s1⟩ := rc
        cases o <;> simp only [] <;> try simp
        split <;> simp_all
      · right
        obtain ⟨msg, hm, hst⟩ := hfail
        obtain ⟨o, c, s1⟩ := rc
        simp only at hm
        subst hm
        exact ⟨msg, rfl, hst⟩

theorem parse_group_field_cut (ts : List SchemaElement) (n : Nat) (recf recc : NodeParser)
    (p : Nat) (hsim : CutSim ts n recf recc (p + 1)) (hgood : Good ts recf)
    (hn : n ≤ ts.length) (hp : p < n) (e : SchemaElement) (he : ts[p]? = some e)
    (hg : is_group_node e = true) (node : FieldSchema) (self : FieldDescriptor) :
    (parse_group_field recc (ts.take n) p node self = parse_group_field recf ts p node self ∧
      ((parse_group_field recf ts p node self).1 = Outcome.OK →
        (parse_group_field recf ts p node self).2.2._next_schema_pos ≤ n)) ∨
    cut_failure ts n (parse_group_field recc (ts.take n) p node self).1 := by
  have hcut : (ts.take n)[p]? = ts[p]? := List.getElem?_take_of_lt hp
  unfold parse_group_field
  rw [hcut, he]
  simp only
  by_cases hm : is_map_node e = true
  · rw [if_pos hm, if_pos hm]
    exact parse_map_field_cut ts n recf recc p hsim hgood hn hp ⟨e, he, hg, hm⟩ node self
  rw [if_neg hm, if_neg hm]
  by_cases hl : is_list_node e = true
  · rw [if_pos hl, if_pos hl]
    exact parse_list_field_cut ts n recf recc p hsim hgood hn hp (fun _ => ⟨e, he, hg, hl⟩)
      node self
  rw [if_neg hl, if_neg hl]
  by_cases hr : is_repeated_node e = true
  · rw [if_pos hr, if_pos hr]
    generalize (open_repeated_level false node) = f3
    have hsub := parse_struct_field_cut ts n recf recc p hsim hgood hp
      (f3.children.getD 0 FieldSchema.default) self
    generalize parse_struct_field recc (ts.take n) p
      (f3.children.getD 0 FieldSchema.default) self = rc at hsub ⊢
    generalize parse_struct_field recf ts p
      (f3.children.getD 0 FieldSchema.default) self = rf at hsub ⊢
    rcases hsub with ⟨heq, hpos⟩ | hfail
    · left
      subst heq
      refine ⟨rfl, ?_⟩
      obtain ⟨o, c, s1⟩ := rc
      cases o <;> simp_all
    · right
      obtain ⟨msg, hm2, hst⟩ := hfail
      obtain ⟨o, c, s1⟩ := rc
      simp only at hm2
      subst hm2
      exact ⟨msg, rfl, hst⟩
  · rw [if_neg hr, if_neg hr]
    exact parse_struct_field_cut ts n recf recc p hsim hgood hp node self

/-- Run on the first `n` elements, `parse_node_field` returns what it returns on the
whole sequence, without having moved the cursor past `n` if that is a success, or it
stops with one of the statuses of `cut_status`. -/
theorem parse_node_field_cut (ts : List SchemaElement) (n : Nat) (hn : n ≤ ts.length)
    (fuel : Nat) :
    ∀ (fuelc a : Nat), 0 < fuel → 0 < fuelc → ts.length < fuel + a → n < fuelc + a →
      CutSim ts n (parse_node_field fuel ts) (parse_node_field fuelc (ts.take n)) a := by
  induction fuel with
  | zero => intro fuelc a h0; omega
  | succ fuel ih =>
    intro fuelc a _ hc hfa hca q node self hq
    obtain ⟨fuelc, rfl⟩ : ∃ k, fuelc = k + 1 := ⟨fuelc - 1, by omega⟩
    by_cases hqn : q < n
    · have hcut : (ts.take n)[q]? = ts[q]? := List.getElem?_take_of_lt hqn
      obtain ⟨e, he⟩ : ∃ e, ts[q]? = some e :=
        ⟨_, List.getElem?_eq_getElem (by omega)⟩
      simp only [parse_node_field, hcut, he]
      by_cases hg : is_group_node e = true
      · simp only [if_pos hg]
        exact parse_group_field_cut ts n _ _ q
          (ih fuelc (q + 1) (by omega) (by omega) (by omega) (by omega))
          (fun p nd s nd' s' h => parse_node_field_ok ts fuel p nd s nd' s' h)
          hn hqn e he hg node self
      · simp only [if_neg hg]
        left
        refine ⟨by first | rfl | trivial, ?_⟩
        by_cases hr : is_repeated_node e = true
        · simp only [if_pos hr]
          generalize parse_physical_field e false _ self = r
          obtain ⟨o, c, s1⟩ := r
          cases o <;> simp
          omega
        · simp only [if_neg hr]
          generalize parse_physical_field e (is_optional_node e) _ self = r
          obtain ⟨o, c, s1⟩ := r
          cases o <;> simp
          omega
    · right
      have : parse_node_field (fuelc + 1) (ts.take n) q node self
          = (Outcome.InvalidArgument "Out-of-bounds index of schema elements", node, self) :=
        parse_node_field_past_end _ fuelc q node self
          (by rw [length_take_of_le ts n hn]; omega)
      rw [this]
      exact cut_failure_invalid ts n _ (Or.inl rfl)

theorem parse_from_thrift_fields_cut (ts : List SchemaElement) (n : Nat)
    (hn : n ≤ ts.length) (hn1 : 1 ≤ n) (k : Nat) :
    ∀ (i : Nat) (fd : FieldDescriptor), 1 ≤ fd._next_schema_pos → fd._next_schema_pos ≤ n →
      (parse_from_thrift_fields (ts.take n) k i fd = parse_from_thrift_fields ts k i fd ∧
        ((parse_from_thrift_fields ts k i fd).1 = Outcome.OK →
          (parse_from_thrift_fields ts k i fd).2._next_schema_pos ≤ n)) ∨
      cut_failure ts n (parse_from_thrift_fields (ts.take n) k i fd).1 := by
  induction k with
  | zero =>
    intro i fd _ hle
    exact Or.inl ⟨rfl, fun _ => hle⟩
  | succ k ih =>
    intro i fd hge hle
    have hnode := parse_node_field_cut ts n hn ts.length n 1 (by omega) (by omega)
      (by omega) (by omega) fd._next_schema_pos (fd._fields.getD i FieldSchema.default) fd hge
    simp only [parse_from_thrift_fields, length_take_of_le ts n hn]
    rcases hnode with ⟨heq, hpos⟩ | hfail
    · rw [heq]
      rcases hf : parse_node_field ts.length ts fd._next_schema_pos
        (fd._fields.getD i FieldSchema.default) fd with ⟨o, field, s1⟩
      rw [hf] at hpos
      cases o with
      | OK =>
        have N := parse_node_field_ok ts _ _ _ _ _ _ hf
        have h1 : s1._next_schema_pos ≤ n := hpos rfl
        simp only
        split
        · left
          exact ⟨rfl, by simp⟩
        · exact ih (i + 1) _ (by have := N.next_gt; simp only; omega) h1
      | InvalidArgument m => left; exact ⟨rfl, by simp⟩
      | Exception w => left; exact ⟨rfl, by simp⟩
      | OutOfBounds => left; exact ⟨rfl, by simp⟩
      | OutOfFuel => left; exact ⟨rfl, by simp⟩
    · right
      obtain ⟨msg, hm, hst⟩ := hfail
      rcases hc : parse_node_field n (ts.take n) fd._next_schema_pos
        (fd._fields.getD i FieldSchema.default) fd with ⟨o, field, s1⟩
      rw [hc] at hm
      simp only at hm
      subst hm
      exact ⟨msg, rfl, hst⟩

/-- A sequence on which resolve succeeds, cut after `n` of its elements (at least the
root, not all), makes resolve stop with one of the statuses of `cut_status`. -/
theorem parse_from_thrift_cut (ts : List SchemaElement) (self fd : FieldDescriptor)
    (h : parse_from_thrift ts self = (Outcome.OK, fd)) (n : Nat) (hn1 : 1 ≤ n)
    (hn : n < ts.length) :
    ∃ msg fd', parse_from_thrift (ts.take n) self = (Outcome.InvalidArgument msg, fd') ∧
      cut_status ts n msg := by
  obtain ⟨root, h0, hg, hloop, hend⟩ := parse_from_thrift_ok_inv ts self fd h
  have hcut0 : (ts.take n)[0]? = some root := by
    rw [List.getElem?_take_of_lt (by omega), h0]
  rcases parse_from_thrift_fields_cut ts n (by omega) hn1 root.num_children_raw.toNat 0
      (loop_start root self) (by simp [loop_start]) (by simp only [loop_start]; omega) with
    ⟨heq, hpos⟩ | hfail
  · rw [hloop] at hpos
    have := hpos rfl
    simp only at this
    omega
  · obtain ⟨msg, hm, hst⟩ := hfail
    rcases hc : parse_from_thrift_fields (ts.take n) root.num_children_raw.toNat 0
      (loop_start root self) with ⟨o, fd'⟩
    rw [hc] at hm
    simp only at hm
    subst hm
    exact ⟨msg, fd', parse_from_thrift_of_loop_error _ self root hcut0 hg _ _ (by simp) hc, hst⟩

/-! ## Claims C14 to C18 -/

/-- C14, counterexample: (1) resolving a schema whose only field is a MAP group over a
key-value group with three children fails with a map-shape status, and the descriptor
is not as before the call: `_fields` has been resized to one field and the cursor moved
to 1; (2) a sequence that contains the same group after a malformed LIST group fails
with a list-shape status, not a map-shape one. -/
theorem C14_counterexample :
    (parse_from_thrift sample_bad_map_schema FieldDescriptor.empty).1
        = Outcome.InvalidArgument
            "the second level in map(MAP_KEY_VALUE) should have two children" ∧
      (parse_from_thrift sample_bad_map_schema FieldDescriptor.empty).2._fields.length = 1 ∧
      (parse_from_thrift sample_bad_map_schema FieldDescriptor.empty).2._next_schema_pos = 1 ∧
      FieldDescriptor.empty._fields.length = 0 ∧
      FieldDescriptor.empty._next_schema_pos = 0 ∧
      sample_unreached_bad_map_schema[2]? = some map_m ∧
      sample_unreached_bad_map_schema[3]? = some map_three ∧
      (parse_from_thrift sample_unreached_bad_map_schema FieldDescriptor.empty).1
        = Outcome.InvalidArgument "List element should have only one child" ∧
      "List element should have only one child" ∉ map_shape_messages := by
  refine ⟨rfl, rfl, rfl, rfl, rfl, rfl, rfl, rfl, ?_⟩
  simp [map_shape_messages]

/-- C14, amended: when the top-level fields before it have resolved and the next
top-level field is a MAP-annotated group whose key-value group has 3 children, resolve
fails with a map-shape status; resolving the group changes nothing, so the descriptor
that comes back is the one the steps before left: `_fields` resized to the child count
of the root, the fields before the group resolved and entered in the name map, the
cursor at the group. -/
theorem C14_malformed_map_fails (ts : List SchemaElement) (self : FieldDescriptor)
    (root ms kv : SchemaElement) (j : Nat) (fd : FieldDescriptor)
    (h0 : ts[0]? = some root) (hg : is_group_node root = true)
    (hj : j < root.num_children_raw.toNat)
    (hrun : parse_from_thrift_fields ts j 0 (loop_start root self) = (Outcome.OK, fd))
    (hms : ts[fd._next_schema_pos]? = some ms) (hmg : is_group_node ms = true)
    (hmm : is_map_node ms = true) (hkv : ts[fd._next_schema_pos + 1]? = some kv)
    (h3 : kv.num_children_raw = 3) :
    ∃ msg, msg ∈ map_shape_messages ∧
      parse_from_thrift ts self = (Outcome.InvalidArgument msg, fd) ∧
      fd._fields.length = root.num_children_raw.toNat ∧
      fd._name_to_field = self._name_to_field ++
        (List.range' 0 j).map (fun i => ((fd._fields.getD i FieldSchema.default).name, i)) ∧
      (j = 0 → fd = loop_start root self) := by
  have hts : 0 < ts.length := lt_of_getElem? ts 0 root h0
  obtain ⟨fuel, hfuel⟩ : ∃ fuel, ts.length = fuel + 1 := ⟨ts.length - 1, by omega⟩
  have hlen : 0 + j ≤ (loop_start root self)._fields.length := by
    simp only [loop_start, resize_length]; omega
  have F := parse_from_thrift_fields_ok ts j 0 _ fd hlen hrun
  obtain ⟨hnames, -⟩ := parse_from_thrift_fields_names ts j 0 _ fd hlen hrun
  obtain ⟨msg, hmem, hres⟩ := parse_map_field_invalid (parse_node_field fuel ts) ts
    fd._next_schema_pos (fd._fields.getD j FieldSchema.default) fd ms hms
    (Or.inr (Or.inr ⟨kv, hkv, by omega, by omega⟩))
  rw [← parse_node_field_map_eq ts _ fuel _ fd ms hms hmg hmm, ← hfuel] at hres
  refine ⟨msg, hmem, ?_, ?_, hnames, ?_⟩
  · exact parse_from_thrift_stops ts self root j fd _ h0 hg hj hrun hres (by simp)
  · rw [F.length_eq]
    simp [loop_start, resize_length]
  · intro hj0
    subst hj0
    simp only [parse_from_thrift_fields, Prod.mk.injEq, true_and] at hrun
    exact hrun.symm

/-- C14, witness: the malformed map as the only top-level field of a fresh
descriptor. -/
theorem C14_witness :
    ∃ msg, msg ∈ map_shape_messages ∧
      parse_from_thrift sample_bad_map_schema FieldDescriptor.empty
        = (Outcome.InvalidArgument msg,
            loop_start (sample_root 1) FieldDescriptor.empty) ∧
      (loop_start (sample_root 1) FieldDescriptor.empty)._fields.length
        = (sample_root 1).num_children_raw.toNat ∧
      (loop_start (sample_root 1) FieldDescriptor.empty)._name_to_field
        = FieldDescriptor.empty._name_to_field ++
          (List.range' 0 0).map (fun i =>
            (((loop_start (sample_root 1) FieldDescriptor.empty)._fields.getD i
              FieldSchema.default).name, i)) ∧
      (0 = 0 →
        loop_start (sample_root 1) FieldDescriptor.empty
          = loop_start (sample_root 1) FieldDescriptor.empty) :=
  C14_malformed_map_fails sample_bad_map_schema FieldDescriptor.empty
    (sample_root 1) map_m map_three 0 (loop_start (sample_root 1) FieldDescriptor.empty)
    rfl (by decide) (by decide) rfl rfl (by decide) (by decide) rfl (by decide)

/-- C15: `parse_from_thrift` returns the status "Wrong parquet root schema element" if
and only if the sequence is empty or element 0 is not a group; and when element 0 is a
group, the result is that of the loop over the top-level fields, started on the
descriptor with `_fields` resized and the cursor at 1, followed by the length check. -/
theorem C15_malformed_root (ts : List SchemaElement) (self : FieldDescriptor) :
    ((parse_from_thrift ts self).1
          = Outcome.InvalidArgument "Wrong parquet root schema element" ↔
        (ts = [] ∨ ∃ root, ts[0]? = some root ∧ is_group_node root = false)) ∧
      (∀ root, ts[0]? = some root → is_group_node root = true →
        (∀ o fd, parse_from_thrift_fields ts root.num_children_raw.toNat 0
              (loop_start root self) = (o, fd) → o ≠ Outcome.OK →
            parse_from_thrift ts self = (o, fd)) ∧
        (∀ fd, parse_from_thrift_fields ts root.num_children_raw.toNat 0
              (loop_start root self) = (Outcome.OK, fd) →
            parse_from_thrift ts self =
              if fd._next_schema_pos ≠ ts.length then
                (Outcome.InvalidArgument
                  ("Remaining " ++ toString (ts.length - fd._next_schema_pos) ++
                    " unparsed schema elements"), fd)
              else (Outcome.OK, fd))) :=
  ⟨parse_from_thrift_root_error_iff ts self,
   fun root h0 hg =>
    ⟨fun o fd h ho => parse_from_thrift_of_loop_error ts self root h0 hg o fd ho h,
     fun fd h => parse_from_thrift_of_loop_ok ts self root h0 hg fd h⟩⟩

/-- C15, witness: a sequence whose element 0 has no children is rejected, and the
sample schema, whose element 0 is a group, is resolved by the loop. -/
theorem C15_witness :
    (parse_from_thrift [leaf_a] FieldDescriptor.empty).1
        = Outcome.InvalidArgument "Wrong parquet root schema element" ∧
      parse_from_thrift sample_list_schema FieldDescriptor.empty =
        (if sample_list_descriptor._next_schema_pos ≠ sample_list_schema.length then
          (Outcome.InvalidArgument
            ("Remaining " ++
              toString (sample_list_schema.length - sample_list_descriptor._next_schema_pos) ++
              " unparsed schema elements"), sample_list_descriptor)
        else (Outcome.OK, sample_list_descriptor)) :=
  ⟨(C15_malformed_root [leaf_a] FieldDescriptor.empty).1.2
      (Or.inr ⟨leaf_a, rfl, by decide⟩),
   ((C15_malformed_root sample_list_schema FieldDescriptor.empty).2 (sample_root 1) rfl
      (by decide)).2 sample_list_descriptor rfl⟩

/-- C16: when the top-level fields before index `j` have resolved and field `j`
resolves to the name of one of them, `parse_from_thrift` returns the status
"Duplicated field name: " followed by that name; and after a successful
`parse_from_thrift` the names of the top-level fields are pairwise distinct. -/
theorem C16_duplicate_field_name (ts : List SchemaElement) (self : FieldDescriptor) :
    (∀ root i j fd fd1 field, ts[0]? = some root → is_group_node root = true →
        i < j → j < root.num_children_raw.toNat →
        parse_from_thrift_fields ts j 0 (loop_start root self) = (Outcome.OK, fd) →
        parse_node_field ts.length ts fd._next_schema_pos
          (fd._fields.getD j FieldSchema.default) fd = (Outcome.OK, field, fd1) →
        (fd._fields.getD i FieldSchema.default).name = field.name →
        (parse_from_thrift ts self).1
          = Outcome.InvalidArgument ("Duplicated field name: " ++ field.name)) ∧
      (∀ fd, parse_from_thrift ts self = (Outcome.OK, fd) →
        (fd._fields.map fun f => f.name).Nodup) := by
  constructor
  · intro root i j fd fd1 field h0 hg hi hj hrun hres hsame
    rw [parse_from_thrift_duplicate ts self root i j fd fd1 field h0 hg hj hi hrun hres hsame]
  · intro fd h
    obtain ⟨root, h0, hg, hloop, -⟩ := parse_from_thrift_ok_inv ts self fd h
    have hlen : 0 + root.num_children_raw.toNat ≤ (loop_start root self)._fields.length := by
      simp only [loop_start, resize_length]; omega
    have F := parse_from_thrift_fields_ok ts _ 0 _ fd hlen hloop
    obtain ⟨-, -, hnodup, -⟩ := parse_from_thrift_fields_names ts _ 0 _ fd hlen hloop
    have hl : fd._fields.length = root.num_children_raw.toNat := by
      rw [F.length_eq]; simp [loop_start, resize_length]
    rw [← hl, map_name_range] at hnodup
    exact hnodup

/-- C16, witness: `message root { required int32 a; required int32 a; }`. -/
theorem C16_witness :
    (parse_from_thrift sample_duplicate_schema FieldDescriptor.empty).1
      = Outcome.InvalidArgument ("Duplicated field name: " ++ "a") :=
  (C16_duplicate_field_name sample_duplicate_schema FieldDescriptor.empty).1 (sample_root 2)
    0 1
    (parse_from_thrift_fields sample_duplicate_schema 1 0
      (loop_start (sample_root 2) FieldDescriptor.empty)).2
    (parse_node_field 3 sample_duplicate_schema 2 FieldSchema.default
      (parse_from_thrift_fields sample_duplicate_schema 1 0
        (loop_start (sample_root 2) FieldDescriptor.empty)).2).2.2
    (parse_node_field 3 sample_duplicate_schema 2 FieldSchema.default
      (parse_from_thrift_fields sample_duplicate_schema 1 0
        (loop_start (sample_root 2) FieldDescriptor.empty)).2).2.1
    rfl (by decide) (by decide) (by decide) rfl rfl rfl

/-- C17, counterexample: in `[root (1 child), optional group x (LIST, 1 child)]` the
sequence ends before the declared child of the root is parsed, and resolve fails with a
list-shape status, not with the out-of-bounds status. -/
theorem C17_counterexample :
    sample_cut_list_schema.length = 2 ∧
      (parse_from_thrift sample_cut_list_schema FieldDescriptor.empty).1
        = Outcome.InvalidArgument "List element should have the second level schema" ∧
      (parse_from_thrift sample_cut_list_schema FieldDescriptor.empty).1
        ≠ Outcome.InvalidArgument "Out-of-bounds index of schema elements" := by
  refine ⟨rfl, rfl, ?_⟩
  have h : (parse_from_thrift sample_cut_list_schema FieldDescriptor.empty).1
      = Outcome.InvalidArgument "List element should have the second level schema" := rfl
  rw [h]
  simp

/-- C17, amended: for a sequence whose element 0 is a group, (1) resolve succeeds only
with the cursor at the end of the sequence; (2) if all declared children of the root
resolve and elements remain, it fails with the status "Remaining n unparsed schema
elements"; (3) if resolve succeeds on the sequence, then on its first `n` elements
alone, for `1 ≤ n` below its length (a sequence that ends before all declared children
are parsed), it fails: with the out-of-bounds status, or, only when the last element
held is a group annotated as a list, with the status of a list without second level,
or, only when one of the last two elements held is a group annotated as a map, with the
status of a map of less than three levels. -/
theorem C17_consumes_sequence_exactly (ts : List SchemaElement) (self : FieldDescriptor)
    (root : SchemaElement) (h0 : ts[0]? = some root) (hg : is_group_node root = true) :
    (∀ fd, parse_from_thrift ts self = (Outcome.OK, fd) → fd._next_schema_pos = ts.length) ∧
      (∀ fd, parse_from_thrift_fields ts root.num_children_raw.toNat 0
            (loop_start root self) = (Outcome.OK, fd) →
          fd._next_schema_pos ≠ ts.length →
          fd._next_schema_pos < ts.length ∧
          parse_from_thrift ts self =
            (Outcome.InvalidArgument
              ("Remaining " ++ toString (ts.length - fd._next_schema_pos) ++
                " unparsed schema elements"), fd)) ∧
      (∀ n fd, 1 ≤ n → n < ts.length → parse_from_thrift ts self = (Outcome.OK, fd) →
        ∃ msg fd', parse_from_thrift (ts.take n) self = (Outcome.InvalidArgument msg, fd') ∧
          (msg = "Out-of-bounds index of schema elements" ∨
            (msg = "List element should have the second level schema" ∧
              ∃ e, 1 ≤ n ∧ ts[n - 1]? = some e ∧ is_group_node e = true ∧
                is_list_node e = true) ∨
            (msg = "Map element should have at least three levels" ∧
              ∃ p e, p < n ∧ n ≤ p + 2 ∧ ts[p]? = some e ∧ is_group_node e = true ∧
                is_map_node e = true))) := by
  have hts : 0 < ts.length := lt_of_getElem? ts 0 root h0
  refine ⟨?_, ?_, ?_⟩
  · intro fd h
    obtain ⟨_, -, -, -, hpos⟩ := parse_from_thrift_ok_inv ts self fd h
    exact hpos
  · intro fd hloop hne
    have hlen : 0 + root.num_children_raw.toNat ≤ (loop_start root self)._fields.length := by
      simp only [loop_start, resize_length]; omega
    have hle := parse_from_thrift_fields_next_le ts _ 0 _ fd hlen
      (by simp only [loop_start]; omega) hloop
    refine ⟨by omega, ?_⟩
    rw [parse_from_thrift_of_loop_ok ts self root h0 hg fd hloop, if_pos hne]
  · intro n fd hn1 hn h
    exact parse_from_thrift_cut ts self fd h n hn1 hn

/-- C17, witness: the sample list schema, on which resolve succeeds, cut after the
list: resolve fails on `[root, optional group x (LIST)]`. -/
theorem C17_witness :
    ∃ msg fd', parse_from_thrift (sample_list_schema.take 2) FieldDescriptor.empty
        = (Outcome.InvalidArgument msg, fd') ∧
      (msg = "Out-of-bounds index of schema elements" ∨
        (msg = "List element should have the second level schema" ∧
          ∃ e, 1 ≤ 2 ∧ sample_list_schema[2 - 1]? = some e ∧ is_group_node e = true ∧
            is_list_node e = true) ∨
        (msg = "Map element should have at least three levels" ∧
          ∃ p e, p < 2 ∧ 2 ≤ p + 2 ∧ sample_list_schema[p]? = some e ∧
            is_group_node e = true ∧ is_map_node e = true)) :=
  (C17_consumes_sequence_exactly sample_list_schema FieldDescriptor.empty (sample_root 1)
    (by rfl) (by decide)).2.2 2 sample_list_descriptor (by decide) (by decide) (by rfl)

/-- C18: after a successful `parse_from_thrift` the number of top-level fields is the
child count the root announces, and their names are, in order, the names of the
elements at the positions of the root's child subtrees. -/
theorem C18_fields_in_declaration_order (ts : List SchemaElement)
    (self fd : FieldDescriptor) (h : parse_from_thrift ts self = (Outcome.OK, fd)) :
    ∃ root, ts[0]? = some root ∧ fd._fields.length = root.num_children_raw.toNat ∧
      (fd._fields.map fun f => f.name)
        = (child_positions ts root.num_children_raw.toNat 1).map
            (fun p => (ts.getD p SchemaElement.default).name) := by
  obtain ⟨root, h0, hg, hloop, -⟩ := parse_from_thrift_ok_inv ts self fd h
  have hlen : 0 + root.num_children_raw.toNat ≤ (loop_start root self)._fields.length := by
    simp only [loop_start, resize_length]; omega
  have F := parse_from_thrift_fields_ok ts _ 0 _ fd hlen hloop
  obtain ⟨-, -, -, hpos⟩ := parse_from_thrift_fields_names ts _ 0 _ fd hlen hloop
  have hl : fd._fields.length = root.num_children_raw.toNat := by
    rw [F.length_eq]; simp [loop_start, resize_length]
  refine ⟨root, h0, hl, ?_⟩
  rw [← map_name_range, hl, hpos]
  rfl

/-- C18, witness: the three top-level fields of the sample schema are the elements at
positions 1, 4 and 8. -/
theorem C18_witness :
    ∃ root, sample_schema[0]? = some root ∧
      sample_descriptor._fields.length = root.num_children_raw.toNat ∧
      (sample_descriptor._fields.map fun f => f.name)
        = (child_positions sample_schema root.num_children_raw.toNat 1).map
            (fun p => (sample_schema.getD p SchemaElement.default).name) :=
  C18_fields_in_declaration_order sample_schema FieldDescriptor.empty sample_descriptor rfl

/-! ## Claims C19 and C20 -/

/-- C19, counterexample: the leaf `required fixed_len_byte_array id (UUID)` carries a
logical type for which the converter has no mapping (it throws), and yet type
resolution succeeds and returns the default type `string` of the physical type. -/
theorem C19_counterexample :
    uuid_leaf.logicalType = some { LogicalType.unset with UUID := true } ∧
      convert_to_doris_type_logical { LogicalType.unset with UUID := true } false =
        .error "Not supported parquet logicalType" ∧
      get_doris_type uuid_leaf false = .ok (string_type, false) :=
  ⟨rfl, rfl, rfl⟩

/-- C19, amended: for a leaf whose consulted annotation (the logical type when present,
otherwise the converted type) has no mapping, type resolution ignores the annotation and
returns the direct physical-type mapping with the compatibility flag unset; it fails
exactly when the physical type itself is unrecognised. -/
theorem C19_unmapped_annotation_uses_physical_type (e : SchemaElement) (nullable : Bool)
    (h : (∃ l, e.logicalType = some l ∧
            ∀ r, convert_to_doris_type_logical l nullable ≠ .ok r) ∨
         (e.logicalType = none ∧ ∃ c, e.converted_type = some c ∧
            ∀ r, convert_to_doris_type_converted c e nullable ≠ .ok r)) :
    get_doris_type e nullable =
        Except.map (fun t => (t, false)) (physical_doris_type e.type nullable) ∧
      ((∃ what, get_doris_type e nullable = .error what) ↔
        e.type = ParquetType.UNRECOGNIZED) := by
  have heq : get_doris_type e nullable =
      Except.map (fun t => (t, false)) (physical_doris_type e.type nullable) := by
    rcases h with ⟨l, hl, hno⟩ | ⟨hl, c, hc, hno⟩
    · exact get_doris_type_logical_unmapped e nullable l hl hno
    · exact get_doris_type_converted_unmapped e nullable c hl hc hno
  refine ⟨heq, ?_⟩
  rw [heq]
  exact physical_doris_type_error_iff e.type nullable

/-- C19, witness: `required int32 j (JSON)` resolves to the physical type `int32`. -/
theorem C19_witness :
    get_doris_type (sample_primitive "j" FieldRepetitionType.REQUIRED ParquetType.INT32
        (some ConvertedType.JSON)) false = .ok (int32_type, false) :=
  (C19_unmapped_annotation_uses_physical_type
    (sample_primitive "j" FieldRepetitionType.REQUIRED ParquetType.INT32
      (some ConvertedType.JSON)) false
    (Or.inr ⟨rfl, ConvertedType.JSON, rfl, fun _ h => by cases h⟩)).1

/-- C20, counterexample: the leaf `required binary e (ENUM)` has a converted-type
annotation, and the result of type resolution is the direct physical-type mapping
(`string`), which is not what the converted-type converter gives (it throws). -/
theorem C20_counterexample :
    enum_leaf.logicalType = none ∧ enum_leaf.converted_type = some ConvertedType.ENUM ∧
      get_doris_type enum_leaf false =
        Except.map (fun t => (t, false)) (physical_doris_type enum_leaf.type false) ∧
      get_doris_type enum_leaf false = .ok (string_type, false) ∧
      convert_to_doris_type_converted ConvertedType.ENUM enum_leaf false =
        .error "Not supported parquet ConvertedType" :=
  ⟨rfl, rfl, rfl, rfl, rfl⟩

/-- C20, amended: a logical type that has a mapping decides the result, whatever the
converted type and the physical type; without a logical type, a converted type that has
a mapping decides the result; the direct physical-type mapping is the result when
neither annotation is present, and also when the consulted annotation (the logical type
when present, otherwise the converted type) has no mapping. -/
theorem C20_resolution_precedence (e : SchemaElement) (nullable : Bool) :
    (∀ l r, e.logicalType = some l → convert_to_doris_type_logical l nullable = .ok r →
        get_doris_type e nullable = .ok r) ∧
      (∀ c r, e.logicalType = none → e.converted_type = some c →
        convert_to_doris_type_converted c e nullable = .ok r →
        get_doris_type e nullable = .ok r) ∧
      (e.logicalType = none → e.converted_type = none →
        get_doris_type e nullable =
          Except.map (fun t => (t, false)) (physical_doris_type e.type nullable)) ∧
      (∀ l, e.logicalType = some l →
        (∀ r, convert_to_doris_type_logical l nullable ≠ .ok r) →
        get_doris_type e nullable =
          Except.map (fun t => (t, false)) (physical_doris_type e.type nullable)) ∧
      (∀ c, e.logicalType = none → e.converted_type = some c →
        (∀ r, convert_to_doris_type_converted c e nullable ≠ .ok r) →
        get_doris_type e nullable =
          Except.map (fun t => (t, false)) (physical_doris_type e.type nullable)) :=
  ⟨fun l r hl h => get_doris_type_of_logical e nullable l r hl h,
   fun c r hl hc h => get_doris_type_of_converted e nullable c r hl hc h,
   fun hl hc => get_doris_type_unannotated e nullable hl hc,
   fun l hl h => get_doris_type_logical_unmapped e nullable l hl h,
   fun c hl hc h => get_doris_type_converted_unmapped e nullable c hl hc h⟩

/-- C20, witness: `required int64 t (TIMESTAMP(MILLIS), INT_64)` resolves by its logical
type to `datetimev2(3)`, not by its converted type to `bigint`. -/
theorem C20_witness :
    get_doris_type timestamp_leaf false =
      .ok (DataType.Scalar PrimitiveType.TYPE_DATETIMEV2 0 3, false) :=
  (C20_resolution_precedence timestamp_leaf false).1 _ _ rfl rfl

/-! ## Looking up a column -/

/-- The loop of `get_column_index` finds the first field with the name, or none. -/
theorem get_column_index_from_spec (name : String) (l : List FieldSchema) (k : Nat) :
    (get_column_index_from name l k = -1 ∧ ∀ f ∈ l, f.name ≠ name) ∨
      ∃ i f, l[i]? = some f ∧ f.name = name ∧
        (∀ j g, j < i → l[j]? = some g → g.name ≠ name) ∧
        get_column_index_from name l k = ((k + i : Nat) : Int) := by
  induction l generalizing k with
  | nil => exact Or.inl ⟨rfl, by simp⟩
  | cons f rest ih =>
    by_cases hf : f.name = name
    · refine Or.inr ⟨0, f, by simp, hf, ?_, ?_⟩
      · intro j g hj; omega
      · simp [get_column_index_from, hf]
    · rcases ih (k + 1) with ⟨h1, h2⟩ | ⟨i, g, h1, h2, h3, h4⟩
      · refine Or.inl ⟨?_, ?_⟩
        · simp only [get_column_index_from, hf, if_false]; exact h1
        · intro x hx
          rcases List.mem_cons.1 hx with h | h
          · rw [h]; exact hf
          · exact h2 x h
      · refine Or.inr ⟨i + 1, g, by simpa using h1, h2, ?_, ?_⟩
        · intro j x hj hx
          cases j with
          | zero =>
            simp only [List.getElem?_cons_zero, Option.some.injEq] at hx
            rw [← hx]; exact hf
          | succ j =>
            simp only [List.getElem?_cons_succ] at hx
            exact h3 j x (by omega) hx
        · simp only [get_column_index_from, hf, if_false, h4]
          congr 1
          omega

/-- The name map made of the names of the fields with their indices answers a lookup as
the loop of `get_column_index` does. -/
theorem lookup_enum_names (name : String) (l : List FieldSchema) (k : Nat) :
    get_column_index_from name l k =
      match List.lookup name ((l.enumFrom k).map (fun p => (p.2.name, p.1))) with
      | some i => (i : Int)
      | none => -1 := by
  induction l generalizing k with
  | nil => rfl
  | cons f rest ih =>
    by_cases hf : f.name = name
    · subst hf
      simp [get_column_index_from, List.enumFrom, List.lookup]
    · have hb : (name == f.name) = false := by
        simp only [beq_eq_false_iff_ne, ne_eq]
        exact fun h => hf h.symm
      simp only [get_column_index_from, hf, if_false, List.enumFrom, List.map_cons,
        List.lookup, hb]
      exact ih (k + 1)

theorem range_names_eq_enum (l : List FieldSchema) :
    (List.range' 0 l.length).map (fun j => ((l.getD j FieldSchema.default).name, j))
      = (l.enumFrom 0).map (fun p => (p.2.name, p.1)) := by
  apply List.ext_getElem
  · simp
  · intro i h1 h2
    have h3 : i < l.length := by simpa using h1
    simp [List.getD_eq_getElem?_getD, List.getElem?_eq_getElem h3]

/-- After a successful resolve on a fresh descriptor the name map holds, in order, the
name of every top-level field with its index. -/
theorem parse_from_thrift_name_map (ts : List SchemaElement) (fd : FieldDescriptor)
    (h : parse_from_thrift ts FieldDescriptor.empty = (Outcome.OK, fd)) :
    fd._name_to_field = (fd._fields.enumFrom 0).map (fun p => (p.2.name, p.1)) := by
  obtain ⟨root, h0, hg, hloop, -⟩ := parse_from_thrift_ok_inv ts _ fd h
  have hlen : 0 + root.num_children_raw.toNat
      ≤ (loop_start root FieldDescriptor.empty)._fields.length := by
    simp only [loop_start, resize_length]; omega
  have F := parse_from_thrift_fields_ok ts _ 0 _ fd hlen hloop
  obtain ⟨hnames, -⟩ := parse_from_thrift_fields_names ts _ 0 _ fd hlen hloop
  have hl : fd._fields.length = root.num_children_raw.toNat := by
    rw [F.length_eq]; simp [loop_start, resize_length]
  rw [hnames, ← hl, range_names_eq_enum]
  simp [loop_start, FieldDescriptor.empty]

/-! ## Sanitized names -/

/-- The characters `is_valid_avro_name` accepts after the first one. -/
theorem avro_char_cases (c : Int) :
    (!(!isalpha c && !isdigit c && c != 95)) = (isalpha c || isdigit c || c == 95) := by
  cases isalpha c <;> cases isdigit c <;> cases h : (c == 95) <;> simp [bne, h]

theorem hex_digit_ok (d : Nat) (hd : d < 16) :
    (isalpha (hex_digit d) || isdigit (hex_digit d) || hex_digit d == 95) = true ∧
      ¬ (65 ≤ hex_digit d ∧ hex_digit d ≤ 90) := by
  unfold hex_digit isalpha isdigit
  interval_cases d <;> decide

theorem hex_digits_ok (fuel n : Nat) (acc : List Int)
    (hacc : ∀ x ∈ acc, (isalpha x || isdigit x || x == 95) = true ∧ ¬ (65 ≤ x ∧ x ≤ 90)) :
    ∀ x ∈ hex_digits fuel n acc,
      (isalpha x || isdigit x || x == 95) = true ∧ ¬ (65 ≤ x ∧ x ≤ 90) := by
  induction fuel generalizing n acc with
  | zero => exact hacc
  | succ fuel ih =>
    have hcons : ∀ x ∈ hex_digit (n % 16) :: acc,
        (isalpha x || isdigit x || x == 95) = true ∧ ¬ (65 ≤ x ∧ x ≤ 90) := by
      intro x hx
      rcases List.mem_cons.1 hx with h | h
      · rw [h]; exact hex_digit_ok _ (Nat.mod_lt _ (by decide))
      · exact hacc x h
    unfold hex_digits
    split
    · exact hcons
    · exact ih _ _ hcons

/-- What `sanitize_avro_name(buf, char)` appends starts with an underscore and consists
of characters a valid name may contain. -/
theorem sanitize_avro_name_char_ok (c : Int) :
    ∃ rest, sanitize_avro_name_char c = 95 :: rest ∧
      ∀ x ∈ rest, (isalpha x || isdigit x || x == 95) = true := by
  unfold sanitize_avro_name_char
  split
  · rename_i h
    refine ⟨[c], rfl, ?_⟩
    intro x hx
    rw [List.mem_singleton.1 hx, h]
    simp
  · refine ⟨120 :: to_lower (std_hex c), rfl, ?_⟩
    intro x hx
    rcases List.mem_cons.1 hx with h | h
    · rw [h]; decide
    · unfold to_lower at h
      obtain ⟨y, hy, hxy⟩ := List.mem_map.1 h
      have hok := hex_digits_ok 8 (c % 4294967296).toNat [] (by simp) y hy
      rw [if_neg hok.2] at hxy
      rw [← hxy]
      exact hok.1

/-- The buffer of `sanitize_avro_name` holds a valid name. -/
theorem sanitize_avro_chars_valid (name : List Int) :
    is_valid_avro_chars (sanitize_avro_chars name) = true ∧
      ∀ x ∈ sanitize_avro_chars name, (isalpha x || isdigit x || x == 95) = true := by
  have htail : ∀ l : List Int, ∀ x ∈ l.flatMap (fun character =>
      if (!isalpha character && !isdigit character && character != 95) = true then
        sanitize_avro_name_char character
      else [character]), (isalpha x || isdigit x || x == 95) = true := by
    intro l x hx
    obtain ⟨c, -, hc⟩ := List.mem_flatMap.1 hx
    split at hc
    · obtain ⟨rest, hr, hok⟩ := sanitize_avro_name_char_ok c
      rw [hr] at hc
      rcases List.mem_cons.1 hc with h | h
      · rw [h]; decide
      · exact hok x h
    · rename_i hcond
      rw [List.mem_singleton.1 hc, ← avro_char_cases]
      cases h9 : (!isalpha c && !isdigit c && c != 95)
      · rfl
      · exact absurd h9 hcond
  unfold sanitize_avro_chars
  simp only
  split
  · obtain ⟨rest, hr, hok⟩ := sanitize_avro_name_char_ok (name.headD 0)
    rw [hr]
    have hall : ∀ x ∈ rest ++ name.tail.flatMap (fun character =>
        if (!isalpha character && !isdigit character && character != 95) = true then
          sanitize_avro_name_char character
        else [character]), (isalpha x || isdigit x || x == 95) = true := by
      intro x hx
      rcases List.mem_append.1 hx with h | h
      · exact hok x h
      · exact htail _ x h
    constructor
    · simp only [is_valid_avro_chars, List.cons_append, List.headD_cons, List.tail_cons]
      rw [if_neg (by decide)]
      rw [List.all_eq_true]
      intro x hx
      rw [avro_char_cases]
      exact hall x hx
    · intro x hx
      rw [List.cons_append] at hx
      rcases List.mem_cons.1 hx with h | h
      · rw [h]; decide
      · exact hall x h
  · rename_i hfirst
    have hf : (isalpha (name.headD 0) || name.headD 0 == 95) = true := by
      cases h1 : isalpha (name.headD 0) <;> cases h2 : (name.headD 0 == 95) <;>
        simp_all [bne]
    constructor
    · simp only [is_valid_avro_chars, List.singleton_append, List.headD_cons,
        List.tail_cons]
      rw [if_neg hfirst, List.all_eq_true]
      intro x hx
      rw [avro_char_cases]
      exact htail _ x hx
    · intro x hx
      rw [List.singleton_append] at hx
      rcases List.mem_cons.1 hx with h | h
      · rw [h]
        cases h1 : isalpha (name.headD 0) <;> cases h2 : (name.headD 0 == 95) <;>
          simp_all
      · exact htail _ x h

theorem char_values_ofNat (n : Nat) (h : n < 128) :
    char_values (Char.ofNat n) = [(n : Int)] := by
  interval_cases n <;> rfl

/-- An ASCII `std::string` is the `std::string` of the name it holds. -/
theorem std_string_of_std_string (l : List Int) (h : ∀ x ∈ l, 0 ≤ x ∧ x < 128) :
    std_string (of_std_string l) = l := by
  unfold std_string of_std_string
  simp only
  induction l with
  | nil => rfl
  | cons a rest ih =>
    have ha := h a (List.mem_cons_self _ _)
    have hn : a.toNat < 128 := by omega
    simp only [List.map_cons, List.flatMap_cons, char_values_ofNat _ hn]
    rw [ih (fun x hx => h x (List.mem_cons_of_mem _ hx))]
    simp only [List.singleton_append, List.cons.injEq, and_true]
    omega

theorem avro_char_ascii (x : Int) (h : (isalpha x || isdigit x || x == 95) = true) :
    0 ≤ x ∧ x < 128 := by
  simp only [isalpha, isdigit, Bool.or_eq_true, Bool.and_eq_true, decide_eq_true_eq,
    beq_iff_eq] at h
  omega

/-- The name `sanitize_avro_name` returns is valid. -/
theorem sanitize_avro_name_valid (name : String) :
    is_valid_avro_name (sanitize_avro_name name) = true := by
  obtain ⟨h1, h2⟩ := sanitize_avro_chars_valid (std_string name)
  unfold is_valid_avro_name sanitize_avro_name
  rw [std_string_of_std_string _ (fun x hx => avro_char_ascii x (h2 x hx))]
  exact h1

/-- A name that is not valid differs from its sanitized form. -/
theorem sanitize_avro_name_ne (name : String) (h : is_valid_avro_name name = false) :
    sanitize_avro_name name ≠ name := by
  intro heq
  have := sanitize_avro_name_valid name
  rw [heq, h] at this
  cases this

/-! ## Patching the name map -/

theorem name_to_field_find_erase_self (m : List (String × Nat)) (s : String) :
    name_to_field_find (name_to_field_erase m s) s = none := by
  unfold name_to_field_find name_to_field_erase
  induction m with
  | nil => rfl
  | cons x rest ih =>
    obtain ⟨k, v⟩ := x
    by_cases hk : k = s
    · subst hk
      simpa [List.filter] using ih
    · have h1 : (k != s) = true := by simpa using hk
      have h2 : (s == k) = false := by
        simp only [beq_eq_false_iff_ne, ne_eq]
        exact fun h => hk h.symm
      simp only [List.filter, h1, List.lookup, h2]
      exact ih

theorem name_to_field_find_erase_ne (m : List (String × Nat)) (s c : String) (h : c ≠ s) :
    name_to_field_find (name_to_field_erase m s) c = name_to_field_find m c := by
  unfold name_to_field_find name_to_field_erase
  induction m with
  | nil => rfl
  | cons x rest ih =>
    obtain ⟨k, v⟩ := x
    by_cases hk : k = s
    · subst hk
      have h2 : (c == k) = false := by simpa using h
      simp only [List.filter, bne_self_eq_false, List.lookup, h2]
      exact ih
    · have h1 : (k != s) = true := by simpa using hk
      simp only [List.filter, h1, List.lookup]
      cases c == k
      · exact ih
      · rfl

theorem name_to_field_find_emplace_new (m : List (String × Nat)) (c : String) (i : Nat)
    (h : name_to_field_find m c = none) :
    name_to_field_find (name_to_field_emplace m c i) c = some i := by
  unfold name_to_field_emplace
  rw [h]
  simp only [Option.isSome_none, Bool.false_eq_true, if_false]
  unfold name_to_field_find at h ⊢
  induction m with
  | nil => simp [List.lookup]
  | cons x rest ih =>
    obtain ⟨k, v⟩ := x
    simp only [List.lookup] at h
    cases hk : (c == k)
    · rw [hk] at h
      simp only [List.cons_append, List.lookup, hk]
      exact ih h
    · rw [hk] at h
      cases h

theorem name_to_field_emplace_old (m : List (String × Nat)) (c : String) (i j : Nat)
    (h : name_to_field_find m c = some j) : name_to_field_emplace m c i = m := by
  unfold name_to_field_emplace
  rw [h]
  rfl

/-- A requested name that is valid, or whose sanitized form is not a key, leaves the
descriptor as it is. -/
theorem iceberg_sanitize_column_unchanged (col : String) (self : FieldDescriptor)
    (h : is_valid_avro_name col = true ∨
      name_to_field_find self._name_to_field (sanitize_avro_name col) = none) :
    iceberg_sanitize_column col self = self := by
  unfold iceberg_sanitize_column
  cases hv : is_valid_avro_name col
  · rcases h with h | h
    · rw [hv] at h; cases h
    · simp [h]
  · simp

/-- A requested name that is not valid and whose sanitized form is a key: the field the
key points at is renamed, the requested name is inserted unless it is a key already, and
the sanitized form is erased. -/
theorem iceberg_sanitize_column_renames (col : String) (self : FieldDescriptor) (i : Nat)
    (hv : is_valid_avro_name col = false)
    (hs : name_to_field_find self._name_to_field (sanitize_avro_name col) = some i) :
    (iceberg_sanitize_column col self)._fields
        = self._fields.set i { self._fields.getD i FieldSchema.default with name := col } ∧
      (iceberg_sanitize_column col self)._name_to_field
        = name_to_field_erase (name_to_field_emplace self._name_to_field col i)
            (sanitize_avro_name col) ∧
      (iceberg_sanitize_column col self)._next_schema_pos = self._next_schema_pos := by
  unfold iceberg_sanitize_column
  simp [hv, hs]

/-! ## Safe outcomes -/

theorem children_pairs_eq (parent : FieldSchema) (cs : List FieldSchema) :
    children_pairs parent cs = cs.flatMap (fun c => (parent, c) :: c.pairs) := by
  induction cs with
  | nil => simp [children_pairs]
  | cons c rest ih => simp [children_pairs, ih]

theorem pairs_eq (f : FieldSchema) :
    f.pairs = f.children.flatMap (fun c => (f, c) :: c.pairs) := by
  cases f
  simp only [FieldSchema.pairs]
  exact children_pairs_eq _ _

/-- A node is monotone when each child is at least at its levels and monotone. -/
theorem levels_monotone_of_children (f : FieldSchema)
    (h : ∀ c ∈ f.children, levels_le (f, c) ∧ c.levels_monotone) : f.levels_monotone := by
  intro pc hpc
  rw [pairs_eq] at hpc
  obtain ⟨c, hc, hmem⟩ := List.mem_flatMap.1 hpc
  rcases List.mem_cons.1 hmem with h1 | h1
  · rw [h1]; exact (h c hc).1
  · exact (h c hc).2 pc h1

theorem levels_monotone_leaf (f : FieldSchema) (h : f.children = []) : f.levels_monotone :=
  levels_monotone_of_children f (by rw [h]; simp)

/-- In a tree without a negative level, the tree of every child is without one. -/
theorem levels_nonneg_children (f : FieldSchema) (h : f.levels_nonneg) :
    ∀ c ∈ f.children, c.levels_nonneg := by
  intro c hc
  refine ⟨h.2 (f, c) ?_, fun pc hpc => h.2 pc ?_⟩
  · rw [pairs_eq]
    exact List.mem_flatMap.2 ⟨c, hc, List.mem_cons_self _ _⟩
  · rw [pairs_eq]
    exact List.mem_flatMap.2 ⟨c, hc, List.mem_cons_of_mem _ hpc⟩

theorem parse_physical_field_levels (e : SchemaElement) (b : Bool) (f f' : FieldSchema)
    (self self' : FieldDescriptor) (hc : f.children = [])
    (h : parse_physical_field e b f self = (Outcome.OK, f', self')) : LevelsOK f f' := by
  obtain ⟨h1, h2, -⟩ := parse_physical_field_ok e b f f' self self' h
  have h3 : f'.levels = f.levels := by
    have := congrArg LeafView.levels h2
    simpa [FieldSchema.view] using this
  simp only [FieldSchema.levels, Levels.mk.injEq] at h3
  exact ⟨h3.2.2, fun _ _ => ⟨by omega, by omega, levels_monotone_leaf f' (by rw [h1, hc])⟩⟩

theorem forall₂_mem_right {R : FieldSchema → FieldSchema → Prop} {l l' : List FieldSchema}
    (h : List.Forall₂ R l l') : ∀ y ∈ l', ∃ x ∈ l, R x y := by
  induction h with
  | nil => intro y hy; cases hy
  | cons hxy _ ih =>
    intro y hy
    rcases List.mem_cons.1 hy with h1 | h1
    · subst h1
      exact ⟨_, List.mem_cons_self _ _, hxy⟩
    · obtain ⟨x, hx, hr⟩ := ih y h1
      exact ⟨x, List.mem_cons_of_mem _ hx, hr⟩

theorem parse_seq_levels (rec : NodeParser) (hrec : LevelsGood rec) (cs : List FieldSchema)
    (self : FieldDescriptor) (cs' : List FieldSchema) (self' : FieldDescriptor)
    (h : parse_seq rec cs self = (Outcome.OK, cs', self'))
    (hcs : ∀ c ∈ cs, c.children = [] ∧ to_int16 c.repetition_level = c.repetition_level ∧
      to_int16 c.definition_level = c.definition_level) :
    List.Forall₂ LevelsOK cs cs' := by
  induction cs generalizing self cs' self' with
  | nil =>
    simp only [parse_seq, Prod.mk.injEq, true_and] at h
    rw [← h.1]
    exact List.Forall₂.nil
  | cons c rest ih =>
    simp only [parse_seq] at h
    rcases hr : rec self._next_schema_pos c self with ⟨o, c', s1⟩
    rw [hr] at h
    cases o with
    | OK =>
      simp only at h
      rcases hr2 : parse_seq rec rest s1 with ⟨o2, rest', s2⟩
      rw [hr2] at h
      simp only [Prod.mk.injEq] at h
      obtain ⟨h1, h2, -⟩ := h
      subst h1
      rw [← h2]
      have hc := hcs c (List.mem_cons_self _ _)
      exact List.Forall₂.cons (hrec _ _ _ _ _ hr hc.1 hc.2.1 hc.2.2)
        (ih _ _ _ hr2 (fun x hx => hcs x (List.mem_cons_of_mem _ hx)))
    | InvalidArgument m => simp at h
    | Exception w => simp at h
    | OutOfBounds => simp at h
    | OutOfFuel => simp at h

/-- An `int16_t` level that is not negative after `if (b) level++` has not wrapped. -/
theorem incremented_nonneg (b : Bool) (x : Int) (hx : to_int16 x = x)
    (h : 0 ≤ (if b = true then to_int16 (x + 1) else x)) :
    x ≤ (if b = true then to_int16 (x + 1) else x) ∧
      to_int16 (if b = true then to_int16 (x + 1) else x)
        = (if b = true then to_int16 (x + 1) else x) := by
  cases b
  · simpa using hx
  · simp only [if_true] at h ⊢
    unfold to_int16 at *
    omega

/-- A struct that resolves: its levels are those it came with, one more definition
level when OPTIONAL, and its children start from these levels. -/
theorem parse_struct_field_levels (ts : List SchemaElement) (rec : NodeParser)
    (hrec : LevelsGood rec) (p : Nat) (e : SchemaElement) (he : ts[p]? = some e)
    (node : FieldSchema) (self : FieldDescriptor) (node' : FieldSchema)
    (self' : FieldDescriptor) (hnc : node.children = [])
    (hr16 : to_int16 node.repetition_level = node.repetition_level)
    (hd16 : to_int16 node.definition_level = node.definition_level)
    (h : parse_struct_field rec ts p node self = (Outcome.OK, node', self')) :
    LevelsOK node node' := by
  have hnn := parse_struct_field_nonneg ts rec p e he node self node' self' h
  unfold parse_struct_field at h
  rw [he] at h
  simp only at h
  rw [if_neg (by omega)] at h
  rw [parse_struct_children_eq _ _ _ _ _ (by rw [struct_children_length]; omega)] at h
  simp only [List.drop_zero, List.take_zero, List.nil_append, Nat.zero_add] at h
  generalize hf1 : (if is_optional_node e = true then
      ({ node with definition_level := to_int16 (node.definition_level + 1) } : FieldSchema)
    else node) = f1 at h
  have hf1c : f1.children = [] := by
    subst hf1; split <;> exact hnc
  have hf1r : f1.repetition_level = node.repetition_level := by
    subst hf1; split <;> rfl
  have hf1p : f1.repeated_parent_def_level = node.repeated_parent_def_level := by
    subst hf1; split <;> rfl
  have hf1d : f1.definition_level
      = (if is_optional_node e = true then to_int16 (node.definition_level + 1)
        else node.definition_level) := by
    subst hf1; split <;> rfl
  have hf1d16 : to_int16 f1.definition_level = f1.definition_level := by
    rw [hf1d]; split
    · exact to_int16_idem _
    · exact hd16
  generalize hcs : (set_child_node_level
      { f1 with children := resize f1.children e.num_children_raw.toNat }
      f1.repeated_parent_def_level) = f3 at h
  have hlen : f3.children.length = e.num_children_raw.toNat := by
    subst hcs; exact struct_children_length _ _ _
  have hf3 : f3.repetition_level = f1.repetition_level ∧
      f3.definition_level = f1.definition_level ∧
      f3.repeated_parent_def_level = f1.repeated_parent_def_level := by
    subst hcs; exact ⟨rfl, rfl, rfl⟩
  have hfresh : ∀ c ∈ f3.children, c.children = [] ∧
      c.levels = ⟨f1.repetition_level, f1.definition_level, f1.repeated_parent_def_level⟩ := by
    intro c hc
    rw [← hcs] at hc
    exact struct_children_fresh f1 _ _ hf1c c hc
  rw [List.take_of_length_le (by omega), List.drop_of_length_le (by omega)] at h
  rcases hr : parse_seq rec f3.children { self with _next_schema_pos := p + 1 }
    with ⟨o, cs', s2⟩
  rw [hr] at h
  cases o with
  | OK =>
    simp only [List.append_nil, Prod.mk.injEq, true_and] at h
    obtain ⟨h1, -⟩ := h
    have hall := parse_seq_levels rec hrec _ _ _ _ hr (fun c hc => by
      obtain ⟨h2, h3⟩ := hfresh c hc
      simp only [FieldSchema.levels, Levels.mk.injEq] at h3
      exact ⟨h2, by rw [h3.1, hf1r]; exact hr16, by rw [h3.2.1]; exact hf1d16⟩)
    rw [← h1]
    refine ⟨?_, ?_⟩
    · simp only; omega
    · intro nn hq
      have nnd : 0 ≤ f3.definition_level := nn.1.2
      rw [hf3.2.1, hf1d] at nnd
      have hd := (incremented_nonneg _ _ hd16 nnd).1
      rw [← hf1d] at hd
      refine ⟨by simp only; omega, by simp only; omega, ?_⟩
      apply levels_monotone_of_children
      intro c' hc'
      obtain ⟨c, hc, L⟩ := forall₂_mem_right hall c' hc'
      obtain ⟨-, h3⟩ := hfresh c hc
      simp only [FieldSchema.levels, Levels.mk.injEq] at h3
      have nnc := levels_nonneg_children _ nn c' hc'
      obtain ⟨m1, m2, m3⟩ := L.mono nnc (by omega)
      have m4 := L.rpdl_eq
      refine ⟨⟨?_, ?_, ?_⟩, m3⟩
      · simp only; omega
      · simp only; omega
      · simp only; omega
  | InvalidArgument m => simp at h
  | Exception w => simp at h
  | OutOfBounds => simp at h
  | OutOfFuel => simp at h

theorem open_repeated_level_levels (b : Bool) (f : FieldSchema) :
    (open_repeated_level b f).repetition_level = to_int16 (f.repetition_level + 1) ∧
      (open_repeated_level b f).definition_level
        = to_int16 ((if b then to_int16 (f.definition_level + 1) else f.definition_level) + 1) ∧
      (open_repeated_level b f).repeated_parent_def_level = f.repeated_parent_def_level := by
  cases b <;> simp [open_repeated_level, set_child_node_level]

/-- A node that opens a repeated level over one child: when the child ends at or above
the levels it was given, the node is monotone. -/
theorem wrap_levels (b : Bool) (node lc child node' : FieldSchema)
    (hnc : node.children = [])
    (hr16 : to_int16 node.repetition_level = node.repetition_level)
    (hd16 : to_int16 node.definition_level = node.definition_level)
    (hlc : (open_repeated_level b node).children = [lc]) (L : LevelsOK lc child)
    (hr : node'.repetition_level = (open_repeated_level b node).repetition_level)
    (hd : node'.definition_level = (open_repeated_level b node).definition_level)
    (hp : node'.repeated_parent_def_level
      = (open_repeated_level b node).repeated_parent_def_level)
    (hch : node'.children = [child]) : LevelsOK node node' := by
  obtain ⟨lc2, hlc2, hfresh⟩ := open_repeated_level_children b node
  rw [hlc] at hlc2
  have hl : lc2 = lc := by
    simp only [List.cons.injEq, and_true] at hlc2
    exact hlc2.symm
  subst hl
  obtain ⟨-, hlev⟩ := hfresh hnc
  simp only [FieldSchema.levels, Levels.mk.injEq] at hlev
  obtain ⟨h1, h2, h3⟩ := open_repeated_level_levels b node
  have hp1 := L.rpdl_eq
  refine ⟨by omega, ?_⟩
  intro nn hq
  obtain ⟨n1, n2⟩ := nn.1
  rw [hr, h1] at n1
  rw [hd, h2] at n2
  have e1 : to_int16 (node.repetition_level + 1) = node.repetition_level + 1 := by
    unfold to_int16 at hr16 n1 ⊢
    omega
  have e2 : node.definition_level
      ≤ to_int16 ((if b = true then to_int16 (node.definition_level + 1)
        else node.definition_level) + 1) := by
    cases b
    · simp only [Bool.false_eq_true, if_false] at n2 ⊢
      unfold to_int16 at hd16 n2 ⊢
      omega
    · simp only [if_true] at n2 ⊢
      unfold to_int16 at hd16 n2 ⊢
      omega
  have nnc := levels_nonneg_children _ nn child (by rw [hch]; exact List.mem_singleton_self _)
  obtain ⟨m1, m2, m3⟩ := L.mono nnc (by omega)
  refine ⟨by omega, by omega, ?_⟩
  apply levels_monotone_of_children
  intro c hc
  rw [hch] at hc
  rw [List.mem_singleton.1 hc]
  exact ⟨⟨by simp only; omega, by simp only; omega, by simp only; omega⟩, m3⟩

theorem open_repeated_level_child_fresh (b : Bool) (node lc : FieldSchema)
    (hnc : node.children = []) (hlc : (open_repeated_level b node).children = [lc]) :
    lc.children = [] ∧ to_int16 lc.repetition_level = lc.repetition_level ∧
      to_int16 lc.definition_level = lc.definition_level := by
  obtain ⟨lc2, hlc2, hfresh⟩ := open_repeated_level_children b node
  rw [hlc] at hlc2
  have hl : lc2 = lc := by
    simp only [List.cons.injEq, and_true] at hlc2
    exact hlc2.symm
  subst hl
  obtain ⟨h1, hlev⟩ := hfresh hnc
  simp only [FieldSchema.levels, Levels.mk.injEq] at hlev
  exact ⟨h1, by rw [hlev.1]; exact to_int16_idem _, by rw [hlev.2.1]; exact to_int16_idem _⟩

theorem parse_list_field_levels (ts : List SchemaElement) (rec : NodeParser)
    (hrec : LevelsGood rec) (p : Nat) (node : FieldSchema) (self : FieldDescriptor)
    (node' : FieldSchema) (self' : FieldDescriptor) (hnc : node.children = [])
    (hr16 : to_int16 node.repetition_level = node.repetition_level)
    (hd16 : to_int16 node.definition_level = node.definition_level)
    (h : parse_list_field rec ts p node self = (Outcome.OK, node', self')) :
    LevelsOK node node' := by
  unfold parse_list_field at h
  split at h
  · simp at h
  rename_i first h0
  split at h
  · simp at h
  split at h
  · simp at h
  split at h
  · simp at h
  split at h
  · simp at h
  rename_i second h1
  split at h
  · simp at h
  obtain ⟨lc, hlc, -⟩ := open_repeated_level_children (is_optional_node first) node
  obtain ⟨hlcc, hlcr, hlcd⟩ := open_repeated_level_child_fresh _ node lc hnc hlc
  simp only [hlc, List.getD_cons_zero, List.set_cons_zero] at h
  split at h
  · split at h
    · rename_i child self1 heq
      simp only [Prod.mk.injEq, true_and] at h
      have L : LevelsOK lc child := by
        split at heq
        · exact hrec _ _ _ _ _ heq hlcc hlcr hlcd
        · exact parse_struct_field_levels ts rec hrec (p + 1) second h1 lc self child self1
            hlcc hlcr hlcd heq
      exact wrap_levels _ node lc child node' hnc hr16 hd16 hlc L (by rw [← h.1]; rfl)
        (by rw [← h.1]; rfl) (by rw [← h.1]; rfl) (by rw [← h.1]; rfl)
    · rename_i hne _
      simp only [Prod.mk.injEq] at h
      exact (hne h.1).elim
  · split at h
    · rename_i child self1 heq
      simp only [Prod.mk.injEq, true_and] at h
      have L : LevelsOK lc child := parse_physical_field_levels _ _ lc child self self1 hlcc heq
      exact wrap_levels _ node lc child node' hnc hr16 hd16 hlc L (by rw [← h.1]; rfl)
        (by rw [← h.1]; rfl) (by rw [← h.1]; rfl) (by rw [← h.1]; rfl)
    · rename_i hne _
      simp only [Prod.mk.injEq] at h
      exact (hne h.1).elim

theorem parse_map_field_levels (ts : List SchemaElement) (rec : NodeParser)
    (hrec : LevelsGood rec) (p : Nat) (node : FieldSchema) (self : FieldDescriptor)
    (node' : FieldSchema) (self' : FieldDescriptor) (hnc : node.children = [])
    (hr16 : to_int16 node.repetition_level = node.repetition_level)
    (hd16 : to_int16 node.definition_level = node.definition_level)
    (h : parse_map_field rec ts p node self = (Outcome.OK, node', self')) :
    LevelsOK node node' := by
  by_cases hlen : p + 2 ≥ ts.length
  · simp [parse_map_field, hlen] at h
  have h0 : ts[p]? = some ts[p] := List.getElem?_eq_getElem (by omega)
  have h1 : ts[p + 1]? = some ts[p + 1] := List.getElem?_eq_getElem (by omega)
  simp only [parse_map_field, hlen, if_false, h0, h1] at h
  split at h
  · simp at h
  split at h
  · simp at h
  split at h
  · simp at h
  split at h
  · exact parse_list_field_levels ts rec hrec p node self node' self' hnc hr16 hd16 h
  split at h
  · simp at h
  obtain ⟨lc, hlc, -⟩ := open_repeated_level_children (is_optional_node ts[p]) node
  obtain ⟨hlcc, hlcr, hlcd⟩ := open_repeated_level_child_fresh _ node lc hnc hlc
  simp only [hlc, List.getD_cons_zero, List.set_cons_zero] at h
  split at h
  · rename_i kv self1 heq
    have L : LevelsOK lc kv :=
      parse_struct_field_levels ts rec hrec (p + 1) _ h1 lc self kv self1 hlcc hlcr hlcd heq
    split at h
    · simp only [Prod.mk.injEq, true_and] at h
      exact wrap_levels _ node lc kv node' hnc hr16 hd16 hlc L (by rw [← h.1])
        (by rw [← h.1]) (by rw [← h.1]) (by rw [← h.1])
    · simp at h
  · rename_i hne _
    simp only [Prod.mk.injEq] at h
    exact (hne h.1).elim

theorem parse_group_field_levels (ts : List SchemaElement) (rec : NodeParser)
    (hrec : LevelsGood rec) (p : Nat) (node : FieldSchema) (self : FieldDescriptor)
    (node' : FieldSchema) (self' : FieldDescriptor) (hnc : node.children = [])
    (hr16 : to_int16 node.repetition_level = node.repetition_level)
    (hd16 : to_int16 node.definition_level = node.definition_level)
    (h : parse_group_field rec ts p node self = (Outcome.OK, node', self')) :
    LevelsOK node node' := by
  unfold parse_group_field at h
  split at h
  · simp at h
  rename_i e h0
  split at h
  · exact parse_map_field_levels ts rec hrec p node self node' self' hnc hr16 hd16 h
  split at h
  · exact parse_list_field_levels ts rec hrec p node self node' self' hnc hr16 hd16 h
  split at h
  · obtain ⟨lc, hlc, -⟩ := open_repeated_level_children false node
    obtain ⟨hlcc, hlcr, hlcd⟩ := open_repeated_level_child_fresh _ node lc hnc hlc
    simp only [hlc, List.getD_cons_zero, List.set_cons_zero] at h
    split at h
    · rename_i child self1 heq
      have L : LevelsOK lc child :=
        parse_struct_field_levels ts rec hrec p e h0 lc self child self1 hlcc hlcr hlcd heq
      simp only [Prod.mk.injEq, true_and] at h
      exact wrap_levels _ node lc child node' hnc hr16 hd16 hlc L (by rw [← h.1])
        (by rw [← h.1]) (by rw [← h.1]) (by rw [← h.1])
    · rename_i hne _
      simp only [Prod.mk.injEq] at h
      exact (hne h.1).elim
  · exact parse_struct_field_levels ts rec hrec p e h0 node self node' self' hnc hr16 hd16 h

/-- Every successful `parse_node_field` on a fresh node establishes `LevelsOK`. -/
theorem parse_node_field_levels (ts : List SchemaElement) (fuel : Nat) :
    LevelsGood (parse_node_field fuel ts) := by
  induction fuel with
  | zero =>
    intro p node self node' self' h
    simp [parse_node_field] at h
  | succ fuel ih =>
    intro p node self node' self' h hnc hr16 hd16
    unfold parse_node_field at h
    split at h
    · simp at h
    rename_i e h0
    split at h
    · exact parse_group_field_levels ts _ ih p node self node' self' hnc hr16 hd16 h
    split at h
    · obtain ⟨lc, hlc, -⟩ := open_repeated_level_children false node
      obtain ⟨hlcc, hlcr, hlcd⟩ := open_repeated_level_child_fresh _ node lc hnc hlc
      simp only [hlc, List.getD_cons_zero, List.set_cons_zero] at h
      split at h
      · rename_i child self1 heq
        have L : LevelsOK lc child :=
          parse_physical_field_levels _ _ lc child self self1 hlcc heq
        simp only [Prod.mk.injEq, true_and] at h
        exact wrap_levels _ node lc child node' hnc hr16 hd16 hlc L (by rw [← h.1])
          (by rw [← h.1]) (by rw [← h.1]) (by rw [← h.1])
      · rename_i hne _
        simp only [Prod.mk.injEq] at h
        exact (hne h.1).elim
    · simp only at h
      split at h
      · rename_i f2 self1 heq
        simp only [Prod.mk.injEq, true_and] at h
        rw [← h.1]
        obtain ⟨c1, c2, -⟩ := parse_physical_field_ok _ _ _ f2 self self1 heq
        have c3 : f2.levels = (if is_optional_node e = true then
            ({ node with definition_level := to_int16 (node.definition_level + 1) } : FieldSchema)
            else node).levels := by
          have := congrArg LeafView.levels c2
          simpa [FieldSchema.view] using this
        have c4 : f2.children = [] := by
          rw [c1]; split <;> exact hnc
        have c5 : f2.repetition_level = node.repetition_level ∧
            f2.definition_level = (if is_optional_node e = true then
              to_int16 (node.definition_level + 1) else node.definition_level) ∧
            f2.repeated_parent_def_level = node.repeated_parent_def_level := by
          simp only [FieldSchema.levels, Levels.mk.injEq] at c3
          obtain ⟨c6, c7, c8⟩ := c3
          rw [c6, c7, c8]
          split <;> exact ⟨rfl, rfl, rfl⟩
        refine ⟨c5.2.2, fun nn hq => ?_⟩
        have nnd := nn.1.2
        rw [c5.2.1] at nnd
        have hd := (incremented_nonneg _ _ hd16 nnd).1
        exact ⟨by omega, by omega, levels_monotone_leaf f2 c4⟩
      · rename_i hne
        exact (hne _ _ h).elim

/-- After a successful run of the loop over `k` fresh fields from index `i`, each of
these fields without a negative level is monotone. -/
theorem parse_from_thrift_fields_levels (ts : List SchemaElement) (k i : Nat)
    (fd fd' : FieldDescriptor) (hik : i + k ≤ fd._fields.length)
    (h : parse_from_thrift_fields ts k i fd = (Outcome.OK, fd'))
    (hfresh : ∀ j, i ≤ j → j < i + k →
      fd._fields.getD j FieldSchema.default = FieldSchema.default) :
    ∀ j, i ≤ j → j < i + k →
      (fd'._fields.getD j FieldSchema.default).levels_nonneg →
      (fd'._fields.getD j FieldSchema.default).levels_monotone := by
  induction k generalizing i fd with
  | zero => intro j h1 h2; omega
  | succ k ih =>
    have hi : i < fd._fields.length := by omega
    unfold parse_from_thrift_fields at h
    split at h
    swap
    · rename_i hne _
      simp only [Prod.mk.injEq] at h
      exact (hne h.1).elim
    rename_i field s1 hres
    have N := parse_node_field_ok ts _ _ _ _ _ _ hres
    have hf := hfresh i (Nat.le_refl _) (by omega)
    rw [hf] at hres
    have L := parse_node_field_levels ts _ _ _ _ _ _ hres rfl rfl rfl
    simp only at h
    split at h
    · simp at h
    have hl3 : (s1._fields.set i field).length = fd._fields.length := by
      rw [List.length_set, N.fields_eq]
    have F := parse_from_thrift_fields_ok ts k (i + 1) _ fd'
      (by simp only; rw [hl3]; omega) h
    have Ftake : fd'._fields.take (i + 1) = (s1._fields.set i field).take (i + 1) :=
      F.take_eq
    have hfi : fd'._fields.getD i FieldSchema.default = field := by
      have h1 : (fd'._fields.take (i + 1))[i]? = some field := by
        rw [Ftake, List.getElem?_take_of_lt (by omega)]
        simp [List.getElem?_set, N.fields_eq, hi]
      rw [List.getElem?_take_of_lt (by omega)] at h1
      simp [List.getD_eq_getElem?_getD, h1]
    have I := ih (i + 1) _ (by simp only; rw [hl3]; omega) h (by
      intro j h1 h2
      have hj : (s1._fields.set i field).getD j FieldSchema.default
          = fd._fields.getD j FieldSchema.default := by
        have hne : i ≠ j := by omega
        simp [List.getD_eq_getElem?_getD, List.getElem?_set, N.fields_eq, hne]
      simp only
      rw [hj]
      exact hfresh j (by omega) (by omega))
    intro j h1 h2
    by_cases hj : j = i
    · subst hj
      rw [hfi]
      exact fun nn => (L.mono nn (le_refl _)).2.2
    · exact I j (by omega) (by omega)

/-- After a successful resolve on a fresh descriptor every top-level field without a
negative level is monotone. -/
theorem parse_from_thrift_levels (ts : List SchemaElement) (fd : FieldDescriptor)
    (h : parse_from_thrift ts FieldDescriptor.empty = (Outcome.OK, fd)) :
    ∀ f ∈ fd._fields, f.levels_nonneg → f.levels_monotone := by
  obtain ⟨root, h0, hg, hloop, -⟩ := parse_from_thrift_ok_inv ts _ fd h
  have hlen : 0 + root.num_children_raw.toNat
      ≤ (loop_start root FieldDescriptor.empty)._fields.length := by
    simp only [loop_start, resize_length]; omega
  have F := parse_from_thrift_fields_ok ts _ 0 _ fd hlen hloop
  have hl : fd._fields.length = root.num_children_raw.toNat := by
    rw [F.length_eq]; simp [loop_start, resize_length]
  have hall := parse_from_thrift_fields_levels ts _ 0 _ fd hlen hloop (by
    intro j h1 h2
    simp only [loop_start, FieldDescriptor.empty, resize, List.take_nil, List.length_nil,
      Nat.sub_zero, List.nil_append, List.getD_eq_getElem?_getD]
    rw [List.getElem?_replicate]
    split <;> rfl)
  intro f hf
  obtain ⟨n, hn, rfl⟩ := List.mem_iff_getElem.1 hf
  have := hall n (Nat.zero_le _) (by omega)
  simpa [List.getD_eq_getElem?_getD, List.getElem?_eq_getElem hn] using this

/-! ## Claims C21 to C24 -/

/-- With a logical type that has a mapping, `get_doris_type` returns what the
logical-type converter returns. -/
theorem get_doris_type_eq_logical (e : SchemaElement) (nullable : Bool) (l : LogicalType)
    (r : DataType × Bool) (hl : e.logicalType = some l)
    (h : convert_to_doris_type_logical l nullable = .ok r) :
    get_doris_type e nullable = convert_to_doris_type_logical l nullable := by
  rw [h]
  exact get_doris_type_of_logical e nullable l r hl h

/-- C21: for a leaf element without logical type and without converted type,
`get_doris_type` maps BOOLEAN to boolean, INT32 to int, INT64 to bigint, INT96 to
datetimev2 with scale 6, FLOAT to float, DOUBLE to double, BYTE_ARRAY and
FIXED_LEN_BYTE_ARRAY to string; the compatibility flag is false; the type is the plain
scalar wrapped as nullable exactly when the nullability flag is true; and the result
depends on the element through its physical type only. -/
theorem C21_physical_type_mapping (e : SchemaElement) (nullable : Bool)
    (hl : e.logicalType = none) (hc : e.converted_type = none) :
    (e.type = ParquetType.BOOLEAN → get_doris_type e nullable
        = .ok (create_data_type PrimitiveType.TYPE_BOOLEAN nullable 0 0, false)) ∧
      (e.type = ParquetType.INT32 → get_doris_type e nullable
        = .ok (create_data_type PrimitiveType.TYPE_INT nullable 0 0, false)) ∧
      (e.type = ParquetType.INT64 → get_doris_type e nullable
        = .ok (create_data_type PrimitiveType.TYPE_BIGINT nullable 0 0, false)) ∧
      (e.type = ParquetType.INT96 → get_doris_type e nullable
        = .ok (create_data_type PrimitiveType.TYPE_DATETIMEV2 nullable 0 6, false)) ∧
      (e.type = ParquetType.FLOAT → get_doris_type e nullable
        = .ok (create_data_type PrimitiveType.TYPE_FLOAT nullable 0 0, false)) ∧
      (e.type = ParquetType.DOUBLE → get_doris_type e nullable
        = .ok (create_data_type PrimitiveType.TYPE_DOUBLE nullable 0 0, false)) ∧
      (e.type = ParquetType.BYTE_ARRAY → get_doris_type e nullable
        = .ok (create_data_type PrimitiveType.TYPE_STRING nullable 0 0, false)) ∧
      (e.type = ParquetType.FIXED_LEN_BYTE_ARRAY → get_doris_type e nullable
        = .ok (create_data_type PrimitiveType.TYPE_STRING nullable 0 0, false)) ∧
      (∀ t precision scale, create_data_type t nullable precision scale
        = if nullable then DataType.Nullable (DataType.Scalar t precision scale)
          else DataType.Scalar t precision scale) ∧
      (∀ e2 : SchemaElement, e2.logicalType = none → e2.converted_type = none →
        e2.type = e.type → get_doris_type e2 nullable = get_doris_type e nullable) := by
  have h := get_doris_type_unannotated e nullable hl hc
  refine ⟨?_, ?_, ?_, ?_, ?_, ?_, ?_, ?_, ?_, ?_⟩
  any_goals (intro ht; rw [h, ht]; rfl)
  · intro t precision scale
    cases nullable <;> rfl
  · intro e2 hl2 hc2 ht
    rw [h, get_doris_type_unannotated e2 nullable hl2 hc2, ht]

/-- C21, witness: `optional int96 ts` resolves to nullable `datetimev2(6)`. -/
theorem C21_witness :
    get_doris_type (sample_primitive "ts" FieldRepetitionType.OPTIONAL ParquetType.INT96 none)
        true
      = .ok (create_data_type PrimitiveType.TYPE_DATETIMEV2 true 0 6, false) :=
  (C21_physical_type_mapping
    (sample_primitive "ts" FieldRepetitionType.OPTIONAL ParquetType.INT96 none) true rfl
    rfl).2.2.2.1 rfl

/-- C22: for a logical type whose member INTEGER is set (and none of STRING, DECIMAL,
DATE, which the converter looks at first): a signed integer of bit width `w` maps to
tinyint for `w ≤ 8`, smallint for `8 < w ≤ 16`, int for `16 < w ≤ 32` and bigint
otherwise, with the compatibility flag clear; an unsigned one maps to smallint, int,
bigint and largeint for the same thresholds, with the flag set; and `get_doris_type`
returns the same for an element carrying that logical type. -/
theorem C22_integer_promotion (l : LogicalType) (i : IntType) (nullable : Bool)
    (hs : l.STRING = false) (hd : l.DECIMAL = none) (hdate : l.DATE = false)
    (hi : l.INTEGER = some i) :
    (i.isSigned = true →
        (i.bitWidth ≤ 8 → convert_to_doris_type_logical l nullable
          = .ok (create_data_type PrimitiveType.TYPE_TINYINT nullable 0 0, false)) ∧
        (8 < i.bitWidth → i.bitWidth ≤ 16 → convert_to_doris_type_logical l nullable
          = .ok (create_data_type PrimitiveType.TYPE_SMALLINT nullable 0 0, false)) ∧
        (16 < i.bitWidth → i.bitWidth ≤ 32 → convert_to_doris_type_logical l nullable
          = .ok (create_data_type PrimitiveType.TYPE_INT nullable 0 0, false)) ∧
        (32 < i.bitWidth → convert_to_doris_type_logical l nullable
          = .ok (create_data_type PrimitiveType.TYPE_BIGINT nullable 0 0, false))) ∧
      (i.isSigned = false →
        (i.bitWidth ≤ 8 → convert_to_doris_type_logical l nullable
          = .ok (create_data_type PrimitiveType.TYPE_SMALLINT nullable 0 0, true)) ∧
        (8 < i.bitWidth → i.bitWidth ≤ 16 → convert_to_doris_type_logical l nullable
          = .ok (create_data_type PrimitiveType.TYPE_INT nullable 0 0, true)) ∧
        (16 < i.bitWidth → i.bitWidth ≤ 32 → convert_to_doris_type_logical l nullable
          = .ok (create_data_type PrimitiveType.TYPE_BIGINT nullable 0 0, true)) ∧
        (32 < i.bitWidth → convert_to_doris_type_logical l nullable
          = .ok (create_data_type PrimitiveType.TYPE_LARGEINT nullable 0 0, true))) ∧
      (∀ e : SchemaElement, e.logicalType = some l →
        get_doris_type e nullable = convert_to_doris_type_logical l nullable) := by
  have hconv : ∃ r, convert_to_doris_type_logical l nullable = .ok r := by
    simp only [convert_to_doris_type_logical, hs, hd, hdate, hi, Bool.false_eq_true, if_false]
    repeat' split
    all_goals exact ⟨_, rfl⟩
  refine ⟨?_, ?_, ?_⟩
  · intro hsg
    refine ⟨?_, ?_, ?_, ?_⟩
    · intro h1
      simp [convert_to_doris_type_logical, hs, hd, hdate, hi, hsg, h1]
    · intro h1 h2
      simp [convert_to_doris_type_logical, hs, hd, hdate, hi, hsg, Int.not_le.2 h1, h2]
    · intro h1 h2
      have h0 : ¬ i.bitWidth ≤ 8 := by omega
      simp [convert_to_doris_type_logical, hs, hd, hdate, hi, hsg, h0, Int.not_le.2 h1, h2]
    · intro h1
      have h0 : ¬ i.bitWidth ≤ 8 := by omega
      have h2 : ¬ i.bitWidth ≤ 16 := by omega
      simp [convert_to_doris_type_logical, hs, hd, hdate, hi, hsg, h0, h2, Int.not_le.2 h1]
  · intro hsg
    refine ⟨?_, ?_, ?_, ?_⟩
    · intro h1
      simp [convert_to_doris_type_logical, hs, hd, hdate, hi, hsg, h1]
    · intro h1 h2
      simp [convert_to_doris_type_logical, hs, hd, hdate, hi, hsg, Int.not_le.2 h1, h2]
    · intro h1 h2
      have h0 : ¬ i.bitWidth ≤ 8 := by omega
      simp [convert_to_doris_type_logical, hs, hd, hdate, hi, hsg, h0, Int.not_le.2 h1, h2]
    · intro h1
      have h0 : ¬ i.bitWidth ≤ 8 := by omega
      have h2 : ¬ i.bitWidth ≤ 16 := by omega
      simp [convert_to_doris_type_logical, hs, hd, hdate, hi, hsg, h0, h2, Int.not_le.2 h1]
  · intro e he
    obtain ⟨r, hr⟩ := hconv
    exact get_doris_type_eq_logical e nullable l r he hr

/-- C22, witness: unsigned 16-bit gives int with the flag set, and signed 16-bit gives
smallint with the flag clear. -/
theorem C22_witness :
    convert_to_doris_type_logical (integer_logical_type 16 false) false
        = .ok (create_data_type PrimitiveType.TYPE_INT false 0 0, true) ∧
      convert_to_doris_type_logical (integer_logical_type 16 true) false
        = .ok (create_data_type PrimitiveType.TYPE_SMALLINT false 0 0, false) :=
  ⟨((C22_integer_promotion (integer_logical_type 16 false) ⟨16, false⟩ false rfl rfl rfl
      rfl).2.1 rfl).2.1 (by decide) (by decide),
   ((C22_integer_promotion (integer_logical_type 16 true) ⟨16, true⟩ false rfl rfl rfl
      rfl).1 rfl).2.1 (by decide) (by decide)⟩

/-- C23: for each bit width 8, 16, 32, 64, each signedness and each nullability flag,
the converted-type converter on `INT_w` / `UINT_w` returns the same type and the same
compatibility flag as the logical-type converter on `INTEGER(w, signed / unsigned)`. -/
theorem C23_integer_schemes_agree (e : SchemaElement) (nullable : Bool) :
    convert_to_doris_type_converted ConvertedType.INT_8 e nullable
        = convert_to_doris_type_logical (integer_logical_type 8 true) nullable ∧
      convert_to_doris_type_converted ConvertedType.INT_16 e nullable
        = convert_to_doris_type_logical (integer_logical_type 16 true) nullable ∧
      convert_to_doris_type_converted ConvertedType.INT_32 e nullable
        = convert_to_doris_type_logical (integer_logical_type 32 true) nullable ∧
      convert_to_doris_type_converted ConvertedType.INT_64 e nullable
        = convert_to_doris_type_logical (integer_logical_type 64 true) nullable ∧
      convert_to_doris_type_converted ConvertedType.UINT_8 e nullable
        = convert_to_doris_type_logical (integer_logical_type 8 false) nullable ∧
      convert_to_doris_type_converted ConvertedType.UINT_16 e nullable
        = convert_to_doris_type_logical (integer_logical_type 16 false) nullable ∧
      convert_to_doris_type_converted ConvertedType.UINT_32 e nullable
        = convert_to_doris_type_logical (integer_logical_type 32 false) nullable ∧
      convert_to_doris_type_converted ConvertedType.UINT_64 e nullable
        = convert_to_doris_type_logical (integer_logical_type 64 false) nullable := by
  refine ⟨?_, ?_, ?_, ?_, ?_, ?_, ?_, ?_⟩ <;> rfl

/-- C24: for a logical type whose member TIMESTAMP is set (and none of the members the
converter looks at first), the type is datetimev2 with scale 3 when the unit has MILLIS
set and scale 6 otherwise; the converted types TIMESTAMP_MILLIS and TIMESTAMP_MICROS
give scale 3 and 6; and a logical type whose member TIME is set gives timev2 whatever
its unit, as do the converted types TIME_MILLIS and TIME_MICROS. The compatibility flag
is clear throughout. -/
theorem C24_timestamp_and_time (l : LogicalType) (e : SchemaElement) (nullable : Bool)
    (hs : l.STRING = false) (hd : l.DECIMAL = none) (hdate : l.DATE = false)
    (hi : l.INTEGER = none) :
    (∀ ts, l.TIME = none → l.TIMESTAMP = some ts →
        (ts.unit.MILLIS = true → convert_to_doris_type_logical l nullable
          = .ok (create_data_type PrimitiveType.TYPE_DATETIMEV2 nullable 0 3, false)) ∧
        (ts.unit.MILLIS = false → convert_to_doris_type_logical l nullable
          = .ok (create_data_type PrimitiveType.TYPE_DATETIMEV2 nullable 0 6, false))) ∧
      (∀ t, l.TIME = some t → convert_to_doris_type_logical l nullable
        = .ok (create_data_type PrimitiveType.TYPE_TIMEV2 nullable 0 0, false)) ∧
      convert_to_doris_type_converted ConvertedType.TIMESTAMP_MILLIS e nullable
        = .ok (create_data_type PrimitiveType.TYPE_DATETIMEV2 nullable 0 3, false) ∧
      convert_to_doris_type_converted ConvertedType.TIMESTAMP_MICROS e nullable
        = .ok (create_data_type PrimitiveType.TYPE_DATETIMEV2 nullable 0 6, false) ∧
      convert_to_doris_type_converted ConvertedType.TIME_MILLIS e nullable
        = .ok (create_data_type PrimitiveType.TYPE_TIMEV2 nullable 0 0, false) ∧
      convert_to_doris_type_converted ConvertedType.TIME_MICROS e nullable
        = .ok (create_data_type PrimitiveType.TYPE_TIMEV2 nullable 0 0, false) := by
  refine ⟨?_, ?_, rfl, rfl, rfl, rfl⟩
  · intro ts ht hts
    constructor
    · intro hm
      simp [convert_to_doris_type_logical, hs, hd, hdate, hi, ht, hts, hm]
    · intro hm
      simp [convert_to_doris_type_logical, hs, hd, hdate, hi, ht, hts, hm]
  · intro t ht
    simp [convert_to_doris_type_logical, hs, hd, hdate, hi, ht]

/-- C24, witness: `TIMESTAMP(NANOS)` gives scale 6. -/
theorem C24_witness :
    convert_to_doris_type_logical
        { LogicalType.unset with
          TIMESTAMP := some { isAdjustedToUTC := false,
                              unit := { MILLIS := false, MICROS := false, NANOS := true } } }
        true
      = .ok (create_data_type PrimitiveType.TYPE_DATETIMEV2 true 0 6, false) :=
  ((C24_timestamp_and_time
    { LogicalType.unset with
      TIMESTAMP := some { isAdjustedToUTC := false,
                          unit := { MILLIS := false, MICROS := false, NANOS := true } } }
    SchemaElement.default true rfl rfl rfl rfl).1 _ rfl rfl).2 rfl

/-! ## Claims C25 and C26 -/

/-- C25: `get_column_index` returns `i` exactly when the `i`-th top-level field is the
first one with the given name, and `-1` exactly when no top-level field has that name;
it always returns one of the two; and it depends on the descriptor through the names of
the top-level fields only, so a name that occurs only below the top level is never
matched. -/
theorem C25_get_column_index (self : FieldDescriptor) (name : String) :
    (∀ i : Nat, get_column_index self name = (i : Int) ↔
        (∃ f, self._fields[i]? = some f ∧ f.name = name) ∧
        ∀ j g, j < i → self._fields[j]? = some g → g.name ≠ name) ∧
      (get_column_index self name = -1 ↔ ∀ f ∈ self._fields, f.name ≠ name) ∧
      (get_column_index self name = -1 ∨ ∃ i : Nat, get_column_index self name = (i : Int)) ∧
      (∀ self2 : FieldDescriptor,
        (self2._fields.map fun f => f.name) = (self._fields.map fun f => f.name) →
        get_column_index self2 name = get_column_index self name) := by
  have hspec := get_column_index_from_spec name self._fields 0
  refine ⟨?_, ?_, ?_, ?_⟩
  · intro i
    constructor
    · intro hi
      rcases hspec with ⟨h1, -⟩ | ⟨i2, f, h1, h2, h3, h4⟩
      · unfold get_column_index at hi
        rw [h1] at hi
        omega
      · unfold get_column_index at hi
        rw [h4] at hi
        have : i2 = i := by omega
        subst this
        exact ⟨⟨f, h1, h2⟩, h3⟩
    · rintro ⟨⟨f, hf1, hf2⟩, hmin⟩
      rcases hspec with ⟨-, h2⟩ | ⟨i2, g, h1, h2, h3, h4⟩
      · exact absurd hf2 (h2 f (List.getElem?_mem hf1))
      · unfold get_column_index
        rw [h4]
        have : i2 = i := by
          rcases Nat.lt_trichotomy i2 i with h | h | h
          · exact absurd h2 (hmin i2 g h h1)
          · exact h
          · exact absurd hf2 (h3 i f h hf1)
        subst this
        simp
  · constructor
    · intro hi
      rcases hspec with ⟨-, h2⟩ | ⟨i2, f, h1, h2, h3, h4⟩
      · exact h2
      · unfold get_column_index at hi
        rw [h4] at hi
        omega
    · intro hall
      rcases hspec with ⟨h1, -⟩ | ⟨i2, f, h1, h2, h3, h4⟩
      · exact h1
      · exact absurd h2 (hall f (List.getElem?_mem h1))
  · rcases hspec with ⟨h1, -⟩ | ⟨i2, f, h1, h2, h3, h4⟩
    · exact Or.inl h1
    · exact Or.inr ⟨0 + i2, h4⟩
  · intro self2 hmap
    unfold get_column_index
    generalize self2._fields = l2 at hmap
    generalize self._fields = l1 at hmap
    generalize 0 = k
    induction l1 generalizing l2 k with
    | nil =>
      cases l2 with
      | nil => rfl
      | cons a b => simp at hmap
    | cons f rest ih =>
      cases l2 with
      | nil => simp at hmap
      | cons a b =>
        simp only [List.map_cons, List.cons.injEq] at hmap
        simp only [get_column_index_from, hmap.1]
        rw [ih b hmap.2 (k + 1)]

/-- C26: after a successful resolve on a fresh descriptor, for every name: when
`get_column` returns a field, `get_column_index` returns an index and the field is the
top-level field at that index; `get_column` returns a field exactly when
`get_column_index` is not `-1`; and when it is `-1`, `get_column` throws the
name-not-found exception. -/
theorem C26_get_column (ts : List SchemaElement) (fd : FieldDescriptor) (name : String)
    (h : parse_from_thrift ts FieldDescriptor.empty = (Outcome.OK, fd)) :
    (∀ f, get_column fd name = .ok f →
        ∃ i : Nat, get_column_index fd name = (i : Int) ∧ fd._fields[i]? = some f) ∧
      ((∃ f, get_column fd name = .ok f) ↔ get_column_index fd name ≠ -1) ∧
      (get_column_index fd name = -1 →
        get_column fd name = .error ("Name " ++ name ++ " not found in FieldDescriptor!")) := by
  have hmap := parse_from_thrift_name_map ts fd h
  have hidx : get_column_index fd name =
      match List.lookup name fd._name_to_field with
      | some i => (i : Int)
      | none => -1 := by
    rw [hmap]
    exact lookup_enum_names name fd._fields 0
  cases hl : List.lookup name fd._name_to_field with
  | none =>
    rw [hl] at hidx
    simp only at hidx
    have hcol : get_column fd name
        = .error ("Name " ++ name ++ " not found in FieldDescriptor!") := by
      simp [get_column, name_to_field_find, hl]
    refine ⟨?_, ?_, fun _ => hcol⟩
    · intro f hf
      rw [hcol] at hf
      cases hf
    · rw [hcol, hidx]
      simp
  | some i =>
    rw [hl] at hidx
    simp only at hidx
    have hnn : (0 : Int) ≤ get_column_index fd name := by
      rw [hidx]; exact Int.ofNat_nonneg i
    have hcol : get_column fd name = .ok (fd._fields.getD i FieldSchema.default) := by
      simp [get_column, name_to_field_find, hl]
    have hget : fd._fields[i]? = some (fd._fields.getD i FieldSchema.default) := by
      rcases get_column_index_from_spec name fd._fields 0 with ⟨h1, -⟩ | ⟨i2, f, h1, -, -, h4⟩
      · unfold get_column_index at hnn
        rw [h1] at hnn
        omega
      · unfold get_column_index at hidx
        rw [h4] at hidx
        have : i2 = i := by
          have h5 := Int.ofNat.inj hidx
          omega
        subst this
        simp [List.getD_eq_getElem?_getD, h1]
    refine ⟨?_, ?_, ?_⟩
    · intro f hf
      rw [hcol] at hf
      injection hf with hf
      subst hf
      exact ⟨i, hidx, hget⟩
    · rw [hcol]
      constructor
      · intro _
        omega
      · intro _
        exact ⟨_, rfl⟩
    · intro hneg
      omega

/-- C26, witness: in the descriptor of the sample list schema, `x` is found at index 0
and `element`, a nested name, is not found. -/
theorem C26_witness :
    (∀ f, get_column sample_list_descriptor "x" = .ok f →
        ∃ i : Nat, get_column_index sample_list_descriptor "x" = (i : Int) ∧
          sample_list_descriptor._fields[i]? = some f) ∧
      ((∃ f, get_column sample_list_descriptor "x" = .ok f) ↔
        get_column_index sample_list_descriptor "x" ≠ -1) ∧
      (get_column_index sample_list_descriptor "x" = -1 →
        get_column sample_list_descriptor "x"
          = .error ("Name " ++ "x" ++ " not found in FieldDescriptor!")) :=
  C26_get_column sample_list_schema sample_list_descriptor "x" rfl

/-- In the descriptor of the sample list schema the top-level name `x` has index 0 and
the nested name `element` has none. -/
theorem get_column_index_sample :
    get_column_index sample_list_descriptor "x" = 0 ∧
      get_column_index sample_list_descriptor "element" = -1 := by
  decide

/-! ## Claim C27 -/

/-- C27, counterexample: in the descriptor resolved from
`message root { required int32 _x2da_x2d; }` the requested name `_x2da-` is not valid
and its sanitized form `_x2da_x2d` is a key pointing at field 0, but after
`iceberg_sanitize ["-a-", "_x2da-"]` field 0 is named `-a-`, not `_x2da-`, and `_x2da-`
is not a key: the first name has taken the key away before the second is processed. -/
theorem C27_counterexample :
    (parse_from_thrift sample_sanitized_schema FieldDescriptor.empty).1 = Outcome.OK ∧
      is_valid_avro_name "_x2da-" = false ∧ sanitize_avro_name "_x2da-" = "_x2da_x2d" ∧
      name_to_field_find
        (parse_from_thrift sample_sanitized_schema FieldDescriptor.empty).2._name_to_field
        "_x2da_x2d" = some 0 ∧
      ((iceberg_sanitize ["-a-", "_x2da-"]
          (parse_from_thrift sample_sanitized_schema FieldDescriptor.empty).2)._fields.map
        fun f => f.name) = ["-a-"] ∧
      name_to_field_find
        (iceberg_sanitize ["-a-", "_x2da-"]
          (parse_from_thrift sample_sanitized_schema FieldDescriptor.empty).2)._name_to_field
        "_x2da-" = none := by
  decide

/-- C27, amended: for a requested name `c` that is not valid, is not a key of the name
map when it is processed, and whose sanitized form `s` is then a key pointing at field
`i`: after `c` is processed field `i` is named `c` (nothing else in `_fields` changes),
looking up `c` returns field `i`, and `s` is no longer a key.  A requested name that is
valid, or whose sanitized form is not a key when it is processed, leaves the descriptor
unchanged; so does a whole list of such names. -/
theorem C27_sanitize_names (self : FieldDescriptor) (c : String) :
    (∀ i, is_valid_avro_name c = false →
        name_to_field_find self._name_to_field (sanitize_avro_name c) = some i →
        name_to_field_find self._name_to_field c = none →
        i < self._fields.length →
        ((iceberg_sanitize [c] self)._fields.getD i FieldSchema.default).name = c ∧
        (iceberg_sanitize [c] self)._fields
          = self._fields.set i { self._fields.getD i FieldSchema.default with name := c } ∧
        name_to_field_find (iceberg_sanitize [c] self)._name_to_field c = some i ∧
        name_to_field_find (iceberg_sanitize [c] self)._name_to_field (sanitize_avro_name c)
          = none) ∧
      ((is_valid_avro_name c = true ∨
          name_to_field_find self._name_to_field (sanitize_avro_name c) = none) →
        iceberg_sanitize [c] self = self) ∧
      (∀ cols : List String,
        (∀ x ∈ cols, is_valid_avro_name x = true ∨
          name_to_field_find self._name_to_field (sanitize_avro_name x) = none) →
        iceberg_sanitize cols self = self) := by
  refine ⟨?_, ?_, ?_⟩
  · intro i hv hs hc hi
    obtain ⟨hf, hn, -⟩ := iceberg_sanitize_column_renames c self i hv hs
    have hne := sanitize_avro_name_ne c hv
    have hstep : iceberg_sanitize [c] self = iceberg_sanitize_column c self := rfl
    rw [hstep, hf, hn]
    refine ⟨?_, rfl, ?_, name_to_field_find_erase_self _ _⟩
    · simp [List.getD_eq_getElem?_getD, List.getElem?_set, hi]
    · rw [name_to_field_find_erase_ne _ _ _ (fun h => hne h.symm)]
      exact name_to_field_find_emplace_new _ _ _ hc
  · intro h
    exact iceberg_sanitize_column_unchanged c self h
  · intro cols
    induction cols with
    | nil => intro _; rfl
    | cons x rest ih =>
      intro h
      have hx := iceberg_sanitize_column_unchanged x self (h x (List.mem_cons_self _ _))
      have hstep : iceberg_sanitize (x :: rest) self
          = iceberg_sanitize rest (iceberg_sanitize_column x self) := rfl
      rw [hstep, hx]
      exact ih (fun y hy => h y (List.mem_cons_of_mem _ hy))

/-- C27, witness: with the requested name `-a-`, the field `_x2da_x2d` is renamed and
the name map repointed. -/
theorem C27_witness :
    ((iceberg_sanitize ["-a-"]
          (parse_from_thrift sample_sanitized_schema FieldDescriptor.empty).2)._fields.getD 0
        FieldSchema.default).name = "-a-" ∧
      name_to_field_find
        (iceberg_sanitize ["-a-"]
          (parse_from_thrift sample_sanitized_schema FieldDescriptor.empty).2)._name_to_field
        "-a-" = some 0 :=
  ⟨((C27_sanitize_names (parse_from_thrift sample_sanitized_schema FieldDescriptor.empty).2
      "-a-").1 0 (by decide) (by decide) (by decide) (by decide)).1,
   ((C27_sanitize_names (parse_from_thrift sample_sanitized_schema FieldDescriptor.empty).2
      "-a-").1 0 (by decide) (by decide) (by decide) (by decide)).2.2.1⟩

/-! ## Claim C28 -/

/-- C28: two resolves of the same sequence, each on a freshly constructed descriptor
(no fields, an empty name map, no physical fields; whatever the cursor holds), end with
the same outcome and leave the same fields, the same name map and the same physical
fields, so the same names, levels, types, field ids and physical indices; when the root
is a group element, and so whenever one of them succeeds, they return the same
descriptor. -/
theorem C28_resolution_is_a_function (ts : List SchemaElement) (self1 self2 : FieldDescriptor)
    (h1 : self1._fields = [] ∧ self1._name_to_field = [] ∧ self1._physical_fields = [])
    (h2 : self2._fields = [] ∧ self2._name_to_field = [] ∧ self2._physical_fields = []) :
    (parse_from_thrift ts self1).1 = (parse_from_thrift ts self2).1 ∧
      (parse_from_thrift ts self1).2._fields = (parse_from_thrift ts self2).2._fields ∧
      (parse_from_thrift ts self1).2._name_to_field
        = (parse_from_thrift ts self2).2._name_to_field ∧
      (parse_from_thrift ts self1).2._physical_fields
        = (parse_from_thrift ts self2).2._physical_fields ∧
      (∀ root, ts[0]? = some root → is_group_node root = true →
        parse_from_thrift ts self1 = parse_from_thrift ts self2) ∧
      (∀ fd, parse_from_thrift ts self1 = (Outcome.OK, fd) →
        parse_from_thrift ts self2 = (Outcome.OK, fd)) := by
  obtain ⟨f1, n1, p1⟩ := h1
  obtain ⟨f2, n2, p2⟩ := h2
  have hstart : ∀ root, loop_start root self1 = loop_start root self2 := by
    intro root
    simp only [loop_start, f1, f2, n1, n2, p1, p2]
  have hgroup : ∀ root, ts[0]? = some root → is_group_node root = true →
      parse_from_thrift ts self1 = parse_from_thrift ts self2 := by
    intro root h0 hg
    rw [parse_from_thrift_eq ts self1 root h0 hg, parse_from_thrift_eq ts self2 root h0 hg,
      hstart root]
  have hall : (parse_from_thrift ts self1).1 = (parse_from_thrift ts self2).1 ∧
      (parse_from_thrift ts self1).2._fields = (parse_from_thrift ts self2).2._fields ∧
      (parse_from_thrift ts self1).2._name_to_field
        = (parse_from_thrift ts self2).2._name_to_field ∧
      (parse_from_thrift ts self1).2._physical_fields
        = (parse_from_thrift ts self2).2._physical_fields := by
    cases h0 : ts[0]? with
    | none => simp [parse_from_thrift, h0, f1, f2, n1, n2, p1, p2]
    | some root =>
      by_cases hg : is_group_node root = true
      · rw [hgroup root h0 hg]
        exact ⟨rfl, rfl, rfl, rfl⟩
      · simp [parse_from_thrift, h0, hg, f1, f2, n1, n2, p1, p2]
  refine ⟨hall.1, hall.2.1, hall.2.2.1, hall.2.2.2, hgroup, ?_⟩
  intro fd h
  cases h0 : ts[0]? with
  | none => simp [parse_from_thrift, h0] at h
  | some root =>
    by_cases hg : is_group_node root = true
    · rw [← hgroup root h0 hg]
      exact h
    · simp [parse_from_thrift, h0, hg] at h

/-- C28, witness: the sample list schema resolved on a fresh descriptor and on a fresh
descriptor whose cursor starts at 7. -/
theorem C28_witness :
    parse_from_thrift sample_list_schema FieldDescriptor.empty
      = parse_from_thrift sample_list_schema
          { FieldDescriptor.empty with _next_schema_pos := 7 } :=
  (C28_resolution_is_a_function sample_list_schema FieldDescriptor.empty
    { FieldDescriptor.empty with _next_schema_pos := 7 } ⟨rfl, rfl, rfl⟩
    ⟨rfl, rfl, rfl⟩).2.2.2.2.1 (sample_root 1) (by rfl) (by decide)

/-! ## Claim C29 -/

/-- In the tree resolved from the sample list schema there is one parent-child pair:
the list and its element. -/
theorem pairs_sample :
    (sample_list_descriptor._fields.flatMap FieldSchema.pairs).map
        (fun pc => (pc.1.name, pc.2.name, pc.1.definition_level, pc.2.definition_level))
      = [("x", "element", 2, 3)] := by
  decide

/-- C30 (amended): after a successful resolve on a fresh descriptor, in the tree of
every top-level field in which no node has a negative repetition or definition level
(no `int16_t` level has wrapped around), for every parent-child pair the child's
repetition level, definition level and `repeated_parent_def_level` are each at least
the parent's. -/
theorem C30_levels_monotone (ts : List SchemaElement) (fd : FieldDescriptor)
    (h : parse_from_thrift ts FieldDescriptor.empty = (Outcome.OK, fd)) :
    ∀ f ∈ fd._fields, f.levels_nonneg → ∀ pc ∈ f.pairs,
      pc.1.repetition_level ≤ pc.2.repetition_level ∧
        pc.1.definition_level ≤ pc.2.definition_level ∧
        pc.1.repeated_parent_def_level ≤ pc.2.repeated_parent_def_level :=
  fun f hf hnn pc hpc => parse_from_thrift_levels ts fd h f hf hnn pc hpc

/-- C30, witness: the list `x` of the sample list schema and its element. -/
theorem C30_witness :
    (sample_list_descriptor._fields.getD 0 FieldSchema.default).repetition_level
        ≤ ((sample_list_descriptor._fields.getD 0 FieldSchema.default).children.getD 0
            FieldSchema.default).repetition_level ∧
      (sample_list_descriptor._fields.getD 0 FieldSchema.default).definition_level
        ≤ ((sample_list_descriptor._fields.getD 0 FieldSchema.default).children.getD 0
            FieldSchema.default).definition_level ∧
      (sample_list_descriptor._fields.getD 0 FieldSchema.default).repeated_parent_def_level
        ≤ ((sample_list_descriptor._fields.getD 0 FieldSchema.default).children.getD 0
            FieldSchema.default).repeated_parent_def_level :=
  C30_levels_monotone sample_list_schema sample_list_descriptor (by rfl)
    (sample_list_descriptor._fields.getD 0 FieldSchema.default)
    (List.getElem?_mem (l := sample_list_descriptor._fields) (n := 0) (by rfl)) (by decide)
    (sample_list_descriptor._fields.getD 0 FieldSchema.default,
      (sample_list_descriptor._fields.getD 0 FieldSchema.default).children.getD 0
        FieldSchema.default)
    (List.getElem?_mem
      (l := (sample_list_descriptor._fields.getD 0 FieldSchema.default).pairs) (n := 0)
      (by rfl))

/-! ## Claim C37 -/

/-- The flag of the logical-type converter is set exactly in its branch for unsigned
integers. -/
theorem convert_logical_flag (l : LogicalType) (nullable : Bool) (r : DataType × Bool)
    (h : convert_to_doris_type_logical l nullable = .ok r) :
    r.2 = true ↔ (l.STRING = false ∧ l.DECIMAL = none ∧ l.DATE = false ∧
      ∃ i, l.INTEGER = some i ∧ i.isSigned = false) := by
  unfold convert_to_doris_type_logical at h
  cases hs : l.STRING
  swap
  · rw [hs] at h
    simp only [if_true] at h
    injection h with h
    subst h
    simp
  rw [hs] at h
  simp only [Bool.false_eq_true, if_false] at h
  cases hd : l.DECIMAL with
  | some d =>
    rw [hd] at h
    simp only at h
    injection h with h
    subst h
    simp
  | none =>
    rw [hd] at h
    simp only at h
    cases hdt : l.DATE
    swap
    · rw [hdt] at h
      simp only [if_true] at h
      injection h with h
      subst h
      simp
    rw [hdt] at h
    simp only [Bool.false_eq_true, if_false] at h
    cases hi : l.INTEGER with
    | some i =>
      rw [hi] at h
      simp only at h
      cases hsg : i.isSigned
      · rw [hsg] at h
        simp only [Bool.false_eq_true, if_false] at h
        repeat' split at h
        all_goals (injection h with h; subst h; simp [hsg])
      · rw [hsg] at h
        simp only [if_true] at h
        repeat' split at h
        all_goals (injection h with h; subst h; simp [hsg])
    | none =>
      rw [hi] at h
      simp only at h
      repeat' split at h
      all_goals first
        | (injection h with h; subst h; simp)
        | (exact absurd h (by simp))

/-- The flag of the converted-type converter is set exactly for the four unsigned
converted types. -/
theorem convert_converted_flag (k : ConvertedType) (e : SchemaElement) (nullable : Bool)
    (r : DataType × Bool) (h : convert_to_doris_type_converted k e nullable = .ok r) :
    r.2 = true ↔ (k = ConvertedType.UINT_8 ∨ k = ConvertedType.UINT_16 ∨
      k = ConvertedType.UINT_32 ∨ k = ConvertedType.UINT_64) := by
  unfold convert_to_doris_type_converted at h
  cases k <;> first
    | (simp only at h; injection h with h; subst h; simp)
    | (exact absurd h (by simp))

/-- C37: when type resolution returns a type with a compatibility flag, the flag is
true if and only if the type was produced by the unsigned-integer branch of a
converter: the element has a logical type whose INTEGER member is set (and none of
STRING, DECIMAL, DATE, tested first) with `isSigned = false`, or it has no logical type
and its converted type is UINT_8, UINT_16, UINT_32 or UINT_64.  In particular the flag
is false for every other annotation and for every physical-type fallback. -/
theorem C37_compatibility_flag (e : SchemaElement) (nullable : Bool) (t : DataType)
    (c : Bool) (h : get_doris_type e nullable = .ok (t, c)) :
    c = true ↔
      ((∃ l i, e.logicalType = some l ∧ l.STRING = false ∧ l.DECIMAL = none ∧
          l.DATE = false ∧ l.INTEGER = some i ∧ i.isSigned = false) ∨
        (e.logicalType = none ∧
          (e.converted_type = some ConvertedType.UINT_8 ∨
            e.converted_type = some ConvertedType.UINT_16 ∨
            e.converted_type = some ConvertedType.UINT_32 ∨
            e.converted_type = some ConvertedType.UINT_64))) := by
  have hfall : get_doris_type e nullable
      = Except.map (fun t => (t, false)) (physical_doris_type e.type nullable) →
      c = false := by
    intro hf
    rw [hf] at h
    cases hp : physical_doris_type e.type nullable with
    | error w => rw [hp] at h; simp [Except.map] at h
    | ok t2 =>
      rw [hp] at h
      simp only [Except.map, Except.ok.injEq, Prod.mk.injEq] at h
      exact h.2.symm
  cases hlt : e.logicalType with
  | some l =>
    cases hr : convert_to_doris_type_logical l nullable with
    | ok r =>
      rw [get_doris_type_of_logical e nullable l r hlt hr] at h
      injection h with h
      have hflag := convert_logical_flag l nullable r hr
      rw [h] at hflag
      simp only at hflag
      rw [hflag]
      constructor
      · rintro ⟨h1, h2, h3, i, h4, h5⟩
        exact Or.inl ⟨l, i, rfl, h1, h2, h3, h4, h5⟩
      · rintro (⟨l2, i, h0, h1, h2, h3, h4, h5⟩ | ⟨h0, -⟩)
        · injection h0 with h0
          subst h0
          exact ⟨h1, h2, h3, i, h4, h5⟩
        · cases h0
    | error w =>
      have hc := hfall (get_doris_type_logical_unmapped e nullable l hlt (by rw [hr]; simp))
      rw [hc]
      simp only [Bool.false_eq_true, false_iff, not_or, not_exists, not_and]
      refine ⟨?_, fun h0 => by cases h0⟩
      intro l2 i h0 h1 h2 h3 h4 h5
      injection h0 with h0
      subst h0
      cases i with
      | mk bw sg =>
        simp only at h5
        subst h5
        simp only [convert_to_doris_type_logical, h1, h2, h3, h4, Bool.false_eq_true,
          if_false] at hr
        repeat' split at hr
        all_goals cases hr
  | none =>
    cases hct : e.converted_type with
    | some k =>
      cases hr : convert_to_doris_type_converted k e nullable with
      | ok r =>
        rw [get_doris_type_of_converted e nullable k r hlt hct hr] at h
        injection h with h
        have hflag := convert_converted_flag k e nullable r hr
        rw [h] at hflag
        simp only at hflag
        rw [hflag]
        simp
      | error w =>
        have hc := hfall (get_doris_type_converted_unmapped e nullable k hlt hct
          (by rw [hr]; simp))
        rw [hc]
        constructor
        · intro h0
          cases h0
        · rintro (⟨l2, i, h0, -⟩ | ⟨-, hk | hk | hk | hk⟩)
          · cases h0
          all_goals (injection hk with hk; subst hk; cases hr)
    | none =>
      have hc := hfall (get_doris_type_unannotated e nullable hlt hct)
      rw [hc]
      simp

/-- C37, witness: `required int32 u (UINT_16)` resolves with the flag set. -/
theorem C37_witness :
    true = true ↔
      ((∃ l i, (sample_primitive "u" FieldRepetitionType.REQUIRED ParquetType.INT32
            (some ConvertedType.UINT_16)).logicalType = some l ∧ l.STRING = false ∧
          l.DECIMAL = none ∧ l.DATE = false ∧ l.INTEGER = some i ∧ i.isSigned = false) ∨
        ((sample_primitive "u" FieldRepetitionType.REQUIRED ParquetType.INT32
            (some ConvertedType.UINT_16)).logicalType = none ∧
          ((sample_primitive "u" FieldRepetitionType.REQUIRED ParquetType.INT32
              (some ConvertedType.UINT_16)).converted_type = some ConvertedType.UINT_8 ∨
            (sample_primitive "u" FieldRepetitionType.REQUIRED ParquetType.INT32
              (some ConvertedType.UINT_16)).converted_type = some ConvertedType.UINT_16 ∨
            (sample_primitive "u" FieldRepetitionType.REQUIRED ParquetType.INT32
              (some ConvertedType.UINT_16)).converted_type = some ConvertedType.UINT_32 ∨
            (sample_primitive "u" FieldRepetitionType.REQUIRED ParquetType.INT32
              (some ConvertedType.UINT_16)).converted_type = some ConvertedType.UINT_64))) :=
  C37_compatibility_flag
    (sample_primitive "u" FieldRepetitionType.REQUIRED ParquetType.INT32
      (some ConvertedType.UINT_16)) false (create_data_type PrimitiveType.TYPE_INT false 0 0)
    true rfl

/-! ## Claim C38 -/

/-- A character all of whose UTF-8 bytes are ASCII is an ASCII character. -/
theorem char_values_ascii (c : Char) (h : ∀ x ∈ char_values c, 0 ≤ x ∧ x < 128) :
    c.toNat < 128 ∧ char_values c = [(c.toNat : Int)] := by
  have hv : c.toNat < 1114112 := by
    have := c.valid
    simp only [Char.toNat, UInt32.toNat]
    rcases this with h1 | ⟨_, h2⟩
    · exact lt_trans h1 (by decide)
    · exact h2
  by_cases h128 : c.toNat < 128
  · refine ⟨h128, ?_⟩
    simp only [char_values, if_pos h128, char_of_byte]
  · exfalso
    unfold char_values at h
    simp only [if_neg h128] at h
    split at h
    · have := h _ (List.mem_cons_self _ _)
      simp only [char_of_byte] at this
      split at this <;> omega
    · split at h
      · have := h _ (List.mem_cons_self _ _)
        simp only [char_of_byte] at this
        split at this <;> omega
      · have := h _ (List.mem_cons_self _ _)
        simp only [char_of_byte] at this
        split at this <;> omega

/-- A name whose `std::string` is ASCII is the name held by that `std::string`. -/
theorem of_std_string_std_string (name : String)
    (h : ∀ x ∈ std_string name, 0 ≤ x ∧ x < 128) :
    of_std_string (std_string name) = name := by
  cases name with
  | mk data =>
    unfold std_string of_std_string at *
    simp only at h ⊢
    congr 1
    induction data with
    | nil => rfl
    | cons c rest ih =>
      have hc : ∀ x ∈ char_values c, 0 ≤ x ∧ x < 128 := fun x hx =>
        h x (by rw [List.flatMap_cons]; exact List.mem_append_left _ hx)
      have hrest : ∀ x ∈ rest.flatMap char_values, 0 ≤ x ∧ x < 128 := fun x hx =>
        h x (by rw [List.flatMap_cons]; exact List.mem_append_right _ hx)
      obtain ⟨h1, h2⟩ := char_values_ascii c hc
      rw [List.flatMap_cons, h2, List.singleton_append, List.map_cons, ih hrest]
      simp only [Int.toNat_ofNat, List.cons.injEq, and_true]
      exact Char.ofNat_toNat c

/-- The characters of a valid name: a first one, and all of them letters, digits or
underscores. -/
theorem is_valid_avro_chars_cases (l : List Int) (h : is_valid_avro_chars l = true) :
    (∃ a t, l = a :: t ∧ (!isalpha a && a != 95) = false) ∧
      ∀ x ∈ l, (isalpha x || isdigit x || x == 95) = true := by
  cases l with
  | nil => exact absurd h (by decide)
  | cons a t =>
    unfold is_valid_avro_chars at h
    simp only [List.headD_cons, List.tail_cons] at h
    split at h
    · cases h
    · rename_i hfirst
      have hf : (!isalpha a && a != 95) = false := by
        cases h9 : (!isalpha a && a != 95)
        · rfl
        · exact absurd h9 hfirst
      refine ⟨⟨a, t, rfl, hf⟩, ?_⟩
      intro x hx
      rcases List.mem_cons.1 hx with hxa | hxt
      · rw [hxa]
        cases h1 : isalpha a <;> cases h2 : (a == 95) <;> simp_all [bne]
      · rw [List.all_eq_true] at h
        have := h x hxt
        rw [avro_char_cases] at this
        exact this

/-- The buffer of `sanitize_avro_name` holds the characters of a valid name unchanged. -/
theorem sanitize_avro_chars_of_valid (l : List Int) (h : is_valid_avro_chars l = true) :
    sanitize_avro_chars l = l := by
  obtain ⟨⟨a, t, hl, hfirst⟩, hall⟩ := is_valid_avro_chars_cases l h
  subst hl
  unfold sanitize_avro_chars
  simp only [List.headD_cons, List.tail_cons, hfirst, Bool.false_eq_true, if_false,
    List.singleton_append, List.cons.injEq, true_and]
  have ht : ∀ x ∈ t, (isalpha x || isdigit x || x == 95) = true := fun x hx =>
    hall x (List.mem_cons_of_mem _ hx)
  clear hall h hfirst
  induction t with
  | nil => rfl
  | cons b rest ih =>
    have hb := ht b (List.mem_cons_self _ _)
    rw [← avro_char_cases] at hb
    have hb2 : (!isalpha b && !isdigit b && b != 95) = false := by
      cases h9 : (!isalpha b && !isdigit b && b != 95)
      · rfl
      · rw [h9] at hb; cases hb
    rw [List.flatMap_cons, hb2, ih (fun x hx => ht x (List.mem_cons_of_mem _ hx))]
    rfl

/-- A valid name is its own sanitized form. -/
theorem sanitize_avro_name_of_valid (name : String) (h : is_valid_avro_name name = true) :
    sanitize_avro_name name = name := by
  unfold is_valid_avro_name at h
  unfold sanitize_avro_name
  rw [sanitize_avro_chars_of_valid _ h]
  exact of_std_string_std_string name
    (fun x hx => avro_char_ascii x ((is_valid_avro_chars_cases _ h).2 x hx))

/-- C38: for every name `n`, `sanitize_avro_name n` satisfies `is_valid_avro_name`;
`sanitize_avro_name n = n` whenever `n` is already valid; hence sanitizing is
idempotent.  (Names are held as the UTF-8 bytes of a `std::string` of signed `char`,
classified by `isalpha` and `isdigit` of the C locale.) -/
theorem C38_sanitize_valid_and_idempotent (n : String) :
    is_valid_avro_name (sanitize_avro_name n) = true ∧
      (is_valid_avro_name n = true → sanitize_avro_name n = n) ∧
      sanitize_avro_name (sanitize_avro_name n) = sanitize_avro_name n :=
  ⟨sanitize_avro_name_valid n, sanitize_avro_name_of_valid n,
    sanitize_avro_name_of_valid _ (sanitize_avro_name_valid n)⟩

/-- C38, witness: the valid name `a_1` is kept, and the sanitized form of `a-b` is
valid. -/
theorem C38_witness :
    is_valid_avro_name "a_1" = true ∧ sanitize_avro_name "a_1" = "a_1" ∧
      sanitize_avro_name "a-b" = "a_x2db" ∧
      sanitize_avro_name (sanitize_avro_name "a-b") = sanitize_avro_name "a-b" :=
  ⟨by decide, (C38_sanitize_valid_and_idempotent "a_1").2.1 (by decide), by decide,
    (C38_sanitize_valid_and_idempotent "a-b").2.2⟩

/-! ## Claim C32 -/

/-- How `parse_node_field` dispatches a group. -/
theorem parse_node_field_group (fuel : Nat) (ts : List SchemaElement) (p : Nat)
    (e : SchemaElement) (node : FieldSchema) (self : FieldDescriptor)
    (he : ts[p]? = some e) (hg : is_group_node e = true) :
    parse_node_field (fuel + 1) ts p node self =
      if is_map_node e then parse_map_field (parse_node_field fuel ts) ts p node self
      else if is_list_node e then parse_list_field (parse_node_field fuel ts) ts p node self
      else if is_repeated_node e then
        parse_group_field (parse_node_field fuel ts) ts p node self
      else parse_struct_field (parse_node_field fuel ts) ts p node self := by
  rw [parse_node_field]
  simp only [he, hg, if_true]
  unfold parse_group_field
  simp only [he]
  split
  · rfl
  · split
    · rfl
    · split <;> rfl

/-- C32, counterexample: the group `optional group x` that carries only the logical
type LIST is not a list for the classifier, `parse_node_field` hands it to
`parse_struct_field`, and the schema resolves to a struct with the field `list`, not
to an array. -/
theorem C32_counterexample :
    logical_list_x.logicalType = some { LogicalType.unset with LIST := true } ∧
      is_group_node logical_list_x = true ∧ is_list_node logical_list_x = false ∧
      parse_node_field 3 sample_logical_list_schema 1 FieldSchema.default
          (loop_start (sample_root 1) FieldDescriptor.empty) =
        parse_struct_field (parse_node_field 2 sample_logical_list_schema)
          sample_logical_list_schema 1 FieldSchema.default
          (loop_start (sample_root 1) FieldDescriptor.empty) ∧
      (parse_from_thrift sample_logical_list_schema FieldDescriptor.empty).1 = Outcome.OK ∧
      ((parse_from_thrift sample_logical_list_schema FieldDescriptor.empty).2._fields.map
          fun f => f.data_type) =
        [DataType.Nullable (DataType.Struct
          [DataType.Nullable (DataType.Array (DataType.Nullable (DataType.Struct
            [DataType.Nullable (DataType.Scalar PrimitiveType.TYPE_INT 0 0)]
            ["element"])))]
          ["list"])] :=
  ⟨rfl, rfl, rfl, rfl, rfl, rfl⟩

/-- C32 (amended): the classifier recognises a group as a list exactly when its
converted type is LIST, and as a map exactly when its converted type is MAP or
MAP_KEY_VALUE; the logical type is not consulted, whatever it is.  Accordingly
`parse_node_field` hands a group to map parsing when its converted type is MAP or
MAP_KEY_VALUE, to list parsing when it is LIST, and otherwise, in particular when the
group carries only the logical type LIST or MAP, to the array-of-struct branch of
`parse_group_field` when it is REPEATED and to struct parsing when it is not. -/
theorem C32_classifier_reads_converted_type (fuel : Nat) (ts : List SchemaElement)
    (p : Nat) (e : SchemaElement) (node : FieldSchema) (self : FieldDescriptor)
    (he : ts[p]? = some e) (hg : is_group_node e = true) :
    (is_list_node e = true ↔ e.converted_type = some ConvertedType.LIST) ∧
      (is_map_node e = true ↔ (e.converted_type = some ConvertedType.MAP ∨
        e.converted_type = some ConvertedType.MAP_KEY_VALUE)) ∧
      (∀ l, is_list_node { e with logicalType := l } = is_list_node e ∧
        is_map_node { e with logicalType := l } = is_map_node e) ∧
      ((e.converted_type = some ConvertedType.MAP ∨
          e.converted_type = some ConvertedType.MAP_KEY_VALUE) →
        parse_node_field (fuel + 1) ts p node self =
          parse_map_field (parse_node_field fuel ts) ts p node self) ∧
      (e.converted_type = some ConvertedType.LIST →
        parse_node_field (fuel + 1) ts p node self =
          parse_list_field (parse_node_field fuel ts) ts p node self) ∧
      (e.converted_type ≠ some ConvertedType.MAP →
        e.converted_type ≠ some ConvertedType.MAP_KEY_VALUE →
        e.converted_type ≠ some ConvertedType.LIST →
        parse_node_field (fuel + 1) ts p node self =
          if is_repeated_node e then
            parse_group_field (parse_node_field fuel ts) ts p node self
          else parse_struct_field (parse_node_field fuel ts) ts p node self) := by
  have hl : is_list_node e = true ↔ e.converted_type = some ConvertedType.LIST := by
    simp [is_list_node]
  have hm : is_map_node e = true ↔ (e.converted_type = some ConvertedType.MAP ∨
      e.converted_type = some ConvertedType.MAP_KEY_VALUE) := by
    simp [is_map_node]
  have hd := parse_node_field_group fuel ts p e node self he hg
  refine ⟨hl, hm, fun l => ⟨rfl, rfl⟩, ?_, ?_, ?_⟩
  · intro h
    rw [hd, if_pos (hm.2 h)]
  · intro h
    have hnm : ¬ is_map_node e = true := by
      rw [hm, h]
      simp
    rw [hd, if_neg hnm, if_pos (hl.2 h)]
  · intro h1 h2 h3
    have hnm : ¬ is_map_node e = true := by
      rw [hm]
      rintro (h | h)
      · exact h1 h
      · exact h2 h
    have hnl : ¬ is_list_node e = true := by
      rw [hl]
      exact h3
    rw [hd, if_neg hnm, if_neg hnl]

/-- C32, witness: the group with only the logical type LIST, at position 1 of its
schema. -/
theorem C32_witness :
    sample_logical_list_schema[1]? = some logical_list_x ∧
      is_group_node logical_list_x = true ∧
      (is_list_node logical_list_x = true ↔
        logical_list_x.converted_type = some ConvertedType.LIST) ∧
      (logical_list_x.converted_type ≠ some ConvertedType.MAP →
        logical_list_x.converted_type ≠ some ConvertedType.MAP_KEY_VALUE →
        logical_list_x.converted_type ≠ some ConvertedType.LIST →
        parse_node_field (2 + 1) sample_logical_list_schema 1 FieldSchema.default
            (loop_start (sample_root 1) FieldDescriptor.empty) =
          if is_repeated_node logical_list_x then
            parse_group_field (parse_node_field 2 sample_logical_list_schema)
              sample_logical_list_schema 1 FieldSchema.default
              (loop_start (sample_root 1) FieldDescriptor.empty)
          else parse_struct_field (parse_node_field 2 sample_logical_list_schema)
            sample_logical_list_schema 1 FieldSchema.default
            (loop_start (sample_root 1) FieldDescriptor.empty)) :=
  ⟨rfl, rfl,
    (C32_classifier_reads_converted_type 2 sample_logical_list_schema 1 logical_list_x
      FieldSchema.default (loop_start (sample_root 1) FieldDescriptor.empty) rfl rfl).1,
    (C32_classifier_reads_converted_type 2 sample_logical_list_schema 1 logical_list_x
      FieldSchema.default (loop_start (sample_root 1) FieldDescriptor.empty) rfl
      rfl).2.2.2.2.2⟩

/-! ## The shape of a resolved struct -/

/-- Every child the children loop leaves behind is what a call of the node parser made
of the child in the same place. -/
theorem parse_seq_calls (rec : NodeParser) (cs : List FieldSchema) (self : FieldDescriptor)
    (cs' : List FieldSchema) (self' : FieldDescriptor)
    (h : parse_seq rec cs self = (Outcome.OK, cs', self')) :
    List.Forall₂ (fun c c' => ∃ q s s', rec q c s = (Outcome.OK, c', s')) cs cs' := by
  induction cs generalizing self cs' self' with
  | nil =>
    simp only [parse_seq, Prod.mk.injEq, true_and] at h
    rw [← h.1]
    exact List.Forall₂.nil
  | cons c rest ih =>
    simp only [parse_seq] at h
    rcases hr : rec self._next_schema_pos c self with ⟨o, c', s1⟩
    rw [hr] at h
    cases o with
    | OK =>
      simp only at h
      rcases hr2 : parse_seq rec rest s1 with ⟨o2, rest', s2⟩
      rw [hr2] at h
      simp only [Prod.mk.injEq] at h
      obtain ⟨h1, h2, -⟩ := h
      subst h1
      rw [← h2]
      exact List.Forall₂.cons ⟨_, _, _, hr⟩ (ih _ _ _ hr2)
    | InvalidArgument m => simp at h
    | Exception w => simp at h
    | OutOfBounds => simp at h
    | OutOfFuel => simp at h

/-- The children the loop leaves behind carry, in order, the names of the elements at
the positions of the sibling subtrees. -/
theorem parse_seq_names (ts : List SchemaElement) (rec : NodeParser) (hrec : Good ts rec)
    (hname : ∀ q n s n' s', rec q n s = (Outcome.OK, n', s') →
      ∃ e, ts[q]? = some e ∧ n'.name = e.name)
    (cs : List FieldSchema) (self : FieldDescriptor)
    (cs' : List FieldSchema) (self' : FieldDescriptor)
    (h : parse_seq rec cs self = (Outcome.OK, cs', self')) :
    (cs'.map fun c => c.name)
      = (child_positions ts cs.length self._next_schema_pos).map
          (fun q => (ts.getD q SchemaElement.default).name) := by
  induction cs generalizing self cs' self' with
  | nil =>
    simp only [parse_seq, Prod.mk.injEq, true_and] at h
    rw [← h.1]
    rfl
  | cons c rest ih =>
    simp only [parse_seq] at h
    rcases hr : rec self._next_schema_pos c self with ⟨o, c', s1⟩
    rw [hr] at h
    cases o with
    | OK =>
      simp only at h
      rcases hr2 : parse_seq rec rest s1 with ⟨o2, rest', s2⟩
      rw [hr2] at h
      simp only [Prod.mk.injEq] at h
      obtain ⟨h1, h2, -⟩ := h
      subst h1
      rw [← h2]
      have N := hrec _ _ _ _ _ hr
      obtain ⟨e, he, hn⟩ := hname _ _ _ _ _ hr
      have I := ih _ _ _ hr2
      rw [N.next_eq] at I
      simp only [List.map_cons, List.length_cons, child_positions, I, hn,
        getD_of_getElem? ts _ e he]
    | InvalidArgument m => simp at h
    | Exception w => simp at h
    | OutOfBounds => simp at h
    | OutOfFuel => simp at h

/-- What a successful `parse_struct_field` at the element `e` leaves behind: the levels
of the node, its name and type, and the children loop that produced its children from
children handed the levels of the node. -/
theorem parse_struct_field_shape (rec : NodeParser) (ts : List SchemaElement) (p : Nat)
    (e : SchemaElement) (he : ts[p]? = some e) (node : FieldSchema) (self : FieldDescriptor)
    (node' : FieldSchema) (self' : FieldDescriptor)
    (h : parse_struct_field rec ts p node self = (Outcome.OK, node', self')) :
    0 ≤ e.num_children_raw ∧
      node'.repetition_level = node.repetition_level ∧
      node'.definition_level
        = incremented_if (is_optional_node e) node.definition_level ∧
      node'.repeated_parent_def_level = node.repeated_parent_def_level ∧
      node'.name = e.name ∧
      node'.children.length = e.num_children_raw.toNat ∧
      node'.data_type =
        (if is_optional_node e then
          DataType.Nullable (DataType.Struct
            (node'.children.map fun c => make_nullable c.data_type)
            (node'.children.map fun c => c.name))
        else DataType.Struct (node'.children.map fun c => make_nullable c.data_type)
          (node'.children.map fun c => c.name)) ∧
      ∃ cs, cs.length = e.num_children_raw.toNat ∧
        (∀ c ∈ cs, c.repetition_level = node'.repetition_level ∧
          c.definition_level = node'.definition_level ∧
          c.repeated_parent_def_level = node'.repeated_parent_def_level) ∧
        (node.children = [] → ∀ c ∈ cs, c.children = []) ∧
        parse_seq rec cs { self with _next_schema_pos := p + 1 }
          = (Outcome.OK, node'.children, self') := by
  have hnn := parse_struct_field_nonneg ts rec p e he node self node' self' h
  unfold parse_struct_field at h
  rw [he] at h
  simp only at h
  rw [if_neg (by omega)] at h
  rw [parse_struct_children_eq _ _ _ _ _ (by rw [struct_children_length]; omega)] at h
  simp only [List.drop_zero, List.take_zero, List.nil_append, Nat.zero_add] at h
  generalize hf1 : (if is_optional_node e = true then
      ({ node with definition_level := to_int16 (node.definition_level + 1) } : FieldSchema)
    else node) = f1 at h
  have hf1c : f1.children = node.children := by
    subst hf1; split <;> rfl
  have hf1r : f1.repetition_level = node.repetition_level := by
    subst hf1; split <;> rfl
  have hf1p : f1.repeated_parent_def_level = node.repeated_parent_def_level := by
    subst hf1; split <;> rfl
  have hf1d : f1.definition_level
      = incremented_if (is_optional_node e) node.definition_level := by
    subst hf1; unfold incremented_if; split <;> rfl
  generalize hcs : (set_child_node_level
      { f1 with children := resize f1.children e.num_children_raw.toNat }
      f1.repeated_parent_def_level) = f3 at h
  have hlen : f3.children.length = e.num_children_raw.toNat := by
    subst hcs; exact struct_children_length _ _ _
  have hf3 : f3.repetition_level = f1.repetition_level ∧
      f3.definition_level = f1.definition_level ∧
      f3.repeated_parent_def_level = f1.repeated_parent_def_level := by
    subst hcs; exact ⟨rfl, rfl, rfl⟩
  have hlev : ∀ c ∈ f3.children, c.repetition_level = f1.repetition_level ∧
      c.definition_level = f1.definition_level ∧
      c.repeated_parent_def_level = f1.repeated_parent_def_level := by
    intro c hc
    rw [← hcs] at hc
    simp only [set_child_node_level, List.mem_map] at hc
    obtain ⟨c0, -, hc0⟩ := hc
    rw [← hc0]
    exact ⟨rfl, rfl, rfl⟩
  have hfresh : node.children = [] → ∀ c ∈ f3.children, c.children = [] := by
    intro hnc c hc
    rw [← hcs] at hc
    exact (struct_children_fresh f1 _ _ (hf1c.trans hnc) c hc).1
  rw [List.take_of_length_le (by omega), List.drop_of_length_le (by omega)] at h
  rcases hr : parse_seq rec f3.children { self with _next_schema_pos := p + 1 }
    with ⟨o, cs', s2⟩
  rw [hr] at h
  cases o with
  | OK =>
    simp only [List.append_nil, Prod.mk.injEq, true_and] at h
    obtain ⟨h1, h2⟩ := h
    subst h2
    have hl2 : cs'.length = e.num_children_raw.toNat := by
      have := List.Forall₂.length_eq (parse_seq_calls rec _ _ _ _ hr)
      omega
    rw [← h1]
    refine ⟨hnn, ?_, ?_, ?_, rfl, hl2, ?_, f3.children, hlen, ?_, hfresh, hr⟩
    · simp only; omega
    · simp only; omega
    · simp only; omega
    · simp only
      split <;> rfl
    · intro c hc
      exact hlev c hc |>.imp (fun h => by simp only; omega)
        (fun h => ⟨by simp only; omega, by simp only; omega⟩)
  | InvalidArgument m => simp at h
  | Exception w => simp at h
  | OutOfBounds => simp at h
  | OutOfFuel => simp at h

/-- The children the loop leaves behind are, in order, what the node parser made at the
positions of the sibling subtrees. -/
theorem parse_seq_positions (ts : List SchemaElement) (rec : NodeParser) (hrec : Good ts rec)
    (cs : List FieldSchema) (self : FieldDescriptor)
    (cs' : List FieldSchema) (self' : FieldDescriptor)
    (h : parse_seq rec cs self = (Outcome.OK, cs', self')) :
    List.Forall₂ (fun q c' => ∃ c s s', rec q c s = (Outcome.OK, c', s'))
      (child_positions ts cs.length self._next_schema_pos) cs' := by
  induction cs generalizing self cs' self' with
  | nil =>
    simp only [parse_seq, Prod.mk.injEq, true_and] at h
    rw [← h.1]
    exact List.Forall₂.nil
  | cons c rest ih =>
    simp only [parse_seq] at h
    rcases hr : rec self._next_schema_pos c self with ⟨o, c', s1⟩
    rw [hr] at h
    cases o with
    | OK =>
      simp only at h
      rcases hr2 : parse_seq rec rest s1 with ⟨o2, rest', s2⟩
      rw [hr2] at h
      simp only [Prod.mk.injEq] at h
      obtain ⟨h1, h2, -⟩ := h
      subst h1
      rw [← h2]
      have N := hrec _ _ _ _ _ hr
      have I := ih _ _ _ hr2
      rw [N.next_eq] at I
      simp only [List.length_cons, child_positions]
      exact List.Forall₂.cons ⟨_, _, _, hr⟩ I
    | InvalidArgument m => simp at h
    | Exception w => simp at h
    | OutOfBounds => simp at h
    | OutOfFuel => simp at h

/-! ## Claim C35 -/

/-- C35, counterexample: `parse_struct_field` on the OPTIONAL group at position 1 of the
sample with a logical type only, into a node that was handed the definition level
`32767`, succeeds and leaves the definition level at `-32768`, not one more. -/
theorem C35_counterexample :
    sample_logical_list_schema[1]? = some logical_list_x ∧
      is_optional_node logical_list_x = true ∧
      (parse_struct_field (parse_node_field 2 sample_logical_list_schema)
        sample_logical_list_schema 1 (fresh_node 0 32767 0)
        (loop_start (sample_root 1) FieldDescriptor.empty)).1 = Outcome.OK ∧
      (parse_struct_field (parse_node_field 2 sample_logical_list_schema)
        sample_logical_list_schema 1 (fresh_node 0 32767 0)
        (loop_start (sample_root 1) FieldDescriptor.empty)).2.1.definition_level
        = -32768 := by
  refine ⟨by rfl, by rfl, by rfl, by rfl⟩

/-- C35 (amended): when `parse_struct_field` succeeds on the group element `e` at
position `p`, the node has exactly `num_children` children; they are, in order, what
`parse_node_field` made at the positions of the child subtrees of `e`, and carry the
names of the elements there; the struct type lists, in the same order, the
nullable-wrapped types and the names of the children; the type is nullable exactly when
`e` is OPTIONAL; and the definition level is the one the node came with, raised by one
as an `int16_t` value when `e` is OPTIONAL (one more, and `-32768` after `32767`), and
unchanged otherwise. -/
theorem C35_struct_children_and_type (ts : List SchemaElement) (fuel p : Nat)
    (e : SchemaElement) (node : FieldSchema) (self : FieldDescriptor)
    (node' : FieldSchema) (self' : FieldDescriptor) (he : ts[p]? = some e)
    (h : parse_struct_field (parse_node_field fuel ts) ts p node self
      = (Outcome.OK, node', self')) :
    0 ≤ e.num_children_raw ∧
      node'.children.length = e.num_children_raw.toNat ∧
      List.Forall₂
        (fun q c' => ∃ c s s', parse_node_field fuel ts q c s = (Outcome.OK, c', s'))
        (child_positions ts e.num_children_raw.toNat (p + 1)) node'.children ∧
      (node'.children.map fun c => c.name)
        = (child_positions ts e.num_children_raw.toNat (p + 1)).map
            (fun q => (ts.getD q SchemaElement.default).name) ∧
      remove_nullable node'.data_type
        = DataType.Struct (node'.children.map fun c => make_nullable c.data_type)
            (node'.children.map fun c => c.name) ∧
      ((∃ t, node'.data_type = DataType.Nullable t) ↔ is_optional_node e = true) ∧
      node'.definition_level
        = incremented_if (is_optional_node e) node.definition_level := by
  obtain ⟨h1, -, h3, -, -, h6, h7, cs, hcs, -, -, hseq⟩ :=
    parse_struct_field_shape _ ts p e he node self node' self' h
  have hgood : Good ts (parse_node_field fuel ts) := fun q n s n' s' hq =>
    parse_node_field_ok ts fuel q n s n' s' hq
  have hpos := parse_seq_positions ts _ hgood cs _ _ _ hseq
  have hnames := parse_seq_names ts _ hgood
    (fun q n s n' s' hq => parse_node_field_name ts fuel q n s n' s' hq) cs _ _ _ hseq
  rw [hcs] at hpos hnames
  refine ⟨h1, h6, hpos, hnames, ?_, ?_, h3⟩
  · rw [h7]
    split <;> rfl
  · rw [h7]
    cases is_optional_node e <;> simp

/-- C35, witness: the group `optional group x` of the sample with a logical type only,
parsed as a struct with its one child `list`. -/
theorem C35_witness :
    (parse_struct_field (parse_node_field 2 sample_logical_list_schema)
        sample_logical_list_schema 1 FieldSchema.default
        (loop_start (sample_root 1) FieldDescriptor.empty)).1 = Outcome.OK ∧
      (parse_struct_field (parse_node_field 2 sample_logical_list_schema)
        sample_logical_list_schema 1 FieldSchema.default
        (loop_start (sample_root 1) FieldDescriptor.empty)).2.1.children.length
        = logical_list_x.num_children_raw.toNat ∧
      (parse_struct_field (parse_node_field 2 sample_logical_list_schema)
        sample_logical_list_schema 1 FieldSchema.default
        (loop_start (sample_root 1) FieldDescriptor.empty)).2.1.definition_level
        = incremented_if (is_optional_node logical_list_x)
          FieldSchema.default.definition_level :=
  ⟨rfl,
    (C35_struct_children_and_type sample_logical_list_schema 2 1 logical_list_x
      FieldSchema.default (loop_start (sample_root 1) FieldDescriptor.empty) _ _ rfl
      rfl).2.1,
    (C35_struct_children_and_type sample_logical_list_schema 2 1 logical_list_x
      FieldSchema.default (loop_start (sample_root 1) FieldDescriptor.empty) _ _ rfl
      rfl).2.2.2.2.2.2⟩

/-! ## The shape of a node that opens a repeated level -/

/-- The one child of a node on which a repeated level has been opened carries the
levels of the node, whatever the node held before. -/
theorem open_repeated_level_child (b : Bool) (f : FieldSchema) :
    ∃ lc, (open_repeated_level b f).children = [lc] ∧
      lc.repetition_level = (open_repeated_level b f).repetition_level ∧
      lc.definition_level = (open_repeated_level b f).definition_level ∧
      lc.repeated_parent_def_level = (open_repeated_level b f).definition_level ∧
      (f.children = [] → lc.children = []) := by
  have hx := singleton_of_length_one (resize f.children 1) (resize_length _ _)
  generalize (resize f.children 1).getD 0 FieldSchema.default = x at hx
  have hxc : f.children = [] → x.children = [] := by
    intro hc
    rw [hc, resize_nil] at hx
    simp only [List.replicate_one, List.cons.injEq, and_true] at hx
    rw [← hx]
    rfl
  cases b <;>
  · simp only [open_repeated_level, set_child_node_level, hx, List.map_cons, List.map_nil,
      Bool.false_eq_true, if_false, if_true]
    exact ⟨_, rfl, rfl, rfl, rfl, hxc⟩

/-- How `parse_group_field` resolves a REPEATED group that is neither a map nor a
list. -/
theorem parse_group_field_repeated (rec : NodeParser) (ts : List SchemaElement) (p : Nat)
    (e : SchemaElement) (node : FieldSchema) (self : FieldDescriptor) (lc : FieldSchema)
    (he : ts[p]? = some e) (hm : is_map_node e = false) (hl : is_list_node e = false)
    (hr : is_repeated_node e = true)
    (hlc : (open_repeated_level false node).children = [lc]) :
    parse_group_field rec ts p node self =
      match parse_struct_field rec ts p lc self with
      | (Outcome.OK, child, self1) =>
        (Outcome.OK,
          { open_repeated_level false node with
            children := [child]
            name := e.name
            data_type := DataType.Array (make_nullable child.data_type)
            field_id := e.field_id.getD (-1) },
          self1)
      | (o, child, self1) =>
        (o, { open_repeated_level false node with children := [child] }, self1) := by
  simp only [parse_group_field, he, hm, hl, hr, Bool.false_eq_true, if_false, if_true, hlc,
    List.getD_cons_zero, List.set_cons_zero]

/-! ## Claim C34 -/

/-- C34, counterexample: the group `repeated group list` at position 2 of the sample
with a logical type only, resolved into a node that was handed the levels `32767`,
succeeds and leaves both levels at `-32768`, not one more. -/
theorem C34_counterexample :
    sample_logical_list_schema[2]? = some list_list ∧
      is_repeated_node list_list = true ∧ is_list_node list_list = false ∧
      is_map_node list_list = false ∧
      (parse_node_field (1 + 1) sample_logical_list_schema 2 (fresh_node 32767 32767 0)
        FieldDescriptor.empty).1 = Outcome.OK ∧
      (parse_node_field (1 + 1) sample_logical_list_schema 2 (fresh_node 32767 32767 0)
        FieldDescriptor.empty).2.1.repetition_level = -32768 ∧
      (parse_node_field (1 + 1) sample_logical_list_schema 2 (fresh_node 32767 32767 0)
        FieldDescriptor.empty).2.1.definition_level = -32768 := by
  refine ⟨by rfl, by rfl, by rfl, by rfl, by rfl, by rfl, by rfl⟩

/-- C34 (amended): for a REPEATED group `e` with neither a list nor a map annotation,
`parse_node_field` opens a repeated level and parses the group itself as a struct into
the one child: it ends as that call of `parse_struct_field` ends, and when it succeeds
the node has exactly one child, its repetition level and its definition level are each
the one it came with raised by one as an `int16_t` value (one more, and `-32768` after
`32767`), the child is the struct parsed from the same element `e` and has the levels
of the node, and the type of the node is a non-nullable array of the nullable struct
type of the child. -/
theorem C34_repeated_group_is_array_of_struct (ts : List SchemaElement) (fuel p : Nat)
    (e : SchemaElement) (node : FieldSchema) (self : FieldDescriptor)
    (he : ts[p]? = some e) (hg : is_group_node e = true) (hm : is_map_node e = false)
    (hl : is_list_node e = false) (hr : is_repeated_node e = true) :
    ∃ lc, lc.repetition_level = to_int16 (node.repetition_level + 1) ∧
      lc.definition_level = to_int16 (node.definition_level + 1) ∧
      (parse_node_field (fuel + 1) ts p node self).1
        = (parse_struct_field (parse_node_field fuel ts) ts p lc self).1 ∧
      ∀ node' self', parse_node_field (fuel + 1) ts p node self
          = (Outcome.OK, node', self') →
        ∃ child, node'.children = [child] ∧
          node'.repetition_level = to_int16 (node.repetition_level + 1) ∧
          node'.definition_level = to_int16 (node.definition_level + 1) ∧
          parse_struct_field (parse_node_field fuel ts) ts p lc self
            = (Outcome.OK, child, self') ∧
          child.name = e.name ∧
          child.repetition_level = node'.repetition_level ∧
          child.definition_level = node'.definition_level ∧
          child.data_type
            = DataType.Struct (child.children.map fun c => make_nullable c.data_type)
                (child.children.map fun c => c.name) ∧
          node'.data_type = DataType.Array (DataType.Nullable child.data_type) := by
  obtain ⟨lc, hlc, hlr, hld, -, -⟩ := open_repeated_level_child false node
  obtain ⟨hr1, hd1, -⟩ := open_repeated_level_levels false node
  simp only [Bool.false_eq_true, if_false] at hd1
  have heq : parse_node_field (fuel + 1) ts p node self
      = parse_group_field (parse_node_field fuel ts) ts p node self := by
    rw [parse_node_field]
    simp only [he, hg, if_true]
  rw [heq, parse_group_field_repeated _ ts p e node self lc he hm hl hr hlc]
  refine ⟨lc, by omega, by omega, ?_, ?_⟩
  · split
    · rename_i h1
      rw [h1]
    · rename_i o child self1 _ h1
      rw [h1]
  · intro node' self' h
    split at h
    · rename_i child self1 hres
      simp only [Prod.mk.injEq, true_and] at h
      obtain ⟨hnode, hself⟩ := h
      subst hself
      obtain ⟨-, s2, s3, -, s5, -, s7, -⟩ :=
        parse_struct_field_shape _ ts p e he lc self child self1 hres
      rw [not_optional_of_repeated e hr] at s3 s7
      simp only [incremented_if, Bool.false_eq_true, if_false] at s3 s7
      rw [← hnode]
      refine ⟨child, rfl, hr1, hd1, hres, s5, ?_, ?_, s7, ?_⟩
      · simp only; omega
      · simp only; omega
      · simp only
        rw [s7]
        rfl
    · rename_i hne _
      simp only [Prod.mk.injEq] at h
      exact (hne h.1).elim

/-- C34, witness: the group `repeated group list` at position 2 of the sample with a
logical type only, which resolves. -/
theorem C34_witness :
    (parse_node_field (1 + 1) sample_logical_list_schema 2 FieldSchema.default
        FieldDescriptor.empty).1 = Outcome.OK ∧
    ∃ lc, lc.repetition_level = to_int16 (FieldSchema.default.repetition_level + 1) ∧
      lc.definition_level = to_int16 (FieldSchema.default.definition_level + 1) ∧
      (parse_node_field (1 + 1) sample_logical_list_schema 2 FieldSchema.default
          FieldDescriptor.empty).1
        = (parse_struct_field (parse_node_field 1 sample_logical_list_schema)
            sample_logical_list_schema 2 lc FieldDescriptor.empty).1 ∧
      ∀ node' self', parse_node_field (1 + 1) sample_logical_list_schema 2
          FieldSchema.default FieldDescriptor.empty = (Outcome.OK, node', self') →
        ∃ child, node'.children = [child] ∧
          node'.repetition_level = to_int16 (FieldSchema.default.repetition_level + 1) ∧
          node'.definition_level = to_int16 (FieldSchema.default.definition_level + 1) ∧
          parse_struct_field (parse_node_field 1 sample_logical_list_schema)
            sample_logical_list_schema 2 lc FieldDescriptor.empty
            = (Outcome.OK, child, self') ∧
          child.name = list_list.name ∧
          child.repetition_level = node'.repetition_level ∧
          child.definition_level = node'.definition_level ∧
          child.data_type
            = DataType.Struct (child.children.map fun c => make_nullable c.data_type)
                (child.children.map fun c => c.name) ∧
          node'.data_type = DataType.Array (DataType.Nullable child.data_type) :=
  ⟨rfl, C34_repeated_group_is_array_of_struct sample_logical_list_schema 1 2 list_list
    FieldSchema.default FieldDescriptor.empty rfl rfl rfl rfl rfl⟩

/-! ## Claim C33 -/

/-- What a successful `parse_list_field` over a second level with children leaves
behind: the checks that passed, the one child and where it comes from, and the type. -/
theorem parse_list_field_shape (rec : NodeParser) (ts : List SchemaElement) (p : Nat)
    (node : FieldSchema) (self : FieldDescriptor) (node' : FieldSchema)
    (self' : FieldDescriptor) (first second : SchemaElement)
    (h0 : ts[p]? = some first) (h1 : ts[p + 1]? = some second)
    (h : parse_list_field rec ts p node self = (Outcome.OK, node', self')) :
    first.num_children_raw = 1 ∧ is_repeated_node first = false ∧
      is_repeated_node second = true ∧
      node'.repetition_level = to_int16 (node.repetition_level + 1) ∧
      node'.definition_level
        = to_int16 (incremented_if (is_optional_node first) node.definition_level + 1) ∧
      ∃ lc child, node'.children = [child] ∧
        lc.repetition_level = node'.repetition_level ∧
        lc.definition_level = node'.definition_level ∧
        node'.data_type =
          (if is_optional_node first then
            DataType.Nullable (DataType.Array (make_nullable child.data_type))
          else DataType.Array (make_nullable child.data_type)) ∧
        (second.num_children_raw ≠ 0 →
          (second.num_children_raw = 1 ∧ is_struct_list_node second = false) →
          rec (p + 2) lc self = (Outcome.OK, child, self')) ∧
        (second.num_children_raw ≠ 0 →
          ¬ (second.num_children_raw = 1 ∧ is_struct_list_node second = false) →
          parse_struct_field rec ts (p + 1) lc self = (Outcome.OK, child, self')) ∧
        (second.num_children_raw = 0 →
          ∃ s1, parse_physical_field second false lc self = (Outcome.OK, child, s1)) ∧
        (node.children = [] → lc.children = []) := by
  unfold parse_list_field at h
  rw [h0] at h
  simp only at h
  split at h
  · simp at h
  rename_i hone
  split at h
  · simp at h
  split at h
  · simp at h
  rename_i hfr
  rw [h1] at h
  simp only at h
  split at h
  · simp at h
  rename_i hsr
  have hone2 : first.num_children_raw = 1 := by
    by_contra h9
    exact hone h9
  have hfr2 : is_repeated_node first = false := by
    cases h9 : is_repeated_node first
    · rfl
    · exact absurd ((is_repeated_node_iff first).1 h9) hfr
  have hsr2 : is_repeated_node second = true := by
    rw [is_repeated_node_iff]
    by_contra h9
    exact hsr h9
  obtain ⟨lc, hlc, hlr, hld, -, hlf⟩ :=
    open_repeated_level_child (is_optional_node first) node
  obtain ⟨hr1, hd1, -⟩ := open_repeated_level_levels (is_optional_node first) node
  have hd2 : (open_repeated_level (is_optional_node first) node).definition_level
      = to_int16 (incremented_if (is_optional_node first) node.definition_level + 1) := by
    rw [hd1]
    rfl
  rw [hlc, num_children_node_eq] at h
  simp only [List.getD_cons_zero, List.set_cons_zero] at h
  refine ⟨hone2, hfr2, hsr2, ?_⟩
  split at h
  · rename_i hnz
    split at h
    · rename_i child s1 hres
      simp only [Prod.mk.injEq, true_and] at h
      obtain ⟨hnode, hself⟩ := h
      subst hself
      subst hnode
      refine ⟨hr1, hd2, lc, child, rfl, hlr, hld, ?_, ?_, ?_, ?_, hlf⟩
      · simp only [finish_list_field, List.getD_cons_zero]
        split <;> rfl
      · intro _ hc
        rw [if_pos hc] at hres
        exact hres
      · intro _ hc
        rw [if_neg hc] at hres
        exact hres
      · intro hz
        exact (hnz hz).elim
    · rename_i hne _
      simp only [Prod.mk.injEq] at h
      exact (hne h.1).elim
  · rename_i hz
    split at h
    · rename_i child s1 hres
      simp only [Prod.mk.injEq, true_and] at h
      obtain ⟨hnode, hself⟩ := h
      subst hnode
      refine ⟨hr1, hd2, lc, child, rfl, hlr, hld, ?_, ?_, ?_, ?_, hlf⟩
      · simp only [finish_list_field, List.getD_cons_zero]
        split <;> rfl
      · intro hnz
        exact (hnz (by by_contra h9; exact hz h9)).elim
      · intro hnz
        exact (hnz (by by_contra h9; exact hz h9)).elim
      · intro _
        exact ⟨s1, hres⟩
    · rename_i hne _
      simp only [Prod.mk.injEq] at h
      exact (hne h.1).elim

/-- C33, counterexample: in
`optional group x (LIST) { repeated group list { required int32 element } }` the middle
level is unwrapped (the one child of `x` is the leaf `element`), the type of that field
is the non-nullable int32, and the element type of the array is the nullable int32: it
is not the type of the field. -/
theorem C33_counterexample :
    (parse_from_thrift sample_required_element_schema FieldDescriptor.empty).1
        = Outcome.OK ∧
      ((parse_from_thrift sample_required_element_schema FieldDescriptor.empty).2._fields.map
          fun f => (f.name, f.data_type, f.children.map fun c => (c.name, c.data_type)))
        = [("x", DataType.Nullable (DataType.Array
              (DataType.Nullable (DataType.Scalar PrimitiveType.TYPE_INT 0 0))),
            [("element", DataType.Scalar PrimitiveType.TYPE_INT 0 0)])] ∧
      DataType.Nullable (DataType.Scalar PrimitiveType.TYPE_INT 0 0)
        ≠ DataType.Scalar PrimitiveType.TYPE_INT 0 0 :=
  ⟨rfl, rfl, fun h => by cases h⟩

/-- C33 (amended): when list parsing succeeds on a three-level list (the LIST group
`first` at position `p`, its REPEATED child `second` with a child count other than 0),
the node has one child and its type is the array of the nullable form of the type of
that child, nullable-wrapped when `first` is OPTIONAL.  If `second` has exactly one
child and a name that is neither `array` nor ends with `_tuple`, the middle level is
unwrapped: the child is what `parse_node_field` makes of the grandchild at position
`p + 2`.  In every other case the child is what `parse_struct_field` makes of `second`
itself: a node named like `second` with a non-nullable struct type, so that the result
is an array of that struct, nullable-wrapped. -/
theorem C33_list_middle_level (ts : List SchemaElement) (fuel p : Nat)
    (node : FieldSchema) (self : FieldDescriptor) (node' : FieldSchema)
    (self' : FieldDescriptor) (first second : SchemaElement)
    (h0 : ts[p]? = some first) (h1 : ts[p + 1]? = some second)
    (hn : second.num_children_raw ≠ 0)
    (h : parse_list_field (parse_node_field fuel ts) ts p node self
      = (Outcome.OK, node', self')) :
    first.num_children_raw = 1 ∧ is_repeated_node first = false ∧
      is_repeated_node second = true ∧
      ∃ lc child, node'.children = [child] ∧
        node'.data_type =
          (if is_optional_node first then
            DataType.Nullable (DataType.Array (make_nullable child.data_type))
          else DataType.Array (make_nullable child.data_type)) ∧
        ((second.num_children_raw = 1 ∧ is_struct_list_node second = false) →
          parse_node_field fuel ts (p + 2) lc self = (Outcome.OK, child, self')) ∧
        (¬ (second.num_children_raw = 1 ∧ is_struct_list_node second = false) →
          parse_struct_field (parse_node_field fuel ts) ts (p + 1) lc self
            = (Outcome.OK, child, self') ∧
          child.name = second.name ∧
          child.data_type
            = DataType.Struct (child.children.map fun c => make_nullable c.data_type)
                (child.children.map fun c => c.name) ∧
          make_nullable child.data_type = DataType.Nullable child.data_type) := by
  obtain ⟨a1, a2, a3, -, -, lc, child, a4, -, -, a5, a6, a7, -⟩ :=
    parse_list_field_shape _ ts p node self node' self' first second h0 h1 h
  refine ⟨a1, a2, a3, lc, child, a4, a5, a6 hn, ?_⟩
  intro hc
  have hres := a7 hn hc
  obtain ⟨-, -, -, -, s5, -, s7, -⟩ :=
    parse_struct_field_shape _ ts (p + 1) second h1 lc self child self' hres
  rw [not_optional_of_repeated second a3] at s7
  simp only [Bool.false_eq_true, if_false] at s7
  refine ⟨hres, s5, s7, ?_⟩
  rw [s7]
  rfl

/-- C33, witness: the list of the sample whose middle group is named `array`, parsed
from position 1; the middle group is kept as a struct. -/
theorem C33_witness :
    list_array.num_children_raw ≠ 0 ∧
      list_x.num_children_raw = 1 ∧ is_repeated_node list_x = false ∧
      is_repeated_node list_array = true ∧
      ∃ lc child,
        (parse_list_field (parse_node_field 2 sample_array_list_schema)
          sample_array_list_schema 1 FieldSchema.default FieldDescriptor.empty).2.1.children
          = [child] ∧
        (parse_list_field (parse_node_field 2 sample_array_list_schema)
          sample_array_list_schema 1 FieldSchema.default FieldDescriptor.empty).2.1.data_type =
          (if is_optional_node list_x then
            DataType.Nullable (DataType.Array (make_nullable child.data_type))
          else DataType.Array (make_nullable child.data_type)) ∧
        ((list_array.num_children_raw = 1 ∧ is_struct_list_node list_array = false) →
          parse_node_field 2 sample_array_list_schema (1 + 2) lc FieldDescriptor.empty
            = (Outcome.OK, child,
              (parse_list_field (parse_node_field 2 sample_array_list_schema)
                sample_array_list_schema 1 FieldSchema.default
                FieldDescriptor.empty).2.2)) ∧
        (¬ (list_array.num_children_raw = 1 ∧ is_struct_list_node list_array = false) →
          parse_struct_field (parse_node_field 2 sample_array_list_schema)
              sample_array_list_schema (1 + 1) lc FieldDescriptor.empty
            = (Outcome.OK, child,
              (parse_list_field (parse_node_field 2 sample_array_list_schema)
                sample_array_list_schema 1 FieldSchema.default
                FieldDescriptor.empty).2.2) ∧
          child.name = list_array.name ∧
          child.data_type
            = DataType.Struct (child.children.map fun c => make_nullable c.data_type)
                (child.children.map fun c => c.name) ∧
          make_nullable child.data_type = DataType.Nullable child.data_type) :=
  ⟨by decide,
    C33_list_middle_level sample_array_list_schema 2 1 FieldSchema.default
      FieldDescriptor.empty _ _ list_x list_array rfl rfl (by decide) rfl⟩

/-! ## Levels from the own schema element -/

/-- The children of a struct that resolves were handed its levels. -/
theorem parse_struct_field_children (ts : List SchemaElement) (fuel p : Nat)
    (e : SchemaElement) (he : ts[p]? = some e) (node : FieldSchema) (self : FieldDescriptor)
    (node' : FieldSchema) (self' : FieldDescriptor) (hnc : node.children = [])
    (h : parse_struct_field (parse_node_field fuel ts) ts p node self
      = (Outcome.OK, node', self')) :
    ∀ c' ∈ node'.children, ChildOf ts node' c' := by
  obtain ⟨-, -, -, -, -, -, -, cs, -, hlev, hfresh, hseq⟩ :=
    parse_struct_field_shape _ ts p e he node self node' self' h
  intro c' hc'
  obtain ⟨c, hc, q, s, s', hcall⟩ :=
    forall₂_mem_right (parse_seq_calls _ cs _ _ _ hseq) c' hc'
  exact ChildOf.node fuel q c s s' (hlev c hc).1 (hlev c hc).2.1 (hfresh hnc c hc) hcall

/-- What a successful `parse_map_field` leaves behind: either it fell back to list
parsing, or the node opened a repeated level over the key-value struct. -/
theorem parse_map_field_shape (rec : NodeParser) (ts : List SchemaElement) (p : Nat)
    (node : FieldSchema) (self : FieldDescriptor) (node' : FieldSchema)
    (self' : FieldDescriptor)
    (h : parse_map_field rec ts p node self = (Outcome.OK, node', self')) :
    ∃ ms kv, ts[p]? = some ms ∧ ts[p + 1]? = some kv ∧ is_repeated_node ms = false ∧
      is_repeated_node kv = true ∧
      (parse_list_field rec ts p node self = (Outcome.OK, node', self') ∨
        (node'.repetition_level = to_int16 (node.repetition_level + 1) ∧
          node'.definition_level
            = to_int16 (incremented_if (is_optional_node ms) node.definition_level + 1) ∧
          ∃ lc child, node'.children = [child] ∧
            lc.repetition_level = node'.repetition_level ∧
            lc.definition_level = node'.definition_level ∧
            (node.children = [] → lc.children = []) ∧
            parse_struct_field rec ts (p + 1) lc self = (Outcome.OK, child, self'))) := by
  by_cases hlen : p + 2 ≥ ts.length
  · simp [parse_map_field, hlen] at h
  obtain ⟨ms, h0⟩ : ∃ ms, ts[p]? = some ms :=
    ⟨_, List.getElem?_eq_getElem (by omega)⟩
  obtain ⟨kv0, h1⟩ : ∃ kv0, ts[p + 1]? = some kv0 :=
    ⟨_, List.getElem?_eq_getElem (by omega)⟩
  simp only [parse_map_field, hlen, if_false, h0, h1] at h
  split at h
  · simp at h
  split at h
  · simp at h
  rename_i hmr
  split at h
  · simp at h
  rename_i hkv
  have hmr2 : is_repeated_node ms = false := by
    cases h9 : is_repeated_node ms
    · rfl
    · exact absurd h9 hmr
  have hkr : is_repeated_node kv0 = true := by
    cases h9 : is_repeated_node kv0
    · rw [h9] at hkv
      simp at hkv
    · rfl
  refine ⟨ms, kv0, h0, h1, hmr2, hkr, ?_⟩
  split at h
  · exact Or.inl h
  split at h
  · simp at h
  right
  obtain ⟨lc, hlc, hlr, hld, -, hlf⟩ :=
    open_repeated_level_child (is_optional_node ms) node
  obtain ⟨hr1, hd1, -⟩ := open_repeated_level_levels (is_optional_node ms) node
  have hd2 : (open_repeated_level (is_optional_node ms) node).definition_level
      = to_int16 (incremented_if (is_optional_node ms) node.definition_level + 1) := by
    rw [hd1]
    rfl
  simp only [hlc, List.getD_cons_zero, List.set_cons_zero] at h
  split at h
  · rename_i kv self1 heq
    split at h
    · simp only [Prod.mk.injEq, true_and] at h
      obtain ⟨hnode, hself⟩ := h
      subst hself
      have e1 : node'.repetition_level
          = (open_repeated_level (is_optional_node ms) node).repetition_level := by
        rw [← hnode]
      have e2 : node'.definition_level
          = (open_repeated_level (is_optional_node ms) node).definition_level := by
        rw [← hnode]
      have e3 : node'.children = [kv] := by
        rw [← hnode]
      refine ⟨by rw [e1, hr1], by rw [e2, hd2], lc, kv, e3, by rw [e1, hlr],
        by rw [e2, hld], hlf, heq⟩
    · simp at h
  · rename_i hne _
    simp only [Prod.mk.injEq] at h
    exact (hne h.1).elim

/-- The levels and the child of a list that resolves. -/
theorem parse_list_field_own_levels (ts : List SchemaElement) (fuel p : Nat)
    (node : FieldSchema) (self : FieldDescriptor) (node' : FieldSchema)
    (self' : FieldDescriptor) (first : SchemaElement) (h0 : ts[p]? = some first)
    (h : parse_list_field (parse_node_field fuel ts) ts p node self
      = (Outcome.OK, node', self')) :
    is_repeated_node first = false ∧
      node'.repetition_level = to_int16 (node.repetition_level + 1) ∧
      node'.definition_level
        = to_int16 (incremented_if (is_optional_node first) node.definition_level + 1) ∧
      (node.children = [] → ∀ c' ∈ node'.children, ChildOf ts node' c') := by
  have hlen : p + 1 < ts.length := by
    by_contra h9
    simp only [parse_list_field, h0] at h
    split at h
    · simp at h
    · rw [if_pos (by omega)] at h
      simp at h
  have h1 : ts[p + 1]? = some ts[p + 1] := List.getElem?_eq_getElem hlen
  obtain ⟨-, a2, a3, a4, a5, lc, child, a6, a7, a8, -, a9, a10, a11, a12⟩ :=
    parse_list_field_shape _ ts p node self node' self' first _ h0 h1 h
  refine ⟨a2, a4, a5, ?_⟩
  intro hnc c' hc'
  rw [a6, List.mem_singleton] at hc'
  subst hc'
  by_cases hz : ts[p + 1].num_children_raw = 0
  · obtain ⟨s1, hres⟩ := a11 hz
    exact ChildOf.leaf _ lc self s1 a3 a7 a8 (a12 hnc) hres
  · by_cases hc : ts[p + 1].num_children_raw = 1 ∧ is_struct_list_node ts[p + 1] = false
    · exact ChildOf.node fuel (p + 2) lc self self' a7 a8 (a12 hnc) (a9 hz hc)
    · exact ChildOf.struct fuel (p + 1) _ lc self self' h1 a3 a7 a8 (a12 hnc) (a10 hz hc)

/-- The levels of a node that `parse_node_field` resolves, from the levels it came with
and its own schema element, and where its children come from. -/
theorem parse_node_field_own_levels (ts : List SchemaElement) (fuel p : Nat)
    (e : SchemaElement) (node : FieldSchema) (self : FieldDescriptor) (node' : FieldSchema)
    (self' : FieldDescriptor) (he : ts[p]? = some e)
    (h : parse_node_field fuel ts p node self = (Outcome.OK, node', self')) :
    node'.repetition_level
        = incremented_if (opens_repeated_level e) node.repetition_level ∧
      node'.definition_level
        = incremented_if (opens_repeated_level e)
          (incremented_if (is_optional_node e) node.definition_level) ∧
      (node.children = [] → ∀ c' ∈ node'.children, ChildOf ts node' c') := by
  cases fuel with
  | zero => simp [parse_node_field] at h
  | succ fuel =>
    unfold parse_node_field at h
    rw [he] at h
    simp only at h
    split at h
    · rename_i hg
      unfold parse_group_field at h
      rw [he] at h
      simp only at h
      split at h
      · rename_i hm
        obtain ⟨ms, kv, m0, m1, m2, m3, hcase⟩ :=
          parse_map_field_shape _ ts p node self node' self' h
        rw [he] at m0
        injection m0 with m0
        subst m0
        have hopen : opens_repeated_level e = true := by
          simp [opens_repeated_level, hg, hm]
        rw [hopen]
        rcases hcase with hl | ⟨b1, b2, lc, child, b3, b4, b5, b6, b7⟩
        · obtain ⟨-, c2, c3, c4⟩ :=
            parse_list_field_own_levels ts fuel p node self node' self' e he hl
          exact ⟨c2, c3, c4⟩
        · refine ⟨b1, b2, ?_⟩
          intro hnc c' hc'
          rw [b3, List.mem_singleton] at hc'
          subst hc'
          exact ChildOf.struct fuel (p + 1) kv lc self self' m1 m3 b4 b5 (b6 hnc) b7
      split at h
      · rename_i hm hl
        have hopen : opens_repeated_level e = true := by
          simp [opens_repeated_level, hg, hl]
        rw [hopen]
        obtain ⟨-, c2, c3, c4⟩ :=
          parse_list_field_own_levels ts fuel p node self node' self' e he h
        exact ⟨c2, c3, c4⟩
      split at h
      · rename_i hm hl hr
        have hopen : opens_repeated_level e = true := by
          simp [opens_repeated_level, hr]
        rw [hopen, not_optional_of_repeated e hr]
        obtain ⟨lc, hlc, hlr, hld, -, hlf⟩ := open_repeated_level_child false node
        obtain ⟨hr1, hd1, -⟩ := open_repeated_level_levels false node
        simp only [hlc, List.getD_cons_zero, List.set_cons_zero] at h
        split at h
        · rename_i child self1 heq
          simp only [Prod.mk.injEq, true_and] at h
          obtain ⟨hnode, hself⟩ := h
          subst hself
          rw [← hnode]
          refine ⟨hr1, by simpa using hd1, ?_⟩
          intro hnc c' hc'
          simp only [List.mem_singleton] at hc'
          subst hc'
          exact ChildOf.struct fuel p e lc self self1 he hr hlr hld (hlf hnc) heq
        · rename_i hne _
          simp only [Prod.mk.injEq] at h
          exact (hne h.1).elim
      · rename_i hm hl hr
        have hopen : opens_repeated_level e = false := by
          simp [opens_repeated_level, hm, hl, hr]
        rw [hopen]
        obtain ⟨-, s2, s3, -⟩ := parse_struct_field_shape _ ts p e he node self node' self' h
        refine ⟨by simpa using s2, by simpa using s3, ?_⟩
        intro hnc
        exact parse_struct_field_children ts fuel p e he node self node' self' hnc h
    · rename_i hg
      split at h
      · rename_i hr
        have hopen : opens_repeated_level e = true := by
          simp [opens_repeated_level, hr]
        rw [hopen, not_optional_of_repeated e hr]
        obtain ⟨lc, hlc, hlr, hld, -, hlf⟩ := open_repeated_level_child false node
        obtain ⟨hr1, hd1, -⟩ := open_repeated_level_levels false node
        simp only [hlc, List.getD_cons_zero, List.set_cons_zero] at h
        split at h
        · rename_i child self1 heq
          simp only [Prod.mk.injEq, true_and] at h
          obtain ⟨hnode, hself⟩ := h
          rw [← hnode]
          refine ⟨hr1, by simpa using hd1, ?_⟩
          intro hnc c' hc'
          simp only [List.mem_singleton] at hc'
          subst hc'
          exact ChildOf.leaf e lc self self1 hr hlr hld (hlf hnc) heq
        · rename_i hne _
          simp only [Prod.mk.injEq] at h
          exact (hne h.1).elim
      · rename_i hr
        have hopen : opens_repeated_level e = false := by
          simp [opens_repeated_level, hg, hr]
        rw [hopen]
        split at h
        · rename_i f2 self1 heq
          simp only [Prod.mk.injEq, true_and] at h
          rw [← h.1]
          generalize hf1 : (if is_optional_node e = true then
              ({ node with definition_level := to_int16 (node.definition_level + 1) } : FieldSchema)
            else node) = f1 at heq
          have hf1c : f1.children = node.children := by
            subst hf1; split <;> rfl
          have hf1r : f1.repetition_level = node.repetition_level := by
            subst hf1; split <;> rfl
          have hf1d : f1.definition_level
              = incremented_if (is_optional_node e) node.definition_level := by
            subst hf1; unfold incremented_if; split <;> rfl
          obtain ⟨k1, k2, -⟩ := parse_physical_field_ok _ _ f1 f2 self self1 heq
          have k3 : f2.levels = f1.levels := by
            have := congrArg LeafView.levels k2
            simpa [FieldSchema.view] using this
          simp only [FieldSchema.levels, Levels.mk.injEq] at k3
          refine ⟨?_, ?_, ?_⟩
          · rw [k3.1, hf1r]
            rfl
          · rw [k3.2.1, hf1d]
            rfl
          · intro hnc c' hc'
            rw [k1, hf1c, hnc] at hc'
            cases hc'
        · rename_i hne
          exact (hne _ _ h).elim

/-- Every field the loop of `parse_from_thrift` fills is what `parse_node_field` made
of the field that stood in its place. -/
theorem parse_from_thrift_fields_calls (ts : List SchemaElement) (k i : Nat)
    (fd fd' : FieldDescriptor) (hik : i + k ≤ fd._fields.length)
    (h : parse_from_thrift_fields ts k i fd = (Outcome.OK, fd')) :
    ∀ j, i ≤ j → j < i + k → ∃ q s s',
      parse_node_field ts.length ts q (fd._fields.getD j FieldSchema.default) s
        = (Outcome.OK, fd'._fields.getD j FieldSchema.default, s') := by
  induction k generalizing i fd with
  | zero => intro j h1 h2; omega
  | succ k ih =>
    have hi : i < fd._fields.length := by omega
    unfold parse_from_thrift_fields at h
    split at h
    swap
    · rename_i hne _
      simp only [Prod.mk.injEq] at h
      exact (hne h.1).elim
    rename_i field s1 hres
    have N := parse_node_field_ok ts _ _ _ _ _ _ hres
    simp only at h
    split at h
    · simp at h
    have hl3 : (s1._fields.set i field).length = fd._fields.length := by
      rw [List.length_set, N.fields_eq]
    have F := parse_from_thrift_fields_ok ts k (i + 1) _ fd'
      (by simp only; rw [hl3]; omega) h
    have Ftake : fd'._fields.take (i + 1) = (s1._fields.set i field).take (i + 1) :=
      F.take_eq
    have hfi : fd'._fields.getD i FieldSchema.default = field := by
      have h1 : (fd'._fields.take (i + 1))[i]? = some field := by
        rw [Ftake, List.getElem?_take_of_lt (by omega)]
        simp [List.getElem?_set, N.fields_eq, hi]
      rw [List.getElem?_take_of_lt (by omega)] at h1
      simp [List.getD_eq_getElem?_getD, h1]
    have I := ih (i + 1) _ (by simp only; rw [hl3]; omega) h
    intro j h1 h2
    by_cases hj : j = i
    · subst hj
      rw [hfi]
      exact ⟨_, _, _, hres⟩
    · have hj2 : (s1._fields.set i field).getD j FieldSchema.default
          = fd._fields.getD j FieldSchema.default := by
        have hne : i ≠ j := fun h9 => hj h9.symm
        simp [List.getD_eq_getElem?_getD, List.getElem?_set, N.fields_eq, hne]
      have := I j (by omega) (by omega)
      simp only [hj2] at this
      exact this

/-- After a successful resolve on a fresh descriptor every top-level field is what
`parse_node_field` made of a fresh node at levels 0. -/
theorem parse_from_thrift_calls (ts : List SchemaElement) (fd : FieldDescriptor)
    (h : parse_from_thrift ts FieldDescriptor.empty = (Outcome.OK, fd)) :
    ∀ f ∈ fd._fields, ∃ q s s',
      parse_node_field ts.length ts q FieldSchema.default s = (Outcome.OK, f, s') := by
  obtain ⟨root, h0, hg, hloop, -⟩ := parse_from_thrift_ok_inv ts _ fd h
  have hlen : 0 + root.num_children_raw.toNat
      ≤ (loop_start root FieldDescriptor.empty)._fields.length := by
    simp only [loop_start, resize_length]; omega
  have F := parse_from_thrift_fields_ok ts _ 0 _ fd hlen hloop
  have hl : fd._fields.length = root.num_children_raw.toNat := by
    rw [F.length_eq]; simp [loop_start, resize_length]
  have hall := parse_from_thrift_fields_calls ts _ 0 _ fd hlen hloop
  intro f hf
  obtain ⟨n, hn, rfl⟩ := List.mem_iff_getElem.1 hf
  obtain ⟨q, s, s', hcall⟩ := hall n (Nat.zero_le _) (by omega)
  have hj : (loop_start root FieldDescriptor.empty)._fields.getD n FieldSchema.default
      = FieldSchema.default := by
    simp only [loop_start, FieldDescriptor.empty, resize, List.take_nil, List.length_nil,
      Nat.sub_zero, List.nil_append, List.getD_eq_getElem?_getD]
    rw [List.getElem?_replicate]
    split <;> rfl
  rw [hj] at hcall
  refine ⟨q, s, s', ?_⟩
  simpa [List.getD_eq_getElem?_getD, List.getElem?_eq_getElem hn] using hcall

/-! ## Claim C31 -/

/-- C31, counterexample: in the sample list schema the top-level node `x` comes from
the element `optional group x (LIST)`, which is OPTIONAL and not REPEATED, and has
repetition level 1, not the 0 of the root; in `message root { repeated int32 x; }` the
top-level node `x` comes from an element that is REPEATED and not OPTIONAL, and has
definition level 1, not the 0 of the root. -/
theorem C31_counterexample :
    sample_list_schema[1]? = some list_x ∧ is_repeated_node list_x = false ∧
      (sample_list_descriptor._fields.map fun f =>
          (f.name, f.repetition_level, f.definition_level)) = [("x", 1, 2)] ∧
      sample_repeated_schema[1]? = some repeated_x ∧ is_optional_node repeated_x = false ∧
      (parse_from_thrift sample_repeated_schema FieldDescriptor.empty).1 = Outcome.OK ∧
      ((parse_from_thrift sample_repeated_schema FieldDescriptor.empty).2._fields.map
          fun f => (f.name, f.repetition_level, f.definition_level)) = [("x", 1, 1)] :=
  ⟨rfl, rfl, rfl, rfl, rfl, rfl, rfl⟩

/-- C31 (amended): a node that `parse_node_field` resolves from the element `e` has
the repetition level it was handed, raised by one when it opens a repeated level (when
`e` is REPEATED, or is a group annotated as a list or a map, whose REPEATED second level
is folded into the node), and the definition level it was handed, raised by one when `e`
is OPTIONAL, and by one more when it opens a repeated level; a level is raised as an
`int16_t` value (`incremented_if`: one more, and `-32768` after `32767`).  The levels a
node is handed are those of its parent: every child of a resolved node was made from a
fresh node with the levels of the parent (`ChildOf`), either by `parse_node_field`, or,
under an array, a list or a map, by `parse_struct_field` or `parse_physical_field` on
the REPEATED element itself, which leave the levels as handed.  After a resolve on a
fresh descriptor every top-level field was made by `parse_node_field` from a fresh node
at levels 0. -/
theorem C31_levels_from_own_element (ts : List SchemaElement) :
    (∀ fuel p e node self node' self', ts[p]? = some e →
      parse_node_field fuel ts p node self = (Outcome.OK, node', self') →
        node'.repetition_level
          = incremented_if (opens_repeated_level e) node.repetition_level ∧
        node'.definition_level
          = incremented_if (opens_repeated_level e)
            (incremented_if (is_optional_node e) node.definition_level) ∧
        (node.children = [] → ∀ c' ∈ node'.children, ChildOf ts node' c')) ∧
      (∀ fuel q e c s c' s', ts[q]? = some e → is_repeated_node e = true →
        parse_struct_field (parse_node_field fuel ts) ts q c s = (Outcome.OK, c', s') →
          c'.repetition_level = c.repetition_level ∧
          c'.definition_level = c.definition_level ∧
          (c.children = [] → ∀ c'' ∈ c'.children, ChildOf ts c' c'')) ∧
      (∀ e b c s c' s', parse_physical_field e b c s = (Outcome.OK, c', s') →
          c'.repetition_level = c.repetition_level ∧
          c'.definition_level = c.definition_level ∧ c'.children = c.children) ∧
      (∀ fd, parse_from_thrift ts FieldDescriptor.empty = (Outcome.OK, fd) →
        ∀ f ∈ fd._fields, ∃ q c s s', c.repetition_level = 0 ∧ c.definition_level = 0 ∧
          c.children = [] ∧
          parse_node_field ts.length ts q c s = (Outcome.OK, f, s')) := by
  refine ⟨?_, ?_, ?_, ?_⟩
  · intro fuel p e node self node' self' he h
    exact parse_node_field_own_levels ts fuel p e node self node' self' he h
  · intro fuel q e c s c' s' he hr h
    obtain ⟨-, s2, s3, -⟩ := parse_struct_field_shape _ ts q e he c s c' s' h
    rw [not_optional_of_repeated e hr] at s3
    refine ⟨s2, by simpa using s3, ?_⟩
    intro hnc
    exact parse_struct_field_children ts fuel q e he c s c' s' hnc h
  · intro e b c s c' s' h
    obtain ⟨k1, k2, -⟩ := parse_physical_field_ok e b c c' s s' h
    have k3 : c'.levels = c.levels := by
      have := congrArg LeafView.levels k2
      simpa [FieldSchema.view] using this
    simp only [FieldSchema.levels, Levels.mk.injEq] at k3
    exact ⟨k3.1, k3.2.1, k1⟩
  · intro fd h f hf
    obtain ⟨q, s, s', hcall⟩ := parse_from_thrift_calls ts fd h f hf
    exact ⟨q, FieldSchema.default, s, s', rfl, rfl, rfl, hcall⟩

/-- C31, witness: the list `x` of the sample list schema, resolved at position 1 from a
fresh node: its element is OPTIONAL and a LIST group, so both levels are raised. -/
theorem C31_witness :
    sample_list_schema[1]? = some list_x ∧
      (parse_node_field 3 sample_list_schema 1 FieldSchema.default
        (loop_start (sample_root 1) FieldDescriptor.empty)).1 = Outcome.OK ∧
      (parse_node_field 3 sample_list_schema 1 FieldSchema.default
        (loop_start (sample_root 1) FieldDescriptor.empty)).2.1.repetition_level
        = incremented_if (opens_repeated_level list_x)
          FieldSchema.default.repetition_level ∧
      (parse_node_field 3 sample_list_schema 1 FieldSchema.default
        (loop_start (sample_root 1) FieldDescriptor.empty)).2.1.definition_level
        = incremented_if (opens_repeated_level list_x)
          (incremented_if (is_optional_node list_x) FieldSchema.default.definition_level) :=
  ⟨rfl, rfl,
    ((C31_levels_from_own_element sample_list_schema).1 3 1 list_x FieldSchema.default
      (loop_start (sample_root 1) FieldDescriptor.empty) _ _ rfl rfl).1,
    ((C31_levels_from_own_element sample_list_schema).1 3 1 list_x FieldSchema.default
      (loop_start (sample_root 1) FieldDescriptor.empty) _ _ rfl rfl).2.1⟩

/-! ## The name map through sanitization -/

theorem name_to_field_find_append (m l : List (String × Nat)) (k : String) (j : Nat)
    (h : name_to_field_find m k = some j) : name_to_field_find (m ++ l) k = some j := by
  unfold name_to_field_find at h ⊢
  induction m with
  | nil => cases h
  | cons x rest ih =>
    obtain ⟨k2, v⟩ := x
    simp only [List.cons_append, List.lookup] at h ⊢
    cases hk : (k == k2)
    · rw [hk] at h
      exact ih h
    · rw [hk] at h
      exact h

theorem name_to_field_find_none (m : List (String × Nat)) (k : String) :
    name_to_field_find m k = none ↔ k ∉ m.map Prod.fst := by
  rw [← name_to_field_find_isSome]
  cases name_to_field_find m k <;> simp

theorem erase_keys (m : List (String × Nat)) (s : String) :
    (name_to_field_erase m s).map Prod.fst = (m.map Prod.fst).filter (fun k => k != s) := by
  unfold name_to_field_erase
  induction m with
  | nil => rfl
  | cons x rest ih =>
    obtain ⟨k, v⟩ := x
    cases hk : (k != s) <;> simp [List.filter, hk, ih]

/-- Membership in a list without duplicates after one entry has been replaced. -/
theorem mem_set_of_nodup (l : List String) (i : Nat) (c x : String) (hl : l.Nodup)
    (hi : i < l.length) :
    x ∈ l.set i c ↔ x = c ∨ (x ∈ l ∧ x ≠ l[i]) := by
  constructor
  · intro hx
    obtain ⟨j, hj, hxj⟩ := List.mem_iff_getElem.1 hx
    rw [List.length_set] at hj
    rw [List.getElem_set] at hxj
    split at hxj
    · exact Or.inl hxj.symm
    · rename_i hne
      refine Or.inr ⟨?_, ?_⟩
      · rw [← hxj]
        exact List.getElem_mem hj
      · rw [← hxj]
        intro h9
        exact hne ((List.Nodup.getElem_inj_iff hl).1 h9).symm
  · rintro (hx | ⟨hx, hne⟩)
    · subst hx
      exact List.mem_iff_getElem.2 ⟨i, by rw [List.length_set]; exact hi, by simp⟩
    · obtain ⟨j, hj, hxj⟩ := List.mem_iff_getElem.1 hx
      have hji : i ≠ j := by
        intro h9
        subst h9
        exact hne hxj.symm
      exact List.mem_iff_getElem.2 ⟨j, by rw [List.length_set]; exact hj, by
        rw [List.getElem_set, if_neg hji]
        exact hxj⟩

/-- A key of a consistent name map is the name of the field it points at. -/
theorem NamesConsistent.find_inv (fd : FieldDescriptor) (N : NamesConsistent fd)
    (k : String) (i : Nat) (h : name_to_field_find fd._name_to_field k = some i) :
    ∃ f, fd._fields[i]? = some f ∧ f.name = k := by
  have hk : k ∈ fd._name_to_field.map Prod.fst := by
    rw [← name_to_field_find_isSome, h]
    rfl
  have hk2 := (N.keys_perm.mem_iff).1 hk
  obtain ⟨f, hf, hfk⟩ := List.mem_map.1 hk2
  obtain ⟨j, hj, hfj⟩ := List.mem_iff_getElem.1 hf
  have hj2 : fd._fields[j]? = some f := by
    rw [List.getElem?_eq_getElem hj, hfj]
  have := N.find_eq j f hj2
  rw [hfk, h] at this
  injection this with this
  subst this
  exact ⟨f, hj2, hfk⟩

/-- One round of `iceberg_sanitize` that does not rename a field to a key keeps the name
map consistent. -/
theorem iceberg_sanitize_column_consistent (col : String) (fd : FieldDescriptor)
    (N : NamesConsistent fd)
    (h : (!is_valid_avro_name col &&
        (name_to_field_find fd._name_to_field (sanitize_avro_name col)).isSome &&
        (name_to_field_find fd._name_to_field col).isSome) = false) :
    NamesConsistent (iceberg_sanitize_column col fd) := by
  cases hv : is_valid_avro_name col
  swap
  · rw [iceberg_sanitize_column_unchanged col fd (Or.inl hv)]
    exact N
  cases hs : name_to_field_find fd._name_to_field (sanitize_avro_name col) with
  | none =>
    rw [iceberg_sanitize_column_unchanged col fd (Or.inr hs)]
    exact N
  | some i =>
    have hc : name_to_field_find fd._name_to_field col = none := by
      rw [hv, hs] at h
      cases h9 : name_to_field_find fd._name_to_field col with
      | none => rfl
      | some j => rw [h9] at h; simp at h
    obtain ⟨f, hf, hfs⟩ := N.find_inv fd (sanitize_avro_name col) i hs
    obtain ⟨hi, hfi⟩ := List.getElem?_eq_some.1 hf
    obtain ⟨e1, e2, -⟩ := iceberg_sanitize_column_renames col fd i hv hs
    have hne : col ≠ sanitize_avro_name col := fun h9 =>
      sanitize_avro_name_ne col hv h9.symm
    have hgetD : fd._fields.getD i FieldSchema.default = f := by
      simp [List.getD_eq_getElem?_getD, hf]
    have hnames : ((iceberg_sanitize_column col fd)._fields.map fun f => f.name)
        = (fd._fields.map fun f => f.name).set i col := by
      rw [e1, List.map_set]
    have hmap : (iceberg_sanitize_column col fd)._name_to_field
        = name_to_field_erase (fd._name_to_field ++ [(col, i)]) (sanitize_avro_name col) := by
      rw [e2]
      unfold name_to_field_emplace
      rw [hc]
      rfl
    have hi2 : i < (fd._fields.map fun f => f.name).length := by
      rw [List.length_map]
      exact hi
    have hnamei : (fd._fields.map fun f => f.name)[i] = sanitize_avro_name col := by
      rw [List.getElem_map]
      rw [hfi, hfs]
    have hcn : col ∉ (fd._fields.map fun f => f.name) := by
      intro h9
      have := (N.keys_perm.mem_iff).2 h9
      exact (name_to_field_find_none _ _).1 hc this
    have hkn : (fd._name_to_field.map Prod.fst).Nodup := N.keys_perm.nodup_iff.2 N.names_nodup
    have hnd1 : ((fd._fields.map fun f => f.name).set i col).Nodup :=
      List.Nodup.set N.names_nodup hcn
    have hck : col ∉ (fd._name_to_field.map Prod.fst).filter
        (fun k => k != sanitize_avro_name col) := by
      intro h9
      exact (name_to_field_find_none _ _).1 hc (List.mem_filter.1 h9).1
    have hkeys : (iceberg_sanitize_column col fd)._name_to_field.map Prod.fst
        = (fd._name_to_field.map Prod.fst).filter (fun k => k != sanitize_avro_name col)
          ++ [col] := by
      rw [hmap, erase_keys, List.map_append, List.filter_append]
      have hb : (col != sanitize_avro_name col) = true := by simpa using hne
      simp [List.filter, hb]
    have hnd2 : ((iceberg_sanitize_column col fd)._name_to_field.map Prod.fst).Nodup := by
      rw [hkeys, List.nodup_append]
      refine ⟨List.Nodup.filter _ hkn, List.nodup_singleton _, ?_⟩
      intro x hx hx2
      rw [List.mem_singleton] at hx2
      subst hx2
      exact hck hx
    refine ⟨by rw [hnames]; exact hnd1, ?_, ?_⟩
    · rw [hnames, List.perm_ext_iff_of_nodup hnd2 hnd1]
      intro x
      rw [mem_set_of_nodup _ i col x N.names_nodup hi2, hnamei, hkeys, List.mem_append,
        List.mem_filter, List.mem_singleton, N.keys_perm.mem_iff]
      constructor
      · rintro (⟨h1, h2⟩ | h1)
        · exact Or.inr ⟨h1, by simpa using h2⟩
        · exact Or.inl h1
      · rintro (h1 | ⟨h1, h2⟩)
        · exact Or.inr h1
        · exact Or.inl ⟨h1, by simpa using h2⟩
    · intro j g hg
      rw [e1, List.getElem?_set] at hg
      rw [hmap]
      by_cases hij : i = j
      · subst hij
        rw [if_pos rfl, if_pos hi] at hg
        injection hg with hg
        rw [← hg]
        simp only
        rw [name_to_field_find_erase_ne _ _ _ hne]
        have := name_to_field_find_emplace_new fd._name_to_field col i hc
        unfold name_to_field_emplace at this
        rw [hc] at this
        exact this
      · rw [if_neg hij] at hg
        obtain ⟨hj, hgj⟩ := List.getElem?_eq_some.1 hg
        have hgn : g.name ≠ sanitize_avro_name col := by
          intro h9
          have hj2 : j < (fd._fields.map fun f => f.name).length := by
            rw [List.length_map]
            exact hj
          have h1 : (fd._fields.map fun f => f.name)[j]
              = (fd._fields.map fun f => f.name)[i] := by
            rw [hnamei, List.getElem_map, hgj, h9]
          exact hij ((List.Nodup.getElem_inj_iff N.names_nodup).1 h1).symm
        rw [name_to_field_find_erase_ne _ _ _ hgn]
        exact name_to_field_find_append _ _ _ _ (N.find_eq j g hg)

/-- A run of `iceberg_sanitize` in which no round renames a field to a key keeps the
name map consistent. -/
theorem iceberg_sanitize_consistent (cols : List String) (fd : FieldDescriptor)
    (N : NamesConsistent fd) (h : sanitize_collides cols fd = false) :
    NamesConsistent (iceberg_sanitize cols fd) := by
  induction cols generalizing fd with
  | nil => exact N
  | cons c rest ih =>
    unfold sanitize_collides at h
    rw [Bool.or_eq_false_iff] at h
    unfold iceberg_sanitize
    rw [List.foldl_cons]
    exact ih _ (iceberg_sanitize_column_consistent c fd N h.1) h.2

/-- After a successful resolve on a fresh descriptor the top-level names are pairwise
distinct. -/
theorem parse_from_thrift_names_nodup (ts : List SchemaElement) (self fd : FieldDescriptor)
    (h : parse_from_thrift ts self = (Outcome.OK, fd)) :
    (fd._fields.map fun f => f.name).Nodup := by
  obtain ⟨root, h0, hg, hloop, -⟩ := parse_from_thrift_ok_inv ts self fd h
  have hlen : 0 + root.num_children_raw.toNat ≤ (loop_start root self)._fields.length := by
    simp only [loop_start, resize_length]; omega
  have F := parse_from_thrift_fields_ok ts _ 0 _ fd hlen hloop
  obtain ⟨-, -, hnodup, -⟩ := parse_from_thrift_fields_names ts _ 0 _ fd hlen hloop
  have hl : fd._fields.length = root.num_children_raw.toNat := by
    rw [F.length_eq]; simp [loop_start, resize_length]
  rw [← hl, map_name_range] at hnodup
  exact hnodup

theorem enum_names_keys (l : List FieldSchema) (k : Nat) :
    ((l.enumFrom k).map (fun p => (p.2.name, p.1))).map Prod.fst = l.map fun f => f.name := by
  induction l generalizing k with
  | nil => rfl
  | cons f rest ih => simp [List.enumFrom, ih]

theorem enum_names_find (l : List FieldSchema) (k i : Nat) (f : FieldSchema)
    (hl : (l.map fun f => f.name).Nodup) (hf : l[i]? = some f) :
    name_to_field_find ((l.enumFrom k).map (fun p => (p.2.name, p.1))) f.name
      = some (k + i) := by
  unfold name_to_field_find
  induction l generalizing k i with
  | nil => simp at hf
  | cons g rest ih =>
    cases i with
    | zero =>
      simp only [List.getElem?_cons_zero, Option.some.injEq] at hf
      subst hf
      simp [List.enumFrom, List.lookup]
    | succ i =>
      simp only [List.getElem?_cons_succ] at hf
      simp only [List.map_cons, List.nodup_cons] at hl
      have hne : f.name ≠ g.name := by
        intro h9
        apply hl.1
        rw [← h9]
        exact List.mem_map.2 ⟨f, List.getElem?_mem hf, rfl⟩
      have hb : (f.name == g.name) = false := by simpa using hne
      simp only [List.enumFrom, List.map_cons, List.lookup, hb]
      rw [ih (k + 1) i hl.2 hf]
      congr 1
      omega

/-- After a successful resolve on a fresh descriptor the name map is consistent with
the top-level fields. -/
theorem parse_from_thrift_consistent (ts : List SchemaElement) (fd : FieldDescriptor)
    (h : parse_from_thrift ts FieldDescriptor.empty = (Outcome.OK, fd)) :
    NamesConsistent fd := by
  have hnd := parse_from_thrift_names_nodup ts _ fd h
  have hmap := parse_from_thrift_name_map ts fd h
  refine ⟨hnd, ?_, ?_⟩
  · rw [hmap, enum_names_keys]
  · intro i f hf
    rw [hmap, enum_names_find fd._fields 0 i f hnd hf, Nat.zero_add]

/-! ## Claim C36 -/

/-- C36: after a successful resolve on a fresh descriptor followed by
`iceberg_sanitize`, the top-level field names are pairwise distinct, the keys of the
name map are exactly the names of the top-level fields, each once, and looking up the
name of each field returns that field, as long as no requested name, when it is
processed, renames a field to a name that is a key of the name map already.  On
`message root { required int32 a-b; required int32 a_x2db; }` with the requested name
`a-b` the second field is renamed to `a-b`: two top-level fields then carry the same
name, the name map has the one key `a-b` for the two fields, and looking up the name of
the second field returns the first. -/
theorem C36_name_map_through_sanitize (ts : List SchemaElement) (fd : FieldDescriptor)
    (cols : List String)
    (h : parse_from_thrift ts FieldDescriptor.empty = (Outcome.OK, fd)) :
    (sanitize_collides cols fd = false →
      ((iceberg_sanitize cols fd)._fields.map fun f => f.name).Nodup ∧
      ((iceberg_sanitize cols fd)._name_to_field.map Prod.fst).Perm
        ((iceberg_sanitize cols fd)._fields.map fun f => f.name) ∧
      ∀ i f, (iceberg_sanitize cols fd)._fields[i]? = some f →
        name_to_field_find (iceberg_sanitize cols fd)._name_to_field f.name = some i) ∧
    (ts = sample_sanitize_schema → cols = ["a-b"] →
      sanitize_collides cols fd = true ∧
      ((iceberg_sanitize cols fd)._fields.map fun f => f.name) = ["a-b", "a-b"] ∧
      (iceberg_sanitize cols fd)._name_to_field = [("a-b", 0)] ∧
      name_to_field_find (iceberg_sanitize cols fd)._name_to_field
        ((iceberg_sanitize cols fd)._fields.getD 1 FieldSchema.default).name = some 0) := by
  constructor
  · intro hc
    have N := iceberg_sanitize_consistent cols fd (parse_from_thrift_consistent ts fd h) hc
    exact ⟨N.names_nodup, N.keys_perm, N.find_eq⟩
  · intro hts hcols
    subst hts hcols
    have hfd : fd = (parse_from_thrift sample_sanitize_schema FieldDescriptor.empty).2 := by
      rw [h]
    subst hfd
    decide

/-- C36, witness: the failing input,
`message root { required int32 a-b; required int32 a_x2db; }` resolved and sanitized
with the requested name `a-b`. -/
theorem C36_witness :
    (parse_from_thrift sample_sanitize_schema FieldDescriptor.empty).1 = Outcome.OK ∧
      sanitize_collides ["a-b"]
        (parse_from_thrift sample_sanitize_schema FieldDescriptor.empty).2 = true ∧
      ((iceberg_sanitize ["a-b"]
          (parse_from_thrift sample_sanitize_schema FieldDescriptor.empty).2)._fields.map
        fun f => f.name) = ["a-b", "a-b"] ∧
      (iceberg_sanitize ["a-b"]
          (parse_from_thrift sample_sanitize_schema FieldDescriptor.empty).2)._name_to_field
        = [("a-b", 0)] ∧
      name_to_field_find
        (iceberg_sanitize ["a-b"]
          (parse_from_thrift sample_sanitize_schema FieldDescriptor.empty).2)._name_to_field
        ((iceberg_sanitize ["a-b"]
          (parse_from_thrift sample_sanitize_schema FieldDescriptor.empty).2)._fields.getD 1
            FieldSchema.default).name = some 0 :=
  ⟨by rfl,
    (C36_name_map_through_sanitize sample_sanitize_schema
      (parse_from_thrift sample_sanitize_schema FieldDescriptor.empty).2 ["a-b"]
      (by rfl)).2 rfl rfl⟩

/-! ## The index of `element_at` -/

/-- What the statements `calc index in nested column` compute, for an `Int64` index and
a row that ends below `2^63`. -/
theorem nested_index_spec (off len : Nat) (i : Int) (null_flag : Bool)
    (hbound : off + len < 9223372036854775808)
    (hi : -9223372036854775808 ≤ i ∧ i < 9223372036854775808) :
    nested_index off len i null_flag =
      if null_flag then none
      else if 1 ≤ i ∧ i ≤ len then some ((off : Int) + i - 1)
      else if i ≤ -1 ∧ -(len : Int) ≤ i then some ((off : Int) + len + i)
      else none := by
  unfold nested_index to_size_t to_int64
  cases null_flag
  · simp only [Bool.not_false, Bool.true_and, Bool.and_eq_true, decide_eq_true_eq,
      Bool.false_eq_true, if_false]
    by_cases h1 : i > 0
    · by_cases h2 : (i % 18446744073709551616).toNat ≤ len
      · rw [if_pos ⟨h1, h2⟩, if_pos ⟨by omega, by omega⟩]
        apply congrArg some
        omega
      · rw [if_neg (fun h => h2 h.2), if_neg (fun h => by omega), if_neg (fun h => by omega),
          if_neg (fun h => by omega)]
    · rw [if_neg (fun h => h1 h.1)]
      by_cases h3 : i < 0
      · by_cases h4 : (((-i + 9223372036854775808) % 18446744073709551616
            - 9223372036854775808) % 18446744073709551616).toNat ≤ len
        · rw [if_pos ⟨h3, h4⟩, if_neg (fun h => by omega), if_pos ⟨by omega, by omega⟩]
          apply congrArg some
          omega
        · rw [if_neg (fun h => h4 h.2), if_neg (fun h => by omega),
            if_neg (fun h => by omega)]
      · rw [if_neg (fun h => h3 h.1), if_neg (fun h => by omega), if_neg (fun h => by omega)]
  · simp

/-- Row `row` of what `_execute_common` returns. -/
theorem execute_common_row {α : Type} (offsets : List Nat) (nested_data : List α)
    (arr_null_map : Option (List Bool)) (indices : List Int)
    (nested_null_map : Option (List Bool)) (row : Nat) (hrow : row < offsets.length) :
    (_execute_common offsets nested_data arr_null_map indices nested_null_map)[row]?
      = some (element_cell nested_data nested_null_map (offset_before offsets row)
          (to_size_t ((offsets.getD row 0 : Int) - offset_before offsets row))
          (indices.getD row 0) (null_at arr_null_map row)) := by
  simp [_execute_common, List.getElem?_map, List.getElem?_range hrow]

/-- The cell copied from a nested position inside the nested column. -/
theorem element_cell_at {α : Type} (nested_data : List α)
    (nested_null_map : Option (List Bool)) (off len : Nat) (index : Int) (null_flag : Bool)
    (p : Nat) (hidx : nested_index off len index null_flag = some (p : Int))
    (hp : p < nested_data.length)
    (hnm : ∀ entries, nested_null_map = some entries → entries.length = nested_data.length) :
    ∃ v, nested_data[p]? = some v ∧
      element_cell nested_data nested_null_map off len index null_flag
        = if null_at nested_null_map p then Cell.null else Cell.value v := by
  refine ⟨nested_data[p], List.getElem?_eq_getElem hp, ?_⟩
  unfold element_cell
  rw [hidx]
  simp only [Int.toNat_ofNat, List.getElem?_eq_getElem hp]
  rw [if_neg (by omega)]
  cases nested_null_map with
  | none => simp [null_at]
  | some entries =>
    have hl := hnm entries rfl
    have hp2 : p < entries.length := by omega
    simp only [null_at, List.getD_eq_getElem?_getD, List.getElem?_eq_getElem hp2,
      Option.getD_some]
    cases entries[p] <;> simp

/-! ## Claim C40 -/

/-- C40: `element_at` on an array column, for a row `row` whose array starts at nested
position `off` and has `len` elements inside the nested column, with the `Int64` index
`i`.  When the array row is null the result is NULL.  Otherwise the result is the entry
at nested position `off + i - 1` when `1 ≤ i ≤ len`, the entry at nested position
`off + len + i` when `-len ≤ i ≤ -1`, where a null entry gives NULL, and NULL for every
other index (`i = 0`, `i > len`, `i < -len`).  Whenever the loop computes a nested
position to read, it lies in `[off, off + len)`. -/
theorem C40_array_element {α : Type} (offsets : List Nat) (nested_data : List α)
    (arr_null_map : Option (List Bool)) (indices : List Int)
    (nested_null_map : Option (List Bool)) (row off len : Nat) (i : Int)
    (hrow : row < offsets.length) (hoff : offset_before offsets row = off)
    (hend : offsets.getD row 0 = off + len)
    (hlen : off + len ≤ nested_data.length)
    (hbound : off + len < 9223372036854775808)
    (hnm : ∀ entries, nested_null_map = some entries → entries.length = nested_data.length)
    (hi : indices.getD row 0 = i)
    (hi64 : -9223372036854775808 ≤ i ∧ i < 9223372036854775808) :
    (null_at arr_null_map row = true →
        (_execute_common offsets nested_data arr_null_map indices nested_null_map)[row]?
          = some Cell.null) ∧
      (null_at arr_null_map row = false → 1 ≤ i → i ≤ len →
        ∃ v, nested_data[(off + i - 1).toNat]? = some v ∧
          (_execute_common offsets nested_data arr_null_map indices nested_null_map)[row]?
            = some (if null_at nested_null_map (off + i - 1).toNat then Cell.null
                else Cell.value v)) ∧
      (null_at arr_null_map row = false → -(len : Int) ≤ i → i ≤ -1 →
        ∃ v, nested_data[(off + len + i).toNat]? = some v ∧
          (_execute_common offsets nested_data arr_null_map indices nested_null_map)[row]?
            = some (if null_at nested_null_map (off + len + i).toNat then Cell.null
                else Cell.value v)) ∧
      ((i = 0 ∨ (len : Int) < i ∨ i < -(len : Int)) →
        (_execute_common offsets nested_data arr_null_map indices nested_null_map)[row]?
          = some Cell.null) ∧
      (∀ idx, nested_index off len i (null_at arr_null_map row) = some idx →
        (off : Int) ≤ idx ∧ idx < off + len) := by
  have hrowcell := execute_common_row offsets nested_data arr_null_map indices
    nested_null_map row hrow
  have hl : to_size_t ((offsets.getD row 0 : Int) - offset_before offsets row) = len := by
    rw [hoff, hend]
    unfold to_size_t
    omega
  rw [hl, hoff, hi] at hrowcell
  have hspec := nested_index_spec off len i (null_at arr_null_map row) hbound hi64
  refine ⟨?_, ?_, ?_, ?_, ?_⟩
  · intro hnull
    rw [hnull] at hspec hrowcell
    simp only [if_true] at hspec
    rw [hrowcell]
    simp only [element_cell, hspec]
  · intro hnull h1 h2
    rw [hnull] at hspec hrowcell
    simp only [Bool.false_eq_true, if_false] at hspec
    rw [if_pos ⟨h1, h2⟩] at hspec
    have hp : (off : Int) + i - 1 = (((off : Int) + i - 1).toNat : Int) := by omega
    rw [hp] at hspec
    obtain ⟨v, hv, hcell⟩ := element_cell_at nested_data nested_null_map off len i
      false _ hspec (by omega) hnm
    exact ⟨v, hv, by rw [hrowcell, hcell]⟩
  · intro hnull h1 h2
    rw [hnull] at hspec hrowcell
    simp only [Bool.false_eq_true, if_false] at hspec
    rw [if_neg (by omega), if_pos ⟨h2, h1⟩] at hspec
    have hp : (off : Int) + len + i = (((off : Int) + len + i).toNat : Int) := by omega
    rw [hp] at hspec
    obtain ⟨v, hv, hcell⟩ := element_cell_at nested_data nested_null_map off len i
      false _ hspec (by omega) hnm
    exact ⟨v, hv, by rw [hrowcell, hcell]⟩
  · intro hout
    have hnone : nested_index off len i (null_at arr_null_map row) = none := by
      rw [hspec]
      split
      · rfl
      · rw [if_neg (by omega), if_neg (by omega)]
    rw [hrowcell]
    simp only [element_cell, hnone]
  · intro idx hidx
    rw [hspec] at hidx
    split at hidx
    · cases hidx
    · split at hidx
      · injection hidx with hidx
        omega
      · split at hidx
        · injection hidx with hidx
          omega
        · cases hidx

/-- C40, witness: the arrays `[10, 20]` and `[30, 40, 50]` with the indices `2` and
`-3`; the second row starts at nested position 2 and has 3 elements. -/
theorem C40_witness :
    _execute_common [2, 5] [10, 20, 30, 40, 50] none [2, -3] none
        = [Cell.value 20, Cell.value 30] ∧
      (null_at none 1 = false → -((3 : Nat) : Int) ≤ (-3 : Int) → (-3 : Int) ≤ -1 →
        ∃ v, [10, 20, 30, 40, 50][(((2 : Nat) : Int) + (3 : Nat) + (-3)).toNat]? = some v ∧
          (_execute_common [2, 5] [10, 20, 30, 40, 50] none [2, -3] none)[1]?
            = some (if null_at none (((2 : Nat) : Int) + (3 : Nat) + (-3)).toNat
                then Cell.null else Cell.value v)) :=
  ⟨by decide,
    (C40_array_element [2, 5] [10, 20, 30, 40, 50] none [2, -3] none 1 2 3 (-3)
      (by decide) (by decide) (by decide) (by decide) (by decide)
      (fun _ h => by cases h) (by decide) (by decide)).2.2.1⟩

/-! ## The matched index of a map -/

/-- The inner loop of `_get_mapped_idx` finds nothing when no key of the row equals the
probe key. -/
theorem mapped_idx_loop_none {κ : Type} [DecidableEq κ] (keys : List κ) (probe : κ)
    (begin r j : Nat) (h : ∀ k, j ≤ k → k < j + r → keys[k]? ≠ some probe) :
    mapped_idx_loop keys probe begin r j = none := by
  induction r generalizing j with
  | zero => rfl
  | succ r ih =>
    unfold mapped_idx_loop
    rw [if_neg (h j (Nat.le_refl _) (by omega))]
    exact ih (j + 1) (fun k h1 h2 => h k (by omega) (by omega))

/-- The inner loop of `_get_mapped_idx` stops at the first key that equals the probe
key. -/
theorem mapped_idx_loop_some {κ : Type} [DecidableEq κ] (keys : List κ) (probe : κ)
    (begin r j k : Nat) (h1 : j ≤ k) (h2 : k < j + r) (hk : keys[k]? = some probe)
    (hfirst : ∀ k2, j ≤ k2 → k2 < k → keys[k2]? ≠ some probe) :
    mapped_idx_loop keys probe begin r j = some (to_size_t ((k : Int) - begin + 1)) := by
  induction r generalizing j with
  | zero => omega
  | succ r ih =>
    unfold mapped_idx_loop
    by_cases hjk : j = k
    · subst hjk
      rw [if_pos hk]
    · rw [if_neg (hfirst j (Nat.le_refl _) (by omega))]
      exact ih (j + 1) (by omega) (by omega) (fun k2 h3 h4 => hfirst k2 (by omega) h4)

/-- Row `row` of what `_execute_map` returns. -/
theorem execute_map_row {κ α : Type} [DecidableEq κ] [Inhabited κ] (offsets : List Nat)
    (keys : List κ) (values : List α) (values_null_map : Option (List Bool))
    (probes : List κ) (src_null_map : Option (List Bool)) (row : Nat)
    (hrow : row < offsets.length) :
    ∃ cells, _execute_map offsets keys values values_null_map probes src_null_map
        = some cells ∧
      cells[row]? = some (element_cell values values_null_map (offset_before offsets row)
        (to_size_t ((offsets.getD row 0 : Int) - offset_before offsets row))
        (mapped_idx_row keys (probes.getD row default) (offset_before offsets row)
          (offsets.getD row 0))
        (null_at src_null_map row)) := by
  unfold _execute_map
  rw [if_neg (by omega)]
  refine ⟨_, rfl, ?_⟩
  rw [execute_common_row _ _ _ _ _ row hrow]
  have : (_get_mapped_idx offsets keys probes).getD row 0
      = mapped_idx_row keys (probes.getD row default) (offset_before offsets row)
          (offsets.getD row 0) := by
    simp [_get_mapped_idx, List.getD_eq_getElem?_getD, List.getElem?_map,
      List.getElem?_range hrow]
  rw [this]

/-! ## Claim C39 -/

/-- C39: `element_at` on a map column, for a row `row` that is not null, spans the
nested positions `off` to `off + len` and is probed with the key `probe`.  When the row
has at most 32767 entries the result is NULL if no key of the row equals the probe key,
and the value paired with the first key that equals it otherwise (NULL when that value
is null).  When the row has 32768 entries and no key equals the probe key, the index
`32769` made for a null result is stored as the `Int16` value `-32767`, and the result
is the value of the second entry of the row instead of NULL. -/
theorem C39_map_element_int16_index {κ α : Type} [DecidableEq κ] [Inhabited κ]
    (offsets : List Nat) (keys : List κ) (values : List α)
    (values_null_map : Option (List Bool)) (probes : List κ)
    (src_null_map : Option (List Bool)) (row off len : Nat) (probe : κ)
    (hrow : row < offsets.length) (hoff : offset_before offsets row = off)
    (hend : offsets.getD row 0 = off + len)
    (hlen : off + len ≤ values.length)
    (hbound : off + len < 9223372036854775808)
    (hnm : ∀ entries, values_null_map = some entries → entries.length = values.length)
    (hprobe : probes.getD row default = probe)
    (hnull : null_at src_null_map row = false) :
    ∃ cells, _execute_map offsets keys values values_null_map probes src_null_map
        = some cells ∧
      (len ≤ 32767 →
        ((∀ k, off ≤ k → k < off + len → keys[k]? ≠ some probe) →
          cells[row]? = some Cell.null) ∧
        (∀ k, off ≤ k → k < off + len → keys[k]? = some probe →
          (∀ k2, off ≤ k2 → k2 < k → keys[k2]? ≠ some probe) →
          ∃ v, values[k]? = some v ∧
            cells[row]? = some (if null_at values_null_map k then Cell.null
              else Cell.value v))) ∧
      (len = 32768 → (∀ k, off ≤ k → k < off + len → keys[k]? ≠ some probe) →
        mapped_idx_row keys probe off (off + len) = -32767 ∧
        ∃ v, values[off + 1]? = some v ∧
          cells[row]? = some (if null_at values_null_map (off + 1) then Cell.null
            else Cell.value v)) := by
  obtain ⟨cells, hcells, hcell⟩ := execute_map_row offsets keys values values_null_map
    probes src_null_map row hrow
  have hl : to_size_t ((offsets.getD row 0 : Int) - offset_before offsets row) = len := by
    rw [hoff, hend]
    unfold to_size_t
    omega
  rw [hl, hoff, hend, hprobe, hnull] at hcell
  have hsub : off + len - off = len := by omega
  have hnomatch : (∀ k, off ≤ k → k < off + len → keys[k]? ≠ some probe) →
      mapped_idx_row keys probe off (off + len) = cast_set_int16 (len + 1) := by
    intro h
    unfold mapped_idx_row
    rw [hsub, mapped_idx_loop_none keys probe off len off h]
    simp only
    congr 1
    unfold to_size_t
    omega
  refine ⟨cells, hcells, ?_, ?_⟩
  · intro hsmall
    constructor
    · intro h
      have hidx := hnomatch h
      have hnone : nested_index off len (mapped_idx_row keys probe off (off + len)) false
          = none := by
        rw [nested_index_spec off len _ false hbound (by
          rw [hidx]; unfold cast_set_int16; omega)]
        simp only [Bool.false_eq_true, if_false]
        rw [hidx]
        unfold cast_set_int16
        rw [if_neg (by omega), if_neg (by omega)]
      rw [hcell]
      simp only [element_cell, hnone]
    · intro k h1 h2 hk hfirst
      have hidx : mapped_idx_row keys probe off (off + len) = (k : Int) - off + 1 := by
        unfold mapped_idx_row
        rw [hsub, mapped_idx_loop_some keys probe off len off k h1 h2 hk hfirst]
        simp only
        unfold cast_set_int16 to_size_t
        omega
      have hsome : nested_index off len (mapped_idx_row keys probe off (off + len)) false
          = some (k : Int) := by
        rw [nested_index_spec off len _ false hbound (by rw [hidx]; omega)]
        simp only [Bool.false_eq_true, if_false]
        rw [hidx, if_pos (by omega)]
        apply congrArg some
        omega
      obtain ⟨v, hv, hc⟩ := element_cell_at values values_null_map off len _ false k hsome
        (by omega) hnm
      exact ⟨v, hv, by rw [hcell, hc]⟩
  · intro hbig h
    have hidx := hnomatch h
    have hval : mapped_idx_row keys probe off (off + len) = -32767 := by
      rw [hidx]
      unfold cast_set_int16
      omega
    have hsome : nested_index off len (mapped_idx_row keys probe off (off + len)) false
        = some ((off + 1 : Nat) : Int) := by
      rw [nested_index_spec off len _ false hbound (by rw [hval]; omega)]
      simp only [Bool.false_eq_true, if_false]
      rw [hval, if_neg (by omega), if_pos (by omega)]
      apply congrArg some
      omega
    obtain ⟨v, hv, hc⟩ := element_cell_at values values_null_map off len _ false (off + 1)
      hsome (by omega) hnm
    exact ⟨hval, v, hv, by rw [hcell, hc]⟩

/-- C39, witness: one row of 32768 entries, all with the key `0` and the value `7`,
probed with the key `1`: no key equals the probe key, and the result is the value `7`,
not NULL. -/
theorem C39_witness :
    ∃ cells, _execute_map [32768] (List.replicate 32768 (0 : Nat))
        (List.replicate 32768 (7 : Nat)) none [1] none = some cells ∧
      (∀ k, 0 ≤ k → k < 0 + 32768 → (List.replicate 32768 (0 : Nat))[k]? ≠ some 1) ∧
      cells[0]? = some (Cell.value 7) := by
  obtain ⟨cells, hcells, -, hbad⟩ := C39_map_element_int16_index [32768]
    (List.replicate 32768 (0 : Nat)) (List.replicate 32768 (7 : Nat)) none [1] none
    0 0 32768 1 (by decide) (by decide) (by decide)
    (by rw [List.length_replicate]) (by decide)
    (fun _ h => by cases h) (by decide) (by decide)
  have hno : ∀ k, 0 ≤ k → k < 0 + 32768 → (List.replicate 32768 (0 : Nat))[k]? ≠ some 1 := by
    intro k _ _
    rw [List.getElem?_replicate]
    split <;> simp
  obtain ⟨-, v, hv, hcell⟩ := hbad rfl hno
  rw [List.getElem?_replicate] at hv
  simp only [Nat.zero_add, Nat.one_lt_ofNat, if_true, Option.some.injEq] at hv
  refine ⟨cells, hcells, hno, ?_⟩
  rw [hcell, ← hv]
  rfl

/-! ## A chain of nested repeated groups -/

theorem deep_group_step (ts : List SchemaElement) (fuel p : Nat) (node : FieldSchema)
    (self : FieldDescriptor) (hnc : node.children = [])
    (he : ts[p]? = some deep_group) (inner : FieldSchema) (s1 : FieldDescriptor)
    (hin : parse_node_field fuel ts (p + 1)
        (fresh_node (to_int16 (node.repetition_level + 1))
          (to_int16 (node.definition_level + 1)) (to_int16 (node.definition_level + 1)))
        { self with _next_schema_pos := p + 1 }
      = (Outcome.OK, inner, s1)) :
    ∃ node' child, parse_node_field (fuel + 1) ts p node self = (Outcome.OK, node', s1) ∧
      node'.children = [child] ∧ child.children = [inner] ∧
      node'.name = "g" ∧
      node'.repetition_level = to_int16 (node.repetition_level + 1) ∧
      node'.definition_level = to_int16 (node.definition_level + 1) ∧
      child.repetition_level = to_int16 (node.repetition_level + 1) ∧
      child.definition_level = to_int16 (node.definition_level + 1) := by
  have hg : is_group_node deep_group = true := by decide
  have hm : is_map_node deep_group = false := by decide
  have hl : is_list_node deep_group = false := by decide
  have hr : is_repeated_node deep_group = true := by decide
  have ho : is_optional_node deep_group = false := by decide
  have hn : deep_group.num_children_raw = 1 := by decide
  simp only [parse_node_field, he, hg, if_true, parse_group_field, hm, hl, hr,
    Bool.false_eq_true, if_false, open_repeated_level, set_child_node_level, hnc, resize,
    List.take_nil, List.length_nil, Nat.sub_zero, List.nil_append, List.replicate,
    List.map_cons, List.map_nil, List.getD_cons_zero, parse_struct_field, ho, hn,
    parse_struct_children, FieldSchema.default]
  simp only [fresh_node, FieldSchema.default] at hin
  rw [hin]
  simp only [List.set_cons_zero, show ¬ ((1 : Int) < 0) by decide, if_false]
  exact ⟨_, _, rfl, rfl, rfl, rfl, rfl, rfl, rfl, rfl⟩

theorem deep_leaf_step (ts : List SchemaElement) (fuel p : Nat) (r d q : Int)
    (self : FieldDescriptor) (he : ts[p]? = some deep_leaf) :
    ∃ node' self', parse_node_field (fuel + 1) ts p (fresh_node r d q) self
        = (Outcome.OK, node', self') ∧
      self'._next_schema_pos = p + 1 ∧ node'.children = [] ∧
      node'.repetition_level = r ∧ node'.definition_level = d ∧
      node'.repeated_parent_def_level = q := by
  have hg : is_group_node deep_leaf = false := by decide
  have hr : is_repeated_node deep_leaf = false := by decide
  have ho : is_optional_node deep_leaf = false := by decide
  have ht : get_doris_type deep_leaf false
      = .ok (create_data_type PrimitiveType.TYPE_INT false 0 0, false) :=
    get_doris_type_int32 deep_leaf false rfl rfl rfl
  simp only [parse_node_field, he, hg, hr, ho, Bool.false_eq_true, if_false,
    parse_physical_field, ht]
  exact ⟨_, _, rfl, rfl, rfl, rfl, rfl, rfl⟩

/-- The chain of `n` groups `repeated group g` around `required int32 v`, from position
`p`, resolves on a fresh node: one leaf, whose levels are the ones of the node raised
`n` times as `int16_t` values; and when the leaf ends below the resolved node in
repetition level, some child in the tree is below its parent. -/
theorem deep_chain_resolves (ts : List SchemaElement) (n : Nat) :
    ∀ (fuel p : Nat) (r d q : Int) (self : FieldDescriptor), n < fuel →
      to_int16 r = r → to_int16 d = d →
      (∀ i, i < n → ts[p + i]? = some deep_group) → ts[p + n]? = some deep_leaf →
      ∃ node' self' leaf,
        parse_node_field fuel ts p (fresh_node r d q) self = (Outcome.OK, node', self') ∧
        self'._next_schema_pos = p + n + 1 ∧
        node'.leaves = [leaf] ∧
        leaf.repetition_level = to_int16 (r + n) ∧
        leaf.definition_level = to_int16 (d + n) ∧
        leaf.repeated_parent_def_level = (if n = 0 then q else to_int16 (d + n)) ∧
        node'.repetition_level = (if n = 0 then r else to_int16 (r + 1)) ∧
        (leaf.repetition_level < node'.repetition_level →
          ∃ pc ∈ node'.pairs, pc.2.repetition_level < pc.1.repetition_level) := by
  induction n with
  | zero =>
    intro fuel p r d q self hf hr hd _ hleaf
    obtain ⟨fuel, rfl⟩ : ∃ k, fuel = k + 1 := ⟨fuel - 1, by omega⟩
    obtain ⟨node', self', h1, h2, h3, h4, h5, h6⟩ := deep_leaf_step ts fuel p r d q self hleaf
    refine ⟨node', self', node', h1, h2, leaves_of_nil _ h3, ?_, ?_, ?_, ?_, ?_⟩
    · simpa [h4] using hr.symm
    · simpa [h5] using hd.symm
    · simpa using h6
    · simpa using h4
    · intro hlt; omega
  | succ n ih =>
    intro fuel p r d q self hf hr hd hgroups hleaf
    obtain ⟨fuel, rfl⟩ : ∃ k, fuel = k + 1 := ⟨fuel - 1, by omega⟩
    obtain ⟨inner, s1, leaf, i1, i2, i3, i4, i5, i6, i7, i8⟩ :=
      ih fuel (p + 1) (to_int16 (r + 1)) (to_int16 (d + 1)) (to_int16 (d + 1))
        { self with _next_schema_pos := p + 1 } (by omega) (to_int16_idem _) (to_int16_idem _)
        (fun i hi => by
          have := hgroups (i + 1) (by omega)
          rwa [show p + (i + 1) = p + 1 + i by omega] at this)
        (by rwa [show p + (n + 1) = p + 1 + n by omega] at hleaf)
    have hg0 := hgroups 0 (by omega)
    obtain ⟨node', child, g1, g2, g3, -, g5, -, g7, -⟩ :=
      deep_group_step ts fuel p (fresh_node r d q) self rfl hg0 inner s1 i1
    have g5' : node'.repetition_level = to_int16 (r + 1) := g5
    have g7' : child.repetition_level = to_int16 (r + 1) := g7
    refine ⟨node', s1, leaf, g1, by omega, ?_, ?_, ?_, ?_, ?_, ?_⟩
    · rw [leaves_of_cons _ _ _ g2, forest_leaves_single, leaves_of_cons _ _ _ g3,
        forest_leaves_single, i3]
    · rw [i4, to_int16_add]
      congr 1
      push_cast
      omega
    · rw [i5, to_int16_add]
      congr 1
      push_cast
      omega
    · rw [i6, if_neg (by omega : ¬ n + 1 = 0)]
      by_cases h0 : n = 0
      · subst h0
        simp
      · rw [if_neg h0, to_int16_add]
        congr 1
        push_cast
        omega
    · rw [if_neg (by omega)]
      exact g5'
    · intro hlt
      by_cases hin : inner.repetition_level < child.repetition_level
      · refine ⟨(child, inner), ?_, hin⟩
        rw [pairs_eq, g2]
        simp only [List.flatMap_cons, List.flatMap_nil, List.append_nil]
        rw [pairs_eq child, g3]
        simp
      · have hlt3 : leaf.repetition_level < inner.repetition_level := by
          rw [g5'] at hlt
          rw [g7'] at hin
          exact lt_of_lt_of_le hlt (not_lt.1 hin)
        obtain ⟨pc, hpc, hlt2⟩ := i8 hlt3
        refine ⟨pc, ?_, hlt2⟩
        rw [pairs_eq, g2]
        simp only [List.flatMap_cons, List.flatMap_nil, List.append_nil]
        rw [pairs_eq child, g3]
        simp [hpc]

theorem deep_schema_length (n : Nat) : (deep_schema n).length = n + 2 := by
  simp [deep_schema]

theorem deep_schema_group (n i : Nat) (h : i < n) :
    (deep_schema n)[1 + i]? = some deep_group := by
  rw [Nat.add_comm]
  simp only [deep_schema, List.getElem?_cons_succ]
  rw [List.getElem?_append_left (by rw [List.length_replicate]; exact h),
    List.getElem?_replicate, if_pos h]

theorem deep_schema_leaf (n : Nat) : (deep_schema n)[1 + n]? = some deep_leaf := by
  rw [Nat.add_comm]
  simp only [deep_schema, List.getElem?_cons_succ]
  rw [List.getElem?_append_right (by rw [List.length_replicate]), List.length_replicate]
  simp

/-- Resolving `deep_schema n` on a fresh descriptor succeeds with one top-level field
and one leaf, whose three levels are `n` as an `int16_t` value (for `n > 0`); the field
is at repetition level `1`, and when the leaf is below it, some child in the tree is
below its parent. -/
theorem deep_schema_resolves (n : Nat) (hn : 0 < n) :
    ∃ fd f leaf, parse_from_thrift (deep_schema n) FieldDescriptor.empty = (Outcome.OK, fd) ∧
      fd._fields = [f] ∧ forest_leaves fd._fields = [leaf] ∧
      leaf.repetition_level = to_int16 n ∧ leaf.definition_level = to_int16 n ∧
      leaf.repeated_parent_def_level = to_int16 n ∧
      f.repetition_level = 1 ∧
      (leaf.repetition_level < f.repetition_level →
        ∃ pc ∈ f.pairs, pc.2.repetition_level < pc.1.repetition_level) := by
  have h0 : (deep_schema n)[0]? = some (sample_root 1) := by simp [deep_schema]
  have hg : is_group_node (sample_root 1) = true := by decide
  have hz : to_int16 0 = 0 := by decide
  obtain ⟨node', self', leaf, c1, c2, c3, c4, c5, c6, c7, c8⟩ :=
    deep_chain_resolves (deep_schema n) n (deep_schema n).length 1 0 0 0
      (loop_start (sample_root 1) FieldDescriptor.empty)
      (by rw [deep_schema_length]; omega) hz hz (fun i hi => deep_schema_group n i hi)
      (deep_schema_leaf n)
  have N := parse_node_field_ok _ _ _ _ _ _ _ c1
  have hnames : self'._name_to_field = [] := N.names_eq
  have hfields : self'._fields = [FieldSchema.default] := N.fields_eq
  have hloop : parse_from_thrift_fields (deep_schema n) (sample_root 1).num_children_raw.toNat 0
      (loop_start (sample_root 1) FieldDescriptor.empty)
      = (Outcome.OK,
          { self' with
            _fields := [node'], _name_to_field := [(node'.name, 0)] }) := by
    have h1 : (sample_root 1).num_children_raw.toNat = 1 := by decide
    have h2 : (loop_start (sample_root 1) FieldDescriptor.empty)._fields.getD 0
        FieldSchema.default = fresh_node 0 0 0 := rfl
    have h3 : (loop_start (sample_root 1) FieldDescriptor.empty)._next_schema_pos = 1 := rfl
    rw [h1]
    simp only [parse_from_thrift_fields, h2, h3, c1, hnames, hfields, name_to_field_find,
      List.lookup_nil, Option.isSome_none, Bool.false_eq_true, if_false, List.set_cons_zero,
      List.nil_append]
  refine ⟨{ self' with _fields := [node'], _name_to_field := [(node'.name, 0)] },
    node', leaf, ?_, rfl, ?_, ?_, ?_, ?_, ?_, c8⟩
  · rw [parse_from_thrift_of_loop_ok _ _ _ h0 hg _ hloop]
    simp only [ne_eq, ite_not]
    rw [if_pos (by rw [deep_schema_length]; exact c2.trans (by omega))]
  · simp only [forest_leaves_single, c3]
  · simpa using c4
  · simpa using c5
  · rw [c6, if_neg (by omega)]
    simp
  · rw [c7, if_neg (by omega)]
    decide

/-- Counterexample to C3 as claimed: resolving `required int32 v` inside 32768 nested
groups `repeated group g` succeeds, and the one leaf of the result has the definition
level `-32768`: not the number (32768) of OPTIONAL or REPEATED elements on its path, and
not the number of elements on any path. -/
theorem C3_counterexample :
    ∃ fd leaf, parse_from_thrift (deep_schema 32768) FieldDescriptor.empty = (Outcome.OK, fd) ∧
      forest_leaves fd._fields = [leaf] ∧ leaf.definition_level = -32768 ∧
      ∀ j, leaf.definition_level
        ≠ ((path_elements (deep_schema 32768) j).countP
            (fun e => is_optional_node e || is_repeated_node e) : Nat) := by
  obtain ⟨fd, f, leaf, h1, -, h3, -, h5, -⟩ := deep_schema_resolves 32768 (by omega)
  have h6 : leaf.definition_level = -32768 := h5.trans (by decide)
  refine ⟨fd, leaf, h1, h3, h6, fun j hj => ?_⟩
  rw [h6] at hj
  omega

/-- Counterexample to C4 as claimed: resolving `required int32 v` inside 32768 nested
groups `repeated group g` succeeds, and the one leaf of the result has the repetition
level `-32768`: not the number (32768) of REPEATED elements on its path, and not the
number of elements on any path. -/
theorem C4_counterexample :
    ∃ fd leaf, parse_from_thrift (deep_schema 32768) FieldDescriptor.empty = (Outcome.OK, fd) ∧
      forest_leaves fd._fields = [leaf] ∧ leaf.repetition_level = -32768 ∧
      ∀ j, leaf.repetition_level
        ≠ ((path_elements (deep_schema 32768) j).countP is_repeated_node : Nat) := by
  obtain ⟨fd, f, leaf, h1, -, h3, h4, -⟩ := deep_schema_resolves 32768 (by omega)
  have h6 : leaf.repetition_level = -32768 := h4.trans (by decide)
  refine ⟨fd, leaf, h1, h3, h6, fun j hj => ?_⟩
  rw [h6] at hj
  omega

/-- Counterexample to C5 as claimed: resolving `required int32 v` inside 32768 nested
groups `repeated group g` succeeds, and the one leaf of the result has the
`repeated_parent_def_level` `-32768`: not the number (32768) of OPTIONAL or REPEATED
elements down to its nearest REPEATED element, and not the number of elements on any
path. -/
theorem C5_counterexample :
    ∃ fd leaf, parse_from_thrift (deep_schema 32768) FieldDescriptor.empty = (Outcome.OK, fd) ∧
      forest_leaves fd._fields = [leaf] ∧ leaf.repeated_parent_def_level = -32768 ∧
      ∀ j, leaf.repeated_parent_def_level
        ≠ ((upto_nearest_repeated (path_elements (deep_schema 32768) j)).countP
            (fun e => is_optional_node e || is_repeated_node e) : Nat) := by
  obtain ⟨fd, f, leaf, h1, -, h3, -, -, h5, -⟩ := deep_schema_resolves 32768 (by omega)
  have h6 : leaf.repeated_parent_def_level = -32768 := h5.trans (by decide)
  refine ⟨fd, leaf, h1, h3, h6, fun j hj => ?_⟩
  rw [h6] at hj
  omega

/-- Counterexample to C30 as claimed: in the tree resolved from `required int32 v`
inside 32768 nested groups `repeated group g`, some child has a repetition level below
the one of its parent (the level goes from `32767` to `-32768`). -/
theorem C30_counterexample :
    ∃ fd f, parse_from_thrift (deep_schema 32768) FieldDescriptor.empty = (Outcome.OK, fd) ∧
      fd._fields = [f] ∧
      ∃ pc ∈ f.pairs, pc.2.repetition_level < pc.1.repetition_level := by
  obtain ⟨fd, f, leaf, h1, h2, -, h4, -, -, h7, h8⟩ := deep_schema_resolves 32768 (by omega)
  have h6 : leaf.repetition_level = -32768 := h4.trans (by decide)
  exact ⟨fd, f, h1, h2, h8 (by rw [h6, h7]; decide)⟩

end Parquet
